import Mathlib

/-! Gfx6 command stream: register writes, optimizer routing and packet emission.

A shallow embedding of `src/core/hw/gfxip/gfx6/gfx6CmdStream.cpp`.

* Command memory is a map from word index to 32-bit word; a `uint32*` cursor is a word index.
* `PAL_ASSERT` does not stop execution: every operation returns, next to the memory and the
  advanced cursor, a flag telling whether all of its assertions held.
* `CmdUtil` (the packet encoder) and the register tables are not part of the sources: the encoder
  is a parameter of the stream, and what a theorem needs from it is a hypothesis of that theorem.
* `Pm4Optimizer` is not part of the sources either: its register cache and decisions are modelled
  from the specification.
* The base class `GfxCmdStream` (chunks, command blocks, Chain Patch Records) is not part of the
  sources: what `EndCurrentChunk` calls of it is modelled from the specification. Conditional
  indirect buffer packets are kept as structs by location, next to the command memory.
-/

namespace Pal.Gfx6

/-! ## Command memory -/

/-- Command memory: the 32-bit word stored at each word index. -/
abbrev CmdSpace := Nat → Nat

/-- The C `memcpy` on words: `n` words of `src` land at `dst`, every other word is kept. -/
def memcpy (mem : CmdSpace) (dst : Nat) (src : Nat → Nat) (n : Nat) : CmdSpace :=
  fun a => if dst ≤ a ∧ a < dst + n then src (a - dst) else mem a

/-- A single word store `p[0] = v`. -/
def store (mem : CmdSpace) (p : Nat) (v : Nat) : CmdSpace :=
  fun a => if a = p then v else mem a

/-- The `n` words of memory starting at `p`, in address order. -/
def readWords (mem : CmdSpace) (p n : Nat) : List Nat :=
  (List.range n).map (fun i => mem (p + i))

/-- An array given by its elements, read like a C pointer (index past the end reads 0). -/
def arrayOf (xs : List Nat) : Nat → Nat :=
  fun i => xs.getD i 0

/-- The words `ws` stored at `p`, `p + 1`, ...; every other word is kept. -/
def writeWords (mem : CmdSpace) (p : Nat) (ws : List Nat) : CmdSpace :=
  memcpy mem p (arrayOf ws) ws.length

/-! ## Packet encoder (parameter) -/

/-- The register spaces a set-data packet can address. -/
inductive RegSpace where
  | config
  | context
  | sh
  deriving DecidableEq, Repr

/-- The `PM4ShaderType` enumeration. -/
inductive PM4ShaderType where
  | ShaderGraphics
  | ShaderCompute
  deriving DecidableEq, Repr

/-- Modelled from the spec: the `PM4CMDSETDATA` header struct, whose declaration is in the absent
PM4 headers. The spec gives a set-register packet a header (type, size) and a register address,
with the register count inferable from the size; the fields below name exactly those. -/
structure PM4CMDSETDATA where
  space : RegSpace
  shaderType : PM4ShaderType
  index : Option Nat
  regOffset : Nat
  numRegs : Nat
  deriving DecidableEq, Repr

/-- The packet encoder `CmdUtil`, taken as a parameter. Each `BuildSet*` function returns the
packet size in DWORDs it reports and the header it wrote; `image` is the memory layout of a
header, `PM4_CMD_SET_DATA_DWORDS` words long. An `index` of `none` is a call that leaves the
index argument to its default. The other `Build*` functions return the words of the whole packet
they write, whose number is the size they report (`BuildNop` takes the size to fill,
`BuildIndirectBuffer` the target address, the size and the flags `chain`, `isConstantEngine`
and `preemptionEnabled`). `GetChainSizeInDwords`, `GetMinNopSizeInDwords` and
`GetCondIndirectBufferSize` are the sizes the constructor of the stream asks for. `packetDwords`
reads the size of a packet off
its first word and `asSetData` reads the header of a set-register packet back (`none` for any
other packet): the layout contracts an optimizer pass over raw words depends on. -/
structure CmdUtil where
  PM4_CMD_SET_DATA_DWORDS : Nat
  image : PM4CMDSETDATA → Nat → Nat
  BuildSetOneConfigReg : Nat → Option Nat → Nat × PM4CMDSETDATA
  BuildSetSeqConfigRegs : Nat → Nat → Nat × PM4CMDSETDATA
  BuildSetOneContextReg : Nat → Option Nat → Nat × PM4CMDSETDATA
  BuildSetSeqContextRegs : Nat → Nat → Nat × PM4CMDSETDATA
  BuildSetOneShReg : Nat → PM4ShaderType → Nat × PM4CMDSETDATA
  BuildSetSeqShRegs : Nat → Nat → PM4ShaderType → Nat × PM4CMDSETDATA
  BuildContextRegRmw : Nat → Nat → Nat → List Nat
  BuildSetShRegDataOffset : Nat → PM4ShaderType → Nat → List Nat
  BuildCopyData : Nat → Nat → Nat → Nat → Nat → Nat → Nat → List Nat
  BuildNop : Nat → List Nat
  BuildIndirectBuffer : Nat → Nat → Bool → Bool → Bool → List Nat
  GetChainSizeInDwords : Nat
  GetMinNopSizeInDwords : Nat
  GetCondIndirectBufferSize : Nat
  IsPrivilegedConfigReg : Nat → Bool
  packetDwords : Nat → Nat
  asSetData : (Nat → Nat) → Option PM4CMDSETDATA

/-- Writing a header struct through a `uint32*`: its `PM4_CMD_SET_DATA_DWORDS` words. -/
def CmdUtil.writeHeader (cu : CmdUtil) (mem : CmdSpace) (p : Nat) (d : PM4CMDSETDATA) : CmdSpace :=
  memcpy mem p (cu.image d) cu.PM4_CMD_SET_DATA_DWORDS

/-- The words of a whole set-data packet: the header image followed by the register values. -/
def CmdUtil.packetWords (cu : CmdUtil) (d : PM4CMDSETDATA) (data : List Nat) : List Nat :=
  (List.range cu.PM4_CMD_SET_DATA_DWORDS).map (cu.image d) ++ data

/-! ## Register write optimizer (modelled from the specification) -/

/-- Modelled from the spec: a register write cache entry of the absent `Pm4Optimizer`, holding the
last-written value and a validity flag. -/
structure RegState where
  valid : Bool
  value : Nat
  deriving DecidableEq, Repr

/-- Modelled from the spec: the state of the absent `Pm4Optimizer`: one cache entry per register
address of each register space, and the addresses marked non-cacheable. -/
structure Pm4Optimizer where
  regs : RegSpace → Nat → RegState
  nonCacheable : RegSpace → Nat → Bool

/-- Modelled from the spec: the single-register decision of the absent `Pm4Optimizer`. A write
must be kept if no valid cache entry exists, the cached value differs, or the address is marked
non-cacheable. -/
def Pm4Optimizer.mustKeep (o : Pm4Optimizer) (sp : RegSpace) (regAddr regData : Nat) : Bool :=
  !(o.regs sp regAddr).valid || (o.regs sp regAddr).value != regData || o.nonCacheable sp regAddr

/-- Modelled from the spec: the cache update of the absent `Pm4Optimizer` on a kept write: the
entry takes the new value and becomes valid. -/
def Pm4Optimizer.setEntry (o : Pm4Optimizer) (sp : RegSpace) (regAddr regData : Nat) :
    Pm4Optimizer :=
  { o with regs := fun sp2 a =>
      if sp2 = sp ∧ a = regAddr then { valid := true, value := regData } else o.regs sp2 a }

/-- Modelled from the spec: the single-register decision with its cache update, shared by
`MustKeepSetContextReg` and `MustKeepSetShReg` of the absent `Pm4Optimizer`. -/
def Pm4Optimizer.UpdateRegState (o : Pm4Optimizer) (sp : RegSpace) (regAddr regData : Nat) :
    Bool × Pm4Optimizer :=
  if o.mustKeep sp regAddr regData then (true, o.setEntry sp regAddr regData) else (false, o)

/-- Modelled from the spec: `Pm4Optimizer::MustKeepSetContextReg`, absent from the sources. -/
def Pm4Optimizer.MustKeepSetContextReg (o : Pm4Optimizer) (regAddr regData : Nat) :
    Bool × Pm4Optimizer :=
  o.UpdateRegState .context regAddr regData

/-- Modelled from the spec: `Pm4Optimizer::MustKeepSetShReg`, absent from the sources. -/
def Pm4Optimizer.MustKeepSetShReg (o : Pm4Optimizer) (regAddr regData : Nat) :
    Bool × Pm4Optimizer :=
  o.UpdateRegState .sh regAddr regData

/-- Modelled from the spec: `Pm4Optimizer::SetShRegInvalid`, absent from the sources: drops the
validity of one SH register. -/
def Pm4Optimizer.SetShRegInvalid (o : Pm4Optimizer) (regAddr : Nat) : Pm4Optimizer :=
  { o with regs := fun sp a =>
      if sp = .sh ∧ a = regAddr then { valid := false, value := (o.regs sp a).value }
      else o.regs sp a }

/-- Modelled from the spec: `Pm4Optimizer::Reset`, absent from the sources: drops the validity of
the whole cache. -/
def Pm4Optimizer.Reset (o : Pm4Optimizer) : Pm4Optimizer :=
  { o with regs := fun sp a => { valid := false, value := (o.regs sp a).value } }

/-- Modelled from the spec: the left-to-right scan of the sequential-range decision of the absent
`Pm4Optimizer`: the single-register decision, cache update included, is taken for the registers
`regAddr, regAddr + 1, ...` in turn; the result lists which writes must be kept. -/
def Pm4Optimizer.scanRange (o : Pm4Optimizer) (sp : RegSpace) :
    Nat → List Nat → List Bool × Pm4Optimizer
  | _, [] => ([], o)
  | regAddr, v :: vs =>
    let r := (o.UpdateRegState sp regAddr v).2.scanRange sp (regAddr + 1) vs
    ((o.UpdateRegState sp regAddr v).1 :: r.1, r.2)

/-- Modelled from the spec: the partition of a scanned range into maximal contiguous sub-runs of
must-keep registers. `i` is the index of the next register, `cur` the first index of the sub-run
being collected, if any; a sub-run is given as (first index, length). -/
def subRuns : List Bool → Nat → Option Nat → List (Nat × Nat)
  | [], _, none => []
  | [], i, some s => [(s, i - s)]
  | true :: ks, i, none => subRuns ks (i + 1) (some i)
  | true :: ks, i, some s => subRuns ks (i + 1) (some s)
  | false :: ks, i, none => subRuns ks (i + 1) none
  | false :: ks, i, some s => (s, i - s) :: subRuns ks (i + 1) none

/-- The header of the sub-run packet: the range header moved to the sub-run. -/
def PM4CMDSETDATA.subRun (d : PM4CMDSETDATA) (run : Nat × Nat) : PM4CMDSETDATA :=
  { d with regOffset := d.regOffset + run.1, numRegs := run.2 }

/-- The values of a sub-run, taken from the values of the range. -/
def runData (vals : List Nat) (run : Nat × Nat) : List Nat :=
  (vals.drop run.1).take run.2

/-- Writes one set-data packet at `p`: the header, then the values; returns the memory and the
cursor after the packet. -/
def CmdUtil.writePacket (cu : CmdUtil) (mem : CmdSpace) (p : Nat) (d : PM4CMDSETDATA)
    (data : List Nat) : CmdSpace × Nat :=
  (memcpy (cu.writeHeader mem p d) (p + cu.PM4_CMD_SET_DATA_DWORDS) (arrayOf data) data.length,
   p + cu.PM4_CMD_SET_DATA_DWORDS + data.length)

/-- Writes the packets of the given sub-runs one after the other, starting at `p`. -/
def CmdUtil.writeRuns (cu : CmdUtil) (d : PM4CMDSETDATA) (vals : List Nat) :
    List (Nat × Nat) → CmdSpace → Nat → CmdSpace × Nat
  | [], mem, p => (mem, p)
  | run :: runs, mem, p =>
    cu.writeRuns d vals runs (cu.writePacket mem p (d.subRun run) (runData vals run)).1
      (cu.writePacket mem p (d.subRun run) (runData vals run)).2

/-- Modelled from the spec: the sequential-range decision (run-splitting) shared by
`WriteOptimizedSetSeqContextRegs` and `WriteOptimizedSetSeqShRegs` of the absent `Pm4Optimizer`:
the range of `setData` is scanned left to right and one set-range packet is emitted per maximal
contiguous sub-run of must-keep registers; an elided register appears in no packet. -/
def Pm4Optimizer.OptimizePm4SetReg (o : Pm4Optimizer) (cu : CmdUtil) (sp : RegSpace)
    (setData : PM4CMDSETDATA) (pData : Nat → Nat) (mem : CmdSpace) (pCmdSpace : Nat) :
    Pm4Optimizer × CmdSpace × Nat :=
  let vals := (List.range setData.numRegs).map pData
  let scan := o.scanRange sp setData.regOffset vals
  (scan.2, cu.writeRuns setData vals (subRuns scan.1 0 none) mem pCmdSpace)

/-- Modelled from the spec: `Pm4Optimizer::WriteOptimizedSetSeqContextRegs`, absent from the
sources. -/
def Pm4Optimizer.WriteOptimizedSetSeqContextRegs (o : Pm4Optimizer) (cu : CmdUtil)
    (setData : PM4CMDSETDATA) (pData : Nat → Nat) (mem : CmdSpace) (pCmdSpace : Nat) :
    Pm4Optimizer × CmdSpace × Nat :=
  o.OptimizePm4SetReg cu .context setData pData mem pCmdSpace

/-- Modelled from the spec: `Pm4Optimizer::WriteOptimizedSetSeqShRegs`, absent from the
sources. -/
def Pm4Optimizer.WriteOptimizedSetSeqShRegs (o : Pm4Optimizer) (cu : CmdUtil)
    (setData : PM4CMDSETDATA) (pData : Nat → Nat) (mem : CmdSpace) (pCmdSpace : Nat) :
    Pm4Optimizer × CmdSpace × Nat :=
  o.OptimizePm4SetReg cu .sh setData pData mem pCmdSpace

/-- The words of the packets of the given sub-runs, one packet after the other. -/
def CmdUtil.runsWords (cu : CmdUtil) (d : PM4CMDSETDATA) (vals : List Nat)
    (runs : List (Nat × Nat)) : List Nat :=
  runs.flatMap (fun run => cu.packetWords (d.subRun run) (runData vals run))

/-- The span from the first to the last must-keep register of a scanned range, as a list of at
most one (first index, length): empty when no register must be kept. -/
def keepSpan (ks : List Bool) : List (Nat × Nat) :=
  match (subRuns ks 0 none).head?, (subRuns ks 0 none).getLast? with
  | some first, some last => [(first.1, last.1 + last.2 - first.1)]
  | _, _ => []

/-- Modelled from the spec: what the whole-block pass of the absent `Pm4Optimizer` does with one
packet. A recognized set-register packet (a context or SH set packet; its register count is
inferred from its size) goes through the same must-keep logic as a sequential range, and its
size and header are rewritten in place: the packet is cut down to the span from its first to its
last must-keep register, and dropped when it has none. Any other packet is copied through
unmodified. -/
def Pm4Optimizer.optimizePacket (o : Pm4Optimizer) (cu : CmdUtil) (pkt : List Nat) :
    List Nat × Pm4Optimizer :=
  match cu.asSetData (arrayOf pkt) with
  | none => (pkt, o)
  | some d =>
    if d.space = .config then (pkt, o)
    else
      (cu.runsWords { d with numRegs := (pkt.drop cu.PM4_CMD_SET_DATA_DWORDS).length }
          (pkt.drop cu.PM4_CMD_SET_DATA_DWORDS)
          (keepSpan (o.scanRange d.space d.regOffset
            (pkt.drop cu.PM4_CMD_SET_DATA_DWORDS)).1),
        (o.scanRange d.space d.regOffset (pkt.drop cu.PM4_CMD_SET_DATA_DWORDS)).2)

/-- Modelled from the spec: the walk of `Pm4Optimizer::OptimizePm4Commands`, absent from the
sources: the words are taken packet by packet, each packet as long as its first word says, and
the outputs of `optimizePacket` are laid one after the other. The first argument bounds the
number of packets; the words it leaves unread are copied through. -/
def Pm4Optimizer.walkPackets (o : Pm4Optimizer) (cu : CmdUtil) :
    Nat → List Nat → List Nat × Pm4Optimizer
  | 0, src => (src, o)
  | _ + 1, [] => ([], o)
  | fuel + 1, h :: t =>
    let step := o.optimizePacket cu ((h :: t).take (cu.packetDwords h))
    let rest := step.2.walkPackets cu fuel ((h :: t).drop (cu.packetDwords h))
    (step.1 ++ rest.1, rest.2)

/-- Modelled from the spec: `Pm4Optimizer::OptimizePm4Commands(pSrc, pDst, pNumDwords)`, absent
from the sources: the whole-block pass over the `numDwords` words at `pSrc`; the result is the
words written at `pDst`, whose number is the size reported through `pNumDwords`, and the
optimizer afterwards. -/
def Pm4Optimizer.OptimizePm4Commands (o : Pm4Optimizer) (cu : CmdUtil) (pSrc : Nat → Nat)
    (numDwords : Nat) : List Nat × Pm4Optimizer :=
  o.walkPackets cu numDwords ((List.range numDwords).map pSrc)

/-- The methods of the absent `Pm4Optimizer` the specification does not describe, taken as
parameters: `MustKeepContextRegRmw(regAddr, regMask, regData)` returns its decision and the
optimizer afterwards; `WriteOptimizedSetShShRegOffset(setShRegOffset, totalDwords, pCmdSpace)`
returns the words it writes at the cursor, behind which the returned cursor points, and the
optimizer afterwards. -/
structure Pm4OptimizerOther where
  MustKeepContextRegRmw : Pm4Optimizer → Nat → Nat → Nat → Bool × Pm4Optimizer
  WriteOptimizedSetShShRegOffset : Pm4Optimizer → List Nat → Nat → List Nat × Pm4Optimizer

/-! ## The command stream -/

/-- What the stream reads from its device and from the absent headers: the chip properties
`rbReconfigureEnabled` and `gfxLevel >= GfxIpLevel::GfxIp7`, the workaround flag
`WaCpIb2ChainingUnsupported`, and the register, index and
user-data constants used by the write operations (parameters: the tables are not part of the
sources). -/
structure Device where
  rbReconfigureEnabled : Bool
  isGfx7plus : Bool
  WaCpIb2ChainingUnsupported : Bool
  mmPA_SC_RASTER_CONFIG : Nat
  SET_CONTEXT_INDEX_PA_SC_RASTER_CONFIG : Nat
  mmIA_MULTI_VGT_PARAM : Nat
  SET_CONTEXT_INDEX_MULTI_VGT_PARAM : Nat
  mmVGT_LS_HS_CONFIG : Nat
  SET_CONTEXT_INDEX_VGT_LS_HS_CONFIG : Nat
  mmVGT_PRIMITIVE_TYPE__CI__VI : Nat
  mmVGT_PRIMITIVE_TYPE__SI : Nat
  SET_UCONFIG_INDEX_PRIM_TYPE : Nat
  COPY_DATA_SEL_DST_SYS_PERF_COUNTER : Nat
  COPY_DATA_SEL_REG : Nat
  COPY_DATA_SEL_SRC_IMME_DATA : Nat
  COPY_DATA_SEL_COUNT_1DW : Nat
  COPY_DATA_ENGINE_ME : Nat
  COPY_DATA_WR_CONFIRM_NO_WAIT : Nat
  UserDataNotMapped : Nat
  MaxUserDataEntries : Nat

/-- The state of a `Gfx6::CmdStream` the write operations read or change. -/
structure CmdStream where
  optModeImmediate : Bool
  optModeFinalized : Bool
  m_device : Device
  m_cmdUtil : CmdUtil
  m_pPm4Optimizer : Pm4Optimizer
  m_optimizerOther : Pm4OptimizerOther

/-- The `UserDataEntryMap` of a pipeline: the register address of each virtual slot. -/
structure UserDataEntryMap where
  regAddr : Nat → Nat

/-- The `UserDataArgs` of an update: the first slot, the number of slots and their values. -/
structure UserDataArgs where
  firstEntry : Nat
  entryCount : Nat
  pEntryValues : Nat → Nat

/-- What a write operation leaves behind: the stream (its optimizer may have changed), the command
memory, the returned cursor, and whether every `PAL_ASSERT` on the way held. -/
structure WriteResult where
  stream : CmdStream
  mem : CmdSpace
  pCmdSpace : Nat
  assertsHeld : Bool

/-- The `size_t` byte count `totalDwords * sizeof(uint32) - sizeof(PM4CMDSETDATA)` of the payload
copies, in whole DWORDs; `size_t` is 64 bits wide. -/
def payloadDwords (cu : CmdUtil) (totalDwords : Nat) : Nat :=
  ((totalDwords * 4 % 2 ^ 64 + (2 ^ 64 - cu.PM4_CMD_SET_DATA_DWORDS * 4 % 2 ^ 64)) % 2 ^ 64) / 4

namespace CmdStream

/-- The stream with its optimizer replaced. -/
def withOptimizer (s : CmdStream) (o : Pm4Optimizer) : CmdStream :=
  { s with m_pPm4Optimizer := o }

/-- `CmdStream::WriteSetOneConfigReg`. -/
def WriteSetOneConfigReg (s : CmdStream) (regAddr regData : Nat) (mem : CmdSpace)
    (pCmdSpace : Nat) : WriteResult :=
  let built := s.m_cmdUtil.BuildSetOneConfigReg regAddr none
  let mem1 := s.m_cmdUtil.writeHeader mem pCmdSpace built.2
  { stream := s
    mem := store mem1 (pCmdSpace + s.m_cmdUtil.PM4_CMD_SET_DATA_DWORDS) regData
    pCmdSpace := pCmdSpace + built.1
    assertsHeld := true }

/-- `CmdStream::WriteSetSeqConfigRegs`. -/
def WriteSetSeqConfigRegs (s : CmdStream) (startRegAddr endRegAddr : Nat) (pData : Nat → Nat)
    (mem : CmdSpace) (pCmdSpace : Nat) : WriteResult :=
  let built := s.m_cmdUtil.BuildSetSeqConfigRegs startRegAddr endRegAddr
  let mem1 := s.m_cmdUtil.writeHeader mem pCmdSpace built.2
  { stream := s
    mem := memcpy mem1 (pCmdSpace + s.m_cmdUtil.PM4_CMD_SET_DATA_DWORDS) pData
      (payloadDwords s.m_cmdUtil built.1)
    pCmdSpace := pCmdSpace + built.1
    assertsHeld := true }

/-- `CmdStream::WriteSetOneContextReg<pm4OptImmediate>`, the template parameter made explicit. -/
def WriteSetOneContextReg (s : CmdStream) (pm4OptImmediate : Bool) (regAddr regData : Nat)
    (mem : CmdSpace) (pCmdSpace : Nat) : WriteResult :=
  let held := s.optModeImmediate == pm4OptImmediate
  if pm4OptImmediate = false then
    let built := s.m_cmdUtil.BuildSetOneContextReg regAddr none
    let mem1 := s.m_cmdUtil.writeHeader mem pCmdSpace built.2
    { stream := s
      mem := store mem1 (pCmdSpace + s.m_cmdUtil.PM4_CMD_SET_DATA_DWORDS) regData
      pCmdSpace := pCmdSpace + built.1
      assertsHeld := held }
  else
    let keep := s.m_pPm4Optimizer.MustKeepSetContextReg regAddr regData
    if keep.1 then
      let built := s.m_cmdUtil.BuildSetOneContextReg regAddr none
      let mem1 := s.m_cmdUtil.writeHeader mem pCmdSpace built.2
      { stream := s.withOptimizer keep.2
        mem := store mem1 (pCmdSpace + s.m_cmdUtil.PM4_CMD_SET_DATA_DWORDS) regData
        pCmdSpace := pCmdSpace + built.1
        assertsHeld := held }
    else
      { stream := s.withOptimizer keep.2, mem := mem, pCmdSpace := pCmdSpace, assertsHeld := held }

/-- The wrapper `CmdStream::WriteSetOneContextReg` for callers that do not know the mode. -/
def WriteSetOneContextRegDyn (s : CmdStream) (regAddr regData : Nat) (mem : CmdSpace)
    (pCmdSpace : Nat) : WriteResult :=
  if s.optModeImmediate = false then
    s.WriteSetOneContextReg false regAddr regData mem pCmdSpace
  else
    s.WriteSetOneContextReg true regAddr regData mem pCmdSpace

/-- `CmdStream::WriteSetOneShReg<shaderType, pm4OptImmediate>`, the template parameters made
explicit. -/
def WriteSetOneShReg (s : CmdStream) (shaderType : PM4ShaderType) (pm4OptImmediate : Bool)
    (regAddr regData : Nat) (mem : CmdSpace) (pCmdSpace : Nat) : WriteResult :=
  let held := s.optModeImmediate == pm4OptImmediate
  if pm4OptImmediate = false then
    let built := s.m_cmdUtil.BuildSetOneShReg regAddr shaderType
    let mem1 := s.m_cmdUtil.writeHeader mem pCmdSpace built.2
    { stream := s
      mem := store mem1 (pCmdSpace + s.m_cmdUtil.PM4_CMD_SET_DATA_DWORDS) regData
      pCmdSpace := pCmdSpace + built.1
      assertsHeld := held }
  else
    let keep := s.m_pPm4Optimizer.MustKeepSetShReg regAddr regData
    if keep.1 then
      let built := s.m_cmdUtil.BuildSetOneShReg regAddr shaderType
      let mem1 := s.m_cmdUtil.writeHeader mem pCmdSpace built.2
      { stream := s.withOptimizer keep.2
        mem := store mem1 (pCmdSpace + s.m_cmdUtil.PM4_CMD_SET_DATA_DWORDS) regData
        pCmdSpace := pCmdSpace + built.1
        assertsHeld := held }
    else
      { stream := s.withOptimizer keep.2, mem := mem, pCmdSpace := pCmdSpace, assertsHeld := held }

/-- The wrapper `CmdStream::WriteSetOneShReg<shaderType>` for callers that do not know the
mode. -/
def WriteSetOneShRegDyn (s : CmdStream) (shaderType : PM4ShaderType) (regAddr regData : Nat)
    (mem : CmdSpace) (pCmdSpace : Nat) : WriteResult :=
  if s.optModeImmediate then
    s.WriteSetOneShReg shaderType true regAddr regData mem pCmdSpace
  else
    s.WriteSetOneShReg shaderType false regAddr regData mem pCmdSpace

/-- `CmdStream::WriteSetSeqContextRegs<pm4OptImmediate>`, the template parameter made explicit. -/
def WriteSetSeqContextRegs (s : CmdStream) (pm4OptImmediate : Bool)
    (startRegAddr endRegAddr : Nat) (pData : Nat → Nat) (mem : CmdSpace) (pCmdSpace : Nat) :
    WriteResult :=
  let held := s.optModeImmediate == pm4OptImmediate
  if pm4OptImmediate then
    let setData := (s.m_cmdUtil.BuildSetSeqContextRegs startRegAddr endRegAddr).2
    let out := s.m_pPm4Optimizer.WriteOptimizedSetSeqContextRegs s.m_cmdUtil setData pData mem
      pCmdSpace
    { stream := s.withOptimizer out.1, mem := out.2.1, pCmdSpace := out.2.2, assertsHeld := held }
  else
    let built := s.m_cmdUtil.BuildSetSeqContextRegs startRegAddr endRegAddr
    let mem1 := s.m_cmdUtil.writeHeader mem pCmdSpace built.2
    { stream := s
      mem := memcpy mem1 (pCmdSpace + s.m_cmdUtil.PM4_CMD_SET_DATA_DWORDS) pData
        (payloadDwords s.m_cmdUtil built.1)
      pCmdSpace := pCmdSpace + built.1
      assertsHeld := held }

/-- The wrapper `CmdStream::WriteSetSeqContextRegs` for callers that do not know the mode. -/
def WriteSetSeqContextRegsDyn (s : CmdStream) (startRegAddr endRegAddr : Nat)
    (pData : Nat → Nat) (mem : CmdSpace) (pCmdSpace : Nat) : WriteResult :=
  if s.optModeImmediate = true then
    s.WriteSetSeqContextRegs true startRegAddr endRegAddr pData mem pCmdSpace
  else
    s.WriteSetSeqContextRegs false startRegAddr endRegAddr pData mem pCmdSpace

/-- `CmdStream::WriteSetSeqShRegs`. -/
def WriteSetSeqShRegs (s : CmdStream) (startRegAddr endRegAddr : Nat)
    (shaderType : PM4ShaderType) (pData : Nat → Nat) (mem : CmdSpace) (pCmdSpace : Nat) :
    WriteResult :=
  if s.optModeImmediate = true then
    let setData := (s.m_cmdUtil.BuildSetSeqShRegs startRegAddr endRegAddr shaderType).2
    let out := s.m_pPm4Optimizer.WriteOptimizedSetSeqShRegs s.m_cmdUtil setData pData mem
      pCmdSpace
    { stream := s.withOptimizer out.1, mem := out.2.1, pCmdSpace := out.2.2, assertsHeld := true }
  else
    let built := s.m_cmdUtil.BuildSetSeqShRegs startRegAddr endRegAddr shaderType
    let mem1 := s.m_cmdUtil.writeHeader mem pCmdSpace built.2
    { stream := s
      mem := memcpy mem1 (pCmdSpace + s.m_cmdUtil.PM4_CMD_SET_DATA_DWORDS) pData
        (payloadDwords s.m_cmdUtil built.1)
      pCmdSpace := pCmdSpace + built.1
      assertsHeld := true }

/-- `CmdStream::WriteSetPaScRasterConfig`. -/
def WriteSetPaScRasterConfig (s : CmdStream) (paScRasterConfig : Nat) (mem : CmdSpace)
    (pCmdSpace : Nat) : WriteResult :=
  if s.m_device.rbReconfigureEnabled then
    let built := s.m_cmdUtil.BuildSetOneContextReg s.m_device.mmPA_SC_RASTER_CONFIG
      (some s.m_device.SET_CONTEXT_INDEX_PA_SC_RASTER_CONFIG)
    let mem1 := s.m_cmdUtil.writeHeader mem pCmdSpace built.2
    { stream := s
      mem := store mem1 (pCmdSpace + s.m_cmdUtil.PM4_CMD_SET_DATA_DWORDS) paScRasterConfig
      pCmdSpace := pCmdSpace + built.1
      assertsHeld := true }
  else
    s.WriteSetOneContextRegDyn s.m_device.mmPA_SC_RASTER_CONFIG paScRasterConfig mem pCmdSpace

/-- `CmdStream::WritePm4Image`. The raw copy is a `memcpy` of `sizeInDwords * sizeof(uint32)`
bytes, a 64-bit `size_t` product; the optimizer is handed `static_cast<uint32>(sizeInDwords)`. -/
def WritePm4Image (s : CmdStream) (sizeInDwords : Nat) (pImage : Nat → Nat) (mem : CmdSpace)
    (pCmdSpace : Nat) : WriteResult :=
  if s.optModeImmediate = true then
    let out := s.m_pPm4Optimizer.OptimizePm4Commands s.m_cmdUtil pImage (sizeInDwords % 2 ^ 32)
    { stream := s.withOptimizer out.2
      mem := writeWords mem pCmdSpace out.1
      pCmdSpace := pCmdSpace + out.1.length
      assertsHeld := true }
  else
    { stream := s
      mem := memcpy mem pCmdSpace pImage (sizeInDwords * 4 % 2 ^ 64 / 4)
      pCmdSpace := pCmdSpace + sizeInDwords
      assertsHeld := true }

/-- `CmdStream::WriteContextRegRmw<pm4OptImmediate>`, the template parameter made explicit. -/
def WriteContextRegRmw (s : CmdStream) (pm4OptImmediate : Bool) (regAddr regMask regData : Nat)
    (mem : CmdSpace) (pCmdSpace : Nat) : WriteResult :=
  let held := s.optModeImmediate == pm4OptImmediate
  if pm4OptImmediate = false then
    let pkt := s.m_cmdUtil.BuildContextRegRmw regAddr regMask regData
    { stream := s, mem := writeWords mem pCmdSpace pkt, pCmdSpace := pCmdSpace + pkt.length,
      assertsHeld := held }
  else
    let keep := s.m_optimizerOther.MustKeepContextRegRmw s.m_pPm4Optimizer regAddr regMask
      regData
    if keep.1 then
      let pkt := s.m_cmdUtil.BuildContextRegRmw regAddr regMask regData
      { stream := s.withOptimizer keep.2, mem := writeWords mem pCmdSpace pkt,
        pCmdSpace := pCmdSpace + pkt.length, assertsHeld := held }
    else
      { stream := s.withOptimizer keep.2, mem := mem, pCmdSpace := pCmdSpace, assertsHeld := held }

/-- The wrapper `CmdStream::WriteContextRegRmw` for callers that do not know the mode. -/
def WriteContextRegRmwDyn (s : CmdStream) (regAddr regMask regData : Nat) (mem : CmdSpace)
    (pCmdSpace : Nat) : WriteResult :=
  if s.optModeImmediate = false then
    s.WriteContextRegRmw false regAddr regMask regData mem pCmdSpace
  else
    s.WriteContextRegRmw true regAddr regMask regData mem pCmdSpace

/-- `CmdStream::WriteSetIaMultiVgtParam<pm4OptImmediate>`; the argument is the `u32All` of the
register value. -/
def WriteSetIaMultiVgtParam (s : CmdStream) (pm4OptImmediate : Bool) (iaMultiVgtParam : Nat)
    (mem : CmdSpace) (pCmdSpace : Nat) : WriteResult :=
  let held := s.optModeImmediate == pm4OptImmediate
  if pm4OptImmediate = false then
    let built := s.m_cmdUtil.BuildSetOneContextReg s.m_device.mmIA_MULTI_VGT_PARAM
      (some s.m_device.SET_CONTEXT_INDEX_MULTI_VGT_PARAM)
    let mem1 := s.m_cmdUtil.writeHeader mem pCmdSpace built.2
    { stream := s
      mem := store mem1 (pCmdSpace + s.m_cmdUtil.PM4_CMD_SET_DATA_DWORDS) iaMultiVgtParam
      pCmdSpace := pCmdSpace + built.1
      assertsHeld := held }
  else
    let keep := s.m_pPm4Optimizer.MustKeepSetContextReg s.m_device.mmIA_MULTI_VGT_PARAM
      iaMultiVgtParam
    if keep.1 then
      let built := s.m_cmdUtil.BuildSetOneContextReg s.m_device.mmIA_MULTI_VGT_PARAM
        (some s.m_device.SET_CONTEXT_INDEX_MULTI_VGT_PARAM)
      let mem1 := s.m_cmdUtil.writeHeader mem pCmdSpace built.2
      { stream := s.withOptimizer keep.2
        mem := store mem1 (pCmdSpace + s.m_cmdUtil.PM4_CMD_SET_DATA_DWORDS) iaMultiVgtParam
        pCmdSpace := pCmdSpace + built.1
        assertsHeld := held }
    else
      { stream := s.withOptimizer keep.2, mem := mem, pCmdSpace := pCmdSpace, assertsHeld := held }

/-- `CmdStream::WriteSetVgtLsHsConfig<pm4OptImmediate>`; the argument is the `u32All` of the
register value. -/
def WriteSetVgtLsHsConfig (s : CmdStream) (pm4OptImmediate : Bool) (vgtLsHsConfig : Nat)
    (mem : CmdSpace) (pCmdSpace : Nat) : WriteResult :=
  let held := s.optModeImmediate == pm4OptImmediate
  if pm4OptImmediate = false then
    let built := s.m_cmdUtil.BuildSetOneContextReg s.m_device.mmVGT_LS_HS_CONFIG
      (some s.m_device.SET_CONTEXT_INDEX_VGT_LS_HS_CONFIG)
    let mem1 := s.m_cmdUtil.writeHeader mem pCmdSpace built.2
    { stream := s
      mem := store mem1 (pCmdSpace + s.m_cmdUtil.PM4_CMD_SET_DATA_DWORDS) vgtLsHsConfig
      pCmdSpace := pCmdSpace + built.1
      assertsHeld := held }
  else
    let keep := s.m_pPm4Optimizer.MustKeepSetContextReg s.m_device.mmVGT_LS_HS_CONFIG
      vgtLsHsConfig
    if keep.1 then
      let built := s.m_cmdUtil.BuildSetOneContextReg s.m_device.mmVGT_LS_HS_CONFIG
        (some s.m_device.SET_CONTEXT_INDEX_VGT_LS_HS_CONFIG)
      let mem1 := s.m_cmdUtil.writeHeader mem pCmdSpace built.2
      { stream := s.withOptimizer keep.2
        mem := store mem1 (pCmdSpace + s.m_cmdUtil.PM4_CMD_SET_DATA_DWORDS) vgtLsHsConfig
        pCmdSpace := pCmdSpace + built.1
        assertsHeld := held }
    else
      { stream := s.withOptimizer keep.2, mem := mem, pCmdSpace := pCmdSpace, assertsHeld := held }

/-- `CmdStream::WriteSetOnePrivilegedConfigReg`. -/
def WriteSetOnePrivilegedConfigReg (s : CmdStream) (regAddr value : Nat) (mem : CmdSpace)
    (pCmdSpace : Nat) : WriteResult :=
  let dstSelect :=
    if s.m_cmdUtil.IsPrivilegedConfigReg regAddr then
      s.m_device.COPY_DATA_SEL_DST_SYS_PERF_COUNTER
    else s.m_device.COPY_DATA_SEL_REG
  let pkt := s.m_cmdUtil.BuildCopyData dstSelect regAddr s.m_device.COPY_DATA_SEL_SRC_IMME_DATA
    value s.m_device.COPY_DATA_SEL_COUNT_1DW s.m_device.COPY_DATA_ENGINE_ME
    s.m_device.COPY_DATA_WR_CONFIRM_NO_WAIT
  { stream := s, mem := writeWords mem pCmdSpace pkt, pCmdSpace := pCmdSpace + pkt.length,
    assertsHeld := true }

/-- `CmdStream::WriteSetOnePerfCtrReg`. -/
def WriteSetOnePerfCtrReg (s : CmdStream) (regAddr value : Nat) (mem : CmdSpace)
    (pCmdSpace : Nat) : WriteResult :=
  if s.m_cmdUtil.IsPrivilegedConfigReg regAddr then
    s.WriteSetOnePrivilegedConfigReg regAddr value mem pCmdSpace
  else
    s.WriteSetOneConfigReg regAddr value mem pCmdSpace

/-- `CmdStream::WriteSetShRegDataOffset<shaderType, pm4OptImmediate>`, the template parameters
made explicit. -/
def WriteSetShRegDataOffset (s : CmdStream) (shaderType : PM4ShaderType)
    (pm4OptImmediate : Bool) (regAddr dataOffset : Nat) (mem : CmdSpace) (pCmdSpace : Nat) :
    WriteResult :=
  let held := s.optModeImmediate == pm4OptImmediate
  if pm4OptImmediate then
    let setShRegOffset := s.m_cmdUtil.BuildSetShRegDataOffset regAddr shaderType dataOffset
    let out := s.m_optimizerOther.WriteOptimizedSetShShRegOffset s.m_pPm4Optimizer
      setShRegOffset setShRegOffset.length
    { stream := s.withOptimizer out.2, mem := writeWords mem pCmdSpace out.1,
      pCmdSpace := pCmdSpace + out.1.length, assertsHeld := held }
  else
    let pkt := s.m_cmdUtil.BuildSetShRegDataOffset regAddr shaderType dataOffset
    { stream := s, mem := writeWords mem pCmdSpace pkt, pCmdSpace := pCmdSpace + pkt.length,
      assertsHeld := held }

/-- The wrapper `CmdStream::WriteSetShRegDataOffset<shaderType>` for callers that do not know
the mode. -/
def WriteSetShRegDataOffsetDyn (s : CmdStream) (shaderType : PM4ShaderType)
    (regAddr regData : Nat) (mem : CmdSpace) (pCmdSpace : Nat) : WriteResult :=
  if s.optModeImmediate then
    s.WriteSetShRegDataOffset shaderType true regAddr regData mem pCmdSpace
  else
    s.WriteSetShRegDataOffset shaderType false regAddr regData mem pCmdSpace

/-- `CmdStream::WriteUserDataRegistersOne`. -/
def WriteUserDataRegistersOne (s : CmdStream) (entryMap : UserDataEntryMap)
    (pUserDataArgs : UserDataArgs) (shaderType : PM4ShaderType) (mem : CmdSpace)
    (pCmdSpace : Nat) : WriteResult :=
  let regAddr := entryMap.regAddr pUserDataArgs.firstEntry
  if regAddr ≠ s.m_device.UserDataNotMapped then
    if s.optModeImmediate = true then
      let built := s.m_cmdUtil.BuildSetSeqShRegs regAddr regAddr shaderType
      let out := s.m_pPm4Optimizer.WriteOptimizedSetSeqShRegs s.m_cmdUtil built.2
        pUserDataArgs.pEntryValues mem pCmdSpace
      { stream := s.withOptimizer out.1, mem := out.2.1, pCmdSpace := out.2.2,
        assertsHeld := built.1 == 1 + s.m_cmdUtil.PM4_CMD_SET_DATA_DWORDS }
    else
      let built := s.m_cmdUtil.BuildSetSeqShRegs regAddr regAddr shaderType
      let mem1 := s.m_cmdUtil.writeHeader mem pCmdSpace built.2
      { stream := s
        mem := store mem1 (pCmdSpace + s.m_cmdUtil.PM4_CMD_SET_DATA_DWORDS)
          (pUserDataArgs.pEntryValues 0)
        pCmdSpace := pCmdSpace + built.1
        assertsHeld := built.1 == 1 + s.m_cmdUtil.PM4_CMD_SET_DATA_DWORDS }
  else
    { stream := s, mem := mem, pCmdSpace := pCmdSpace, assertsHeld := true }

/-- The state of the loop of `WriteUserDataRegistersMany`: the memory `pCmdPayload` points
into, the last register address seen, the count of mapped values, and whether the contiguity
assertion held so far. -/
structure UserDataLoop where
  payload : CmdSpace
  endRegAddr : Nat
  count : Nat
  assertsHeld : Bool

/-- One iteration of the loop of `WriteUserDataRegistersMany`, for the entry `e`; `base` is the
word index `pCmdPayload` points at. -/
def userDataStep (s : CmdStream) (entryMap : UserDataEntryMap) (pUserDataArgs : UserDataArgs)
    (base : Nat) (st : UserDataLoop) (e : Nat) : UserDataLoop :=
  let currRegAddr := entryMap.regAddr ((e + pUserDataArgs.firstEntry) % 2 ^ 32)
  if currRegAddr ≠ s.m_device.UserDataNotMapped then
    { payload := store st.payload (base + st.count) (pUserDataArgs.pEntryValues e)
      endRegAddr := currRegAddr
      count := st.count + 1
      assertsHeld := st.assertsHeld &&
        (st.endRegAddr == 0 || st.endRegAddr == (currRegAddr + 2 ^ 32 - 1) % 2 ^ 32) }
  else st

/-- The loop of `WriteUserDataRegistersMany` over the entries `0 .. entryCount - 1`. -/
def userDataLoop (s : CmdStream) (entryMap : UserDataEntryMap) (pUserDataArgs : UserDataArgs)
    (base : Nat) (payload : CmdSpace) : UserDataLoop :=
  (List.range pUserDataArgs.entryCount).foldl (userDataStep s entryMap pUserDataArgs base)
    { payload := payload, endRegAddr := 0, count := 0, assertsHeld := true }

/-- `CmdStream::WriteUserDataRegistersMany`. In Immediate mode the payload goes to the scratch
array, otherwise to the command memory behind the header; the range start
`endRegAddr - count + 1` is 32-bit arithmetic. -/
def WriteUserDataRegistersMany (s : CmdStream) (entryMap : UserDataEntryMap)
    (pUserDataArgs : UserDataArgs) (shaderType : PM4ShaderType) (mem : CmdSpace)
    (pCmdSpace : Nat) : WriteResult :=
  if s.optModeImmediate = true then
    let loop := userDataLoop s entryMap pUserDataArgs 0 (fun _ => 0)
    let held := loop.assertsHeld && decide (loop.count ≤ s.m_device.MaxUserDataEntries)
    if 1 ≤ loop.count then
      let built := s.m_cmdUtil.BuildSetSeqShRegs
        ((loop.endRegAddr + 2 ^ 32 - loop.count + 1) % 2 ^ 32) loop.endRegAddr shaderType
      let out := s.m_pPm4Optimizer.WriteOptimizedSetSeqShRegs s.m_cmdUtil built.2 loop.payload
        mem pCmdSpace
      { stream := s.withOptimizer out.1, mem := out.2.1, pCmdSpace := out.2.2,
        assertsHeld := held }
    else
      { stream := s, mem := mem, pCmdSpace := pCmdSpace, assertsHeld := held }
  else
    let loop := userDataLoop s entryMap pUserDataArgs
      (pCmdSpace + s.m_cmdUtil.PM4_CMD_SET_DATA_DWORDS) mem
    let held := loop.assertsHeld && decide (loop.count ≤ s.m_device.MaxUserDataEntries)
    if 1 ≤ loop.count then
      let built := s.m_cmdUtil.BuildSetSeqShRegs
        ((loop.endRegAddr + 2 ^ 32 - loop.count + 1) % 2 ^ 32) loop.endRegAddr shaderType
      { stream := s
        mem := s.m_cmdUtil.writeHeader loop.payload pCmdSpace built.2
        pCmdSpace := pCmdSpace + built.1
        assertsHeld := held &&
          (built.1 == loop.count + s.m_cmdUtil.PM4_CMD_SET_DATA_DWORDS) }
    else
      { stream := s, mem := loop.payload, pCmdSpace := pCmdSpace, assertsHeld := held }

/-- `CmdStream::WriteUserDataRegisters`. -/
def WriteUserDataRegisters (s : CmdStream) (entryMap : UserDataEntryMap)
    (pUserDataArgs : UserDataArgs) (shaderType : PM4ShaderType) (mem : CmdSpace)
    (pCmdSpace : Nat) : WriteResult :=
  if pUserDataArgs.entryCount = 1 then
    s.WriteUserDataRegistersOne entryMap pUserDataArgs shaderType mem pCmdSpace
  else
    s.WriteUserDataRegistersMany entryMap pUserDataArgs shaderType mem pCmdSpace

/-- `CmdStream::WriteUserDataRegisterOffset<shaderType>`. -/
def WriteUserDataRegisterOffset (s : CmdStream) (shaderType : PM4ShaderType)
    (entryMap : UserDataEntryMap) (pUserDataArgs : UserDataArgs) (mem : CmdSpace)
    (pCmdSpace : Nat) : WriteResult :=
  let regAddr := entryMap.regAddr pUserDataArgs.firstEntry
  if regAddr ≠ s.m_device.UserDataNotMapped then
    if s.optModeImmediate = true then
      s.WriteSetShRegDataOffset shaderType true regAddr (pUserDataArgs.pEntryValues 0) mem
        pCmdSpace
    else
      s.WriteSetShRegDataOffset shaderType false regAddr (pUserDataArgs.pEntryValues 0) mem
        pCmdSpace
  else
    { stream := s, mem := mem, pCmdSpace := pCmdSpace, assertsHeld := true }

/-- `CmdStream::WriteSetVgtPrimitiveType`; the argument is the `u32All` of the register
value. -/
def WriteSetVgtPrimitiveType (s : CmdStream) (vgtPrimitiveType : Nat) (mem : CmdSpace)
    (pCmdSpace : Nat) : WriteResult :=
  let regAddr :=
    if s.m_device.isGfx7plus then s.m_device.mmVGT_PRIMITIVE_TYPE__CI__VI
    else s.m_device.mmVGT_PRIMITIVE_TYPE__SI
  let built := s.m_cmdUtil.BuildSetOneConfigReg regAddr
    (some s.m_device.SET_UCONFIG_INDEX_PRIM_TYPE)
  let mem1 := s.m_cmdUtil.writeHeader mem pCmdSpace built.2
  { stream := s
    mem := store mem1 (pCmdSpace + s.m_cmdUtil.PM4_CMD_SET_DATA_DWORDS) vgtPrimitiveType
    pCmdSpace := pCmdSpace + built.1
    assertsHeld := true }

/-- `CmdStream::NotifyIndirectShRegWrite`. -/
def NotifyIndirectShRegWrite (s : CmdStream) (regAddr : Nat) : CmdStream :=
  if s.optModeImmediate = true then s.withOptimizer (s.m_pPm4Optimizer.SetShRegInvalid regAddr)
  else s

/-- `CmdStream::NotifyNestedCmdBufferExecute`. -/
def NotifyNestedCmdBufferExecute (s : CmdStream) : CmdStream :=
  if s.optModeImmediate = true then s.withOptimizer s.m_pPm4Optimizer.Reset else s

end CmdStream

/-! ## Sequences of register writes -/

/-- One register write request, as a caller issues it through the write surface of the stream. -/
inductive RegWrite where
  | oneConfig (regAddr regData : Nat)
  | seqConfig (startRegAddr endRegAddr : Nat) (pData : Nat → Nat)
  | oneContext (regAddr regData : Nat)
  | seqContext (startRegAddr endRegAddr : Nat) (pData : Nat → Nat)
  | oneSh (shaderType : PM4ShaderType) (regAddr regData : Nat)
  | seqSh (startRegAddr endRegAddr : Nat) (shaderType : PM4ShaderType) (pData : Nat → Nat)

/-- A range request names a range `[start, end]` of 32-bit register addresses with
`start ≤ end`. -/
def RegWrite.WellFormed : RegWrite → Prop
  | .oneConfig _ _ => True
  | .seqConfig a b _ => a ≤ b ∧ b < 2 ^ 32
  | .oneContext _ _ => True
  | .seqContext a b _ => a ≤ b ∧ b < 2 ^ 32
  | .oneSh _ _ _ => True
  | .seqSh a b _ _ => a ≤ b ∧ b < 2 ^ 32

/-- The header the encoder builds for a request. -/
def RegWrite.header (cu : CmdUtil) : RegWrite → PM4CMDSETDATA
  | .oneConfig a _ => (cu.BuildSetOneConfigReg a none).2
  | .seqConfig a b _ => (cu.BuildSetSeqConfigRegs a b).2
  | .oneContext a _ => (cu.BuildSetOneContextReg a none).2
  | .seqContext a b _ => (cu.BuildSetSeqContextRegs a b).2
  | .oneSh t a _ => (cu.BuildSetOneShReg a t).2
  | .seqSh a b t _ => (cu.BuildSetSeqShRegs a b t).2

/-- The register space, first address and values of a request. -/
def RegWrite.target : RegWrite → RegSpace × Nat × List Nat
  | .oneConfig a v => (.config, a, [v])
  | .seqConfig a b f => (.config, a, (List.range (b - a + 1)).map f)
  | .oneContext a v => (.context, a, [v])
  | .seqContext a b f => (.context, a, (List.range (b - a + 1)).map f)
  | .oneSh _ a v => (.sh, a, [v])
  | .seqSh a b _ f => (.sh, a, (List.range (b - a + 1)).map f)

namespace CmdStream

/-- Issues one request through the write operation a caller uses for it when it does not know
the mode of the stream. -/
def write (s : CmdStream) (w : RegWrite) (mem : CmdSpace) (pCmdSpace : Nat) : WriteResult :=
  match w with
  | .oneConfig a v => s.WriteSetOneConfigReg a v mem pCmdSpace
  | .seqConfig a b f => s.WriteSetSeqConfigRegs a b f mem pCmdSpace
  | .oneContext a v => s.WriteSetOneContextRegDyn a v mem pCmdSpace
  | .seqContext a b f => s.WriteSetSeqContextRegsDyn a b f mem pCmdSpace
  | .oneSh t a v => s.WriteSetOneShRegDyn t a v mem pCmdSpace
  | .seqSh a b t f => s.WriteSetSeqShRegs a b t f mem pCmdSpace

/-- Issues the requests in order, each call receiving the stream, memory and cursor the previous
one left. -/
def writeAll (s : CmdStream) : List RegWrite → CmdSpace → Nat → WriteResult
  | [], mem, p => { stream := s, mem := mem, pCmdSpace := p, assertsHeld := true }
  | w :: ws, mem, p =>
    let r := s.write w mem p
    let rest := r.stream.writeAll ws r.mem r.pCmdSpace
    { rest with assertsHeld := r.assertsHeld && rest.assertsHeld }

end CmdStream

/-! ## Register-value simulator -/

/-- The value of every hardware register. -/
abbrev RegFile := RegSpace → Nat → Nat

/-- Sets the registers `start, start + 1, ...` of one space to the given values. -/
def setRegs (r : RegFile) (sp : RegSpace) : Nat → List Nat → RegFile
  | _, [] => r
  | start, v :: vs =>
    setRegs (fun sp2 a => if sp2 = sp ∧ a = start then v else r sp2 a) sp (start + 1) vs

/-- Executes a stream of words: a header is read back with `decode`, the registers it names take
the values that follow it, and execution goes on behind the packet; it stops at the end of the
words or at a header `decode` does not read. -/
def replay (hdrDwords : Nat) (decode : (Nat → Nat) → Option PM4CMDSETDATA) :
    Nat → List Nat → RegFile → RegFile
  | 0, _, r => r
  | fuel + 1, ws, r =>
    if ws = [] then r
    else
      match decode (arrayOf ws) with
      | none => r
      | some d =>
        replay hdrDwords decode fuel (ws.drop (hdrDwords + d.numRegs))
          (setRegs r d.space d.regOffset ((ws.drop hdrDwords).take d.numRegs))

/-- Executes all the words of a stream (a packet is at least one word long). -/
def execute (cu : CmdUtil) (decode : (Nat → Nat) → Option PM4CMDSETDATA) (ws : List Nat)
    (r : RegFile) : RegFile :=
  replay cu.PM4_CMD_SET_DATA_DWORDS decode ws.length ws r

/-! ## What the theorems ask of the encoder -/

/-- The encoder frames a request of `count` registers starting at `start` in space `sp`: the
reported size is the header size plus the register count, and the header names the space, the
first register and the count. -/
def CmdUtil.Frames (cu : CmdUtil) (built : Nat × PM4CMDSETDATA) (sp : RegSpace)
    (start count : Nat) : Prop :=
  built.1 = cu.PM4_CMD_SET_DATA_DWORDS + count ∧ built.2.space = sp ∧
    built.2.regOffset = start ∧ built.2.numRegs = count

/-- The encoder frames every request it is asked for, and its header fits a 32-bit size. -/
structure CmdUtil.WellFramed (cu : CmdUtil) : Prop where
  hdrSmall : cu.PM4_CMD_SET_DATA_DWORDS < 2 ^ 32
  oneConfig : ∀ a idx, cu.Frames (cu.BuildSetOneConfigReg a idx) .config a 1
  seqConfig : ∀ a b, a ≤ b → cu.Frames (cu.BuildSetSeqConfigRegs a b) .config a (b - a + 1)
  oneContext : ∀ a idx, cu.Frames (cu.BuildSetOneContextReg a idx) .context a 1
  seqContext : ∀ a b, a ≤ b → cu.Frames (cu.BuildSetSeqContextRegs a b) .context a (b - a + 1)
  oneSh : ∀ a t, cu.Frames (cu.BuildSetOneShReg a t) .sh a 1
  seqSh : ∀ a b t, a ≤ b → cu.Frames (cu.BuildSetSeqShRegs a b t) .sh a (b - a + 1)

/-- The decoder `decode` reads back every header of the set `covers`, and `covers` holds the
header of every non-empty sub-run of a header it holds. -/
structure CmdUtil.ReadsBack (cu : CmdUtil) (decode : (Nat → Nat) → Option PM4CMDSETDATA)
    (covers : PM4CMDSETDATA → Prop) : Prop where
  decodes : ∀ d, covers d → ∀ f : Nat → Nat,
    (∀ i, i < cu.PM4_CMD_SET_DATA_DWORDS → f i = cu.image d i) → decode f = some d
  subRun : ∀ d run, covers d → 0 < run.2 → run.1 + run.2 ≤ d.numRegs → covers (d.subRun run)

/-! ## Packets -/

/-- A set-data packet: its header and the register values that follow it. -/
structure Packet where
  header : PM4CMDSETDATA
  data : List Nat

/-- The words of a sequence of packets, one packet after the other. -/
def CmdUtil.words (cu : CmdUtil) (ps : List Packet) : List Nat :=
  ps.flatMap (fun pk => cu.packetWords pk.header pk.data)

/-- Writes the packets one after the other, starting at `p`. -/
def CmdUtil.writePackets (cu : CmdUtil) : List Packet → CmdSpace → Nat → CmdSpace × Nat
  | [], mem, p => (mem, p)
  | pk :: ps, mem, p =>
    cu.writePackets ps (cu.writePacket mem p pk.header pk.data).1
      (cu.writePacket mem p pk.header pk.data).2

/-- The packets of the sub-runs of a range with header `d` and values `vals`. -/
def runPackets (d : PM4CMDSETDATA) (vals : List Nat) (runs : List (Nat × Nat)) : List Packet :=
  runs.map (fun run => { header := d.subRun run, data := runData vals run })

/-- The register file after the registers named by each packet took the packet's values. -/
def applyPackets (r : RegFile) (ps : List Packet) : RegFile :=
  ps.foldl (fun acc pk => setRegs acc pk.header.space pk.header.regOffset pk.data) r

namespace CmdStream

/-- Whether a request is routed through the optimizer: the stream is in Immediate mode and the
request is a context or SH register write. -/
def optimizes (s : CmdStream) (w : RegWrite) : Bool :=
  s.optModeImmediate && (w.target.1 != .config)

/-- The packets a request leaves in the stream: the sub-run packets of its must-keep registers
when it is routed through the optimizer, the whole request otherwise. -/
def emitted (s : CmdStream) (w : RegWrite) : List Packet :=
  if s.optimizes w then
    runPackets (w.header s.m_cmdUtil) w.target.2.2
      (subRuns (s.m_pPm4Optimizer.scanRange w.target.1 w.target.2.1 w.target.2.2).1 0 none)
  else [{ header := w.header s.m_cmdUtil, data := w.target.2.2 }]

/-- The optimizer a request leaves behind. -/
def optimizerAfter (s : CmdStream) (w : RegWrite) : Pm4Optimizer :=
  if s.optimizes w then
    (s.m_pPm4Optimizer.scanRange w.target.1 w.target.2.1 w.target.2.2).2
  else s.m_pPm4Optimizer

end CmdStream

/-! ## Sub-runs: scan state -/

/-- The first index a sub-run of the scan state can start at. -/
def runFloor (i : Nat) : Option Nat → Nat
  | none => i
  | some s => s

/-- Which indices the scan state `(i, cur)` with the flags `ks` still to read leaves covered. -/
def Kept (ks : List Bool) (i : Nat) (cur : Option Nat) (j : Nat) : Prop :=
  (∃ s, cur = some s ∧ s ≤ j ∧ j < i) ∨ (i ≤ j ∧ ks[j - i]? = some true)


/-! ## Cache agreement -/

/-- The optimizer's cache agrees with a register file: every valid entry is an entry of the
context or SH space and holds the value of its register. -/
def CacheAgrees (o : Pm4Optimizer) (r : RegFile) : Prop :=
  ∀ sp a, (o.regs sp a).valid = true → sp ≠ .config ∧ (o.regs sp a).value = r sp a


/-! ## Replaying packets; sequences of requests -/

/-- A packet the decoder reads back: its header is covered, it carries as many values as the
header counts, and at least one. -/
def Packet.Replayable (covers : PM4CMDSETDATA → Prop) (pk : Packet) : Prop :=
  covers pk.header ∧ pk.data.length = pk.header.numRegs ∧ 0 < pk.data.length

namespace CmdStream

/-- The packets a sequence of requests leaves in the stream, in call order. -/
def emittedAll (s : CmdStream) : List RegWrite → List Packet
  | [] => []
  | w :: ws => s.emitted w ++ (s.withOptimizer (s.optimizerAfter w)).emittedAll ws

/-- The optimizer a sequence of requests leaves behind. -/
def optimizerAfterAll (s : CmdStream) : List RegWrite → Pm4Optimizer
  | [] => s.m_pPm4Optimizer
  | w :: ws => (s.withOptimizer (s.optimizerAfter w)).optimizerAfterAll ws

end CmdStream

/-- The register file after the requests took effect in full, one after the other. -/
def writeRegs (r : RegFile) (ws : List RegWrite) : RegFile :=
  ws.foldl (fun acc w => setRegs acc w.target.1 w.target.2.1 w.target.2.2) r


/-! ## What a call leaves in command memory -/

/-- The call that received `mem` and the cursor `p` wrote exactly the packets `ps` at `p`, one
after the other: the words from `p` to the returned cursor are the words of the packets, no
other word changed, and the cursor advanced by the total size. -/
def WriteResult.Emits (r : WriteResult) (cu : CmdUtil) (mem : CmdSpace) (p : Nat)
    (ps : List Packet) : Prop :=
  r.pCmdSpace = p + (cu.words ps).length ∧
    readWords r.mem p (cu.words ps).length = cu.words ps ∧
    ∀ a, a < p ∨ r.pCmdSpace ≤ a → r.mem a = mem a

/-- The call that received `mem` and `p` wrote no word and returned the cursor unchanged. -/
def WriteResult.EmitsNothing (r : WriteResult) (mem : CmdSpace) (p : Nat) : Prop :=
  r.mem = mem ∧ r.pCmdSpace = p

/-- The request writes the register `a` of the space `sp`. -/
def RegWrite.Touches (w : RegWrite) (sp : RegSpace) (a : Nat) : Prop :=
  w.target.1 = sp ∧ w.target.2.1 ≤ a ∧ a < w.target.2.1 + w.target.2.2.length

/-- The packet sets the register `a` of the space `sp` to `v`. -/
def Packet.Sets (pk : Packet) (sp : RegSpace) (a v : Nat) : Prop :=
  pk.header.space = sp ∧ pk.header.regOffset ≤ a ∧ a < pk.header.regOffset + pk.data.length ∧
    pk.data.getD (a - pk.header.regOffset) 0 = v


/-- The call that received `mem` and `p` wrote exactly one one-register packet at `p`: the header
`built.2` followed by the value `v` at index `PM4_CMD_SET_DATA_DWORDS`; no other word changed and
the cursor advanced by the size `built.1` the encoder reported. -/
def WriteResult.EmitsOne (r : WriteResult) (cu : CmdUtil) (mem : CmdSpace) (p : Nat)
    (built : Nat × PM4CMDSETDATA) (v : Nat) : Prop :=
  readWords r.mem p (cu.PM4_CMD_SET_DATA_DWORDS + 1) = cu.packetWords built.2 [v] ∧
    (∀ a, a < p ∨ p + cu.PM4_CMD_SET_DATA_DWORDS < a → r.mem a = mem a) ∧
    r.pCmdSpace = p + built.1


/-- The list `runs` holds the maximal contiguous sub-runs, as (first index, length), of the
indices below `n` that `keep` marks: every sub-run is non-empty and inside the range, an index is
inside a sub-run exactly when it is marked, and the sub-runs come in increasing order with at
least one unmarked index between two of them. -/
def IsRunSplit (runs : List (Nat × Nat)) (n : Nat) (keep : Nat → Bool) : Prop :=
  (∀ run ∈ runs, 0 < run.2 ∧ run.1 + run.2 ≤ n) ∧
    (∀ j, (∃ run ∈ runs, run.1 ≤ j ∧ j < run.1 + run.2) ↔ (j < n ∧ keep j = true)) ∧
    runs.Pairwise (fun r1 r2 => r1.1 + r1.2 < r2.1)


/-- The call that received `mem` and `p` wrote the full range: the header `built.2` the encoder
built, `PM4_CMD_SET_DATA_DWORDS` words long, followed by exactly `n` data words equal to the
input values in order; no other word changed and the cursor advanced by the header size plus
`n`. -/
def WriteResult.WritesFullRange (r : WriteResult) (cu : CmdUtil) (mem : CmdSpace) (p : Nat)
    (header : PM4CMDSETDATA) (pData : Nat → Nat) (n : Nat) : Prop :=
  readWords r.mem p cu.PM4_CMD_SET_DATA_DWORDS =
      (List.range cu.PM4_CMD_SET_DATA_DWORDS).map (cu.image header) ∧
    readWords r.mem (p + cu.PM4_CMD_SET_DATA_DWORDS) n = (List.range n).map pData ∧
    (∀ a, a < p ∨ p + cu.PM4_CMD_SET_DATA_DWORDS + n ≤ a → r.mem a = mem a) ∧
    r.pCmdSpace = p + (cu.PM4_CMD_SET_DATA_DWORDS + n)


/-! ## The write surface -/

/-- One call of a write operation of the stream, with its arguments. For an operation that has
both a mode-specialised template and a wrapper, `mode = some b` is the call of the instance
`<b>` and `mode = none` the call through the wrapper. -/
inductive WriteOp where
  | pm4Image (sizeInDwords : Nat) (pImage : Nat → Nat)
  | contextRegRmw (mode : Option Bool) (regAddr regMask regData : Nat)
  | setIaMultiVgtParam (pm4OptImmediate : Bool) (iaMultiVgtParam : Nat)
  | setVgtLsHsConfig (pm4OptImmediate : Bool) (vgtLsHsConfig : Nat)
  | setPaScRasterConfig (paScRasterConfig : Nat)
  | setOneConfigReg (regAddr regData : Nat)
  | setSeqConfigRegs (startRegAddr endRegAddr : Nat) (pData : Nat → Nat)
  | setOneContextReg (mode : Option Bool) (regAddr regData : Nat)
  | setOnePerfCtrReg (regAddr value : Nat)
  | setOnePrivilegedConfigReg (regAddr value : Nat)
  | setOneShReg (shaderType : PM4ShaderType) (mode : Option Bool) (regAddr regData : Nat)
  | setSeqContextRegs (mode : Option Bool) (startRegAddr endRegAddr : Nat) (pData : Nat → Nat)
  | setSeqShRegs (startRegAddr endRegAddr : Nat) (shaderType : PM4ShaderType)
      (pData : Nat → Nat)
  | setShRegDataOffset (shaderType : PM4ShaderType) (mode : Option Bool)
      (regAddr dataOffset : Nat)
  | userDataRegisters (entryMap : UserDataEntryMap) (pUserDataArgs : UserDataArgs)
      (shaderType : PM4ShaderType)
  | userDataRegistersOne (entryMap : UserDataEntryMap) (pUserDataArgs : UserDataArgs)
      (shaderType : PM4ShaderType)
  | userDataRegistersMany (entryMap : UserDataEntryMap) (pUserDataArgs : UserDataArgs)
      (shaderType : PM4ShaderType)
  | userDataRegisterOffset (shaderType : PM4ShaderType) (entryMap : UserDataEntryMap)
      (pUserDataArgs : UserDataArgs)
  | setVgtPrimitiveType (vgtPrimitiveType : Nat)

/-- A user-data request the general path is meant for: every mapped address is a non-zero
32-bit register address, and the contiguity assertion of the loop holds. -/
def UserDataOk (s : CmdStream) (entryMap : UserDataEntryMap) (pUserDataArgs : UserDataArgs) :
    Prop :=
  (∀ i, entryMap.regAddr i ≠ s.m_device.UserDataNotMapped →
      1 ≤ entryMap.regAddr i ∧ entryMap.regAddr i < 2 ^ 32) ∧
    ∀ base payload, (s.userDataLoop entryMap pUserDataArgs base payload).assertsHeld = true

/-- The calls the write surface is meant for: a range `[start, end]` of 32-bit register
addresses has `start ≤ end`, and a user-data request of the general path is `UserDataOk`. -/
def WriteOp.WellFormed (s : CmdStream) : WriteOp → Prop
  | .setSeqConfigRegs a b _ => a ≤ b ∧ b < 2 ^ 32
  | .setSeqContextRegs _ a b _ => a ≤ b ∧ b < 2 ^ 32
  | .setSeqShRegs a b _ _ => a ≤ b ∧ b < 2 ^ 32
  | .userDataRegisters entryMap args _ => args.entryCount ≠ 1 → UserDataOk s entryMap args
  | .userDataRegistersMany entryMap args _ => UserDataOk s entryMap args
  | _ => True

namespace CmdStream

/-- Performs one call of the write surface. -/
def perform (s : CmdStream) (op : WriteOp) (mem : CmdSpace) (pCmdSpace : Nat) : WriteResult :=
  match op with
  | .pm4Image n img => s.WritePm4Image n img mem pCmdSpace
  | .contextRegRmw (some b) a mask v => s.WriteContextRegRmw b a mask v mem pCmdSpace
  | .contextRegRmw none a mask v => s.WriteContextRegRmwDyn a mask v mem pCmdSpace
  | .setIaMultiVgtParam b v => s.WriteSetIaMultiVgtParam b v mem pCmdSpace
  | .setVgtLsHsConfig b v => s.WriteSetVgtLsHsConfig b v mem pCmdSpace
  | .setPaScRasterConfig v => s.WriteSetPaScRasterConfig v mem pCmdSpace
  | .setOneConfigReg a v => s.WriteSetOneConfigReg a v mem pCmdSpace
  | .setSeqConfigRegs a b f => s.WriteSetSeqConfigRegs a b f mem pCmdSpace
  | .setOneContextReg (some b) a v => s.WriteSetOneContextReg b a v mem pCmdSpace
  | .setOneContextReg none a v => s.WriteSetOneContextRegDyn a v mem pCmdSpace
  | .setOnePerfCtrReg a v => s.WriteSetOnePerfCtrReg a v mem pCmdSpace
  | .setOnePrivilegedConfigReg a v => s.WriteSetOnePrivilegedConfigReg a v mem pCmdSpace
  | .setOneShReg t (some b) a v => s.WriteSetOneShReg t b a v mem pCmdSpace
  | .setOneShReg t none a v => s.WriteSetOneShRegDyn t a v mem pCmdSpace
  | .setSeqContextRegs (some b) a e f => s.WriteSetSeqContextRegs b a e f mem pCmdSpace
  | .setSeqContextRegs none a e f => s.WriteSetSeqContextRegsDyn a e f mem pCmdSpace
  | .setSeqShRegs a e t f => s.WriteSetSeqShRegs a e t f mem pCmdSpace
  | .setShRegDataOffset t (some b) a off => s.WriteSetShRegDataOffset t b a off mem pCmdSpace
  | .setShRegDataOffset t none a off => s.WriteSetShRegDataOffsetDyn t a off mem pCmdSpace
  | .userDataRegisters m args t => s.WriteUserDataRegisters m args t mem pCmdSpace
  | .userDataRegistersOne m args t => s.WriteUserDataRegistersOne m args t mem pCmdSpace
  | .userDataRegistersMany m args t => s.WriteUserDataRegistersMany m args t mem pCmdSpace
  | .userDataRegisterOffset t m args => s.WriteUserDataRegisterOffset t m args mem pCmdSpace
  | .setVgtPrimitiveType v => s.WriteSetVgtPrimitiveType v mem pCmdSpace

/-- Performs the calls in order, each call receiving the stream, the memory and the cursor the
previous one left. -/
def performAll (s : CmdStream) : List WriteOp → CmdSpace → Nat → WriteResult
  | [], mem, p => { stream := s, mem := mem, pCmdSpace := p, assertsHeld := true }
  | op :: ops, mem, p =>
    let r := s.perform op mem p
    let rest := r.stream.performAll ops r.mem r.pCmdSpace
    { rest with assertsHeld := r.assertsHeld && rest.assertsHeld }

/-- The words each call of a sequence left between the cursor it received and the cursor it
returned, read right after that call: the packets the call emitted. -/
def emissions (s : CmdStream) : List WriteOp → CmdSpace → Nat → List (List Nat)
  | [], _, _ => []
  | op :: ops, mem, p =>
    readWords (s.perform op mem p).mem p ((s.perform op mem p).pCmdSpace - p) ::
      (s.perform op mem p).stream.emissions ops (s.perform op mem p).mem
        (s.perform op mem p).pCmdSpace

end CmdStream

/-- The call that received `mem` and the cursor `p` and left `mem2` and the cursor `p2` moved
the cursor forward and changed only words of `[p, p2)`. -/
def Framed (mem : CmdSpace) (p : Nat) (mem2 : CmdSpace) (p2 : Nat) : Prop :=
  p ≤ p2 ∧ ∀ a, a < p ∨ p2 ≤ a → mem2 a = mem a

/-- The stream `s2` is the stream `s` up to its optimizer: mode, device, encoder are the same. -/
def SameStream (s s2 : CmdStream) : Prop :=
  ∃ o, s2 = s.withOptimizer o


/-- The loop state is that of a contiguous run: nothing counted yet, or at least one value
counted and the last address not below the count. -/
def LoopOk (st : CmdStream.UserDataLoop) : Prop :=
  (st.count = 0 ∧ st.endRegAddr = 0) ∨
    (1 ≤ st.count ∧ st.count ≤ st.endRegAddr ∧ st.endRegAddr < 2 ^ 32)

/-- The template argument `pm4OptImmediate` a call names, if it names one (a call through a
wrapper or of an operation without the template names none). -/
def WriteOp.instanceMode : WriteOp → Option Bool
  | .contextRegRmw mode _ _ _ => mode
  | .setIaMultiVgtParam b _ => some b
  | .setVgtLsHsConfig b _ => some b
  | .setOneContextReg mode _ _ => mode
  | .setOneShReg _ mode _ _ => mode
  | .setSeqContextRegs mode _ _ _ => mode
  | .setShRegDataOffset _ mode _ _ => mode
  | _ => none

/-- For a call of a single-register write operation: the header and size the encoder builds for
it, and the register value. -/
def CmdStream.builtOne (s : CmdStream) : WriteOp → Option ((Nat × PM4CMDSETDATA) × Nat)
  | .setOneConfigReg a v => some (s.m_cmdUtil.BuildSetOneConfigReg a none, v)
  | .setOneContextReg _ a v => some (s.m_cmdUtil.BuildSetOneContextReg a none, v)
  | .setOneShReg t _ a v => some (s.m_cmdUtil.BuildSetOneShReg a t, v)
  | _ => none

/-- The register address of the entry `e` of a request: `entryMap.regAddr[e + firstEntry]`, the
index being 32-bit arithmetic. -/
def entryAddr (entryMap : UserDataEntryMap) (args : UserDataArgs) (e : Nat) : Nat :=
  entryMap.regAddr ((e + args.firstEntry) % 2 ^ 32)

/-- Whether the slot of the entry `e` of a request is mapped. -/
def entryMapped (s : CmdStream) (entryMap : UserDataEntryMap) (args : UserDataArgs) (e : Nat) :
    Bool :=
  entryAddr entryMap args e != s.m_device.UserDataNotMapped

/-- The entries `e < entryCount` of a request whose slot `e + firstEntry` is mapped, in slot
order. -/
def mappedEntries (s : CmdStream) (entryMap : UserDataEntryMap) (args : UserDataArgs) :
    List Nat :=
  (List.range args.entryCount).filter (entryMapped s entryMap args)

/-- The register addresses of the mapped slots of a request, in slot order. -/
def mappedAddrs (s : CmdStream) (entryMap : UserDataEntryMap) (args : UserDataArgs) : List Nat :=
  (mappedEntries s entryMap args).map (entryAddr entryMap args)

/-- The values of the mapped slots of a request, in slot order. -/
def mappedValues (s : CmdStream) (entryMap : UserDataEntryMap) (args : UserDataArgs) :
    List Nat :=
  (mappedEntries s entryMap args).map args.pEntryValues

/-- The contiguity invariant of an entry map, for a request: the addresses of the requested
mapped slots, in slot order, go up by one from each mapped slot to the next, and a mapped address
is a non-zero 32-bit address. -/
def Contiguous (s : CmdStream) (entryMap : UserDataEntryMap) (args : UserDataArgs) : Prop :=
  List.Chain' (fun a b => b = a + 1) (mappedAddrs s entryMap args) ∧
    ∀ a ∈ mappedAddrs s entryMap args, a ≠ 0 ∧ a < 2 ^ 32

/-- The contiguity assertions of the loop of `WriteUserDataRegistersMany` for the addresses
`addrs` seen in turn, `prev` being the value of `endRegAddr` before the first of them. -/
def chainOk : Nat → List Nat → Bool
  | _, [] => true
  | prev, a :: as => (prev == 0 || prev == (a + 2 ^ 32 - 1) % 2 ^ 32) && chainOk a as

/-! ## Chaining and patching -/

/-- The helper `LowPart` of the absent utility headers: the low 32 bits of a 64-bit value. -/
def LowPart (value : Nat) : Nat :=
  value % 2 ^ 32

/-- The helper `HighPart` of the absent utility headers: the high 32 bits of a 64-bit value. -/
def HighPart (value : Nat) : Nat :=
  value / 2 ^ 32 % 2 ^ 32

/-- The `ChainPatchType` enumeration: the kinds of a Chain Patch Record (unconditional chain,
conditional-pass branch, conditional-fail branch). -/
inductive ChainPatchType where
  | IndirectBuffer
  | CondIndirectBufferPass
  | CondIndirectBufferFail
  deriving DecidableEq, Repr

/-- Modelled from the spec: the `ChainPatch` record of the absent base class, one forward
reference: its kind and its packet location. -/
structure ChainPatch where
  type : ChainPatchType
  pPacket : Nat
  deriving DecidableEq, Repr

/-- Modelled from the spec: the `PM4CMDCONDINDIRECTBUFFER` struct, whose declaration is in the
absent PM4 headers: a header carrying the opcode/size discriminator, the compare fields, and two
independent base-address/size pairs. The six pair fields are the 32-bit words the source assigns
`uint32` values to. -/
structure PM4CMDCONDINDIRECTBUFFER where
  header : Nat
  compare : List Nat
  ibBase1Lo : Nat
  ibBase1Hi : Nat
  ibSize1 : Nat
  ibBase2Lo : Nat
  ibBase2Hi : Nat
  ibSize2 : Nat
  deriving DecidableEq, Repr

/-- The conditional indirect buffer packets of the command memory, by location: what a
`PM4CMDCONDINDIRECTBUFFER*` points at. -/
abbrev CondIbSpace := Nat → PM4CMDCONDINDIRECTBUFFER

/-- What `PatchCondIndirectBuffer` leaves: the packets, and whether no assertion failed. -/
structure PatchResult where
  packets : CondIbSpace
  assertsHeld : Bool

/-- `CmdStream::PatchCondIndirectBuffer`; `address` is a `gpusize`, `ibSizeDwords` a `uint32`. -/
def CmdStream.PatchCondIndirectBuffer (pPatch : ChainPatch) (address ibSizeDwords : Nat)
    (packets : CondIbSpace) : PatchResult :=
  match pPatch.type with
  | .CondIndirectBufferPass =>
    { packets := fun a =>
        if a = pPatch.pPacket then
          { packets a with
            ibBase1Lo := LowPart address
            ibBase1Hi := HighPart address
            ibSize1 := ibSizeDwords }
        else packets a
      assertsHeld := true }
  | .CondIndirectBufferFail =>
    { packets := fun a =>
        if a = pPatch.pPacket then
          { packets a with
            ibBase2Lo := LowPart address
            ibBase2Hi := HighPart address
            ibSize2 := ibSizeDwords }
        else packets a
      assertsHeld := true }
  | _ => { packets := packets, assertsHeld := false }

/-- One chain patch with its target: the record, the destination address and the size in
DWORDs. -/
structure PatchTarget where
  patch : ChainPatch
  address : Nat
  ibSizeDwords : Nat
  deriving DecidableEq, Repr

/-- Applies `PatchCondIndirectBuffer` to the records of a list, in list order. -/
def patchAll (targets : List PatchTarget) (packets : CondIbSpace) : CondIbSpace :=
  targets.foldl
    (fun acc r => (CmdStream.PatchCondIndirectBuffer r.patch r.address r.ibSizeDwords acc).packets)
    packets

/-! ## Ending a chunk -/

/-- Modelled from the spec: what the absent base class `GfxCmdStream` keeps of the current chunk
and of the chaining: the trailer size `m_chainIbSpaceInDwords`, whether the stream is a
constant-engine stream, the offset of the current command block in its chunk, the write address
and the used DWORDs of the last chunk, the command memory, the conditional indirect buffer
packets, the pending Chain Patch Records in creation order, and the tail chain location. -/
structure GfxCmdStream where
  m_chainIbSpaceInDwords : Nat
  isConstantEngine : Bool
  cmdBlockOffset : Nat
  chunkAddr : Nat
  usedDwords : Nat
  mem : CmdSpace
  condPackets : CondIbSpace
  patches : List ChainPatch
  tailChainLocation : Option Nat

namespace GfxCmdStream

/-- Modelled from the spec: `GfxCmdStream::EndCommandBlock(postambleDwords, atEndOfStream)`,
absent from the sources: appends the block's trailer of `postambleDwords` words behind the used
words of the chunk and returns the location of the trailer. -/
def EndCommandBlock (g : GfxCmdStream) (postambleDwords : Nat) (_atEndOfStream : Bool) :
    Nat × GfxCmdStream :=
  (g.chunkAddr + g.usedDwords, { g with usedDwords := g.usedDwords + postambleDwords })

/-- Modelled from the spec: `GfxCmdStream::UpdateTailChainLocation`, absent from the sources:
the trailer becomes the stream's tail. -/
def UpdateTailChainLocation (g : GfxCmdStream) (pChainPacket : Nat) : GfxCmdStream :=
  { g with tailChainLocation := some pChainPacket }

/-- Modelled from the spec: `GfxCmdStream::AddChainPatch`, absent from the sources: records one
Chain Patch Record of the given kind at the given packet location. -/
def AddChainPatch (g : GfxCmdStream) (type : ChainPatchType) (pPacket : Nat) : GfxCmdStream :=
  { g with patches := g.patches ++ [{ type := type, pPacket := pPacket }] }

/-- Modelled from the spec: the block takes over what the write calls left: the memory they
wrote, and their cursor as the next free word of the block. -/
def CommitCommands (g : GfxCmdStream) (mem : CmdSpace) (pCmdSpace : Nat) : GfxCmdStream :=
  { g with mem := mem, usedDwords := pCmdSpace - g.chunkAddr }

end GfxCmdStream

/-- What `EndCurrentChunk` leaves: the stream (its optimizer may have changed), the base-class
state, and whether every `PAL_ASSERT` on the way held. -/
structure ChunkResult where
  stream : CmdStream
  base : GfxCmdStream
  assertsHeld : Bool

namespace CmdStream

/-- `CmdStream::BuildIndirectBuffer`. -/
def BuildIndirectBuffer (s : CmdStream) (g : GfxCmdStream) (ibAddr ibSize : Nat)
    (preemptionEnabled chain : Bool) : List Nat :=
  s.m_cmdUtil.BuildIndirectBuffer ibAddr ibSize chain g.isConstantEngine preemptionEnabled

/-- `CmdStream::EndCurrentChunk`. In Finalized mode the whole-block pass runs in place over the
used words of the last chunk and leaves the new used size. -/
def EndCurrentChunk (s : CmdStream) (g : GfxCmdStream) (atEndOfStream : Bool) : ChunkResult :=
  let fin : ChunkResult :=
    if s.optModeFinalized = true then
      let out := s.m_pPm4Optimizer.OptimizePm4Commands s.m_cmdUtil
        (fun i => g.mem (g.chunkAddr + i)) g.usedDwords
      { stream := s.withOptimizer out.2
        base := { g with mem := writeWords g.mem g.chunkAddr out.1, usedDwords := out.1.length }
        assertsHeld := g.cmdBlockOffset == 0 }
    else { stream := s, base := g, assertsHeld := true }
  let ended := fin.base.EndCommandBlock fin.base.m_chainIbSpaceInDwords true
  let pChainPacket := ended.1
  if 0 < ended.2.m_chainIbSpaceInDwords then
    if atEndOfStream = true then
      { fin with base := ended.2.UpdateTailChainLocation pChainPacket }
    else
      let nop := s.m_cmdUtil.BuildNop ended.2.m_chainIbSpaceInDwords
      { fin with
        base := GfxCmdStream.AddChainPatch
          { ended.2 with mem := writeWords ended.2.mem pChainPacket nop }
          .IndirectBuffer pChainPacket }
  else { fin with base := ended.2 }

/-- Modelled from the spec: resolving one pending Chain Patch Record once its destination is
known (absent base class): the placeholder at the record's packet location is overwritten in
place, an unconditional chain with the chain packet `BuildIndirectBuffer` builds for the
destination, a conditional branch through `PatchCondIndirectBuffer`; the record is consumed. -/
def resolveChainPatch (s : CmdStream) (g : GfxCmdStream) (patch : ChainPatch)
    (address ibSizeDwords : Nat) (preemptionEnabled : Bool) : GfxCmdStream :=
  match patch.type with
  | .IndirectBuffer =>
    { g with
      mem := writeWords g.mem patch.pPacket
        (s.BuildIndirectBuffer g address ibSizeDwords preemptionEnabled true)
      patches := g.patches.erase patch }
  | _ =>
    { g with
      condPackets := (PatchCondIndirectBuffer patch address ibSizeDwords g.condPackets).packets
      patches := g.patches.erase patch }

/-- The used words of the block body when the trailer is appended: the size the whole-block pass
leaves in Finalized mode, the used words of the chunk otherwise. -/
def sealedDwords (s : CmdStream) (g : GfxCmdStream) : Nat :=
  if s.optModeFinalized = true then
    (s.m_pPm4Optimizer.OptimizePm4Commands s.m_cmdUtil (fun i => g.mem (g.chunkAddr + i))
      g.usedDwords).1.length
  else g.usedDwords

end CmdStream

/-! ## End-to-end scenario -/

/-- What the steps of the end-to-end scenario leave: the two register writes, the sealed block,
and the block after its chain patches were resolved. -/
structure Scenario where
  first : WriteResult
  second : WriteResult
  ended : ChunkResult
  resolved : GfxCmdStream

/-- The end-to-end scenario on a block `g`: the context register `regAddr` is written with
`regData` twice in Immediate mode at the cursor of the block, the block takes over what the
writes left and is ended (not at the end of the stream), and the pending chain patches are
resolved, in creation order, with the address and size of the next block. -/
def CmdStream.scenario (s : CmdStream) (g : GfxCmdStream) (regAddr regData : Nat)
    (address ibSizeDwords : Nat) (preemptionEnabled : Bool) : Scenario :=
  let first := s.WriteSetOneContextReg true regAddr regData g.mem (g.chunkAddr + g.usedDwords)
  let second := first.stream.WriteSetOneContextReg true regAddr regData first.mem first.pCmdSpace
  let ended := second.stream.EndCurrentChunk (g.CommitCommands second.mem second.pCmdSpace) false
  { first := first
    second := second
    ended := ended
    resolved := ended.base.patches.foldl
      (fun acc patch =>
        ended.stream.resolveChainPatch acc patch address ibSizeDwords preemptionEnabled)
      ended.base }

/-- The call of an operation through its wrapper, for callers that do not know the mode: the
operations `WriteContextRegRmw`, `WriteSetOneContextReg`, `WriteSetOneShReg`,
`WriteSetSeqContextRegs` and `WriteSetShRegDataOffset` have one. -/
def WriteOp.IsWrapperCall : WriteOp → Prop
  | .contextRegRmw none _ _ _ => True
  | .setOneContextReg none _ _ => True
  | .setOneShReg _ none _ _ => True
  | .setSeqContextRegs none _ _ _ => True
  | .setShRegDataOffset _ none _ _ => True
  | _ => False

/-- The same call with the template argument `pm4OptImmediate` set to `mode` (the call itself
for an operation without that argument or without a wrapper). -/
def WriteOp.withMode (mode : Option Bool) : WriteOp → WriteOp
  | .contextRegRmw _ a m v => .contextRegRmw mode a m v
  | .setOneContextReg _ a v => .setOneContextReg mode a v
  | .setOneShReg t _ a v => .setOneShReg t mode a v
  | .setSeqContextRegs _ a b f => .setSeqContextRegs mode a b f
  | .setShRegDataOffset t _ a off => .setShRegDataOffset t mode a off
  | op => op

/-! ## Construction and `Begin` -/

/-- The file-local helper `GetChainSizeInDwords(device, isNested)`: the command buffer chain
size in DWORDs. -/
def GetChainSizeInDwords (device : Device) (cu : CmdUtil) (isNested : Bool) : Nat :=
  let chainSize := cu.GetChainSizeInDwords
  if isNested = true ∧ (device.WaCpIb2ChainingUnsupported != false) = true then 0
  else chainSize

/-- What the constructor `CmdStream::CmdStream` hands to its base class and sets itself: the
chain size, the minimum NOP size, the size of a conditional indirect buffer packet, the flags
`isNested` and `disablePreemption`, and the optimizer pointer (`none` for `nullptr`). -/
structure Constructed where
  chainIbSpaceInDwords : Nat
  minNopSizeInDwords : Nat
  condIndirectBufferSize : Nat
  isNested : Bool
  disablePreemption : Bool
  m_pPm4Optimizer : Option Pm4Optimizer

/-- The constructor `CmdStream::CmdStream(device, pCmdAllocator, engineType, subqueueType,
isNested, disablePreemption)`. -/
def CmdStream.ctor (device : Device) (cu : CmdUtil) (isNested disablePreemption : Bool) :
    Constructed where
  chainIbSpaceInDwords := GetChainSizeInDwords device cu isNested
  minNopSizeInDwords := cu.GetMinNopSizeInDwords
  condIndirectBufferSize := cu.GetCondIndirectBufferSize
  isNested := isNested
  disablePreemption := disablePreemption
  m_pPm4Optimizer := none

/-- Modelled from the spec: the `Result` codes of the absent library header that `Begin` tells
apart: success, out of memory, and any other failure code. -/
inductive Result where
  | Success
  | ErrorOutOfMemory
  | Error (code : Nat)
  deriving DecidableEq, Repr

/-- The `CmdStreamBeginFlags` of the absent base-class header: the `optimizeCommands` bit and
the remaining flag bits. -/
structure CmdStreamBeginFlags where
  optimizeCommands : Bool
  otherFlags : Nat
  deriving DecidableEq, Repr

/-- What the absent base-class `GfxCmdStream::Begin` leaves: its result and the
`m_flags.optimizeCommands` bit of the stream afterwards. -/
structure BaseBegin where
  result : Result
  optimizeCommands : Bool

/-- What `Begin` reads from outside the sources, taken as parameters: whether the stream is a
constant-engine stream, the base-class `GfxCmdStream::Begin(flags, pMemAllocator)`, and the
outcome of `PAL_NEW(Pm4Optimizer, ...)` (`none` for a null pointer). -/
structure BeginEnv where
  IsConstantEngine : Bool
  baseBegin : CmdStreamBeginFlags → Option Nat → BaseBegin
  newPm4Optimizer : Option Pm4Optimizer

/-- What `Begin` leaves: the result it returns, the optimizer pointer of the stream, and the
flags it handed to the base class. -/
structure BeginResult where
  result : Result
  m_pPm4Optimizer : Option Pm4Optimizer
  baseFlags : CmdStreamBeginFlags

/-- `CmdStream::Begin(flags, pMemAllocator)`; a pointer is `none` when it is null. -/
def CmdStream.Begin (env : BeginEnv) (m_pPm4Optimizer : Option Pm4Optimizer)
    (flags : CmdStreamBeginFlags) (pMemAllocator : Option Nat) : BeginResult :=
  let flags1 : CmdStreamBeginFlags :=
    { flags with
      optimizeCommands := flags.optimizeCommands &&
        (pMemAllocator.isSome && (env.IsConstantEngine == false)) }
  let base := env.baseBegin flags1 pMemAllocator
  if base.result = .Success ∧ base.optimizeCommands = true then
    match env.newPm4Optimizer with
    | none => { result := .ErrorOutOfMemory, m_pPm4Optimizer := none, baseFlags := flags1 }
    | some o => { result := base.result, m_pPm4Optimizer := some o, baseFlags := flags1 }
  else { result := base.result, m_pPm4Optimizer := m_pPm4Optimizer, baseFlags := flags1 }

/-! ## The command processor (parameter) -/

/-- The command processor that executes the words of a stream is not part of the sources: it is
a parameter. `decode` reads the header of a set-data packet at the head of a stream of words
(`none` for any other packet); `decodeOther` reads any other packet: its size in DWORDs and
what executing it does to the registers. -/
structure CommandProcessor where
  decode : (Nat → Nat) → Option PM4CMDSETDATA
  decodeOther : (Nat → Nat) → Option (Nat × (RegFile → RegFile))

/-- Executes a stream of words packet by packet: the registers named by a set-data header take
the values that follow it, any other packet has the effect the command processor gives it, and
execution goes on behind the packet; it stops at the end of the words or at a packet the command
processor does not read. -/
def CommandProcessor.run (cp : CommandProcessor) (hdrDwords : Nat) :
    Nat → List Nat → RegFile → RegFile
  | 0, _, r => r
  | fuel + 1, ws, r =>
    if ws = [] then r
    else
      match cp.decode (arrayOf ws) with
      | some d =>
        cp.run hdrDwords fuel (ws.drop (hdrDwords + d.numRegs))
          (setRegs r d.space d.regOffset ((ws.drop hdrDwords).take d.numRegs))
      | none =>
        match cp.decodeOther (arrayOf ws) with
        | some other => cp.run hdrDwords fuel (ws.drop other.1) (other.2 r)
        | none => r

/-- Executes all the words of a stream (a packet is at least one word long). -/
def CommandProcessor.execute (cp : CommandProcessor) (cu : CmdUtil) (ws : List Nat)
    (r : RegFile) : RegFile :=
  cp.run cu.PM4_CMD_SET_DATA_DWORDS ws.length ws r

/-- The command processor reads the words `ws`, wherever they stand in a stream, as one packet
that is not a set-data packet and has the effect `effect` on the registers. -/
def CommandProcessor.Reads (cp : CommandProcessor) (ws : List Nat)
    (effect : RegFile → RegFile) : Prop :=
  ws ≠ [] ∧ ∀ rest, cp.decode (arrayOf (ws ++ rest)) = none ∧
    cp.decodeOther (arrayOf (ws ++ rest)) = some (ws.length, effect)

/-- One packet of a stream: a set-data packet, or another packet given by its words and by what
executing it does to the registers. -/
inductive Command where
  | set (pk : Packet)
  | other (words : List Nat) (effect : RegFile → RegFile)

/-- The words of a packet. -/
def Command.words (cu : CmdUtil) : Command → List Nat
  | .set pk => cu.packetWords pk.header pk.data
  | .other ws _ => ws

/-- The registers after a packet was executed. -/
def Command.apply : Command → RegFile → RegFile
  | .set pk, r => setRegs r pk.header.space pk.header.regOffset pk.data
  | .other _ effect, r => effect r

/-- The command processor reads the packet. -/
def Command.Readable (cp : CommandProcessor) (covers : PM4CMDSETDATA → Prop) : Command → Prop
  | .set pk => pk.Replayable covers
  | .other ws effect => cp.Reads ws effect

/-- The words of a sequence of packets, one packet after the other. -/
def commandWords (cu : CmdUtil) (cs : List Command) : List Nat :=
  cs.flatMap (Command.words cu)

/-- The registers after the packets were executed in order. -/
def applyCommands (r : RegFile) (cs : List Command) : RegFile :=
  cs.foldl (fun acc c => c.apply acc) r

/-! ## The calls the register-cache invariant covers -/

/-- The call left the packets `cs` at the cursor it received, one after the other, changed no
other word, returned the cursor behind them, and left the optimizer `o`. -/
def WriteResult.Leaves (res : WriteResult) (s : CmdStream) (mem : CmdSpace) (p : Nat)
    (cs : List Command) (o : Pm4Optimizer) : Prop :=
  res.stream = s.withOptimizer o ∧ res.mem = writeWords mem p (commandWords s.m_cmdUtil cs) ∧
    res.pCmdSpace = p + (commandWords s.m_cmdUtil cs).length

/-- The COPY_DATA packet `WriteSetOnePrivilegedConfigReg` builds for a register and a value. -/
def CmdStream.copyDataPacket (s : CmdStream) (regAddr value : Nat) : List Nat :=
  s.m_cmdUtil.BuildCopyData
    (if s.m_cmdUtil.IsPrivilegedConfigReg regAddr then
      s.m_device.COPY_DATA_SEL_DST_SYS_PERF_COUNTER
    else s.m_device.COPY_DATA_SEL_REG)
    regAddr s.m_device.COPY_DATA_SEL_SRC_IMME_DATA value s.m_device.COPY_DATA_SEL_COUNT_1DW
    s.m_device.COPY_DATA_ENGINE_ME s.m_device.COPY_DATA_WR_CONFIRM_NO_WAIT

/-- The effect of a packet leaves every context and SH register as it is. -/
def KeepsCachedRegs (effect : RegFile → RegFile) : Prop :=
  ∀ r sp a, sp ≠ .config → effect r sp a = r sp a

/-- The command processor reads the COPY_DATA packet of a privileged config register write, and
the packet writes no context or SH register. -/
def CmdStream.CopyDataTracked (s : CmdStream) (cp : CommandProcessor) (regAddr value : Nat) :
    Prop :=
  ∃ effect, cp.Reads (s.copyDataPacket regAddr value) effect ∧ KeepsCachedRegs effect

/-- What the invariant asks of the absent optimizer method `MustKeepContextRegRmw`, for one
read-modify-write: the command processor reads the packet the encoder builds, and from a cache
that agrees with the registers the method leaves a cache that agrees with the registers after
the packet when it keeps the packet, and with the registers as they are when it drops it. -/
def CmdStream.RmwTracked (s : CmdStream) (cp : CommandProcessor)
    (regAddr regMask regData : Nat) : Prop :=
  ∃ effect, cp.Reads (s.m_cmdUtil.BuildContextRegRmw regAddr regMask regData) effect ∧
    ∀ o r, CacheAgrees o r →
      ((s.m_optimizerOther.MustKeepContextRegRmw o regAddr regMask regData).1 = true →
        CacheAgrees (s.m_optimizerOther.MustKeepContextRegRmw o regAddr regMask regData).2
          (effect r)) ∧
      ((s.m_optimizerOther.MustKeepContextRegRmw o regAddr regMask regData).1 = false →
        CacheAgrees (s.m_optimizerOther.MustKeepContextRegRmw o regAddr regMask regData).2 r)

/-- What the invariant asks of the absent optimizer method `WriteOptimizedSetShShRegOffset`,
for one data-offset write: from a cache that agrees with the registers, the words the method
writes are packets the command processor reads, and the cache the method leaves agrees with the
registers after these packets. -/
def CmdStream.ShRegOffsetTracked (s : CmdStream) (cp : CommandProcessor)
    (covers : PM4CMDSETDATA → Prop) (shaderType : PM4ShaderType) (regAddr dataOffset : Nat) :
    Prop :=
  ∀ o r, CacheAgrees o r → ∃ cs : List Command, (∀ c ∈ cs, c.Readable cp covers) ∧
    (s.m_optimizerOther.WriteOptimizedSetShShRegOffset o
      (s.m_cmdUtil.BuildSetShRegDataOffset regAddr shaderType dataOffset)
      (s.m_cmdUtil.BuildSetShRegDataOffset regAddr shaderType dataOffset).length).1 =
        commandWords s.m_cmdUtil cs ∧
    CacheAgrees (s.m_optimizerOther.WriteOptimizedSetShShRegOffset o
      (s.m_cmdUtil.BuildSetShRegDataOffset regAddr shaderType dataOffset)
      (s.m_cmdUtil.BuildSetShRegDataOffset regAddr shaderType dataOffset).length).2
      (applyCommands r cs)

/-- A packet of an image handed to `WritePm4Image`: the command processor reads it, and the
encoder reads its size off its first word. A set-data packet is one whose header the encoder
reads back; any other packet is one the encoder does not take for a set-data packet. -/
def Command.InImage (cu : CmdUtil) (cp : CommandProcessor) (covers : PM4CMDSETDATA → Prop)
    (c : Command) : Prop :=
  c.Readable cp covers ∧ cu.packetDwords ((c.words cu).headD 0) = (c.words cu).length ∧
    match c with
    | .set pk => cu.asSetData (arrayOf (cu.packetWords pk.header pk.data)) = some pk.header
    | .other ws _ => cu.asSetData (arrayOf ws) = none

/-- An image packet the optimizer does not see through writes no context or SH register. -/
def Command.Inert : Command → Prop
  | .set _ => True
  | .other _ effect => KeepsCachedRegs effect

/-- The image of `sizeInDwords` words at `pImage` is the words of the packets `cs`, and its size
fits the `uint32` the optimizer is handed. -/
def IsImageOf (cu : CmdUtil) (cp : CommandProcessor) (covers : PM4CMDSETDATA → Prop)
    (sizeInDwords : Nat) (pImage : Nat → Nat) (cs : List Command) : Prop :=
  sizeInDwords < 2 ^ 32 ∧ (List.range sizeInDwords).map pImage = commandWords cu cs ∧
    ∀ c ∈ cs, c.InImage cu cp covers

/-- The calls of the write surface the register-cache invariant is stated for, on an
Immediate-mode stream.

* A call of a mode-specialised instance names the instance `<true>` (the other instance fails
  its mode assertion), and a range `[start, end]` of 32-bit addresses has `start ≤ end`.
* The command processor reads the header of every set-data packet the call builds (`covers`).
* `WriteSetPaScRasterConfig` is called on a device without `rbReconfigureEnabled`.
* A packet that is not a set-data packet (COPY_DATA) writes no context or SH register, and the
  optimizer methods the specification does not describe keep the cache in step with the packet
  they decide on (`RmwTracked`, `ShRegOffsetTracked`).
* An image is a sequence of packets the encoder and the command processor read, and a packet of
  it that is not a set-data packet writes no context or SH register.
* A user-data request of the general path meets the contiguity invariant. -/
def WriteOp.Tracked (s : CmdStream) (cp : CommandProcessor) (covers : PM4CMDSETDATA → Prop) :
    WriteOp → Prop
  | .pm4Image n img =>
    ∃ cs, IsImageOf s.m_cmdUtil cp covers n img cs ∧ ∀ c ∈ cs, c.Inert
  | .contextRegRmw mode a m v => mode ≠ some false ∧ s.RmwTracked cp a m v
  | .setIaMultiVgtParam b _ =>
    b = true ∧ covers (s.m_cmdUtil.BuildSetOneContextReg s.m_device.mmIA_MULTI_VGT_PARAM
      (some s.m_device.SET_CONTEXT_INDEX_MULTI_VGT_PARAM)).2
  | .setVgtLsHsConfig b _ =>
    b = true ∧ covers (s.m_cmdUtil.BuildSetOneContextReg s.m_device.mmVGT_LS_HS_CONFIG
      (some s.m_device.SET_CONTEXT_INDEX_VGT_LS_HS_CONFIG)).2
  | .setPaScRasterConfig _ =>
    s.m_device.rbReconfigureEnabled = false ∧
      covers (s.m_cmdUtil.BuildSetOneContextReg s.m_device.mmPA_SC_RASTER_CONFIG none).2
  | .setOneConfigReg a _ => covers (s.m_cmdUtil.BuildSetOneConfigReg a none).2
  | .setSeqConfigRegs a b _ =>
    a ≤ b ∧ b < 2 ^ 32 ∧ covers (s.m_cmdUtil.BuildSetSeqConfigRegs a b).2
  | .setOneContextReg mode a _ =>
    mode ≠ some false ∧ covers (s.m_cmdUtil.BuildSetOneContextReg a none).2
  | .setOnePerfCtrReg a v =>
    if s.m_cmdUtil.IsPrivilegedConfigReg a = true then s.CopyDataTracked cp a v
    else covers (s.m_cmdUtil.BuildSetOneConfigReg a none).2
  | .setOnePrivilegedConfigReg a v => s.CopyDataTracked cp a v
  | .setOneShReg t mode a _ => mode ≠ some false ∧ covers (s.m_cmdUtil.BuildSetOneShReg a t).2
  | .setSeqContextRegs mode a b _ =>
    mode ≠ some false ∧ a ≤ b ∧ b < 2 ^ 32 ∧ covers (s.m_cmdUtil.BuildSetSeqContextRegs a b).2
  | .setSeqShRegs a b t _ =>
    a ≤ b ∧ b < 2 ^ 32 ∧ covers (s.m_cmdUtil.BuildSetSeqShRegs a b t).2
  | .setShRegDataOffset t mode a off => mode ≠ some false ∧ s.ShRegOffsetTracked cp covers t a off
  | .userDataRegisters m args t =>
    if args.entryCount = 1 then
      m.regAddr args.firstEntry ≠ s.m_device.UserDataNotMapped →
        covers (s.m_cmdUtil.BuildSetSeqShRegs (m.regAddr args.firstEntry)
          (m.regAddr args.firstEntry) t).2
    else
      Contiguous s m args ∧ ∀ first rest, mappedAddrs s m args = first :: rest →
        covers (s.m_cmdUtil.BuildSetSeqShRegs first (rest.getLastD first) t).2
  | .userDataRegistersOne m args t =>
    m.regAddr args.firstEntry ≠ s.m_device.UserDataNotMapped →
      covers (s.m_cmdUtil.BuildSetSeqShRegs (m.regAddr args.firstEntry)
        (m.regAddr args.firstEntry) t).2
  | .userDataRegistersMany m args t =>
    Contiguous s m args ∧ ∀ first rest, mappedAddrs s m args = first :: rest →
      covers (s.m_cmdUtil.BuildSetSeqShRegs first (rest.getLastD first) t).2
  | .userDataRegisterOffset t m args =>
    m.regAddr args.firstEntry ≠ s.m_device.UserDataNotMapped →
      s.ShRegOffsetTracked cp covers t (m.regAddr args.firstEntry) (args.pEntryValues 0)
  | .setVgtPrimitiveType _ =>
    covers (s.m_cmdUtil.BuildSetOneConfigReg
      (if s.m_device.isGfx7plus = true then s.m_device.mmVGT_PRIMITIVE_TYPE__CI__VI
        else s.m_device.mmVGT_PRIMITIVE_TYPE__SI)
      (some s.m_device.SET_UCONFIG_INDEX_PRIM_TYPE)).2

/-- The call kept the cache in step: it left packets the command processor reads and an
optimizer whose cache agrees with the registers after these packets were executed on `r`. -/
def WriteResult.Tracks (res : WriteResult) (s : CmdStream) (cp : CommandProcessor)
    (covers : PM4CMDSETDATA → Prop) (mem : CmdSpace) (p : Nat) (r : RegFile) : Prop :=
  ∃ cs o, res.Leaves s mem p cs o ∧ (∀ c ∈ cs, c.Readable cp covers) ∧
    CacheAgrees o (applyCommands r cs)

/-! ## A concrete encoder and stream for the instances -/

/-- A header kind word for the concrete encoder: register space and shader type. -/
def exampleOpcode (d : PM4CMDSETDATA) : Nat :=
  (match d.space with
    | .config => 0
    | .context => 1
    | .sh => 2) +
  (match d.shaderType with
    | .ShaderGraphics => 0
    | .ShaderCompute => 4)

/-- A concrete encoder with a two-word header (word 0: kind and register count, word 1: register
offset and index); a packet of `n` registers is reported as `2 + n` DWORDs. -/
def exampleCmdUtil : CmdUtil where
  PM4_CMD_SET_DATA_DWORDS := 2
  image := fun d i =>
    if i = 0 then exampleOpcode d + 8 * d.numRegs
    else d.regOffset + 65536 * (match d.index with
      | none => 0
      | some k => k + 1)
  BuildSetOneConfigReg := fun a idx =>
    (3, { space := .config, shaderType := .ShaderGraphics, index := idx, regOffset := a,
          numRegs := 1 })
  BuildSetSeqConfigRegs := fun a b =>
    (2 + (b - a + 1), { space := .config, shaderType := .ShaderGraphics, index := none,
                        regOffset := a, numRegs := b - a + 1 })
  BuildSetOneContextReg := fun a idx =>
    (3, { space := .context, shaderType := .ShaderGraphics, index := idx, regOffset := a,
          numRegs := 1 })
  BuildSetSeqContextRegs := fun a b =>
    (2 + (b - a + 1), { space := .context, shaderType := .ShaderGraphics, index := none,
                        regOffset := a, numRegs := b - a + 1 })
  BuildSetOneShReg := fun a t =>
    (3, { space := .sh, shaderType := t, index := none, regOffset := a, numRegs := 1 })
  BuildSetSeqShRegs := fun a b t =>
    (2 + (b - a + 1), { space := .sh, shaderType := t, index := none, regOffset := a,
                        numRegs := b - a + 1 })
  BuildContextRegRmw := fun a mask data => [3 + 8 * 3, a, mask, data]
  BuildSetShRegDataOffset := fun a t off =>
    [7 + 8 * 2, a + 65536 * (match t with
      | .ShaderGraphics => 0
      | .ShaderCompute => 1), off]
  BuildCopyData := fun dstSel dst srcSel src cnt eng wr =>
    [3 + 8 * 5, dstSel + 16 * srcSel + 256 * cnt + 4096 * eng + 65536 * wr, src, 0, dst, 0]
  BuildNop := fun n => if n = 0 then [] else (3 + 8 * (n - 1)) :: List.replicate (n - 1) 0
  BuildIndirectBuffer := fun ibAddr ibSize chain ce pre =>
    [3 + 8 * 3, ibAddr % 4294967296, ibAddr / 4294967296,
     ibSize + 1048576 * ((if chain then 1 else 0) + (if ce then 2 else 0) +
       (if pre then 4 else 0))]
  GetChainSizeInDwords := 4
  GetMinNopSizeInDwords := 1
  GetCondIndirectBufferSize := 14
  IsPrivilegedConfigReg := fun a => decide (8192 ≤ a)
  packetDwords := fun w => if w % 8 = 3 then w / 8 + 1 else w / 8 + 2
  asSetData := fun f =>
    if f 0 % 8 = 3 ∨ f 0 % 8 = 7 then none
    else some { space := if f 0 % 4 = 0 then .config else if f 0 % 4 = 1 then .context else .sh
                shaderType := if f 0 / 4 % 2 = 0 then .ShaderGraphics else .ShaderCompute
                index := if f 1 / 65536 = 0 then none else some (f 1 / 65536 - 1)
                regOffset := f 1 % 65536
                numRegs := f 0 / 8 }

/-- An optimizer with no valid cache entry and every register cacheable. -/
def emptyOptimizer : Pm4Optimizer where
  regs := fun _ _ => { valid := false, value := 0 }
  nonCacheable := fun _ _ => false

/-- A device for the instances. -/
def exampleDevice (rbReconfigureEnabled : Bool) : Device where
  rbReconfigureEnabled := rbReconfigureEnabled
  isGfx7plus := true
  WaCpIb2ChainingUnsupported := false
  mmPA_SC_RASTER_CONFIG := 41172
  SET_CONTEXT_INDEX_PA_SC_RASTER_CONFIG := 3
  mmIA_MULTI_VGT_PARAM := 41642
  SET_CONTEXT_INDEX_MULTI_VGT_PARAM := 1
  mmVGT_LS_HS_CONFIG := 41686
  SET_CONTEXT_INDEX_VGT_LS_HS_CONFIG := 2
  mmVGT_PRIMITIVE_TYPE__CI__VI := 49730
  mmVGT_PRIMITIVE_TYPE__SI := 8790
  SET_UCONFIG_INDEX_PRIM_TYPE := 1
  COPY_DATA_SEL_DST_SYS_PERF_COUNTER := 4
  COPY_DATA_SEL_REG := 0
  COPY_DATA_SEL_SRC_IMME_DATA := 5
  COPY_DATA_SEL_COUNT_1DW := 0
  COPY_DATA_ENGINE_ME := 0
  COPY_DATA_WR_CONFIRM_NO_WAIT := 0
  UserDataNotMapped := 0
  MaxUserDataEntries := 128

/-- Stand-ins for the optimizer methods the specification does not describe: they keep every
packet and leave the cache as it is. -/
def exampleOther : Pm4OptimizerOther where
  MustKeepContextRegRmw := fun o _ _ _ => (true, o)
  WriteOptimizedSetShShRegOffset := fun o img n => (img.take n, o)

/-- A stream over the concrete encoder with an empty cache, in the given mode. -/
def exampleStream (optModeImmediate rbReconfigureEnabled : Bool) : CmdStream where
  optModeImmediate := optModeImmediate
  optModeFinalized := false
  m_device := exampleDevice rbReconfigureEnabled
  m_cmdUtil := exampleCmdUtil
  m_pPm4Optimizer := emptyOptimizer
  m_optimizerOther := exampleOther

/-- Command memory holding zero everywhere. -/
def zeroMem : CmdSpace := fun _ => 0

/-! ## A decoder for the concrete encoder -/

/-- Reads a header of the concrete encoder back from its two words. -/
def exampleDecode (f : Nat → Nat) : Option PM4CMDSETDATA :=
  some { space := if f 0 % 4 = 0 then .config else if f 0 % 4 = 1 then .context else .sh
         shaderType := if f 0 / 4 % 2 = 0 then .ShaderGraphics else .ShaderCompute
         index := if f 1 / 65536 = 0 then none else some (f 1 / 65536 - 1)
         regOffset := f 1 % 65536
         numRegs := f 0 / 8 }

/-- The headers the concrete decoder reads back: those of ranges inside the 16-bit offset
field. -/
def exampleCovers (d : PM4CMDSETDATA) : Prop :=
  d.regOffset < 65536 ∧ d.regOffset + d.numRegs ≤ 65536

/-- The requests of the instance of C2: a duplicate, a range over a cached register, an unrelated
SH register and a config register. -/
def exampleWrites : List RegWrite :=
  [.oneContext 5 7, .oneContext 5 7, .seqContext 4 6 (arrayOf [1, 7, 3]),
   .oneSh .ShaderGraphics 5 9, .oneConfig 8 2, .oneContext 5 1]

/-- A user-data mapping for the instances: slot 0 is register 20, slot 2 is register 21, every
other slot is not mapped. -/
def exampleEntryMap : UserDataEntryMap where
  regAddr := fun i => if i = 0 then 20 else if i = 2 then 21 else 0

/-- A user-data update of three slots for the instances. -/
def exampleUserData : UserDataArgs where
  firstEntry := 0
  entryCount := 3
  pEntryValues := arrayOf [11, 12, 13]

/-- A sequence of calls of the write surface for the instances: the second call repeats the
first, the user-data update skips an unmapped slot. -/
def exampleOps : List WriteOp :=
  [.setOneContextReg none 5 7, .setOneContextReg none 5 7,
   .setSeqShRegs 4 6 .ShaderGraphics (arrayOf [1, 7, 3]),
   .userDataRegistersMany exampleEntryMap exampleUserData .ShaderCompute,
   .setOneConfigReg 8 2, .pm4Image 2 (arrayOf [100, 101])]

/-- An optimizer whose cache holds the config register 8 with the value 2. -/
def configCachedOptimizer : Pm4Optimizer where
  regs := fun sp a =>
    if sp = .config ∧ a = 8 then { valid := true, value := 2 }
    else { valid := false, value := 0 }
  nonCacheable := fun _ _ => false

/-- An entry map with a gap: slot 2 is register 100, slot 3 is register 102, every other slot is
not mapped. -/
def gapEntryMap : UserDataEntryMap where
  regAddr := fun i => if i = 2 then 100 else if i = 3 then 102 else 0

/-- A request for the slots 2 and 3. -/
def gapUserData : UserDataArgs where
  firstEntry := 2
  entryCount := 2
  pEntryValues := arrayOf [11, 12]

/-- A conditional indirect buffer packet with both pairs still holding placeholders. -/
def examplePacket : PM4CMDCONDINDIRECTBUFFER where
  header := 3 + 8 * 13
  compare := [0, 4096, 0, 255, 0, 7, 0]
  ibBase1Lo := 0
  ibBase1Hi := 0
  ibSize1 := 0
  ibBase2Lo := 0
  ibBase2Hi := 0
  ibSize2 := 0

/-- A fresh chunk at word 0 with a trailer of `chain` words, written nowhere yet. -/
def exampleChunk (chain : Nat) : GfxCmdStream where
  m_chainIbSpaceInDwords := chain
  isConstantEngine := false
  cmdBlockOffset := 0
  chunkAddr := 0
  usedDwords := 0
  mem := zeroMem
  condPackets := fun _ => examplePacket
  patches := []
  tailChainLocation := none

/-- A stream over the concrete encoder in Finalized mode, with an empty cache. -/
def finalizedStream : CmdStream :=
  { exampleStream false false with optModeFinalized := true }

/-- A block of nine used words, written raw: the context register 5 set to 7 twice, then the SH
register 6 set to 1; its trailer has four words. -/
def exampleBlock : GfxCmdStream :=
  (exampleChunk 4).CommitCommands (writeWords zeroMem 0 [9, 5, 7, 9, 5, 7, 10, 6, 1]) 9

/-- A concrete encoder with a one-word header (kind, register count and register offset in one
word): a packet of `n` registers is reported as `1 + n` DWORDs, and the chain packet has two
words, the second holding the low 32 bits of the target address. -/
def compactCmdUtil : CmdUtil where
  PM4_CMD_SET_DATA_DWORDS := 1
  image := fun d _ => exampleOpcode d + 8 * (d.numRegs % 256) + 2048 * d.regOffset
  BuildSetOneConfigReg := fun a idx =>
    (2, { space := .config, shaderType := .ShaderGraphics, index := idx, regOffset := a,
          numRegs := 1 })
  BuildSetSeqConfigRegs := fun a b =>
    (1 + (b - a + 1), { space := .config, shaderType := .ShaderGraphics, index := none,
                        regOffset := a, numRegs := b - a + 1 })
  BuildSetOneContextReg := fun a idx =>
    (2, { space := .context, shaderType := .ShaderGraphics, index := idx, regOffset := a,
          numRegs := 1 })
  BuildSetSeqContextRegs := fun a b =>
    (1 + (b - a + 1), { space := .context, shaderType := .ShaderGraphics, index := none,
                        regOffset := a, numRegs := b - a + 1 })
  BuildSetOneShReg := fun a t =>
    (2, { space := .sh, shaderType := t, index := none, regOffset := a, numRegs := 1 })
  BuildSetSeqShRegs := fun a b t =>
    (1 + (b - a + 1), { space := .sh, shaderType := t, index := none, regOffset := a,
                        numRegs := b - a + 1 })
  BuildContextRegRmw := fun a mask data => [3 + 8 * 3, a, mask, data]
  BuildSetShRegDataOffset := fun a _ off => [7 + 8 * 2, a, off]
  BuildCopyData := fun dstSel dst srcSel src cnt eng wr =>
    [3 + 8 * 5, dstSel + 16 * srcSel + 256 * cnt + 4096 * eng + 65536 * wr, src, 0, dst, 0]
  BuildNop := fun n => if n = 0 then [] else (3 + 8 * (n - 1)) :: List.replicate (n - 1) 0
  BuildIndirectBuffer := fun ibAddr ibSize chain ce pre =>
    [7 + 8 * ((if chain then 1 else 0) + (if ce then 2 else 0) + (if pre then 4 else 0)) +
        64 * (ibSize % 1024) + 65536 * (ibAddr / 4294967296 % 65536),
     ibAddr % 4294967296]
  GetChainSizeInDwords := 2
  GetMinNopSizeInDwords := 1
  GetCondIndirectBufferSize := 14
  IsPrivilegedConfigReg := fun a => decide (8192 ≤ a)
  packetDwords := fun w => if w % 8 = 3 then w / 8 % 256 + 1
    else if w % 8 = 7 then 2 else w / 8 % 256 + 1
  asSetData := fun f =>
    if f 0 % 8 = 3 ∨ f 0 % 8 = 7 then none
    else some { space := if f 0 % 4 = 0 then .config else if f 0 % 4 = 1 then .context else .sh
                shaderType := if f 0 / 4 % 2 = 0 then .ShaderGraphics else .ShaderCompute
                index := none
                regOffset := f 0 / 2048
                numRegs := f 0 / 8 % 256 }

/-- An Immediate-mode stream over the one-word-header encoder, with an empty cache. -/
def compactStream : CmdStream where
  optModeImmediate := true
  optModeFinalized := false
  m_device := exampleDevice false
  m_cmdUtil := compactCmdUtil
  m_pPm4Optimizer := emptyOptimizer
  m_optimizerOther := exampleOther

/-- A base-class `Begin` for the instances: it fails with the code 7 when the flag bits are
odd, succeeds otherwise, and takes the `optimizeCommands` bit as handed to it. -/
def exampleBaseBegin (flags : CmdStreamBeginFlags) (_pMemAllocator : Option Nat) : BaseBegin where
  result := if flags.otherFlags % 2 = 1 then .Error 7 else .Success
  optimizeCommands := flags.optimizeCommands

/-- An environment for the instances: not a constant-engine stream; the allocation of the
optimizer succeeds or fails as given. -/
def exampleBeginEnv (allocates : Bool) : BeginEnv where
  IsConstantEngine := false
  baseBegin := exampleBaseBegin
  newPm4Optimizer := if allocates then some emptyOptimizer else none

/-! ## A command processor and a tracking optimizer for the instances -/

/-- The value a context register holds after a read-modify-write: the bits of the mask are
taken from the data, the other bits are kept. -/
def rmwValue (old regMask regData : Nat) : Nat :=
  (old &&& (4294967295 ^^^ regMask)) ||| (regData &&& regMask)

/-- A command processor for the concrete encoder with the two-word header. It reads set-data
headers as the encoder does; of the other packets it knows the read-modify-write of a context
register (first word 27), the COPY_DATA to a config register (first word 43), the NOP of any
size, and the SH register data-offset write, which it takes to load the offset itself. -/
def exampleProcessor : CommandProcessor where
  decode := exampleCmdUtil.asSetData
  decodeOther := fun f =>
    if f 0 = 27 then
      some (4, fun r => setRegs r .context (f 1) [rmwValue (r .context (f 1)) (f 2) (f 3)])
    else if f 0 = 43 then some (6, fun r => setRegs r .config (f 4) [f 2])
    else if f 0 % 8 = 3 then some (f 0 / 8 + 1, fun r => r)
    else if f 0 % 8 = 7 then some (3, fun r => setRegs r .sh (f 1 % 65536) [f 2])
    else none

/-- Optimizer methods for the instances that follow the cache: a read-modify-write of a context
register with a valid entry is decided like the write of the resulting value, one without a
valid entry is kept; a data-offset write is kept and drops the validity of its SH register. -/
def trackingOther : Pm4OptimizerOther where
  MustKeepContextRegRmw := fun o a m v =>
    if (o.regs .context a).valid = true then
      o.UpdateRegState .context a (rmwValue (o.regs .context a).value m v)
    else (true, o)
  WriteOptimizedSetShShRegOffset := fun o img n =>
    (img.take n, o.SetShRegInvalid (img.getD 1 0 % 65536))

/-- An Immediate-mode stream over the concrete encoder with the tracking optimizer methods and
an empty cache, on a device without `rbReconfigureEnabled`. -/
def trackedStream : CmdStream :=
  { exampleStream true false with m_optimizerOther := trackingOther }

/-- The packets of the image of the instance: the context register 5 set to 1, then a NOP. -/
def exampleImage : List Command :=
  [.set { header := { space := .context, shaderType := .ShaderGraphics, index := none,
                      regOffset := 5, numRegs := 1 }
          data := [1] },
   .other [3] (fun r => r)]

/-- A sequence of calls over the whole write surface for the instance of the cache invariant. -/
def trackedOps : List WriteOp :=
  [.setOneContextReg none 5 7, .setOneContextReg (some true) 5 7, .contextRegRmw none 5 255 3,
   .setIaMultiVgtParam true 9, .setPaScRasterConfig 2,
   .userDataRegisters exampleEntryMap exampleUserData .ShaderCompute,
   .setShRegDataOffset .ShaderCompute none 20 64, .setOnePrivilegedConfigReg 8200 1,
   .setOneConfigReg 8 2, .pm4Image 4 (arrayOf [9, 5, 1, 3])]

/-! ## Memory lemmas -/

theorem memcpy_outside (mem : CmdSpace) (dst : Nat) (src : Nat → Nat) (n a : Nat)
    (h : a < dst ∨ dst + n ≤ a) : memcpy mem dst src n a = mem a := by
  unfold memcpy
  rw [if_neg]
  omega

theorem memcpy_inside (mem : CmdSpace) (dst : Nat) (src : Nat → Nat) (n i : Nat) (h : i < n) :
    memcpy mem dst src n (dst + i) = src i := by
  unfold memcpy
  rw [if_pos (by omega)]
  congr 1
  omega

theorem store_same (mem : CmdSpace) (p v : Nat) : store mem p v p = v := by
  simp [store]

theorem store_other (mem : CmdSpace) (p v a : Nat) (h : a ≠ p) : store mem p v a = mem a := by
  simp [store, h]

theorem readWords_length (mem : CmdSpace) (p n : Nat) : (readWords mem p n).length = n := by
  simp [readWords]

/-- The words of a one-register packet after the header and the value have been stored. -/
theorem readWords_onePacket (cu : CmdUtil) (mem : CmdSpace) (p : Nat) (d : PM4CMDSETDATA)
    (v : Nat) :
    readWords (store (cu.writeHeader mem p d) (p + cu.PM4_CMD_SET_DATA_DWORDS) v) p
      (cu.PM4_CMD_SET_DATA_DWORDS + 1) = cu.packetWords d [v] := by
  unfold readWords CmdUtil.packetWords
  rw [List.range_succ, List.map_append]
  congr 1
  · apply List.map_congr_left
    intro i hi
    have hi2 : i < cu.PM4_CMD_SET_DATA_DWORDS := List.mem_range.mp hi
    rw [store_other _ _ _ _ (by omega)]
    exact memcpy_inside _ _ _ _ _ hi2
  · simp [store_same]

/-- The words outside a one-register packet are kept. -/
theorem onePacket_outside (cu : CmdUtil) (mem : CmdSpace) (p : Nat) (d : PM4CMDSETDATA)
    (v a : Nat) (h : a < p ∨ p + cu.PM4_CMD_SET_DATA_DWORDS < a) :
    store (cu.writeHeader mem p d) (p + cu.PM4_CMD_SET_DATA_DWORDS) v a = mem a := by
  rw [store_other _ _ _ _ (by omega)]
  exact memcpy_outside _ _ _ _ _ (by omega)

/-! ## Writing packets -/

theorem readWords_append (mem : CmdSpace) (p m n : Nat) :
    readWords mem p (m + n) = readWords mem p m ++ readWords mem (p + m) n := by
  unfold readWords
  rw [List.range_add, List.map_append, List.map_map]
  congr 1
  apply List.map_congr_left
  intro i _
  simp [Nat.add_assoc]

theorem readWords_congr (mem1 mem2 : CmdSpace) (p n : Nat)
    (h : ∀ a, p ≤ a → a < p + n → mem1 a = mem2 a) : readWords mem1 p n = readWords mem2 p n := by
  unfold readWords
  apply List.map_congr_left
  intro i hi
  have hi2 : i < n := List.mem_range.mp hi
  exact h _ (by omega) (by omega)

theorem arrayOf_map_range (f : Nat → Nat) (n i : Nat) (h : i < n) :
    arrayOf ((List.range n).map f) i = f i := by
  simp [arrayOf, List.getD_eq_getElem?_getD, h]

theorem readWords_arrayOf (data : List Nat) (mem : CmdSpace) (p : Nat) :
    readWords (memcpy mem p (arrayOf data) data.length) p data.length = data := by
  apply List.ext_getElem
  · simp [readWords]
  · intro i h1 h2
    simp only [readWords, List.getElem_map, List.getElem_range]
    rw [memcpy_inside _ _ _ _ _ h2]
    simp [arrayOf, List.getD_eq_getElem?_getD, h2]

theorem writePacket_cursor (cu : CmdUtil) (mem : CmdSpace) (p : Nat) (d : PM4CMDSETDATA)
    (data : List Nat) :
    (cu.writePacket mem p d data).2 = p + (cu.packetWords d data).length := by
  simp [CmdUtil.writePacket, CmdUtil.packetWords, Nat.add_assoc]

theorem writePacket_outside (cu : CmdUtil) (mem : CmdSpace) (p : Nat) (d : PM4CMDSETDATA)
    (data : List Nat) (a : Nat) (h : a < p ∨ (cu.writePacket mem p d data).2 ≤ a) :
    (cu.writePacket mem p d data).1 a = mem a := by
  simp only [CmdUtil.writePacket] at h ⊢
  rw [memcpy_outside _ _ _ _ _ (by omega)]
  exact memcpy_outside _ _ _ _ _ (by omega)

theorem writePacket_read (cu : CmdUtil) (mem : CmdSpace) (p : Nat) (d : PM4CMDSETDATA)
    (data : List Nat) :
    readWords (cu.writePacket mem p d data).1 p (cu.packetWords d data).length =
      cu.packetWords d data := by
  have hlen : (cu.packetWords d data).length = cu.PM4_CMD_SET_DATA_DWORDS + data.length := by
    simp [CmdUtil.packetWords]
  rw [hlen, readWords_append]
  unfold CmdUtil.packetWords
  congr 1
  · unfold readWords
    apply List.map_congr_left
    intro i hi
    have hi2 : i < cu.PM4_CMD_SET_DATA_DWORDS := List.mem_range.mp hi
    simp only [CmdUtil.writePacket]
    rw [memcpy_outside _ _ _ _ _ (by omega)]
    exact memcpy_inside _ _ _ _ _ hi2
  · exact readWords_arrayOf _ _ _

theorem words_cons (cu : CmdUtil) (pk : Packet) (ps : List Packet) :
    cu.words (pk :: ps) = cu.packetWords pk.header pk.data ++ cu.words ps := by
  simp [CmdUtil.words]

theorem words_append (cu : CmdUtil) (ps qs : List Packet) :
    cu.words (ps ++ qs) = cu.words ps ++ cu.words qs := by
  simp [CmdUtil.words]

theorem writePackets_cursor (cu : CmdUtil) (ps : List Packet) (mem : CmdSpace) (p : Nat) :
    (cu.writePackets ps mem p).2 = p + (cu.words ps).length := by
  induction ps generalizing mem p with
  | nil => simp [CmdUtil.writePackets, CmdUtil.words]
  | cons pk ps ih =>
    simp only [CmdUtil.writePackets]
    rw [ih, writePacket_cursor, words_cons, List.length_append]
    omega

theorem writePackets_outside (cu : CmdUtil) (ps : List Packet) (mem : CmdSpace) (p a : Nat)
    (h : a < p ∨ (cu.writePackets ps mem p).2 ≤ a) : (cu.writePackets ps mem p).1 a = mem a := by
  induction ps generalizing mem p with
  | nil => simp [CmdUtil.writePackets]
  | cons pk ps ih =>
    simp only [CmdUtil.writePackets] at h ⊢
    have hc := writePackets_cursor cu ps (cu.writePacket mem p pk.header pk.data).1
      (cu.writePacket mem p pk.header pk.data).2
    have hp := writePacket_cursor cu mem p pk.header pk.data
    rw [ih _ _ (by omega)]
    exact writePacket_outside _ _ _ _ _ _ (by omega)

theorem writePackets_read (cu : CmdUtil) (ps : List Packet) (mem : CmdSpace) (p : Nat) :
    readWords (cu.writePackets ps mem p).1 p (cu.words ps).length = cu.words ps := by
  induction ps generalizing mem p with
  | nil => simp [CmdUtil.writePackets, CmdUtil.words, readWords]
  | cons pk ps ih =>
    simp only [CmdUtil.writePackets]
    rw [words_cons, List.length_append, readWords_append]
    have hp := writePacket_cursor cu mem p pk.header pk.data
    congr 1
    · refine Eq.trans ?_ (writePacket_read cu mem p pk.header pk.data)
      apply readWords_congr
      intro a _ ha2
      exact writePackets_outside _ _ _ _ _ (by omega)
    · rw [← hp]
      exact ih _ _

theorem writeRuns_eq (cu : CmdUtil) (d : PM4CMDSETDATA) (vals : List Nat)
    (runs : List (Nat × Nat)) (mem : CmdSpace) (p : Nat) :
    cu.writeRuns d vals runs mem p = cu.writePackets (runPackets d vals runs) mem p := by
  induction runs generalizing mem p with
  | nil => rfl
  | cons run runs ih =>
    simp only [CmdUtil.writeRuns, runPackets, List.map_cons, CmdUtil.writePackets]
    exact ih _ _

/-! ## The write operations, packet by packet -/

theorem payloadDwords_framed (cu : CmdUtil) (n : Nat) (hh : cu.PM4_CMD_SET_DATA_DWORDS < 2 ^ 32)
    (hn : n ≤ 2 ^ 32) : payloadDwords cu (cu.PM4_CMD_SET_DATA_DWORDS + n) = n := by
  unfold payloadDwords
  norm_num at hh hn ⊢
  omega

theorem store_eq_writePacket (cu : CmdUtil) (mem : CmdSpace) (p : Nat) (d : PM4CMDSETDATA)
    (v : Nat) :
    store (cu.writeHeader mem p d) (p + cu.PM4_CMD_SET_DATA_DWORDS) v =
      (cu.writePacket mem p d [v]).1 := by
  funext a
  simp only [CmdUtil.writePacket, List.length_singleton]
  by_cases h : a = p + cu.PM4_CMD_SET_DATA_DWORDS
  · subst h
    rw [store_same]
    have := memcpy_inside (cu.writeHeader mem p d) (p + cu.PM4_CMD_SET_DATA_DWORDS)
      (arrayOf [v]) 1 0 (by omega)
    simp only [Nat.add_zero] at this
    rw [this]
    rfl
  · rw [store_other _ _ _ _ h, memcpy_outside _ _ _ _ _ (by omega)]

theorem memcpy_eq_writePacket (cu : CmdUtil) (mem : CmdSpace) (p : Nat) (d : PM4CMDSETDATA)
    (f : Nat → Nat) (n : Nat) :
    memcpy (cu.writeHeader mem p d) (p + cu.PM4_CMD_SET_DATA_DWORDS) f n =
      (cu.writePacket mem p d ((List.range n).map f)).1 := by
  funext a
  simp only [CmdUtil.writePacket, List.length_map, List.length_range]
  by_cases h : p + cu.PM4_CMD_SET_DATA_DWORDS ≤ a ∧ a < p + cu.PM4_CMD_SET_DATA_DWORDS + n
  · obtain ⟨i, rfl⟩ : ∃ i, a = p + cu.PM4_CMD_SET_DATA_DWORDS + i := ⟨a - (p + cu.PM4_CMD_SET_DATA_DWORDS), by omega⟩
    have hi : i < n := by omega
    rw [memcpy_inside _ _ _ _ _ hi, memcpy_inside _ _ _ _ _ hi, arrayOf_map_range _ _ _ hi]
  · rw [memcpy_outside _ _ _ _ _ (by omega), memcpy_outside _ _ _ _ _ (by omega)]

theorem subRun_whole (d : PM4CMDSETDATA) (h : d.numRegs = 1) : d.subRun (0, 1) = d := by
  cases d
  simp only [PM4CMDSETDATA.subRun, Nat.add_zero] at h ⊢
  simp [h]

/-- A raw one-register write leaves exactly the packet of the request. -/
theorem rawOne_eq (cu : CmdUtil) (built : Nat × PM4CMDSETDATA) (sp : RegSpace) (a v : Nat)
    (hF : cu.Frames built sp a 1) (mem : CmdSpace) (p : Nat) :
    (store (cu.writeHeader mem p built.2) (p + cu.PM4_CMD_SET_DATA_DWORDS) v, p + built.1) =
      cu.writePackets [{ header := built.2, data := [v] }] mem p := by
  simp only [CmdUtil.writePackets, store_eq_writePacket, hF.1]
  simp [CmdUtil.writePacket, Nat.add_assoc]

/-- A raw range write leaves exactly the packet of the request. -/
theorem rawSeq_eq (cu : CmdUtil) (hh : cu.PM4_CMD_SET_DATA_DWORDS < 2 ^ 32)
    (built : Nat × PM4CMDSETDATA) (sp : RegSpace) (a n : Nat) (hn : n ≤ 2 ^ 32)
    (hF : cu.Frames built sp a n) (f : Nat → Nat) (mem : CmdSpace) (p : Nat) :
    (memcpy (cu.writeHeader mem p built.2) (p + cu.PM4_CMD_SET_DATA_DWORDS) f
        (payloadDwords cu built.1), p + built.1) =
      cu.writePackets [{ header := built.2, data := (List.range n).map f }] mem p := by
  simp only [CmdUtil.writePackets, hF.1, payloadDwords_framed cu n hh hn, memcpy_eq_writePacket]
  simp [CmdUtil.writePacket, Nat.add_assoc]

/-- An optimized one-register write leaves the sub-run packets of the one-register range. -/
theorem optOne_eq (cu : CmdUtil) (o : Pm4Optimizer) (built : Nat × PM4CMDSETDATA)
    (sp : RegSpace) (a v : Nat) (hF : cu.Frames built sp a 1) (mem : CmdSpace) (p : Nat) :
    (if (o.UpdateRegState sp a v).1 = true then
        (store (cu.writeHeader mem p built.2) (p + cu.PM4_CMD_SET_DATA_DWORDS) v, p + built.1)
      else (mem, p)) =
      cu.writePackets (runPackets built.2 [v] (subRuns (o.scanRange sp a [v]).1 0 none)) mem p := by
  simp only [Pm4Optimizer.scanRange]
  cases hk : (o.UpdateRegState sp a v).1
  · simp [subRuns, runPackets, CmdUtil.writePackets]
  · simp only [subRuns, runPackets, List.map_cons, List.map_nil, if_true]
    rw [show (1 : Nat) - 0 = 1 from rfl, subRun_whole _ hF.2.2.2]
    exact rawOne_eq cu built sp a v hF mem p

theorem optimizes_config (s : CmdStream) (w : RegWrite) (h : w.target.1 = .config) :
    s.optimizes w = false := by
  simp [CmdStream.optimizes, h]

theorem range_bound (a b : Nat) (hb : b < 2 ^ 32) : b - a + 1 ≤ 2 ^ 32 := by
  omega

/-- Every write operation of the request surface, on a framing encoder: the stream keeps all but
its optimizer, the memory and the cursor are those of writing the emitted packets at the cursor,
and no assertion fails. -/
theorem write_eq (s : CmdStream) (hWF : s.m_cmdUtil.WellFramed) (w : RegWrite)
    (hw : w.WellFormed) (mem : CmdSpace) (p : Nat) :
    s.write w mem p =
      { stream := s.withOptimizer (s.optimizerAfter w)
        mem := (s.m_cmdUtil.writePackets (s.emitted w) mem p).1
        pCmdSpace := (s.m_cmdUtil.writePackets (s.emitted w) mem p).2
        assertsHeld := true } := by
  cases w with
  | oneConfig a v =>
    have h := rawOne_eq s.m_cmdUtil _ .config a v (hWF.oneConfig a none) mem p
    simp only [CmdStream.write, CmdStream.WriteSetOneConfigReg, CmdStream.emitted,
      CmdStream.optimizerAfter, optimizes_config s (.oneConfig a v) rfl, RegWrite.header, RegWrite.target,
      Bool.false_eq_true, if_false, ← h]
    rfl
  | seqConfig a b f =>
    have h := rawSeq_eq s.m_cmdUtil hWF.hdrSmall _ .config a (b - a + 1) (range_bound a b hw.2)
      (hWF.seqConfig a b hw.1) f mem p
    simp only [CmdStream.write, CmdStream.WriteSetSeqConfigRegs, CmdStream.emitted,
      CmdStream.optimizerAfter, optimizes_config s (.seqConfig a b f) rfl, RegWrite.header, RegWrite.target,
      Bool.false_eq_true, if_false, ← h]
    rfl
  | oneContext a v =>
    cases hI : s.optModeImmediate
    · have h := rawOne_eq s.m_cmdUtil _ .context a v (hWF.oneContext a none) mem p
      simp only [CmdStream.write, CmdStream.WriteSetOneContextRegDyn,
        CmdStream.WriteSetOneContextReg, CmdStream.emitted, CmdStream.optimizerAfter,
        CmdStream.optimizes, hI, Bool.false_and, RegWrite.header, RegWrite.target,
        Bool.false_eq_true, if_false, if_true, ← h, beq_self_eq_true]
      rfl
    · have h := optOne_eq s.m_cmdUtil s.m_pPm4Optimizer _ .context a v (hWF.oneContext a none)
        mem p
      simp only [CmdStream.write, CmdStream.WriteSetOneContextRegDyn,
        CmdStream.WriteSetOneContextReg, CmdStream.emitted, CmdStream.optimizerAfter,
        CmdStream.optimizes, hI, Bool.true_and, RegWrite.header, RegWrite.target,
        Bool.true_eq_false, if_false, if_true, ← h, beq_self_eq_true,
        Pm4Optimizer.MustKeepSetContextReg, Pm4Optimizer.scanRange]
      cases hk : (s.m_pPm4Optimizer.UpdateRegState .context a v).1 <;>
        simp only [Pm4Optimizer.scanRange, hk, Bool.false_eq_true, if_false, if_true] at h <;>
        simp [← h]
  | seqContext a b f =>
    cases hI : s.optModeImmediate
    · have h := rawSeq_eq s.m_cmdUtil hWF.hdrSmall _ .context a (b - a + 1)
        (range_bound a b hw.2) (hWF.seqContext a b hw.1) f mem p
      simp only [CmdStream.write, CmdStream.WriteSetSeqContextRegsDyn,
        CmdStream.WriteSetSeqContextRegs, CmdStream.emitted, CmdStream.optimizerAfter,
        CmdStream.optimizes, hI, Bool.false_and, RegWrite.header, RegWrite.target,
        Bool.false_eq_true, if_false, if_true, ← h, beq_self_eq_true]
      rfl
    · have hF := hWF.seqContext a b hw.1
      simp only [CmdStream.write, CmdStream.WriteSetSeqContextRegsDyn,
        CmdStream.WriteSetSeqContextRegs, CmdStream.emitted, CmdStream.optimizerAfter,
        CmdStream.optimizes, hI, Bool.true_and, RegWrite.header, RegWrite.target,
        if_true, beq_self_eq_true, Pm4Optimizer.WriteOptimizedSetSeqContextRegs,
        Pm4Optimizer.OptimizePm4SetReg, writeRuns_eq, hF.2.2.1, hF.2.2.2]
      simp
  | oneSh t a v =>
    cases hI : s.optModeImmediate
    · have h := rawOne_eq s.m_cmdUtil _ .sh a v (hWF.oneSh a t) mem p
      simp only [CmdStream.write, CmdStream.WriteSetOneShRegDyn,
        CmdStream.WriteSetOneShReg, CmdStream.emitted, CmdStream.optimizerAfter,
        CmdStream.optimizes, hI, Bool.false_and, RegWrite.header, RegWrite.target,
        Bool.false_eq_true, if_false, if_true, ← h, beq_self_eq_true]
      rfl
    · have h := optOne_eq s.m_cmdUtil s.m_pPm4Optimizer _ .sh a v (hWF.oneSh a t) mem p
      simp only [CmdStream.write, CmdStream.WriteSetOneShRegDyn,
        CmdStream.WriteSetOneShReg, CmdStream.emitted, CmdStream.optimizerAfter,
        CmdStream.optimizes, hI, Bool.true_and, RegWrite.header, RegWrite.target,
        Bool.true_eq_false, if_false, if_true, ← h, beq_self_eq_true,
        Pm4Optimizer.MustKeepSetShReg, Pm4Optimizer.scanRange]
      cases hk : (s.m_pPm4Optimizer.UpdateRegState .sh a v).1 <;>
        simp only [Pm4Optimizer.scanRange, hk, Bool.false_eq_true, if_false, if_true] at h <;>
        simp [← h]
  | seqSh a b t f =>
    cases hI : s.optModeImmediate
    · have h := rawSeq_eq s.m_cmdUtil hWF.hdrSmall _ .sh a (b - a + 1)
        (range_bound a b hw.2) (hWF.seqSh a b t hw.1) f mem p
      simp only [CmdStream.write, CmdStream.WriteSetSeqShRegs, CmdStream.emitted,
        CmdStream.optimizerAfter, CmdStream.optimizes, hI, Bool.false_and, RegWrite.header,
        RegWrite.target, Bool.false_eq_true, if_false, if_true, ← h]
      rfl
    · have hF := hWF.seqSh a b t hw.1
      simp only [CmdStream.write, CmdStream.WriteSetSeqShRegs, CmdStream.emitted,
        CmdStream.optimizerAfter, CmdStream.optimizes, hI, Bool.true_and, RegWrite.header,
        RegWrite.target, if_true, Pm4Optimizer.WriteOptimizedSetSeqShRegs,
        Pm4Optimizer.OptimizePm4SetReg, writeRuns_eq, hF.2.2.1, hF.2.2.2]
      simp

/-! ## C1: the single-register writes in Immediate mode -/

/-- C1. In Immediate mode, `WriteSetOneContextReg<true>` and `WriteSetOneShReg<_, true>` write no
word and return the cursor unchanged when the optimizer reports the write redundant; otherwise
they write one set packet at the cursor, the header the encoder built followed by the value at
index `PM4_CMD_SET_DATA_DWORDS`, change no other word, and return the cursor advanced by the size
the encoder reports. The mode assertion holds in both cases. -/
theorem WriteSetOneReg_immediate (s : CmdStream) (hImm : s.optModeImmediate = true)
    (shaderType : PM4ShaderType) (regAddr regData : Nat) (mem : CmdSpace) (pCmdSpace : Nat) :
    ((s.m_pPm4Optimizer.MustKeepSetContextReg regAddr regData).1 = false →
      (s.WriteSetOneContextReg true regAddr regData mem pCmdSpace).mem = mem ∧
      (s.WriteSetOneContextReg true regAddr regData mem pCmdSpace).pCmdSpace = pCmdSpace) ∧
    ((s.m_pPm4Optimizer.MustKeepSetContextReg regAddr regData).1 = true →
      readWords (s.WriteSetOneContextReg true regAddr regData mem pCmdSpace).mem pCmdSpace
          (s.m_cmdUtil.PM4_CMD_SET_DATA_DWORDS + 1) =
        s.m_cmdUtil.packetWords (s.m_cmdUtil.BuildSetOneContextReg regAddr none).2 [regData] ∧
      (s.WriteSetOneContextReg true regAddr regData mem pCmdSpace).mem
          (pCmdSpace + s.m_cmdUtil.PM4_CMD_SET_DATA_DWORDS) = regData ∧
      (∀ a, a < pCmdSpace ∨ pCmdSpace + s.m_cmdUtil.PM4_CMD_SET_DATA_DWORDS < a →
        (s.WriteSetOneContextReg true regAddr regData mem pCmdSpace).mem a = mem a) ∧
      (s.WriteSetOneContextReg true regAddr regData mem pCmdSpace).pCmdSpace =
        pCmdSpace + (s.m_cmdUtil.BuildSetOneContextReg regAddr none).1) ∧
    (s.WriteSetOneContextReg true regAddr regData mem pCmdSpace).assertsHeld = true ∧
    ((s.m_pPm4Optimizer.MustKeepSetShReg regAddr regData).1 = false →
      (s.WriteSetOneShReg shaderType true regAddr regData mem pCmdSpace).mem = mem ∧
      (s.WriteSetOneShReg shaderType true regAddr regData mem pCmdSpace).pCmdSpace = pCmdSpace) ∧
    ((s.m_pPm4Optimizer.MustKeepSetShReg regAddr regData).1 = true →
      readWords (s.WriteSetOneShReg shaderType true regAddr regData mem pCmdSpace).mem pCmdSpace
          (s.m_cmdUtil.PM4_CMD_SET_DATA_DWORDS + 1) =
        s.m_cmdUtil.packetWords (s.m_cmdUtil.BuildSetOneShReg regAddr shaderType).2 [regData] ∧
      (s.WriteSetOneShReg shaderType true regAddr regData mem pCmdSpace).mem
          (pCmdSpace + s.m_cmdUtil.PM4_CMD_SET_DATA_DWORDS) = regData ∧
      (∀ a, a < pCmdSpace ∨ pCmdSpace + s.m_cmdUtil.PM4_CMD_SET_DATA_DWORDS < a →
        (s.WriteSetOneShReg shaderType true regAddr regData mem pCmdSpace).mem a = mem a) ∧
      (s.WriteSetOneShReg shaderType true regAddr regData mem pCmdSpace).pCmdSpace =
        pCmdSpace + (s.m_cmdUtil.BuildSetOneShReg regAddr shaderType).1) ∧
    (s.WriteSetOneShReg shaderType true regAddr regData mem pCmdSpace).assertsHeld = true := by
  refine ⟨?_, ?_, ?_, ?_, ?_, ?_⟩
  · intro h
    simp [CmdStream.WriteSetOneContextReg, h]
  · intro h
    simp only [CmdStream.WriteSetOneContextReg, h, if_true, Bool.true_eq_false, if_false]
    exact ⟨readWords_onePacket _ _ _ _ _, store_same _ _ _,
      fun a ha => onePacket_outside _ _ _ _ _ _ ha, trivial⟩
  · unfold CmdStream.WriteSetOneContextReg
    simp only [Bool.true_eq_false, if_false]
    split <;> simp [hImm]
  · intro h
    simp [CmdStream.WriteSetOneShReg, h]
  · intro h
    simp only [CmdStream.WriteSetOneShReg, h, if_true, Bool.true_eq_false, if_false]
    exact ⟨readWords_onePacket _ _ _ _ _, store_same _ _ _,
      fun a ha => onePacket_outside _ _ _ _ _ _ ha, trivial⟩
  · unfold CmdStream.WriteSetOneShReg
    simp only [Bool.true_eq_false, if_false]
    split <;> simp [hImm]

/-- C1 at a concrete stream: an Immediate-mode stream with an empty cache. -/
theorem WriteSetOneReg_immediate_witness :
    (exampleStream true false).optModeImmediate = true ∧
    ((exampleStream true false).WriteSetOneContextReg true 7 42 zeroMem 10).pCmdSpace = 13 ∧
    ((exampleStream true false).WriteSetOneContextReg true 7 42 zeroMem 10).mem 12 = 42 :=
  ⟨rfl,
   ((WriteSetOneReg_immediate (exampleStream true false) rfl .ShaderGraphics 7 42 zeroMem 10).2.1
      (by decide)).2.2.2,
   ((WriteSetOneReg_immediate (exampleStream true false) rfl .ShaderGraphics 7 42 zeroMem 10).2.1
      (by decide)).2.1⟩

/-! ## Sub-runs of a scanned range -/

theorem getElem?_cons_sub (k : Bool) (ks : List Bool) (i j : Nat) (h : i < j) :
    (k :: ks)[j - i]? = ks[j - (i + 1)]? := by
  obtain ⟨m, rfl⟩ : ∃ m, j = i + 1 + m := ⟨j - (i + 1), by omega⟩
  have h1 : i + 1 + m - i = m + 1 := by omega
  have h2 : i + 1 + m - (i + 1) = m := by omega
  rw [h1, h2, List.getElem?_cons_succ]

theorem getElem?_cons_self (k : Bool) (ks : List Bool) (i : Nat) :
    (k :: ks)[i - i]? = some k := by
  simp

theorem subRuns_bounds (ks : List Bool) (i : Nat) (cur : Option Nat)
    (hcur : ∀ s, cur = some s → s < i) :
    ∀ run ∈ subRuns ks i cur,
      0 < run.2 ∧ runFloor i cur ≤ run.1 ∧ run.1 + run.2 ≤ i + ks.length := by
  induction ks generalizing i cur with
  | nil =>
    cases cur with
    | none => simp [subRuns]
    | some s =>
      have := hcur s rfl
      simp only [subRuns, List.mem_singleton, runFloor, List.length_nil]
      rintro run rfl
      simp only
      omega
  | cons k ks ih =>
    intro run hrun
    simp only [List.length_cons]
    cases k with
    | false =>
      cases cur with
      | none =>
        have := ih (i + 1) none (by simp) run hrun
        simp only [runFloor] at this ⊢
        omega
      | some s =>
        have hs := hcur s rfl
        simp only [subRuns, List.mem_cons] at hrun
        rcases hrun with rfl | hrun
        · simp only [runFloor]
          omega
        · have := ih (i + 1) none (by simp) run hrun
          simp only [runFloor] at this ⊢
          omega
    | true =>
      cases cur with
      | none =>
        have := ih (i + 1) (some i) (by intro s hs; cases hs; omega) run hrun
        simp only [runFloor] at this ⊢
        omega
      | some s =>
        have hs := hcur s rfl
        have := ih (i + 1) (some s) (by intro s2 hs2; cases hs2; omega) run hrun
        simp only [runFloor] at this ⊢
        omega

theorem subRuns_gaps (ks : List Bool) (i : Nat) (cur : Option Nat)
    (hcur : ∀ s, cur = some s → s < i) :
    (subRuns ks i cur).Pairwise (fun r1 r2 => r1.1 + r1.2 < r2.1) := by
  induction ks generalizing i cur with
  | nil =>
    cases cur <;> simp [subRuns]
  | cons k ks ih =>
    cases k with
    | false =>
      cases cur with
      | none => exact ih (i + 1) none (by simp)
      | some s =>
        have hs := hcur s rfl
        simp only [subRuns]
        refine List.Pairwise.cons ?_ (ih (i + 1) none (by simp))
        intro run hrun
        have := subRuns_bounds ks (i + 1) none (by simp) run hrun
        simp only [runFloor] at this
        simp only
        omega
    | true =>
      cases cur with
      | none => exact ih (i + 1) (some i) (by intro s hs; cases hs; omega)
      | some s =>
        have hs := hcur s rfl
        exact ih (i + 1) (some s) (by intro s2 hs2; cases hs2; omega)

theorem kept_nil_none (i j : Nat) : ¬ Kept [] i none j := by
  simp [Kept]

theorem kept_nil_some (i s j : Nat) : Kept [] i (some s) j ↔ s ≤ j ∧ j < i := by
  simp [Kept]

theorem kept_false_none (ks : List Bool) (i j : Nat) :
    Kept (false :: ks) i none j ↔ Kept ks (i + 1) none j := by
  simp only [Kept, false_and, exists_false, false_or, reduceCtorEq]
  constructor
  · rintro ⟨h1, h2⟩
    rcases Nat.eq_or_lt_of_le h1 with rfl | hlt
    · simp at h2
    · exact ⟨hlt, by rw [getElem?_cons_sub _ _ _ _ hlt] at h2; exact h2⟩
  · rintro ⟨h1, h2⟩
    exact ⟨by omega, by rw [getElem?_cons_sub _ _ _ _ (by omega)]; exact h2⟩

theorem kept_true_none (ks : List Bool) (i j : Nat) :
    Kept (true :: ks) i none j ↔ Kept ks (i + 1) (some i) j := by
  simp only [Kept, false_and, exists_false, false_or, reduceCtorEq, Option.some.injEq,
    exists_eq_left']
  constructor
  · rintro ⟨h1, h2⟩
    rcases Nat.eq_or_lt_of_le h1 with rfl | hlt
    · left
      omega
    · right
      exact ⟨hlt, by rw [getElem?_cons_sub _ _ _ _ hlt] at h2; exact h2⟩
  · rintro (⟨h1, h2⟩ | ⟨h1, h2⟩)
    · have : j = i := by omega
      subst this
      simp
    · exact ⟨by omega, by rw [getElem?_cons_sub _ _ _ _ (by omega)]; exact h2⟩

theorem kept_true_some (ks : List Bool) (i s j : Nat) (hs : s ≤ i) :
    Kept (true :: ks) i (some s) j ↔ Kept ks (i + 1) (some s) j := by
  simp only [Kept, Option.some.injEq, exists_eq_left']
  constructor
  · rintro (⟨h1, h2⟩ | ⟨h1, h2⟩)
    · left
      omega
    · rcases Nat.eq_or_lt_of_le h1 with rfl | hlt
      · left
        omega
      · right
        exact ⟨hlt, by rw [getElem?_cons_sub _ _ _ _ hlt] at h2; exact h2⟩
  · rintro (⟨h1, h2⟩ | ⟨h1, h2⟩)
    · rcases Nat.eq_or_lt_of_le (Nat.le_of_lt_succ h2) with rfl | hlt
      · right
        simp
      · left
        omega
    · right
      exact ⟨by omega, by rw [getElem?_cons_sub _ _ _ _ (by omega)]; exact h2⟩

theorem kept_false_some (ks : List Bool) (i s j : Nat) :
    Kept (false :: ks) i (some s) j ↔ (s ≤ j ∧ j < i) ∨ Kept ks (i + 1) none j := by
  rw [← kept_false_none]
  simp [Kept]

theorem subRuns_covers (ks : List Bool) (i : Nat) (cur : Option Nat)
    (hcur : ∀ s, cur = some s → s < i) (j : Nat) :
    (∃ run ∈ subRuns ks i cur, run.1 ≤ j ∧ j < run.1 + run.2) ↔ Kept ks i cur j := by
  induction ks generalizing i cur with
  | nil =>
    cases cur with
    | none => simp [subRuns, kept_nil_none]
    | some s =>
      have := hcur s rfl
      rw [kept_nil_some]
      simp only [subRuns, List.mem_singleton, exists_eq_left]
      constructor
      · rintro ⟨h1, h2⟩
        exact ⟨h1, by omega⟩
      · rintro ⟨h1, h2⟩
        exact ⟨h1, by omega⟩
  | cons k ks ih =>
    cases k with
    | false =>
      cases cur with
      | none =>
        rw [kept_false_none, ← ih (i + 1) none (by simp)]
        simp only [subRuns]
      | some s =>
        have := hcur s rfl
        rw [kept_false_some, ← ih (i + 1) none (by simp)]
        simp only [subRuns, List.mem_cons]
        constructor
        · rintro ⟨run, rfl | hrun, h1, h2⟩
          · left
            simp only at h1 h2
            omega
          · exact Or.inr ⟨run, hrun, h1, h2⟩
        · rintro (⟨h1, h2⟩ | ⟨run, hrun, h⟩)
          · exact ⟨(s, i - s), Or.inl rfl, h1, by simp only; omega⟩
          · exact ⟨run, Or.inr hrun, h⟩
    | true =>
      cases cur with
      | none =>
        rw [kept_true_none, ← ih (i + 1) (some i) (by intro s hs; cases hs; omega)]
        simp only [subRuns]
      | some s =>
        have := hcur s rfl
        rw [kept_true_some _ _ _ _ (by omega), ← ih (i + 1) (some s) (by intro s2 hs2; cases hs2; omega)]
        simp only [subRuns]

/-! ## The scan of a range -/

theorem mustKeep_congr (o1 o2 : Pm4Optimizer) (sp : RegSpace) (b v : Nat)
    (h1 : o1.regs sp b = o2.regs sp b) (h2 : o1.nonCacheable sp b = o2.nonCacheable sp b) :
    o1.mustKeep sp b v = o2.mustKeep sp b v := by
  simp [Pm4Optimizer.mustKeep, h1, h2]

theorem UpdateRegState_fst (o : Pm4Optimizer) (sp : RegSpace) (a v : Nat) :
    (o.UpdateRegState sp a v).1 = o.mustKeep sp a v := by
  unfold Pm4Optimizer.UpdateRegState
  split <;> simp_all

theorem UpdateRegState_nonCacheable (o : Pm4Optimizer) (sp : RegSpace) (a v : Nat) :
    (o.UpdateRegState sp a v).2.nonCacheable = o.nonCacheable := by
  unfold Pm4Optimizer.UpdateRegState
  split <;> rfl

theorem UpdateRegState_regs (o : Pm4Optimizer) (sp : RegSpace) (a v : Nat) (sp2 : RegSpace)
    (b : Nat) :
    (o.UpdateRegState sp a v).2.regs sp2 b =
      if sp2 = sp ∧ b = a ∧ o.mustKeep sp a v = true then { valid := true, value := v }
      else o.regs sp2 b := by
  unfold Pm4Optimizer.UpdateRegState
  by_cases hk : o.mustKeep sp a v = true
  · simp only [hk, if_true, Pm4Optimizer.setEntry, and_true]
  · simp only [hk, if_false, and_false, Bool.false_eq_true]

theorem scanRange_length (o : Pm4Optimizer) (sp : RegSpace) (a : Nat) (vs : List Nat) :
    (o.scanRange sp a vs).1.length = vs.length := by
  induction vs generalizing o a with
  | nil => rfl
  | cons v vs ih => simp [Pm4Optimizer.scanRange, ih]

theorem scanRange_nonCacheable (o : Pm4Optimizer) (sp : RegSpace) (a : Nat) (vs : List Nat) :
    (o.scanRange sp a vs).2.nonCacheable = o.nonCacheable := by
  induction vs generalizing o a with
  | nil => rfl
  | cons v vs ih => simp [Pm4Optimizer.scanRange, ih, UpdateRegState_nonCacheable]

/-- The decision the scan takes for the register at index `j` is the single-register decision
against the cache the scan started from. -/
theorem scanRange_keeps (o : Pm4Optimizer) (sp : RegSpace) (a : Nat) (vs : List Nat) (j : Nat) :
    (o.scanRange sp a vs).1[j]? = (vs[j]?).map (fun v => o.mustKeep sp (a + j) v) := by
  induction vs generalizing o a j with
  | nil => simp [Pm4Optimizer.scanRange]
  | cons v vs ih =>
    cases j with
    | zero => simp [Pm4Optimizer.scanRange, UpdateRegState_fst]
    | succ j =>
      simp only [Pm4Optimizer.scanRange, List.getElem?_cons_succ, ih]
      congr 1
      funext w
      have hb : a + 1 + j = a + (j + 1) := by omega
      rw [hb]
      apply mustKeep_congr
      · rw [UpdateRegState_regs, if_neg (by omega)]
      · rw [UpdateRegState_nonCacheable]

/-- The cache a scan leaves: the entries of the kept registers of the range hold the written
values and are valid, every other entry is as before. -/
theorem scanRange_regs (o : Pm4Optimizer) (sp : RegSpace) (a : Nat) (vs : List Nat)
    (sp2 : RegSpace) (b : Nat) :
    (o.scanRange sp a vs).2.regs sp2 b =
      if sp2 = sp ∧ a ≤ b ∧ b < a + vs.length ∧ o.mustKeep sp b (vs.getD (b - a) 0) = true then
        { valid := true, value := vs.getD (b - a) 0 }
      else o.regs sp2 b := by
  induction vs generalizing o a with
  | nil =>
    simp only [Pm4Optimizer.scanRange, List.length_nil]
    rw [if_neg]
    rintro ⟨_, h1, h2, _⟩
    omega
  | cons v vs ih =>
    simp only [Pm4Optimizer.scanRange, ih, List.length_cons]
    by_cases hsp : sp2 = sp
    · subst hsp
      by_cases hb : b = a
      · subst hb
        rw [if_neg (fun h => absurd h.2.1 (by omega)), UpdateRegState_regs]
        simp
      · by_cases hr : a + 1 ≤ b ∧ b < a + 1 + vs.length
        · obtain ⟨m, rfl⟩ : ∃ m, b = a + 1 + m := ⟨b - (a + 1), by omega⟩
          have e1 : a + 1 + m - (a + 1) = m := by omega
          have e2 : a + 1 + m - a = m + 1 := by omega
          have hm : (o.UpdateRegState sp2 a v).2.mustKeep sp2 (a + 1 + m) (vs.getD m 0) =
              o.mustKeep sp2 (a + 1 + m) (vs.getD m 0) := by
            apply mustKeep_congr
            · rw [UpdateRegState_regs, if_neg (fun h => hb h.2.1)]
            · rw [UpdateRegState_nonCacheable]
          rw [e1, e2, hm, UpdateRegState_regs]
          simp only [List.getD_cons_succ, hb, false_and, and_false, if_false]
          by_cases hk : o.mustKeep sp2 (a + 1 + m) (vs.getD m 0) = true
          · rw [if_pos ⟨trivial, by omega, by omega, hk⟩, if_pos ⟨trivial, by omega, by omega, hk⟩]
          · rw [if_neg (fun h => hk h.2.2.2), if_neg (fun h => hk h.2.2.2)]
        · rw [if_neg (fun h => hr ⟨h.2.1, h.2.2.1⟩),
            if_neg (fun h => hr ⟨by omega, by omega⟩), UpdateRegState_regs,
            if_neg (fun h => hb h.2.1)]
    · rw [if_neg (fun h => hsp h.1), if_neg (fun h => hsp h.1), UpdateRegState_regs,
        if_neg (fun h => hsp h.1)]

/-! ## The register simulator on packets -/

theorem setRegs_apply (r : RegFile) (sp : RegSpace) (start : Nat) (vs : List Nat)
    (sp2 : RegSpace) (b : Nat) :
    setRegs r sp start vs sp2 b =
      if sp2 = sp ∧ start ≤ b ∧ b < start + vs.length then vs.getD (b - start) 0
      else r sp2 b := by
  induction vs generalizing r start with
  | nil =>
    simp only [setRegs, List.length_nil]
    rw [if_neg]
    rintro ⟨_, h1, h2⟩
    omega
  | cons v vs ih =>
    simp only [setRegs, ih, List.length_cons]
    by_cases hsp : sp2 = sp
    · by_cases hb : b = start
      · subst hb
        rw [if_neg (fun h => absurd h.2.1 (by omega)), if_pos ⟨hsp, rfl⟩,
          if_pos ⟨hsp, by omega, by omega⟩]
        simp
      · by_cases hr : start + 1 ≤ b ∧ b < start + 1 + vs.length
        · obtain ⟨m, rfl⟩ : ∃ m, b = start + 1 + m := ⟨b - (start + 1), by omega⟩
          have e1 : start + 1 + m - (start + 1) = m := by omega
          have e2 : start + 1 + m - start = m + 1 := by omega
          rw [if_pos ⟨hsp, hr⟩, if_pos ⟨hsp, by omega, by omega⟩, e1, e2, List.getD_cons_succ]
        · rw [if_neg (fun h => hr h.2), if_neg (fun h => hb h.2),
            if_neg (fun h => hr ⟨by omega, by omega⟩)]
    · rw [if_neg (fun h => hsp h.1), if_neg (fun h => hsp h.1), if_neg (fun h => hsp h.1)]

theorem applyPackets_cons (r : RegFile) (pk : Packet) (ps : List Packet) :
    applyPackets r (pk :: ps) =
      applyPackets (setRegs r pk.header.space pk.header.regOffset pk.data) ps := rfl

theorem applyPackets_append (r : RegFile) (ps qs : List Packet) :
    applyPackets r (ps ++ qs) = applyPackets (applyPackets r ps) qs := by
  simp [applyPackets]

theorem runData_length (vals : List Nat) (run : Nat × Nat) (hb : run.1 + run.2 ≤ vals.length) :
    (runData vals run).length = run.2 := by
  simp only [runData, List.length_take, List.length_drop]
  omega

theorem runData_getD (vals : List Nat) (run : Nat × Nat) (k : Nat) (hk : k < run.2) :
    (runData vals run).getD k 0 = vals.getD (run.1 + k) 0 := by
  simp [runData, List.getD_eq_getElem?_getD, List.getElem?_take, hk]

theorem applyPackets_runPackets_cons (r : RegFile) (d : PM4CMDSETDATA) (vals : List Nat)
    (run : Nat × Nat) (runs : List (Nat × Nat)) :
    applyPackets r (runPackets d vals (run :: runs)) =
      applyPackets (setRegs r d.space (d.regOffset + run.1) (runData vals run))
        (runPackets d vals runs) := rfl

/-- A register outside every sub-run keeps its value. -/
theorem applyPackets_runPackets_out (d : PM4CMDSETDATA) (vals : List Nat)
    (runs : List (Nat × Nat)) (hb : ∀ run ∈ runs, run.1 + run.2 ≤ vals.length) (r : RegFile)
    (sp2 : RegSpace) (b : Nat)
    (hc : ¬ (sp2 = d.space ∧
      ∃ run ∈ runs, d.regOffset + run.1 ≤ b ∧ b < d.regOffset + run.1 + run.2)) :
    applyPackets r (runPackets d vals runs) sp2 b = r sp2 b := by
  induction runs generalizing r with
  | nil => rfl
  | cons run runs ih =>
    have hb2 : ∀ run ∈ runs, run.1 + run.2 ≤ vals.length :=
      fun x hx => hb x (List.mem_cons_of_mem _ hx)
    have hc2 : ¬ (sp2 = d.space ∧
        ∃ run ∈ runs, d.regOffset + run.1 ≤ b ∧ b < d.regOffset + run.1 + run.2) :=
      fun h => hc ⟨h.1, by
        obtain ⟨x, hx, hh⟩ := h.2
        exact ⟨x, List.mem_cons_of_mem _ hx, hh⟩⟩
    rw [applyPackets_runPackets_cons, ih hb2 _ hc2, setRegs_apply, if_neg]
    rintro ⟨h1, h2, h3⟩
    rw [runData_length _ _ (hb run (List.mem_cons_self _ _))] at h3
    exact hc ⟨h1, run, List.mem_cons_self _ _, h2, h3⟩

/-- A register covered by one of the sub-runs takes the value the range has for it. -/
theorem applyPackets_runPackets_in (d : PM4CMDSETDATA) (vals : List Nat)
    (runs : List (Nat × Nat)) (hb : ∀ run ∈ runs, run.1 + run.2 ≤ vals.length) (r : RegFile)
    (b : Nat)
    (hc : ∃ run ∈ runs, d.regOffset + run.1 ≤ b ∧ b < d.regOffset + run.1 + run.2) :
    applyPackets r (runPackets d vals runs) d.space b = vals.getD (b - d.regOffset) 0 := by
  induction runs generalizing r with
  | nil => simp at hc
  | cons run runs ih =>
    have hb2 : ∀ run ∈ runs, run.1 + run.2 ≤ vals.length :=
      fun x hx => hb x (List.mem_cons_of_mem _ hx)
    by_cases hc2 : ∃ run ∈ runs, d.regOffset + run.1 ≤ b ∧ b < d.regOffset + run.1 + run.2
    · rw [applyPackets_runPackets_cons]
      exact ih hb2 _ hc2
    · obtain ⟨x, hx, h1, h2⟩ := hc
      rcases List.mem_cons.mp hx with rfl | hx
      · rw [applyPackets_runPackets_cons, applyPackets_runPackets_out d vals runs hb2
          (setRegs r d.space (d.regOffset + x.1) (runData vals x)) d.space b
          (fun h => hc2 h.2), setRegs_apply, if_pos ⟨rfl, h1, by
          rw [runData_length _ _ (hb x (List.mem_cons_self _ _))]; exact h2⟩,
          runData_getD _ _ _ (by omega)]
        congr 1
        omega
      · exact absurd ⟨x, hx, h1, h2⟩ hc2

theorem mustKeep_false (o : Pm4Optimizer) (sp : RegSpace) (a v : Nat)
    (h : o.mustKeep sp a v = false) :
    (o.regs sp a).valid = true ∧ (o.regs sp a).value = v ∧ o.nonCacheable sp a = false := by
  have h2 : ((o.regs sp a).valid = true ∧ (o.regs sp a).value = v) ∧
      o.nonCacheable sp a = false := by
    simpa [Pm4Optimizer.mustKeep] using h
  exact ⟨h2.1.1, h2.1.2, h2.2⟩

theorem kept_iff (o : Pm4Optimizer) (sp : RegSpace) (a : Nat) (vals : List Nat) (j : Nat) :
    Kept (o.scanRange sp a vals).1 0 none j ↔
      (j < vals.length ∧ o.mustKeep sp (a + j) (vals.getD j 0) = true) := by
  simp only [Kept, false_and, exists_false, false_or, reduceCtorEq, Nat.zero_le, true_and,
    Nat.sub_zero, scanRange_keeps]
  by_cases hj : j < vals.length
  · simp [List.getD_eq_getElem?_getD, hj]
  · simp [hj, List.getElem?_eq_none (Nat.le_of_not_lt hj)]

/-- Run-splitting writes what the whole range writes: on a register file the cache agrees with,
the sub-run packets of a range leave every register with the value the full range leaves. -/
theorem optimized_range_regs (o : Pm4Optimizer) (r : RegFile) (hA : CacheAgrees o r)
    (d : PM4CMDSETDATA) (vals : List Nat) :
    applyPackets r
        (runPackets d vals (subRuns (o.scanRange d.space d.regOffset vals).1 0 none)) =
      setRegs r d.space d.regOffset vals := by
  have hbound : ∀ run ∈ subRuns (o.scanRange d.space d.regOffset vals).1 0 none,
      run.1 + run.2 ≤ vals.length := by
    intro run hrun
    have := subRuns_bounds _ 0 none (by simp) run hrun
    rw [scanRange_length] at this
    omega
  funext sp2 b
  rw [setRegs_apply]
  by_cases hr : sp2 = d.space ∧ d.regOffset ≤ b ∧ b < d.regOffset + vals.length
  · obtain ⟨rfl, h1, h2⟩ := hr
    rw [if_pos ⟨rfl, h1, h2⟩]
    obtain ⟨j, rfl⟩ : ∃ j, b = d.regOffset + j := ⟨b - d.regOffset, by omega⟩
    have hj : j < vals.length := by omega
    have e : d.regOffset + j - d.regOffset = j := by omega
    rw [e]
    cases hk : o.mustKeep d.space (d.regOffset + j) (vals.getD j 0)
    · obtain ⟨hv, hval, _⟩ := mustKeep_false _ _ _ _ hk
      rw [applyPackets_runPackets_out d vals _ hbound r d.space _ ?_]
      · rw [← hval]
        exact ((hA _ _ hv).2).symm
      · rintro ⟨_, run, hrun, h3, h4⟩
        have hc := (subRuns_covers _ 0 none (by simp) j).mp ⟨run, hrun, by omega, by omega⟩
        rw [kept_iff] at hc
        rw [hk] at hc
        exact absurd hc.2 (by simp)
    · have hc := (subRuns_covers _ 0 none (by simp) j).mpr
        ((kept_iff o d.space d.regOffset vals j).mpr ⟨hj, hk⟩)
      obtain ⟨run, hrun, h3, h4⟩ := hc
      rw [applyPackets_runPackets_in d vals _ hbound r _ ⟨run, hrun, by omega, by omega⟩, e]
  · rw [if_neg hr]
    apply applyPackets_runPackets_out d vals _ hbound
    rintro ⟨h0, run, hrun, h3, h4⟩
    have := hbound run hrun
    exact hr ⟨h0, by omega, by omega⟩

/-- The cache a scan leaves agrees with the register file the range leaves. -/
theorem scanRange_agrees (o : Pm4Optimizer) (r : RegFile) (hA : CacheAgrees o r)
    (sp : RegSpace) (hsp : sp ≠ .config) (a : Nat) (vals : List Nat) :
    CacheAgrees (o.scanRange sp a vals).2 (setRegs r sp a vals) := by
  intro sp2 b hv
  have hregs := scanRange_regs o sp a vals sp2 b
  have hset := setRegs_apply r sp a vals sp2 b
  by_cases hr : sp2 = sp ∧ a ≤ b ∧ b < a + vals.length
  · obtain ⟨rfl, h1, h2⟩ := hr
    rw [if_pos ⟨rfl, h1, h2⟩] at hset
    cases hk : o.mustKeep sp2 b (vals.getD (b - a) 0)
    · rw [if_neg (fun h => by rw [hk] at h; exact absurd h.2.2.2 (by simp))] at hregs
      rw [hregs] at hv ⊢
      rw [hset]
      obtain ⟨_, hval, _⟩ := mustKeep_false _ _ _ _ hk
      exact ⟨hsp, hval⟩
    · rw [if_pos ⟨rfl, h1, h2, hk⟩] at hregs
      rw [hregs, hset]
      exact ⟨hsp, rfl⟩
  · rw [if_neg hr] at hset
    rw [if_neg (fun h => hr ⟨h.1, h.2.1, h.2.2.1⟩)] at hregs
    rw [hregs] at hv ⊢
    rw [hset]
    exact hA sp2 b hv

/-- A raw write of config registers keeps the cache in agreement: no valid entry is a config
register. -/
theorem config_agrees (o : Pm4Optimizer) (r : RegFile) (hA : CacheAgrees o r) (a : Nat)
    (vals : List Nat) : CacheAgrees o (setRegs r .config a vals) := by
  intro sp2 b hv
  obtain ⟨h1, h2⟩ := hA sp2 b hv
  rw [setRegs_apply, if_neg (fun h => h1 h.1)]
  exact ⟨h1, h2⟩


/-! ## Executing the words of packets -/

theorem replay_nil (hdrDwords : Nat) (decode : (Nat → Nat) → Option PM4CMDSETDATA) (fuel : Nat)
    (r : RegFile) : replay hdrDwords decode fuel [] r = r := by
  cases fuel <;> simp [replay]

theorem arrayOf_packetWords (cu : CmdUtil) (d : PM4CMDSETDATA) (tail : List Nat) (i : Nat)
    (hi : i < cu.PM4_CMD_SET_DATA_DWORDS) :
    arrayOf ((List.range cu.PM4_CMD_SET_DATA_DWORDS).map (cu.image d) ++ tail) i =
      cu.image d i := by
  simp [arrayOf, List.getD_eq_getElem?_getD, List.getElem?_append_left, hi]

/-- Executing the words of a packet sequence is applying the packets in order. -/
theorem replay_words (cu : CmdUtil) (decode : (Nat → Nat) → Option PM4CMDSETDATA)
    (covers : PM4CMDSETDATA → Prop) (hRB : cu.ReadsBack decode covers) (ps : List Packet)
    (hps : ∀ pk ∈ ps, pk.Replayable covers) (rest : List Nat) (fuel : Nat) (r : RegFile)
    (hfuel : ps.length ≤ fuel) :
    replay cu.PM4_CMD_SET_DATA_DWORDS decode fuel (cu.words ps ++ rest) r =
      replay cu.PM4_CMD_SET_DATA_DWORDS decode (fuel - ps.length) rest (applyPackets r ps) := by
  induction ps generalizing fuel r with
  | nil => simp [CmdUtil.words, applyPackets]
  | cons pk ps ih =>
    obtain ⟨hcov, hlen, hpos⟩ := hps pk (List.mem_cons_self _ _)
    obtain ⟨f, rfl⟩ : ∃ f, fuel = f + 1 := ⟨fuel - 1, by simp at hfuel; omega⟩
    have hne : cu.words (pk :: ps) ++ rest ≠ [] := by
      cases hd : pk.data with
      | nil => simp [hd] at hpos
      | cons x xs => simp [words_cons, CmdUtil.packetWords, hd]
    have hdec : decode (arrayOf (cu.words (pk :: ps) ++ rest)) = some pk.header := by
      apply hRB.decodes _ hcov
      intro i hi
      rw [words_cons, CmdUtil.packetWords, List.append_assoc, List.append_assoc]
      exact arrayOf_packetWords cu _ _ i hi
    have hH : ((List.range cu.PM4_CMD_SET_DATA_DWORDS).map (cu.image pk.header)).length =
        cu.PM4_CMD_SET_DATA_DWORDS := by simp
    have hdrop : (cu.words (pk :: ps) ++ rest).drop
        (cu.PM4_CMD_SET_DATA_DWORDS + pk.header.numRegs) = cu.words ps ++ rest := by
      rw [words_cons, List.append_assoc]
      have : (cu.packetWords pk.header pk.data).length =
          cu.PM4_CMD_SET_DATA_DWORDS + pk.header.numRegs := by
        simp [CmdUtil.packetWords, hlen]
      rw [← this, List.drop_left]
    have htake : ((cu.words (pk :: ps) ++ rest).drop cu.PM4_CMD_SET_DATA_DWORDS).take
        pk.header.numRegs = pk.data := by
      rw [words_cons, CmdUtil.packetWords, List.append_assoc, List.append_assoc]
      rw [List.drop_left' hH, List.take_left' hlen]
    rw [replay, if_neg hne, hdec]
    simp only [hdrop, htake]
    rw [ih (fun x hx => hps x (List.mem_cons_of_mem _ hx)) f _ (by simp at hfuel; omega),
      applyPackets_cons]
    simp

theorem words_length_ge (cu : CmdUtil) (covers : PM4CMDSETDATA → Prop) (ps : List Packet)
    (hps : ∀ pk ∈ ps, pk.Replayable covers) : ps.length ≤ (cu.words ps).length := by
  induction ps with
  | nil => simp
  | cons pk ps ih =>
    have := ih (fun x hx => hps x (List.mem_cons_of_mem _ hx))
    obtain ⟨_, _, hpos⟩ := hps pk (List.mem_cons_self _ _)
    simp only [words_cons, List.length_append, List.length_cons, CmdUtil.packetWords]
    omega

/-- Executing all the words of a packet sequence is applying the packets in order. -/
theorem execute_words (cu : CmdUtil) (decode : (Nat → Nat) → Option PM4CMDSETDATA)
    (covers : PM4CMDSETDATA → Prop) (hRB : cu.ReadsBack decode covers) (ps : List Packet)
    (hps : ∀ pk ∈ ps, pk.Replayable covers) (r : RegFile) :
    execute cu decode (cu.words ps) r = applyPackets r ps := by
  unfold execute
  have h := replay_words cu decode covers hRB ps hps [] (cu.words ps).length r
    (words_length_ge cu covers ps hps)
  rw [List.append_nil] at h
  rw [h, replay_nil]


/-! ## Sequences of requests, packet by packet -/

theorem writePackets_append (cu : CmdUtil) (ps qs : List Packet) (mem : CmdSpace) (p : Nat) :
    cu.writePackets (ps ++ qs) mem p =
      cu.writePackets qs (cu.writePackets ps mem p).1 (cu.writePackets ps mem p).2 := by
  induction ps generalizing mem p with
  | nil => rfl
  | cons pk ps ih => exact ih _ _

/-- A sequence of requests, on a framing encoder: the memory and the cursor are those of writing
the emitted packets of all calls, in call order, at the first cursor. -/
theorem writeAll_eq (s : CmdStream) (hWF : s.m_cmdUtil.WellFramed) (ws : List RegWrite)
    (hws : ∀ w ∈ ws, w.WellFormed) (mem : CmdSpace) (p : Nat) :
    s.writeAll ws mem p =
      { stream := s.withOptimizer (s.optimizerAfterAll ws)
        mem := (s.m_cmdUtil.writePackets (s.emittedAll ws) mem p).1
        pCmdSpace := (s.m_cmdUtil.writePackets (s.emittedAll ws) mem p).2
        assertsHeld := true } := by
  induction ws generalizing s mem p with
  | nil => rfl
  | cons w ws ih =>
    have hw := hws w (List.mem_cons_self _ _)
    have hrest : ∀ x ∈ ws, x.WellFormed := fun x hx => hws x (List.mem_cons_of_mem _ hx)
    simp only [CmdStream.writeAll, write_eq s hWF w hw, CmdStream.emittedAll,
      CmdStream.optimizerAfterAll, writePackets_append]
    rw [ih (s.withOptimizer (s.optimizerAfter w)) hWF hrest]
    rfl

theorem header_frames (cu : CmdUtil) (hWF : cu.WellFramed) (w : RegWrite) (hw : w.WellFormed) :
    (w.header cu).space = w.target.1 ∧ (w.header cu).regOffset = w.target.2.1 ∧
      (w.header cu).numRegs = w.target.2.2.length ∧ 0 < w.target.2.2.length := by
  cases w with
  | oneConfig a v =>
    have h := hWF.oneConfig a none
    exact ⟨h.2.1, h.2.2.1, by simp [RegWrite.header, RegWrite.target, h.2.2.2], by
      simp [RegWrite.target]⟩
  | seqConfig a b f =>
    have h := hWF.seqConfig a b hw.1
    exact ⟨h.2.1, h.2.2.1, by simp [RegWrite.header, RegWrite.target, h.2.2.2], by
      simp [RegWrite.target]⟩
  | oneContext a v =>
    have h := hWF.oneContext a none
    exact ⟨h.2.1, h.2.2.1, by simp [RegWrite.header, RegWrite.target, h.2.2.2], by
      simp [RegWrite.target]⟩
  | seqContext a b f =>
    have h := hWF.seqContext a b hw.1
    exact ⟨h.2.1, h.2.2.1, by simp [RegWrite.header, RegWrite.target, h.2.2.2], by
      simp [RegWrite.target]⟩
  | oneSh t a v =>
    have h := hWF.oneSh a t
    exact ⟨h.2.1, h.2.2.1, by simp [RegWrite.header, RegWrite.target, h.2.2.2], by
      simp [RegWrite.target]⟩
  | seqSh a b t f =>
    have h := hWF.seqSh a b t hw.1
    exact ⟨h.2.1, h.2.2.1, by simp [RegWrite.header, RegWrite.target, h.2.2.2], by
      simp [RegWrite.target]⟩

/-- The packets a request leaves write what the request writes, whenever the cache agrees with
the register file. -/
theorem emitted_regs (s : CmdStream) (hWF : s.m_cmdUtil.WellFramed) (w : RegWrite)
    (hw : w.WellFormed) (r : RegFile) (hA : s.optimizes w = true → CacheAgrees s.m_pPm4Optimizer r) :
    applyPackets r (s.emitted w) = setRegs r w.target.1 w.target.2.1 w.target.2.2 := by
  obtain ⟨h1, h2, _, _⟩ := header_frames s.m_cmdUtil hWF w hw
  unfold CmdStream.emitted
  by_cases ho : s.optimizes w = true
  · rw [if_pos ho, ← h1, ← h2]
    exact optimized_range_regs _ r (hA ho) _ _
  · rw [if_neg ho, ← h1, ← h2]
    rfl

/-- The cache a request leaves agrees with the register file the request leaves. -/
theorem optimizerAfter_agrees (s : CmdStream) (hI : s.optModeImmediate = true) (w : RegWrite)
    (r : RegFile) (hA : CacheAgrees s.m_pPm4Optimizer r) :
    CacheAgrees (s.optimizerAfter w) (setRegs r w.target.1 w.target.2.1 w.target.2.2) := by
  unfold CmdStream.optimizerAfter
  by_cases hc : w.target.1 = .config
  · rw [optimizes_config s w hc, if_neg (by simp), hc]
    exact config_agrees _ _ hA _ _
  · have ho : s.optimizes w = true := by simp [CmdStream.optimizes, hI, hc]
    rw [if_pos ho]
    exact scanRange_agrees _ _ hA _ hc _ _

theorem writeRegs_cons (r : RegFile) (w : RegWrite) (ws : List RegWrite) :
    writeRegs r (w :: ws) = writeRegs (setRegs r w.target.1 w.target.2.1 w.target.2.2) ws := rfl

/-- In Immediate mode the packets of a sequence of requests leave the registers the requests
name with the requested values, as if nothing had been elided. -/
theorem emittedAll_regs_immediate (s : CmdStream) (hWF : s.m_cmdUtil.WellFramed)
    (hI : s.optModeImmediate = true) (ws : List RegWrite) (hws : ∀ w ∈ ws, w.WellFormed)
    (r : RegFile) (hA : CacheAgrees s.m_pPm4Optimizer r) :
    applyPackets r (s.emittedAll ws) = writeRegs r ws ∧
      CacheAgrees (s.optimizerAfterAll ws) (writeRegs r ws) := by
  induction ws generalizing s r with
  | nil => exact ⟨rfl, hA⟩
  | cons w ws ih =>
    have hw := hws w (List.mem_cons_self _ _)
    have hrest : ∀ x ∈ ws, x.WellFormed := fun x hx => hws x (List.mem_cons_of_mem _ hx)
    simp only [CmdStream.emittedAll, CmdStream.optimizerAfterAll, applyPackets_append,
      writeRegs_cons, emitted_regs s hWF w hw r (fun _ => hA)]
    exact ih (s.withOptimizer (s.optimizerAfter w)) hWF hI hrest _
      (optimizerAfter_agrees s hI w r hA)

/-- Outside Immediate mode the packets of a sequence of requests are the requests themselves. -/
theorem emittedAll_regs_raw (s : CmdStream) (hWF : s.m_cmdUtil.WellFramed)
    (hN : s.optModeImmediate = false) (ws : List RegWrite) (hws : ∀ w ∈ ws, w.WellFormed)
    (r : RegFile) : applyPackets r (s.emittedAll ws) = writeRegs r ws := by
  induction ws generalizing s r with
  | nil => rfl
  | cons w ws ih =>
    have hw := hws w (List.mem_cons_self _ _)
    have hrest : ∀ x ∈ ws, x.WellFormed := fun x hx => hws x (List.mem_cons_of_mem _ hx)
    have ho : s.optimizes w = false := by simp [CmdStream.optimizes, hN]
    simp only [CmdStream.emittedAll, applyPackets_append, writeRegs_cons,
      emitted_regs s hWF w hw r (fun h => by rw [ho] at h; exact absurd h (by simp))]
    exact ih (s.withOptimizer (s.optimizerAfter w)) hWF hN hrest _

/-- Every packet a request leaves is one the decoder reads back. -/
theorem emitted_replayable (s : CmdStream) (hWF : s.m_cmdUtil.WellFramed)
    (decode : (Nat → Nat) → Option PM4CMDSETDATA) (covers : PM4CMDSETDATA → Prop)
    (hRB : s.m_cmdUtil.ReadsBack decode covers) (w : RegWrite) (hw : w.WellFormed)
    (hc : covers (w.header s.m_cmdUtil)) : ∀ pk ∈ s.emitted w, pk.Replayable covers := by
  obtain ⟨h1, h2, h3, h4⟩ := header_frames s.m_cmdUtil hWF w hw
  unfold CmdStream.emitted
  by_cases ho : s.optimizes w = true
  · rw [if_pos ho]
    intro pk hpk
    simp only [runPackets, List.mem_map] at hpk
    obtain ⟨run, hrun, rfl⟩ := hpk
    have hb := subRuns_bounds _ 0 none (by simp) run hrun
    rw [scanRange_length] at hb
    refine ⟨hRB.subRun _ run hc hb.1 (by rw [h3]; omega), ?_, ?_⟩
    · rw [runData_length _ _ (by omega)]
      rfl
    · rw [runData_length _ _ (by omega)]
      exact hb.1
  · rw [if_neg ho]
    intro pk hpk
    rw [List.mem_singleton] at hpk
    subst hpk
    exact ⟨hc, h3.symm, h4⟩

theorem emittedAll_replayable (s : CmdStream) (hWF : s.m_cmdUtil.WellFramed)
    (decode : (Nat → Nat) → Option PM4CMDSETDATA) (covers : PM4CMDSETDATA → Prop)
    (hRB : s.m_cmdUtil.ReadsBack decode covers) (ws : List RegWrite)
    (hws : ∀ w ∈ ws, w.WellFormed ∧ covers (w.header s.m_cmdUtil)) :
    ∀ pk ∈ s.emittedAll ws, pk.Replayable covers := by
  induction ws generalizing s with
  | nil => simp [CmdStream.emittedAll]
  | cons w ws ih =>
    have hw := hws w (List.mem_cons_self _ _)
    intro pk hpk
    simp only [CmdStream.emittedAll, List.mem_append] at hpk
    rcases hpk with h | h
    · exact emitted_replayable s hWF decode covers hRB w hw.1 hw.2 pk h
    · exact ih (s.withOptimizer (s.optimizerAfter w)) hWF hRB
        (fun x hx => hws x (List.mem_cons_of_mem _ hx)) pk h

/-- The words a sequence of requests leaves between the first cursor and the returned one are
the words of the emitted packets. -/
theorem writeAll_words (s : CmdStream) (hWF : s.m_cmdUtil.WellFramed) (ws : List RegWrite)
    (hws : ∀ w ∈ ws, w.WellFormed) (mem : CmdSpace) (p : Nat) :
    readWords (s.writeAll ws mem p).mem p ((s.writeAll ws mem p).pCmdSpace - p) =
      s.m_cmdUtil.words (s.emittedAll ws) := by
  rw [writeAll_eq s hWF ws hws mem p]
  simp only [writePackets_cursor, Nat.add_sub_cancel_left]
  exact writePackets_read _ _ _ _


/-! ## The concrete encoder frames and reads back -/

theorem exampleCmdUtil_wellFramed : exampleCmdUtil.WellFramed where
  hdrSmall := by decide
  oneConfig := fun _ _ => ⟨rfl, rfl, rfl, rfl⟩
  seqConfig := fun _ _ _ => ⟨rfl, rfl, rfl, rfl⟩
  oneContext := fun _ _ => ⟨rfl, rfl, rfl, rfl⟩
  seqContext := fun _ _ _ => ⟨rfl, rfl, rfl, rfl⟩
  oneSh := fun _ _ => ⟨rfl, rfl, rfl, rfl⟩
  seqSh := fun _ _ _ _ => ⟨rfl, rfl, rfl, rfl⟩

theorem exampleCmdUtil_readsBack : exampleCmdUtil.ReadsBack exampleDecode exampleCovers where
  decodes := by
    intro d hd f hf
    have h0 := hf 0 (by decide)
    have h1 := hf 1 (by decide)
    obtain ⟨sp, st, idx, off, n⟩ := d
    simp only [exampleCovers] at hd
    have e0 : ∀ c, c < 8 → (c + 8 * n) / 8 = n := fun c hc => by omega
    have e1 : ∀ k, (off + 65536 * k) / 65536 = k ∧ (off + 65536 * k) % 65536 = off :=
      fun k => by omega
    cases sp <;> cases st <;> cases idx <;>
      simp only [exampleCmdUtil, exampleOpcode, if_true, one_ne_zero, if_false] at h0 h1 <;>
      simp only [exampleDecode, h0, h1, Option.some.injEq, PM4CMDSETDATA.mk.injEq] <;>
      refine ⟨?_, ?_, ?_, ?_, ?_⟩ <;>
      first
        | (rw [(e1 _).2])
        | (rw [(e1 _).1]; simp)
        | (rw [e0 _ (by decide)])
        | (rw [if_pos (by omega)])
        | (rw [if_neg (by omega), if_pos (by omega)])
        | (rw [if_neg (by omega), if_neg (by omega)])
        | (rw [if_neg (by omega)])
  subRun := by
    intro d run hd hpos hle
    simp only [exampleCovers, PM4CMDSETDATA.subRun] at hd ⊢
    omega

/-! ## C2: Immediate-mode output and raw output leave the same registers -/

/-- C2. For every finite sequence of well-formed register writes (single-register and
sequential-range, on config, context and SH registers, in any order and with any repetition)
issued from an empty cache: executing the words the Immediate-mode write operations left and
executing the words the non-optimized write operations left give the same value for every
register, namely the value the requests name last for it, whatever the registers held before. -/
theorem immediate_replay_eq_raw (sI sN : CmdStream) (hI : sI.optModeImmediate = true)
    (hN : sN.optModeImmediate = false) (hcu : sN.m_cmdUtil = sI.m_cmdUtil)
    (hWF : sI.m_cmdUtil.WellFramed)
    (hEmpty : ∀ sp a, (sI.m_pPm4Optimizer.regs sp a).valid = false)
    (decode : (Nat → Nat) → Option PM4CMDSETDATA) (covers : PM4CMDSETDATA → Prop)
    (hRB : sI.m_cmdUtil.ReadsBack decode covers) (ws : List RegWrite)
    (hws : ∀ w ∈ ws, w.WellFormed ∧ covers (w.header sI.m_cmdUtil))
    (memI memN : CmdSpace) (pI pN : Nat) (r : RegFile) :
    execute sI.m_cmdUtil decode
        (readWords (sI.writeAll ws memI pI).mem pI ((sI.writeAll ws memI pI).pCmdSpace - pI)) r =
      execute sI.m_cmdUtil decode
        (readWords (sN.writeAll ws memN pN).mem pN ((sN.writeAll ws memN pN).pCmdSpace - pN)) r ∧
    execute sI.m_cmdUtil decode
        (readWords (sI.writeAll ws memI pI).mem pI ((sI.writeAll ws memI pI).pCmdSpace - pI)) r =
      writeRegs r ws := by
  have hwf : ∀ w ∈ ws, w.WellFormed := fun w hw => (hws w hw).1
  have hA : CacheAgrees sI.m_pPm4Optimizer r := by
    intro sp a hv
    rw [hEmpty sp a] at hv
    exact absurd hv (by simp)
  have hWFN : sN.m_cmdUtil.WellFramed := by rw [hcu]; exact hWF
  have hRBN : sN.m_cmdUtil.ReadsBack decode covers := by rw [hcu]; exact hRB
  have hwsN : ∀ w ∈ ws, w.WellFormed ∧ covers (w.header sN.m_cmdUtil) := by
    rw [hcu]; exact hws
  have eI : execute sI.m_cmdUtil decode
      (readWords (sI.writeAll ws memI pI).mem pI ((sI.writeAll ws memI pI).pCmdSpace - pI)) r =
      writeRegs r ws := by
    rw [writeAll_words sI hWF ws hwf, execute_words _ _ covers hRB _
      (emittedAll_replayable sI hWF decode covers hRB ws hws)]
    exact (emittedAll_regs_immediate sI hWF hI ws hwf r hA).1
  have eN : execute sI.m_cmdUtil decode
      (readWords (sN.writeAll ws memN pN).mem pN ((sN.writeAll ws memN pN).pCmdSpace - pN)) r =
      writeRegs r ws := by
    rw [writeAll_words sN hWFN ws hwf, ← hcu, execute_words _ _ covers hRBN _
      (emittedAll_replayable sN hWFN decode covers hRBN ws hwsN)]
    exact emittedAll_regs_raw sN hWFN hN ws hwf r
  exact ⟨eI.trans eN.symm, eI⟩

theorem exampleWrites_ok :
    ∀ w ∈ exampleWrites, w.WellFormed ∧ exampleCovers (w.header exampleCmdUtil) := by
  intro w hw
  simp only [exampleWrites, List.mem_cons, List.mem_singleton, List.not_mem_nil, or_false] at hw
  rcases hw with rfl | rfl | rfl | rfl | rfl | rfl <;>
    simp [RegWrite.WellFormed, RegWrite.header, exampleCovers, exampleCmdUtil]

/-- C2 at a concrete sequence of requests on the concrete encoder. -/
theorem immediate_replay_eq_raw_witness :
    (exampleStream true false).optModeImmediate = true ∧
    (exampleStream false false).optModeImmediate = false ∧
    execute exampleCmdUtil exampleDecode
        (readWords ((exampleStream true false).writeAll exampleWrites zeroMem 0).mem 0
          (((exampleStream true false).writeAll exampleWrites zeroMem 0).pCmdSpace - 0))
        (fun _ _ => 0) =
      execute exampleCmdUtil exampleDecode
        (readWords ((exampleStream false false).writeAll exampleWrites zeroMem 0).mem 0
          (((exampleStream false false).writeAll exampleWrites zeroMem 0).pCmdSpace - 0))
        (fun _ _ => 0) :=
  ⟨rfl, rfl,
   (immediate_replay_eq_raw (exampleStream true false) (exampleStream false false) rfl rfl rfl
      exampleCmdUtil_wellFramed (fun _ _ => rfl) exampleDecode exampleCovers
      exampleCmdUtil_readsBack exampleWrites exampleWrites_ok zeroMem zeroMem 0 0
      (fun _ _ => 0)).1⟩


/-! ## Emission -/

theorem emits_writePackets (cu : CmdUtil) (ps : List Packet) (mem : CmdSpace) (p : Nat)
    (r : WriteResult) (hm : r.mem = (cu.writePackets ps mem p).1)
    (hp : r.pCmdSpace = (cu.writePackets ps mem p).2) : r.Emits cu mem p ps := by
  refine ⟨by rw [hp, writePackets_cursor], by rw [hm]; exact writePackets_read _ _ _ _, ?_⟩
  intro a ha
  rw [hm]
  exact writePackets_outside _ _ _ _ _ (by rw [← hp]; exact ha)

theorem emitsNothing_of_nil (cu : CmdUtil) (mem : CmdSpace) (p : Nat) (r : WriteResult)
    (h : r.Emits cu mem p []) : r.EmitsNothing mem p := by
  obtain ⟨h1, _, h3⟩ := h
  simp only [CmdUtil.words, List.flatMap_nil, List.length_nil, Nat.add_zero] at h1
  refine ⟨?_, h1⟩
  funext a
  apply h3
  omega

/-- Every request, on a framing encoder, leaves exactly its emitted packets. -/
theorem write_emits (s : CmdStream) (hWF : s.m_cmdUtil.WellFramed) (w : RegWrite)
    (hw : w.WellFormed) (mem : CmdSpace) (p : Nat) :
    (s.write w mem p).Emits s.m_cmdUtil mem p (s.emitted w) := by
  apply emits_writePackets <;> rw [write_eq s hWF w hw mem p]

/-! ## Single-register writes against the cache -/

theorem WriteSetOneContextReg_keep (s : CmdStream) (a v : Nat) (mem : CmdSpace) (p : Nat)
    (hk : s.m_pPm4Optimizer.mustKeep .context a v = true) :
    (s.WriteSetOneContextReg true a v mem p).EmitsOne s.m_cmdUtil mem p
        (s.m_cmdUtil.BuildSetOneContextReg a none) v ∧
      (s.WriteSetOneContextReg true a v mem p).stream =
        s.withOptimizer (s.m_pPm4Optimizer.setEntry .context a v) := by
  simp only [CmdStream.WriteSetOneContextReg, Pm4Optimizer.MustKeepSetContextReg,
    Pm4Optimizer.UpdateRegState, hk, if_true, Bool.true_eq_false, if_false]
  exact ⟨⟨readWords_onePacket _ _ _ _ _, fun a ha => onePacket_outside _ _ _ _ _ _ ha, rfl⟩, trivial⟩

theorem WriteSetOneContextReg_elide (s : CmdStream) (a v : Nat) (mem : CmdSpace) (p : Nat)
    (hk : s.m_pPm4Optimizer.mustKeep .context a v = false) :
    (s.WriteSetOneContextReg true a v mem p).EmitsNothing mem p ∧
      (s.WriteSetOneContextReg true a v mem p).stream = s := by
  simp only [CmdStream.WriteSetOneContextReg, Pm4Optimizer.MustKeepSetContextReg,
    Pm4Optimizer.UpdateRegState, hk, if_true, Bool.true_eq_false, if_false, Bool.false_eq_true]
  exact ⟨⟨rfl, rfl⟩, rfl⟩

theorem WriteSetOneShReg_keep (s : CmdStream) (t : PM4ShaderType) (a v : Nat) (mem : CmdSpace)
    (p : Nat) (hk : s.m_pPm4Optimizer.mustKeep .sh a v = true) :
    (s.WriteSetOneShReg t true a v mem p).EmitsOne s.m_cmdUtil mem p
        (s.m_cmdUtil.BuildSetOneShReg a t) v ∧
      (s.WriteSetOneShReg t true a v mem p).stream =
        s.withOptimizer (s.m_pPm4Optimizer.setEntry .sh a v) := by
  simp only [CmdStream.WriteSetOneShReg, Pm4Optimizer.MustKeepSetShReg,
    Pm4Optimizer.UpdateRegState, hk, if_true, Bool.true_eq_false, if_false]
  exact ⟨⟨readWords_onePacket _ _ _ _ _, fun a ha => onePacket_outside _ _ _ _ _ _ ha, rfl⟩, trivial⟩

theorem WriteSetOneShReg_elide (s : CmdStream) (t : PM4ShaderType) (a v : Nat) (mem : CmdSpace)
    (p : Nat) (hk : s.m_pPm4Optimizer.mustKeep .sh a v = false) :
    (s.WriteSetOneShReg t true a v mem p).EmitsNothing mem p ∧
      (s.WriteSetOneShReg t true a v mem p).stream = s := by
  simp only [CmdStream.WriteSetOneShReg, Pm4Optimizer.MustKeepSetShReg,
    Pm4Optimizer.UpdateRegState, hk, if_true, Bool.true_eq_false, if_false, Bool.false_eq_true]
  exact ⟨⟨rfl, rfl⟩, rfl⟩

theorem mustKeep_setEntry_same (o : Pm4Optimizer) (sp : RegSpace) (a v : Nat)
    (hc : o.nonCacheable sp a = false) : (o.setEntry sp a v).mustKeep sp a v = false := by
  simp [Pm4Optimizer.mustKeep, Pm4Optimizer.setEntry, hc]

theorem mustKeep_setEntry_other (o : Pm4Optimizer) (sp : RegSpace) (a v w : Nat) (h : v ≠ w) :
    (o.setEntry sp a v).mustKeep sp a w = true := by
  simp [Pm4Optimizer.mustKeep, Pm4Optimizer.setEntry, h]

theorem mustKeep_of_invalid (o : Pm4Optimizer) (sp : RegSpace) (a v : Nat)
    (h : (o.regs sp a).valid = false) : o.mustKeep sp a v = true := by
  simp [Pm4Optimizer.mustKeep, h]

theorem mustKeep_differs (o : Pm4Optimizer) (sp : RegSpace) (a v w : Nat) (hvw : v ≠ w)
    (h : o.mustKeep sp a v = false) : o.mustKeep sp a w = true := by
  obtain ⟨_, hval, _⟩ := mustKeep_false o sp a v h
  simp [Pm4Optimizer.mustKeep, hval, hvw]

/-! ## C3: idempotent elision -/

/-- C3. In Immediate mode, for every cacheable context register address and values `v ≠ w`,
whatever the cache holds: of two writes of (address, v) in a row through the single-register
write the second writes no word and returns its cursor unchanged, and a following write of
(address, w) emits a packet. When the register is not already cached with `v` (as from a fresh
or reset cache) the first write emits its packet, so that the two writes leave exactly one packet
and the third leaves a second one. -/
theorem idempotent_elision (s : CmdStream) (hI : s.optModeImmediate = true) (a v w : Nat)
    (hc : s.m_pPm4Optimizer.nonCacheable .context a = false) (hvw : v ≠ w) (mem : CmdSpace)
    (p : Nat) :
    ((s.WriteSetOneContextReg true a v mem p).stream.WriteSetOneContextReg true a v
        (s.WriteSetOneContextReg true a v mem p).mem
        (s.WriteSetOneContextReg true a v mem p).pCmdSpace).EmitsNothing
      (s.WriteSetOneContextReg true a v mem p).mem
      (s.WriteSetOneContextReg true a v mem p).pCmdSpace ∧
    (((s.WriteSetOneContextReg true a v mem p).stream.WriteSetOneContextReg true a v
        (s.WriteSetOneContextReg true a v mem p).mem
        (s.WriteSetOneContextReg true a v mem p).pCmdSpace).stream.WriteSetOneContextReg true a w
        (s.WriteSetOneContextReg true a v mem p).mem
        (s.WriteSetOneContextReg true a v mem p).pCmdSpace).EmitsOne s.m_cmdUtil
      (s.WriteSetOneContextReg true a v mem p).mem
      (s.WriteSetOneContextReg true a v mem p).pCmdSpace
      (s.m_cmdUtil.BuildSetOneContextReg a none) w ∧
    (s.m_pPm4Optimizer.mustKeep .context a v = true →
      (s.WriteSetOneContextReg true a v mem p).EmitsOne s.m_cmdUtil mem p
        (s.m_cmdUtil.BuildSetOneContextReg a none) v) ∧
    (s.WriteSetOneContextReg true a v mem p).assertsHeld = true := by
  have hasr : (s.WriteSetOneContextReg true a v mem p).assertsHeld = true := by
    unfold CmdStream.WriteSetOneContextReg
    simp only [Bool.true_eq_false, if_false]
    split <;> simp [hI]
  cases hk : s.m_pPm4Optimizer.mustKeep .context a v
  · obtain ⟨h1, h2⟩ := WriteSetOneContextReg_elide s a v mem p hk
    rw [h2, h1.1, h1.2]
    obtain ⟨h3, h4⟩ := WriteSetOneContextReg_elide s a v mem p hk
    refine ⟨h3, ?_, by intro h; exact absurd h (by simp), hasr⟩
    rw [h4]
    exact (WriteSetOneContextReg_keep s a w mem p (mustKeep_differs _ _ _ _ _ hvw hk)).1
  · obtain ⟨h1, h2⟩ := WriteSetOneContextReg_keep s a v mem p hk
    have hk2 : (s.withOptimizer (s.m_pPm4Optimizer.setEntry .context a v)).m_pPm4Optimizer.mustKeep
        .context a v = false := mustKeep_setEntry_same _ _ _ _ hc
    rw [h2]
    obtain ⟨h3, h4⟩ := WriteSetOneContextReg_elide _ a v
      (s.WriteSetOneContextReg true a v mem p).mem
      (s.WriteSetOneContextReg true a v mem p).pCmdSpace hk2
    refine ⟨h3, ?_, fun _ => h1, hasr⟩
    rw [h4]
    exact (WriteSetOneContextReg_keep _ a w _ _ (mustKeep_setEntry_other _ _ _ _ _ hvw)).1

/-- C3 at a concrete stream: register 7 written with 1, 1 and 2 from an empty cache. -/
theorem idempotent_elision_witness :
    (exampleStream true false).optModeImmediate = true ∧
    (exampleStream true false).m_pPm4Optimizer.nonCacheable .context 7 = false ∧
    (1 : Nat) ≠ 2 ∧
    (((exampleStream true false).WriteSetOneContextReg true 7 1 zeroMem 10).stream.WriteSetOneContextReg
        true 7 1 ((exampleStream true false).WriteSetOneContextReg true 7 1 zeroMem 10).mem
        ((exampleStream true false).WriteSetOneContextReg true 7 1 zeroMem 10).pCmdSpace).EmitsNothing
      ((exampleStream true false).WriteSetOneContextReg true 7 1 zeroMem 10).mem
      ((exampleStream true false).WriteSetOneContextReg true 7 1 zeroMem 10).pCmdSpace :=
  ⟨rfl, rfl, by decide,
   (idempotent_elision (exampleStream true false) rfl 7 1 2 rfl (by decide) zeroMem 10).1⟩

/-! ## C5: invalidation of one SH register -/

theorem withOptimizer_immediate (s : CmdStream) (o : Pm4Optimizer) :
    (s.withOptimizer o).optModeImmediate = s.optModeImmediate := rfl

theorem SetShRegInvalid_valid (o : Pm4Optimizer) (a : Nat) :
    ((o.SetShRegInvalid a).regs .sh a).valid = false := by
  simp [Pm4Optimizer.SetShRegInvalid]

theorem SetShRegInvalid_other (o : Pm4Optimizer) (a : Nat) (sp : RegSpace) (b : Nat)
    (h : ¬ (sp = .sh ∧ b = a)) : (o.SetShRegInvalid a).regs sp b = o.regs sp b := by
  simp only [Pm4Optimizer.SetShRegInvalid]
  rw [if_neg h]

/-- C5. In Immediate mode, for every SH register address `a` and value `v`: after a write of
`(a, v)` followed by `NotifyIndirectShRegWrite(a)`, the next single-register write of `(a, v)`
is not elided: it emits its packet at the cursor and advances the cursor by the packet size.
The notification leaves the cache entry of every other register, and the non-cacheable marks,
as they were. -/
theorem invalidate_then_write (s : CmdStream) (hI : s.optModeImmediate = true)
    (t : PM4ShaderType) (a v : Nat) (mem : CmdSpace) (p : Nat) :
    (((s.WriteSetOneShReg t true a v mem p).stream.NotifyIndirectShRegWrite a).WriteSetOneShReg
        t true a v (s.WriteSetOneShReg t true a v mem p).mem
        (s.WriteSetOneShReg t true a v mem p).pCmdSpace).EmitsOne s.m_cmdUtil
      (s.WriteSetOneShReg t true a v mem p).mem (s.WriteSetOneShReg t true a v mem p).pCmdSpace
      (s.m_cmdUtil.BuildSetOneShReg a t) v ∧
    (∀ sp b, ¬ (sp = .sh ∧ b = a) →
      ((s.WriteSetOneShReg t true a v mem p).stream.NotifyIndirectShRegWrite
          a).m_pPm4Optimizer.regs sp b =
        (s.WriteSetOneShReg t true a v mem p).stream.m_pPm4Optimizer.regs sp b) ∧
    ((s.WriteSetOneShReg t true a v mem p).stream.NotifyIndirectShRegWrite
        a).m_pPm4Optimizer.nonCacheable =
      (s.WriteSetOneShReg t true a v mem p).stream.m_pPm4Optimizer.nonCacheable := by
  have hst : (s.WriteSetOneShReg t true a v mem p).stream.optModeImmediate = true := by
    cases hk : s.m_pPm4Optimizer.mustKeep .sh a v
    · rw [(WriteSetOneShReg_elide s t a v mem p hk).2]
      exact hI
    · rw [(WriteSetOneShReg_keep s t a v mem p hk).2]
      exact hI
  have hcu : (s.WriteSetOneShReg t true a v mem p).stream.m_cmdUtil = s.m_cmdUtil := by
    cases hk : s.m_pPm4Optimizer.mustKeep .sh a v
    · rw [(WriteSetOneShReg_elide s t a v mem p hk).2]
    · rw [(WriteSetOneShReg_keep s t a v mem p hk).2]
      rfl
  generalize (s.WriteSetOneShReg t true a v mem p).stream = s1 at hst hcu ⊢
  generalize (s.WriteSetOneShReg t true a v mem p).mem = mem1
  generalize (s.WriteSetOneShReg t true a v mem p).pCmdSpace = p1
  have hN : s1.NotifyIndirectShRegWrite a =
      s1.withOptimizer (s1.m_pPm4Optimizer.SetShRegInvalid a) := by
    simp [CmdStream.NotifyIndirectShRegWrite, hst]
  rw [hN]
  refine ⟨?_, fun sp b h => SetShRegInvalid_other _ _ _ _ h, rfl⟩
  have := (WriteSetOneShReg_keep (s1.withOptimizer (s1.m_pPm4Optimizer.SetShRegInvalid a)) t a v
    mem1 p1 (mustKeep_of_invalid _ _ _ _ (SetShRegInvalid_valid _ _))).1
  rw [← hcu]
  exact this

/-- C5 at a concrete stream: SH register 12 written with 5, invalidated, written with 5 again. -/
theorem invalidate_then_write_witness :
    (exampleStream true false).optModeImmediate = true ∧
    ((((exampleStream true false).WriteSetOneShReg .ShaderCompute true 12 5 zeroMem
          0).stream.NotifyIndirectShRegWrite 12).WriteSetOneShReg .ShaderCompute true 12 5
        ((exampleStream true false).WriteSetOneShReg .ShaderCompute true 12 5 zeroMem 0).mem
        ((exampleStream true false).WriteSetOneShReg .ShaderCompute true 12 5 zeroMem
          0).pCmdSpace).pCmdSpace = 6 :=
  ⟨rfl,
   (invalidate_then_write (exampleStream true false) rfl .ShaderCompute 12 5 zeroMem 0).1.2.2⟩


/-! ## C4: run-splitting of a sequential range -/

theorem getD_map_range (f : Nat → Nat) (n j : Nat) (hj : j < n) :
    ((List.range n).map f).getD j 0 = f j := by
  simp [List.getD_eq_getElem?_getD, hj]

/-- The sub-runs of a scan are the run split of the single-register decisions against the cache
the scan started from. -/
theorem scan_isRunSplit (o : Pm4Optimizer) (sp : RegSpace) (a n : Nat) (f : Nat → Nat) :
    IsRunSplit (subRuns (o.scanRange sp a ((List.range n).map f)).1 0 none) n
      (fun j => o.mustKeep sp (a + j) (f j)) := by
  refine ⟨?_, ?_, subRuns_gaps _ 0 none (by simp)⟩
  · intro run hrun
    have := subRuns_bounds _ 0 none (by simp) run hrun
    rw [scanRange_length] at this
    simp only [List.length_map, List.length_range] at this
    omega
  · intro j
    rw [subRuns_covers _ 0 none (by simp), kept_iff]
    simp only [List.length_map, List.length_range]
    constructor
    · rintro ⟨h1, h2⟩
      rw [getD_map_range _ _ _ h1] at h2
      exact ⟨h1, h2⟩
    · rintro ⟨h1, h2⟩
      rw [getD_map_range _ _ _ h1]
      exact ⟨h1, h2⟩

theorem isRunSplit_none (runs : List (Nat × Nat)) (n : Nat) (keep : Nat → Bool)
    (h : IsRunSplit runs n keep) (hall : ∀ j, j < n → keep j = false) : runs = [] := by
  cases runs with
  | nil => rfl
  | cons run rest =>
    have hb := h.1 run (List.mem_cons_self _ _)
    have hk := (h.2.1 run.1).mp ⟨run, List.mem_cons_self _ _, Nat.le_refl _, by omega⟩
    rw [hall _ hk.1] at hk
    exact absurd hk.2 (by simp)

/-- C4. In Immediate mode, on a framing encoder, `WriteSetSeqContextRegs<true>` and
`WriteSetSeqShRegs` leave, for every range `[startRegAddr, endRegAddr]` and value array, exactly
the packets of a list of sub-runs of the range, in list order: each packet is the range header
moved to its sub-run followed by the values of the sub-run. The sub-runs are the maximal
contiguous runs of must-keep registers: they are non-empty, cover exactly the registers whose
write is not redundant against the cache before the call, come in increasing address order, and
two successive ones are separated by at least one redundant register. An all-redundant range
writes no word and returns the cursor unchanged. -/
theorem run_splitting (s : CmdStream) (hI : s.optModeImmediate = true)
    (hWF : s.m_cmdUtil.WellFramed) (t : PM4ShaderType) (startRegAddr endRegAddr : Nat)
    (hle : startRegAddr ≤ endRegAddr) (pData : Nat → Nat) (mem : CmdSpace) (p : Nat) :
    (∃ runs : List (Nat × Nat),
      (s.WriteSetSeqContextRegs true startRegAddr endRegAddr pData mem p).Emits s.m_cmdUtil mem p
        (runPackets (s.m_cmdUtil.BuildSetSeqContextRegs startRegAddr endRegAddr).2
          ((List.range (endRegAddr - startRegAddr + 1)).map pData) runs) ∧
      IsRunSplit runs (endRegAddr - startRegAddr + 1)
        (fun j => s.m_pPm4Optimizer.mustKeep .context (startRegAddr + j) (pData j))) ∧
    ((∀ j, j < endRegAddr - startRegAddr + 1 →
        s.m_pPm4Optimizer.mustKeep .context (startRegAddr + j) (pData j) = false) →
      (s.WriteSetSeqContextRegs true startRegAddr endRegAddr pData mem p).EmitsNothing mem p) ∧
    (∃ runs : List (Nat × Nat),
      (s.WriteSetSeqShRegs startRegAddr endRegAddr t pData mem p).Emits s.m_cmdUtil mem p
        (runPackets (s.m_cmdUtil.BuildSetSeqShRegs startRegAddr endRegAddr t).2
          ((List.range (endRegAddr - startRegAddr + 1)).map pData) runs) ∧
      IsRunSplit runs (endRegAddr - startRegAddr + 1)
        (fun j => s.m_pPm4Optimizer.mustKeep .sh (startRegAddr + j) (pData j))) ∧
    ((∀ j, j < endRegAddr - startRegAddr + 1 →
        s.m_pPm4Optimizer.mustKeep .sh (startRegAddr + j) (pData j) = false) →
      (s.WriteSetSeqShRegs startRegAddr endRegAddr t pData mem p).EmitsNothing mem p) := by
  have hC := hWF.seqContext startRegAddr endRegAddr hle
  have hS := hWF.seqSh startRegAddr endRegAddr t hle
  have eC : (s.WriteSetSeqContextRegs true startRegAddr endRegAddr pData mem p).Emits s.m_cmdUtil
      mem p (runPackets (s.m_cmdUtil.BuildSetSeqContextRegs startRegAddr endRegAddr).2
        ((List.range (endRegAddr - startRegAddr + 1)).map pData)
        (subRuns (s.m_pPm4Optimizer.scanRange .context startRegAddr
          ((List.range (endRegAddr - startRegAddr + 1)).map pData)).1 0 none)) := by
    apply emits_writePackets <;>
      simp only [CmdStream.WriteSetSeqContextRegs, if_true,
        Pm4Optimizer.WriteOptimizedSetSeqContextRegs, Pm4Optimizer.OptimizePm4SetReg,
        writeRuns_eq, hC.2.2.1, hC.2.2.2]
  have eS : (s.WriteSetSeqShRegs startRegAddr endRegAddr t pData mem p).Emits s.m_cmdUtil
      mem p (runPackets (s.m_cmdUtil.BuildSetSeqShRegs startRegAddr endRegAddr t).2
        ((List.range (endRegAddr - startRegAddr + 1)).map pData)
        (subRuns (s.m_pPm4Optimizer.scanRange .sh startRegAddr
          ((List.range (endRegAddr - startRegAddr + 1)).map pData)).1 0 none)) := by
    apply emits_writePackets <;>
      simp only [CmdStream.WriteSetSeqShRegs, hI, if_true,
        Pm4Optimizer.WriteOptimizedSetSeqShRegs, Pm4Optimizer.OptimizePm4SetReg,
        writeRuns_eq, hS.2.2.1, hS.2.2.2]
  refine ⟨⟨_, eC, scan_isRunSplit _ _ _ _ _⟩, ?_, ⟨_, eS, scan_isRunSplit _ _ _ _ _⟩, ?_⟩
  · intro hall
    rw [isRunSplit_none _ _ _ (scan_isRunSplit _ _ _ _ _) hall] at eC
    exact emitsNothing_of_nil _ _ _ _ eC
  · intro hall
    rw [isRunSplit_none _ _ _ (scan_isRunSplit _ _ _ _ _) hall] at eS
    exact emitsNothing_of_nil _ _ _ _ eS

/-- C4 at a concrete stream: register 5 is cached with 7, then the range 4..6 is written with
1, 7, 3. -/
theorem run_splitting_witness :
    ((exampleStream true false).WriteSetOneContextReg true 5 7 zeroMem 0).stream.optModeImmediate =
      true ∧
    ((exampleStream true false).WriteSetOneContextReg true 5 7 zeroMem
      0).stream.m_cmdUtil.WellFramed ∧
    4 ≤ 6 ∧
    ∃ runs : List (Nat × Nat),
      (((exampleStream true false).WriteSetOneContextReg true 5 7 zeroMem
          0).stream.WriteSetSeqContextRegs true 4 6 (arrayOf [1, 7, 3]) zeroMem 3).Emits
        ((exampleStream true false).WriteSetOneContextReg true 5 7 zeroMem 0).stream.m_cmdUtil
        zeroMem 3
        (runPackets
          (((exampleStream true false).WriteSetOneContextReg true 5 7 zeroMem
            0).stream.m_cmdUtil.BuildSetSeqContextRegs 4 6).2
          ((List.range (6 - 4 + 1)).map (arrayOf [1, 7, 3])) runs) ∧
      IsRunSplit runs (6 - 4 + 1)
        (fun j => ((exampleStream true false).WriteSetOneContextReg true 5 7 zeroMem
          0).stream.m_pPm4Optimizer.mustKeep .context (4 + j) (arrayOf [1, 7, 3] j)) :=
  ⟨rfl, exampleCmdUtil_wellFramed, by decide,
   (run_splitting ((exampleStream true false).WriteSetOneContextReg true 5 7 zeroMem 0).stream
      rfl exampleCmdUtil_wellFramed .ShaderGraphics 4 6 (by decide) (arrayOf [1, 7, 3]) zeroMem
      3).1⟩


/-! ## C6: invalidation of the whole cache -/

theorem Reset_valid (o : Pm4Optimizer) (sp : RegSpace) (a : Nat) :
    ((o.Reset).regs sp a).valid = false := rfl

/-- A request leaves the cache entry of every register it does not write as it was. -/
theorem optimizerAfter_untouched (s : CmdStream) (w : RegWrite) (sp : RegSpace) (a : Nat) (hT : ¬ w.Touches sp a) :
    (s.optimizerAfter w).regs sp a = s.m_pPm4Optimizer.regs sp a := by
  unfold CmdStream.optimizerAfter
  split
  · rw [scanRange_regs, if_neg]
    rintro ⟨h1, h2, h3, _⟩
    exact hT ⟨h1.symm, h2, h3⟩
  · rfl

theorem optimizerAfterAll_untouched (s : CmdStream) (ws : List RegWrite) (sp : RegSpace) (a : Nat) (hT : ∀ w ∈ ws, ¬ w.Touches sp a) :
    (s.optimizerAfterAll ws).regs sp a = s.m_pPm4Optimizer.regs sp a := by
  induction ws generalizing s with
  | nil => rfl
  | cons w ws ih =>
    simp only [CmdStream.optimizerAfterAll]
    rw [ih (s.withOptimizer (s.optimizerAfter w))
      (fun x hx => hT x (List.mem_cons_of_mem _ hx))]
    exact optimizerAfter_untouched s w sp a (hT w (List.mem_cons_self _ _))

/-- A request routed through the optimizer leaves a packet for every register it writes whose
write is not redundant against the cache before the call. -/
theorem emitted_sets (s : CmdStream) (hWF : s.m_cmdUtil.WellFramed) (w : RegWrite)
    (hw : w.WellFormed) (ho : s.optimizes w = true) (sp : RegSpace) (a : Nat)
    (hT : w.Touches sp a)
    (hk : s.m_pPm4Optimizer.mustKeep sp a (w.target.2.2.getD (a - w.target.2.1) 0) = true) :
    ∃ pk ∈ s.emitted w, pk.Sets sp a (w.target.2.2.getD (a - w.target.2.1) 0) := by
  obtain ⟨h1, h2, h3, h4⟩ := header_frames s.m_cmdUtil hWF w hw
  obtain ⟨hsp, hlo, hhi⟩ := hT
  subst hsp
  obtain ⟨j, rfl⟩ : ∃ j, a = w.target.2.1 + j := ⟨a - w.target.2.1, by omega⟩
  have hj : j < w.target.2.2.length := by omega
  have e : w.target.2.1 + j - w.target.2.1 = j := by omega
  rw [e] at hk ⊢
  obtain ⟨run, hrun, hr1, hr2⟩ := (subRuns_covers _ 0 none (by simp) j).mpr
    ((kept_iff s.m_pPm4Optimizer w.target.1 w.target.2.1 w.target.2.2 j).mpr ⟨hj, hk⟩)
  have hb := subRuns_bounds _ 0 none (by simp) run hrun
  rw [scanRange_length] at hb
  have hlen := runData_length w.target.2.2 run (by omega)
  refine ⟨{ header := (w.header s.m_cmdUtil).subRun run, data := runData w.target.2.2 run },
    ?_, ?_⟩
  · unfold CmdStream.emitted
    rw [if_pos ho]
    exact List.mem_map.mpr ⟨run, hrun, rfl⟩
  · refine ⟨h1, ?_, ?_, ?_⟩
    · simp only [PM4CMDSETDATA.subRun, h2]
      omega
    · simp only [PM4CMDSETDATA.subRun, h2, hlen]
      omega
    · simp only [PM4CMDSETDATA.subRun, h2]
      rw [runData_getD _ _ _ (by omega)]
      congr 1
      omega

/-- C6. In Immediate mode, on a framing encoder, after `NotifyNestedCmdBufferExecute` the
optimizer holds no valid cache entry, whatever was written before. Hence the first write of a
context or SH register issued after the notification is emitted: after any requests that do not
write that register, a request that writes it (alone or inside a range) leaves a packet setting
it to the requested value, and the single-register writes `WriteSetOneContextReg<true>` and
`WriteSetOneShReg<_, true>` emit their packet at the cursor. -/
theorem nested_execute_invalidates (s : CmdStream) (hI : s.optModeImmediate = true)
    (hWF : s.m_cmdUtil.WellFramed) :
    (∀ sp a, ((s.NotifyNestedCmdBufferExecute).m_pPm4Optimizer.regs sp a).valid = false) ∧
    (∀ (ws : List RegWrite) (w : RegWrite) (sp : RegSpace) (a : Nat) (mem : CmdSpace) (p : Nat),
      (∀ x ∈ ws, x.WellFormed ∧ ¬ x.Touches sp a) → w.WellFormed → w.Touches sp a →
      sp ≠ .config →
      ∃ ps,
        (((s.NotifyNestedCmdBufferExecute).writeAll ws mem p).stream.write w
            ((s.NotifyNestedCmdBufferExecute).writeAll ws mem p).mem
            ((s.NotifyNestedCmdBufferExecute).writeAll ws mem p).pCmdSpace).Emits s.m_cmdUtil
          ((s.NotifyNestedCmdBufferExecute).writeAll ws mem p).mem
          ((s.NotifyNestedCmdBufferExecute).writeAll ws mem p).pCmdSpace ps ∧
        ∃ pk ∈ ps, pk.Sets sp a (w.target.2.2.getD (a - w.target.2.1) 0)) ∧
    (∀ (ws : List RegWrite) (a v : Nat) (mem : CmdSpace) (p : Nat),
      (∀ x ∈ ws, x.WellFormed ∧ ¬ x.Touches .context a) →
      (((s.NotifyNestedCmdBufferExecute).writeAll ws mem p).stream.WriteSetOneContextReg true a v
          ((s.NotifyNestedCmdBufferExecute).writeAll ws mem p).mem
          ((s.NotifyNestedCmdBufferExecute).writeAll ws mem p).pCmdSpace).EmitsOne s.m_cmdUtil
        ((s.NotifyNestedCmdBufferExecute).writeAll ws mem p).mem
        ((s.NotifyNestedCmdBufferExecute).writeAll ws mem p).pCmdSpace
        (s.m_cmdUtil.BuildSetOneContextReg a none) v) ∧
    (∀ (ws : List RegWrite) (t : PM4ShaderType) (a v : Nat) (mem : CmdSpace) (p : Nat),
      (∀ x ∈ ws, x.WellFormed ∧ ¬ x.Touches .sh a) →
      (((s.NotifyNestedCmdBufferExecute).writeAll ws mem p).stream.WriteSetOneShReg t true a v
          ((s.NotifyNestedCmdBufferExecute).writeAll ws mem p).mem
          ((s.NotifyNestedCmdBufferExecute).writeAll ws mem p).pCmdSpace).EmitsOne s.m_cmdUtil
        ((s.NotifyNestedCmdBufferExecute).writeAll ws mem p).mem
        ((s.NotifyNestedCmdBufferExecute).writeAll ws mem p).pCmdSpace
        (s.m_cmdUtil.BuildSetOneShReg a t) v) := by
  have hN : s.NotifyNestedCmdBufferExecute = s.withOptimizer s.m_pPm4Optimizer.Reset := by
    simp [CmdStream.NotifyNestedCmdBufferExecute, hI]
  rw [hN]
  have hI0 : (s.withOptimizer s.m_pPm4Optimizer.Reset).optModeImmediate = true := hI
  have hWF0 : (s.withOptimizer s.m_pPm4Optimizer.Reset).m_cmdUtil.WellFramed := hWF
  have hcu0 : (s.withOptimizer s.m_pPm4Optimizer.Reset).m_cmdUtil = s.m_cmdUtil := rfl
  have hv0 : ∀ sp a,
      ((s.withOptimizer s.m_pPm4Optimizer.Reset).m_pPm4Optimizer.regs sp a).valid = false :=
    fun _ _ => rfl
  rw [← hcu0]
  generalize s.withOptimizer s.m_pPm4Optimizer.Reset = s0 at hI0 hWF0 hv0 ⊢
  have hst : ∀ (ws : List RegWrite) (mem : CmdSpace) (p : Nat) (sp : RegSpace) (a : Nat),
      (∀ x ∈ ws, x.WellFormed ∧ ¬ x.Touches sp a) →
      (s0.writeAll ws mem p).stream = s0.withOptimizer (s0.optimizerAfterAll ws) ∧
        ((s0.optimizerAfterAll ws).regs sp a).valid = false := by
    intro ws mem p sp a hws
    constructor
    · rw [writeAll_eq s0 hWF0 ws (fun x hx => (hws x hx).1)]
    · rw [optimizerAfterAll_untouched s0 ws sp a (fun x hx => (hws x hx).2)]
      exact hv0 sp a
  refine ⟨hv0, ?_, ?_, ?_⟩
  · intro ws w sp a mem p hws hw hT hsp
    obtain ⟨h1, h2⟩ := hst ws mem p sp a hws
    rw [h1]
    refine ⟨_, write_emits (s0.withOptimizer (s0.optimizerAfterAll ws)) hWF0 w hw _ _, ?_⟩
    apply emitted_sets (s0.withOptimizer (s0.optimizerAfterAll ws)) hWF0 w hw _ sp a hT
      (mustKeep_of_invalid _ _ _ _ h2)
    simp [CmdStream.optimizes, CmdStream.withOptimizer, hI0, hT.1, hsp]
  · intro ws a v mem p hws
    obtain ⟨h1, h2⟩ := hst ws mem p .context a hws
    rw [h1]
    exact (WriteSetOneContextReg_keep (s0.withOptimizer (s0.optimizerAfterAll ws)) a v _ _
      (mustKeep_of_invalid _ _ _ _ h2)).1
  · intro ws t a v mem p hws
    obtain ⟨h1, h2⟩ := hst ws mem p .sh a hws
    rw [h1]
    exact (WriteSetOneShReg_keep (s0.withOptimizer (s0.optimizerAfterAll ws)) t a v _ _
      (mustKeep_of_invalid _ _ _ _ h2)).1

/-- C6 at a concrete stream: register 5 is cached with 7, the nested execute is notified, and
the same write is issued again. -/
theorem nested_execute_invalidates_witness :
    ((exampleStream true false).WriteSetOneContextReg true 5 7 zeroMem 0).stream.optModeImmediate =
      true ∧
    ((exampleStream true false).WriteSetOneContextReg true 5 7 zeroMem
      0).stream.m_cmdUtil.WellFramed ∧
    (((((exampleStream true false).WriteSetOneContextReg true 5 7 zeroMem
        0).stream.NotifyNestedCmdBufferExecute).writeAll [] zeroMem 3).stream.WriteSetOneContextReg
      true 5 7 zeroMem 3).pCmdSpace = 6 :=
  ⟨rfl, exampleCmdUtil_wellFramed,
   ((nested_execute_invalidates
      ((exampleStream true false).WriteSetOneContextReg true 5 7 zeroMem 0).stream rfl
      exampleCmdUtil_wellFramed).2.2.1 [] 5 7 zeroMem 3
      (fun _ h => absurd h (List.not_mem_nil _))).2.2⟩


/-! ## C7: the register-cache invariant -/

/-- A sequence of requests keeps the cache in agreement with the registers: after the calls
the cache agrees with the register file obtained by executing the words they left. -/
theorem writeAll_agrees (s : CmdStream) (hI : s.optModeImmediate = true)
    (hWF : s.m_cmdUtil.WellFramed) (decode : (Nat → Nat) → Option PM4CMDSETDATA)
    (covers : PM4CMDSETDATA → Prop) (hRB : s.m_cmdUtil.ReadsBack decode covers) (r : RegFile)
    (hA : CacheAgrees s.m_pPm4Optimizer r) (ws : List RegWrite)
    (hws : ∀ w ∈ ws, w.WellFormed ∧ covers (w.header s.m_cmdUtil)) (mem : CmdSpace) (p : Nat) :
    CacheAgrees (s.writeAll ws mem p).stream.m_pPm4Optimizer
      (execute s.m_cmdUtil decode
        (readWords (s.writeAll ws mem p).mem p ((s.writeAll ws mem p).pCmdSpace - p)) r) := by
  have hwf : ∀ w ∈ ws, w.WellFormed := fun w hw => (hws w hw).1
  rw [writeAll_words s hWF ws hwf, execute_words _ _ covers hRB _
    (emittedAll_replayable s hWF decode covers hRB ws hws),
    (emittedAll_regs_immediate s hWF hI ws hwf r hA).1, writeAll_eq s hWF ws hwf]
  exact (emittedAll_regs_immediate s hWF hI ws hwf r hA).2

theorem SetShRegInvalid_agrees (o : Pm4Optimizer) (a : Nat) (r : RegFile)
    (hA : CacheAgrees o r) : CacheAgrees (o.SetShRegInvalid a) r := by
  intro sp b hv
  by_cases h : sp = .sh ∧ b = a
  · simp [Pm4Optimizer.SetShRegInvalid, h] at hv
  · rw [SetShRegInvalid_other _ _ _ _ h] at hv ⊢
    exact hA sp b hv

theorem Reset_agrees (o : Pm4Optimizer) (r : RegFile) : CacheAgrees o.Reset r := by
  intro sp b hv
  rw [Reset_valid] at hv
  exact absurd hv (by simp)

/-- One register set to a value: the cache stays in agreement exactly when that register's
entry was invalid or held the value. -/
theorem agrees_after_bypass (o : Pm4Optimizer) (r : RegFile) (hA : CacheAgrees o r)
    (a v : Nat) :
    CacheAgrees o (setRegs r .context a [v]) ↔
      ((o.regs .context a).valid = false ∨ (o.regs .context a).value = v) := by
  constructor
  · intro h
    cases hv : (o.regs .context a).valid
    · exact Or.inl rfl
    · right
      have := (h .context a hv).2
      rw [setRegs_apply, if_pos ⟨rfl, Nat.le_refl _, by simp⟩] at this
      simpa using this
  · intro h sp b hv
    obtain ⟨h1, h2⟩ := hA sp b hv
    refine ⟨h1, ?_⟩
    rw [setRegs_apply]
    by_cases hb : sp = .context ∧ a ≤ b ∧ b < a + [v].length
    · obtain ⟨rfl, hb1, hb2⟩ := hb
      have hba : b = a := by simp at hb2; omega
      subst hba
      rw [if_pos ⟨rfl, hb1, hb2⟩]
      rcases h with h | h
      · rw [h] at hv
        exact absurd hv (by simp)
      · simpa using h
    · rw [if_neg hb]
      exact h2

/-- The raw write of `WriteSetPaScRasterConfig` on a device with `rbReconfigureEnabled`. -/
theorem WriteSetPaScRasterConfig_bypass (s : CmdStream)
    (hRb : s.m_device.rbReconfigureEnabled = true) (hWF : s.m_cmdUtil.WellFramed) (v : Nat)
    (mem : CmdSpace) (p : Nat) :
    (s.WriteSetPaScRasterConfig v mem p).stream = s ∧
      (s.WriteSetPaScRasterConfig v mem p).mem =
        (s.m_cmdUtil.writePackets
          [{ header := (s.m_cmdUtil.BuildSetOneContextReg s.m_device.mmPA_SC_RASTER_CONFIG
              (some s.m_device.SET_CONTEXT_INDEX_PA_SC_RASTER_CONFIG)).2, data := [v] }] mem p).1 ∧
      (s.WriteSetPaScRasterConfig v mem p).pCmdSpace =
        (s.m_cmdUtil.writePackets
          [{ header := (s.m_cmdUtil.BuildSetOneContextReg s.m_device.mmPA_SC_RASTER_CONFIG
              (some s.m_device.SET_CONTEXT_INDEX_PA_SC_RASTER_CONFIG)).2, data := [v] }] mem p).2 := by
  have h := rawOne_eq s.m_cmdUtil _ .context s.m_device.mmPA_SC_RASTER_CONFIG v
    (hWF.oneContext _ (some s.m_device.SET_CONTEXT_INDEX_PA_SC_RASTER_CONFIG)) mem p
  simp only [CmdStream.WriteSetPaScRasterConfig, hRb, if_true, ← h]
  exact ⟨trivial, trivial, trivial⟩

/-- C7 as stated fails. On a device with `rbReconfigureEnabled`, in Immediate mode, after
`WriteSetOneContextReg(mmPA_SC_RASTER_CONFIG, 1)` the cache entry of the register is valid with
value 1; `WriteSetPaScRasterConfig(2)` then writes the register without consulting the optimizer
and leaves that entry valid with value 1, which is neither invalid nor the written value, while
executing the words it wrote sets the register to 2. -/
theorem raster_config_bypass_leaves_stale_entry :
    ((exampleStream true true).WriteSetOneContextReg true 41172 1 zeroMem 0).stream.optModeImmediate
      = true ∧
    ((exampleStream true true).WriteSetOneContextReg true 41172 1 zeroMem
      0).stream.m_device.rbReconfigureEnabled = true ∧
    ((((exampleStream true true).WriteSetOneContextReg true 41172 1 zeroMem
      0).stream.WriteSetPaScRasterConfig 2 zeroMem 3).stream.m_pPm4Optimizer.regs .context
        41172).valid = true ∧
    ((((exampleStream true true).WriteSetOneContextReg true 41172 1 zeroMem
      0).stream.WriteSetPaScRasterConfig 2 zeroMem 3).stream.m_pPm4Optimizer.regs .context
        41172).value = 1 ∧
    execute exampleCmdUtil exampleDecode
      (readWords
        (((exampleStream true true).WriteSetOneContextReg true 41172 1 zeroMem
          0).stream.WriteSetPaScRasterConfig 2 zeroMem 3).mem 3 3)
      (fun _ _ => 1) .context 41172 = 2 := by
  decide

/-! ## C9: sequential ranges outside Immediate mode -/

theorem rawRange_writes (cu : CmdUtil) (hh : cu.PM4_CMD_SET_DATA_DWORDS < 2 ^ 32)
    (built : Nat × PM4CMDSETDATA) (n : Nat) (hn : n ≤ 2 ^ 32)
    (hsize : built.1 = cu.PM4_CMD_SET_DATA_DWORDS + n) (f : Nat → Nat) (mem : CmdSpace)
    (p : Nat) (r : WriteResult)
    (hm : r.mem = memcpy (cu.writeHeader mem p built.2) (p + cu.PM4_CMD_SET_DATA_DWORDS) f
      (payloadDwords cu built.1))
    (hp : r.pCmdSpace = p + built.1) : r.WritesFullRange cu mem p built.2 f n := by
  rw [hsize, payloadDwords_framed cu n hh hn] at hm
  rw [hsize] at hp
  refine ⟨?_, ?_, ?_, hp⟩
  · rw [hm]
    unfold readWords
    apply List.map_congr_left
    intro i hi
    have hi2 : i < cu.PM4_CMD_SET_DATA_DWORDS := List.mem_range.mp hi
    rw [memcpy_outside _ _ _ _ _ (by omega)]
    exact memcpy_inside _ _ _ _ _ hi2
  · rw [hm]
    unfold readWords
    apply List.map_congr_left
    intro i hi
    exact memcpy_inside _ _ _ _ _ (List.mem_range.mp hi)
  · intro a ha
    rw [hm, memcpy_outside _ _ _ _ _ (by omega)]
    exact memcpy_outside _ _ _ _ _ (by omega)

/-- C9. Outside Immediate mode (None or Finalized), for every range of 32-bit register addresses
with `startRegAddr ≤ endRegAddr` and an encoder that reports the header size plus the register
count as the packet size, `WriteSetSeqContextRegs`, `WriteSetSeqShRegs` and
`WriteSetSeqConfigRegs` write the full range: the header the encoder built,
`PM4_CMD_SET_DATA_DWORDS` words long, followed by exactly `endRegAddr - startRegAddr + 1` data
words equal to the input values in order; they change no other word, return the cursor advanced
by the total packet size, and leave the optimizer untouched. -/
theorem raw_range_written_in_full (s : CmdStream) (hN : s.optModeImmediate = false)
    (hh : s.m_cmdUtil.PM4_CMD_SET_DATA_DWORDS < 2 ^ 32) (t : PM4ShaderType)
    (startRegAddr endRegAddr : Nat) (_ : startRegAddr ≤ endRegAddr)
    (hend : endRegAddr < 2 ^ 32)
    (hC : (s.m_cmdUtil.BuildSetSeqContextRegs startRegAddr endRegAddr).1 =
      s.m_cmdUtil.PM4_CMD_SET_DATA_DWORDS + (endRegAddr - startRegAddr + 1))
    (hS : (s.m_cmdUtil.BuildSetSeqShRegs startRegAddr endRegAddr t).1 =
      s.m_cmdUtil.PM4_CMD_SET_DATA_DWORDS + (endRegAddr - startRegAddr + 1))
    (hG : (s.m_cmdUtil.BuildSetSeqConfigRegs startRegAddr endRegAddr).1 =
      s.m_cmdUtil.PM4_CMD_SET_DATA_DWORDS + (endRegAddr - startRegAddr + 1))
    (pData : Nat → Nat) (mem : CmdSpace) (p : Nat) :
    ((s.WriteSetSeqContextRegs false startRegAddr endRegAddr pData mem p).WritesFullRange
        s.m_cmdUtil mem p (s.m_cmdUtil.BuildSetSeqContextRegs startRegAddr endRegAddr).2 pData
        (endRegAddr - startRegAddr + 1) ∧
      (s.WriteSetSeqContextRegs false startRegAddr endRegAddr pData mem p).stream = s ∧
      (s.WriteSetSeqContextRegs false startRegAddr endRegAddr pData mem p).assertsHeld = true ∧
      s.WriteSetSeqContextRegsDyn startRegAddr endRegAddr pData mem p =
        s.WriteSetSeqContextRegs false startRegAddr endRegAddr pData mem p) ∧
    ((s.WriteSetSeqShRegs startRegAddr endRegAddr t pData mem p).WritesFullRange
        s.m_cmdUtil mem p (s.m_cmdUtil.BuildSetSeqShRegs startRegAddr endRegAddr t).2 pData
        (endRegAddr - startRegAddr + 1) ∧
      (s.WriteSetSeqShRegs startRegAddr endRegAddr t pData mem p).stream = s) ∧
    ((s.WriteSetSeqConfigRegs startRegAddr endRegAddr pData mem p).WritesFullRange
        s.m_cmdUtil mem p (s.m_cmdUtil.BuildSetSeqConfigRegs startRegAddr endRegAddr).2 pData
        (endRegAddr - startRegAddr + 1) ∧
      (s.WriteSetSeqConfigRegs startRegAddr endRegAddr pData mem p).stream = s) := by
  have hn := range_bound startRegAddr endRegAddr hend
  refine ⟨⟨?_, ?_, ?_, ?_⟩, ⟨?_, ?_⟩, ⟨?_, ?_⟩⟩
  · exact rawRange_writes _ hh _ _ hn hC pData mem p _
      (by simp [CmdStream.WriteSetSeqContextRegs]) (by simp [CmdStream.WriteSetSeqContextRegs])
  · simp [CmdStream.WriteSetSeqContextRegs]
  · simp [CmdStream.WriteSetSeqContextRegs, hN]
  · simp [CmdStream.WriteSetSeqContextRegsDyn, hN]
  · exact rawRange_writes _ hh _ _ hn hS pData mem p _
      (by simp [CmdStream.WriteSetSeqShRegs, hN]) (by simp [CmdStream.WriteSetSeqShRegs, hN])
  · simp [CmdStream.WriteSetSeqShRegs, hN]
  · exact rawRange_writes _ hh _ _ hn hG pData mem p _
      (by simp [CmdStream.WriteSetSeqConfigRegs]) (by simp [CmdStream.WriteSetSeqConfigRegs])
  · simp [CmdStream.WriteSetSeqConfigRegs]

/-- C9 at a concrete stream: the range 4..6 written with 1, 7, 3 in Finalized mode. -/
theorem raw_range_written_in_full_witness :
    ({ exampleStream false false with optModeFinalized := true } : CmdStream).optModeImmediate =
      false ∧
    exampleCmdUtil.PM4_CMD_SET_DATA_DWORDS < 2 ^ 32 ∧ 4 ≤ 6 ∧ 6 < 2 ^ 32 ∧
    (({ exampleStream false false with optModeFinalized := true } : CmdStream).WriteSetSeqShRegs
      4 6 .ShaderCompute (arrayOf [1, 7, 3]) zeroMem 10).WritesFullRange exampleCmdUtil zeroMem 10
      (exampleCmdUtil.BuildSetSeqShRegs 4 6 .ShaderCompute).2 (arrayOf [1, 7, 3]) (6 - 4 + 1) :=
  ⟨rfl, by decide, by decide, by decide,
   (raw_range_written_in_full { exampleStream false false with optModeFinalized := true } rfl
      (by decide) .ShaderCompute 4 6 (by decide) (by decide) rfl rfl rfl (arrayOf [1, 7, 3])
      zeroMem 10).2.1.1⟩


/-! ## C10: raw packet images -/

theorem writeWords_outside (mem : CmdSpace) (p : Nat) (ws : List Nat) (a : Nat)
    (h : a < p ∨ p + ws.length ≤ a) : writeWords mem p ws a = mem a :=
  memcpy_outside _ _ _ _ _ h

theorem writeWords_read (mem : CmdSpace) (p : Nat) (ws : List Nat) :
    readWords (writeWords mem p ws) p ws.length = ws :=
  readWords_arrayOf _ _ _

theorem keepSpan_nil : keepSpan [] = [] := rfl

theorem keepSpan_length (ks : List Bool) : (keepSpan ks).length ≤ 1 := by
  unfold keepSpan
  split <;> simp

theorem runData_length_le (vals : List Nat) (run : Nat × Nat) :
    (runData vals run).length ≤ vals.length := by
  simp only [runData, List.length_take, List.length_drop]
  omega

theorem runsWords_length_le (cu : CmdUtil) (d : PM4CMDSETDATA) (vals : List Nat)
    (runs : List (Nat × Nat)) (h : runs.length ≤ 1) :
    (cu.runsWords d vals runs).length ≤ cu.PM4_CMD_SET_DATA_DWORDS + vals.length := by
  match runs, h with
  | [], _ => simp [CmdUtil.runsWords]
  | [run], _ =>
    have := runData_length_le vals run
    simp only [CmdUtil.runsWords, List.flatMap_cons, List.flatMap_nil, List.append_nil,
      CmdUtil.packetWords, List.length_append, List.length_map, List.length_range]
    omega

/-- The whole-block pass never makes a packet longer. -/
theorem optimizePacket_length (o : Pm4Optimizer) (cu : CmdUtil) (pkt : List Nat) :
    (o.optimizePacket cu pkt).1.length ≤ pkt.length := by
  unfold Pm4Optimizer.optimizePacket
  split
  · exact Nat.le_refl _
  · split
    · exact Nat.le_refl _
    · rename_i d _ _
      cases hv : pkt.drop cu.PM4_CMD_SET_DATA_DWORDS with
      | nil => simp [Pm4Optimizer.scanRange, keepSpan_nil, CmdUtil.runsWords]
      | cons v vs =>
        have hl : (pkt.drop cu.PM4_CMD_SET_DATA_DWORDS).length = (v :: vs).length := by rw [hv]
        rw [List.length_drop] at hl
        have := runsWords_length_le cu { d with numRegs := (v :: vs).length } (v :: vs)
          (keepSpan (o.scanRange d.space d.regOffset (v :: vs)).1) (keepSpan_length _)
        simp only [List.length_cons] at hl this ⊢
        omega

/-- The whole-block pass never reports more words than it was given. -/
theorem walkPackets_length (o : Pm4Optimizer) (cu : CmdUtil) (fuel : Nat) (src : List Nat) :
    (o.walkPackets cu fuel src).1.length ≤ src.length := by
  induction fuel generalizing o src with
  | zero => simp [Pm4Optimizer.walkPackets]
  | succ fuel ih =>
    cases src with
    | nil => simp [Pm4Optimizer.walkPackets]
    | cons h t =>
      simp only [Pm4Optimizer.walkPackets, List.length_append]
      have h1 := optimizePacket_length o cu ((h :: t).take (cu.packetDwords h))
      have h2 := ih (o.optimizePacket cu ((h :: t).take (cu.packetDwords h))).2
        ((h :: t).drop (cu.packetDwords h))
      have h3 : ((h :: t).take (cu.packetDwords h)).length +
          ((h :: t).drop (cu.packetDwords h)).length = (h :: t).length := by
        rw [List.length_take, List.length_drop]
        omega
      omega

theorem OptimizePm4Commands_length (o : Pm4Optimizer) (cu : CmdUtil) (pSrc : Nat → Nat)
    (numDwords : Nat) : (o.OptimizePm4Commands cu pSrc numDwords).1.length ≤ numDwords := by
  have := walkPackets_length o cu numDwords ((List.range numDwords).map pSrc)
  simpa [Pm4Optimizer.OptimizePm4Commands] using this

/-- C10. Outside Immediate mode, for every image of `sizeInDwords` words (a byte count that
fits `size_t`), `WritePm4Image` copies the image verbatim to the words
`[pCmdSpace, pCmdSpace + sizeInDwords)`, changes no other word, leaves the optimizer alone and
returns `pCmdSpace + sizeInDwords`. In Immediate mode the image is passed to the optimizer: the
words written at the cursor are the optimizer's output, no other word changes, and the cursor
advances by exactly the size the optimizer reports, which is at most `sizeInDwords`. -/
theorem WritePm4Image_copies_or_optimizes (s : CmdStream) (sizeInDwords : Nat)
    (pImage : Nat → Nat) (mem : CmdSpace) (pCmdSpace : Nat) :
    (s.optModeImmediate = false → sizeInDwords < 2 ^ 62 →
      readWords (s.WritePm4Image sizeInDwords pImage mem pCmdSpace).mem pCmdSpace sizeInDwords =
        (List.range sizeInDwords).map pImage ∧
      (∀ a, a < pCmdSpace ∨ pCmdSpace + sizeInDwords ≤ a →
        (s.WritePm4Image sizeInDwords pImage mem pCmdSpace).mem a = mem a) ∧
      (s.WritePm4Image sizeInDwords pImage mem pCmdSpace).pCmdSpace = pCmdSpace + sizeInDwords ∧
      (s.WritePm4Image sizeInDwords pImage mem pCmdSpace).stream = s) ∧
    (s.optModeImmediate = true →
      readWords (s.WritePm4Image sizeInDwords pImage mem pCmdSpace).mem pCmdSpace
          (s.m_pPm4Optimizer.OptimizePm4Commands s.m_cmdUtil pImage
            (sizeInDwords % 2 ^ 32)).1.length =
        (s.m_pPm4Optimizer.OptimizePm4Commands s.m_cmdUtil pImage (sizeInDwords % 2 ^ 32)).1 ∧
      (∀ a, a < pCmdSpace ∨ (s.WritePm4Image sizeInDwords pImage mem pCmdSpace).pCmdSpace ≤ a →
        (s.WritePm4Image sizeInDwords pImage mem pCmdSpace).mem a = mem a) ∧
      (s.WritePm4Image sizeInDwords pImage mem pCmdSpace).pCmdSpace =
        pCmdSpace + (s.m_pPm4Optimizer.OptimizePm4Commands s.m_cmdUtil pImage
          (sizeInDwords % 2 ^ 32)).1.length ∧
      (s.WritePm4Image sizeInDwords pImage mem pCmdSpace).stream =
        s.withOptimizer (s.m_pPm4Optimizer.OptimizePm4Commands s.m_cmdUtil pImage
          (sizeInDwords % 2 ^ 32)).2 ∧
      (s.m_pPm4Optimizer.OptimizePm4Commands s.m_cmdUtil pImage
        (sizeInDwords % 2 ^ 32)).1.length ≤ sizeInDwords) := by
  constructor
  · intro hN hsz
    have hcopy : sizeInDwords * 4 % 2 ^ 64 / 4 = sizeInDwords := by
      norm_num at hsz ⊢
      omega
    simp only [CmdStream.WritePm4Image, hN, Bool.false_eq_true, if_false, hcopy]
    refine ⟨?_, fun a ha => memcpy_outside _ _ _ _ _ ha, trivial, trivial⟩
    unfold readWords
    apply List.map_congr_left
    intro i hi
    exact memcpy_inside _ _ _ _ _ (List.mem_range.mp hi)
  · intro hI
    simp only [CmdStream.WritePm4Image, hI, if_true]
    refine ⟨writeWords_read _ _ _, fun a ha => writeWords_outside _ _ _ _ ha, trivial, trivial,
      ?_⟩
    exact Nat.le_trans (OptimizePm4Commands_length _ _ _ _) (Nat.mod_le _ _)


/-! ## Every write operation is framed by its cursors -/

theorem framed_refl (mem : CmdSpace) (p : Nat) : Framed mem p mem p :=
  ⟨Nat.le_refl _, fun _ _ => rfl⟩

theorem framed_words (mem : CmdSpace) (p : Nat) (ws : List Nat) :
    Framed mem p (writeWords mem p ws) (p + ws.length) :=
  ⟨Nat.le_add_right _ _, fun _ ha => writeWords_outside _ _ _ _ ha⟩

theorem framed_one (cu : CmdUtil) (built : Nat × PM4CMDSETDATA) (sp : RegSpace) (a : Nat)
    (hF : cu.Frames built sp a 1) (v : Nat) (mem : CmdSpace) (p : Nat) :
    Framed mem p (store (cu.writeHeader mem p built.2) (p + cu.PM4_CMD_SET_DATA_DWORDS) v)
      (p + built.1) := by
  refine ⟨Nat.le_add_right _ _, fun b hb => ?_⟩
  rw [hF.1] at hb
  exact onePacket_outside _ _ _ _ _ _ (by omega)

theorem framed_rawSeq (cu : CmdUtil) (hh : cu.PM4_CMD_SET_DATA_DWORDS < 2 ^ 32)
    (built : Nat × PM4CMDSETDATA) (sp : RegSpace) (a n : Nat) (hn : n ≤ 2 ^ 32)
    (hF : cu.Frames built sp a n) (f : Nat → Nat) (mem : CmdSpace) (p : Nat) :
    Framed mem p
      (memcpy (cu.writeHeader mem p built.2) (p + cu.PM4_CMD_SET_DATA_DWORDS) f
        (payloadDwords cu built.1)) (p + built.1) := by
  refine ⟨Nat.le_add_right _ _, fun b hb => ?_⟩
  rw [hF.1] at hb ⊢
  rw [payloadDwords_framed cu n hh hn, memcpy_outside _ _ _ _ _ (by omega)]
  exact memcpy_outside _ _ _ _ _ (by omega)

theorem framed_setReg (o : Pm4Optimizer) (cu : CmdUtil) (sp : RegSpace) (d : PM4CMDSETDATA)
    (f : Nat → Nat) (mem : CmdSpace) (p : Nat) :
    Framed mem p (o.OptimizePm4SetReg cu sp d f mem p).2.1
      (o.OptimizePm4SetReg cu sp d f mem p).2.2 := by
  simp only [Pm4Optimizer.OptimizePm4SetReg, writeRuns_eq]
  refine ⟨?_, fun a ha => writePackets_outside _ _ _ _ _ ha⟩
  rw [writePackets_cursor]
  exact Nat.le_add_right _ _

theorem framed_image (mem : CmdSpace) (p n : Nat) (f : Nat → Nat) :
    Framed mem p (memcpy mem p f (n * 4 % 2 ^ 64 / 4)) (p + n) := by
  refine ⟨Nat.le_add_right _ _, fun a ha => memcpy_outside _ _ _ _ _ ?_⟩
  have : n * 4 % 2 ^ 64 / 4 ≤ n := by
    have := Nat.mod_le (n * 4) (2 ^ 64)
    omega
  omega

theorem sameStream_refl (s : CmdStream) : SameStream s s := ⟨s.m_pPm4Optimizer, rfl⟩

theorem sameStream_with (s : CmdStream) (o : Pm4Optimizer) : SameStream s (s.withOptimizer o) :=
  ⟨o, rfl⟩

theorem sameStream_trans (s s2 s3 : CmdStream) (h1 : SameStream s s2) (h2 : SameStream s2 s3) :
    SameStream s s3 := by
  obtain ⟨o1, rfl⟩ := h1
  obtain ⟨o2, rfl⟩ := h2
  exact ⟨o2, rfl⟩

/-! ### The user-data loop -/

theorem userDataStep_mapped (s : CmdStream) (entryMap : UserDataEntryMap) (args : UserDataArgs)
    (base : Nat) (st : CmdStream.UserDataLoop) (e : Nat)
    (h : entryMap.regAddr ((e + args.firstEntry) % 2 ^ 32) ≠ s.m_device.UserDataNotMapped) :
    s.userDataStep entryMap args base st e =
      { payload := store st.payload (base + st.count) (args.pEntryValues e)
        endRegAddr := entryMap.regAddr ((e + args.firstEntry) % 2 ^ 32)
        count := st.count + 1
        assertsHeld := st.assertsHeld &&
          (st.endRegAddr == 0 ||
            st.endRegAddr ==
              (entryMap.regAddr ((e + args.firstEntry) % 2 ^ 32) + 2 ^ 32 - 1) % 2 ^ 32) } := by
  simp only [CmdStream.userDataStep]
  rw [if_pos h]

theorem userDataStep_unmapped (s : CmdStream) (entryMap : UserDataEntryMap)
    (args : UserDataArgs) (base : Nat) (st : CmdStream.UserDataLoop) (e : Nat)
    (h : ¬ entryMap.regAddr ((e + args.firstEntry) % 2 ^ 32) ≠ s.m_device.UserDataNotMapped) :
    s.userDataStep entryMap args base st e = st := by
  simp only [CmdStream.userDataStep]
  rw [if_neg h]

theorem userDataFold_asserts (s : CmdStream) (entryMap : UserDataEntryMap)
    (args : UserDataArgs) (base : Nat) (es : List Nat) (st : CmdStream.UserDataLoop)
    (h : (es.foldl (s.userDataStep entryMap args base) st).assertsHeld = true) :
    st.assertsHeld = true := by
  induction es generalizing st with
  | nil => exact h
  | cons e es ih =>
    have h2 := ih _ h
    by_cases hm : entryMap.regAddr ((e + args.firstEntry) % 2 ^ 32) ≠
        s.m_device.UserDataNotMapped
    · rw [userDataStep_mapped _ _ _ _ _ _ hm] at h2
      simp only [Bool.and_eq_true] at h2
      exact h2.1
    · rw [userDataStep_unmapped _ _ _ _ _ _ hm] at h2
      exact h2

theorem userDataFold_ok (s : CmdStream) (entryMap : UserDataEntryMap) (args : UserDataArgs)
    (hmap : ∀ i, entryMap.regAddr i ≠ s.m_device.UserDataNotMapped →
      1 ≤ entryMap.regAddr i ∧ entryMap.regAddr i < 2 ^ 32)
    (base : Nat) (es : List Nat) (st : CmdStream.UserDataLoop) (hst : LoopOk st)
    (h : (es.foldl (s.userDataStep entryMap args base) st).assertsHeld = true) :
    LoopOk (es.foldl (s.userDataStep entryMap args base) st) := by
  induction es generalizing st with
  | nil => exact hst
  | cons e es ih =>
    apply ih _ _ h
    have h2 := userDataFold_asserts s entryMap args base es _ h
    by_cases hm : entryMap.regAddr ((e + args.firstEntry) % 2 ^ 32) ≠
        s.m_device.UserDataNotMapped
    · rw [userDataStep_mapped _ _ _ _ _ _ hm] at h2 ⊢
      obtain ⟨h1, h3⟩ := hmap _ hm
      simp only [Bool.and_eq_true, Bool.or_eq_true, beq_iff_eq] at h2
      right
      rcases hst with ⟨hc, he⟩ | ⟨hc, he, hb⟩
      · simp only [hc]
        omega
      · rcases h2.2 with h0 | h0
        · omega
        · simp only
          omega
    · rw [userDataStep_unmapped _ _ _ _ _ _ hm]
      exact hst

theorem userDataFold_frame (s : CmdStream) (entryMap : UserDataEntryMap) (args : UserDataArgs)
    (base : Nat) (es : List Nat) (st : CmdStream.UserDataLoop) :
    st.count ≤ (es.foldl (s.userDataStep entryMap args base) st).count ∧
      ∀ a, a < base + st.count ∨
          base + (es.foldl (s.userDataStep entryMap args base) st).count ≤ a →
        (es.foldl (s.userDataStep entryMap args base) st).payload a = st.payload a := by
  induction es generalizing st with
  | nil => exact ⟨Nat.le_refl _, fun _ _ => rfl⟩
  | cons e es ih =>
    obtain ⟨h1, h2⟩ := ih (s.userDataStep entryMap args base st e)
    simp only [List.foldl_cons]
    have hstep : st.count ≤ (s.userDataStep entryMap args base st e).count ∧
        ∀ a, a < base + st.count ∨ base + (s.userDataStep entryMap args base st e).count ≤ a →
          (s.userDataStep entryMap args base st e).payload a = st.payload a := by
      by_cases hm : entryMap.regAddr ((e + args.firstEntry) % 2 ^ 32) ≠
          s.m_device.UserDataNotMapped
      · rw [userDataStep_mapped _ _ _ _ _ _ hm]
        refine ⟨Nat.le_succ _, fun a ha => ?_⟩
        simp only at ha ⊢
        exact store_other _ _ _ _ (by omega)
      · rw [userDataStep_unmapped _ _ _ _ _ _ hm]
        exact ⟨Nat.le_refl _, fun _ _ => rfl⟩
    refine ⟨Nat.le_trans hstep.1 h1, fun a ha => ?_⟩
    rw [h2 a (by omega)]
    exact hstep.2 a (by omega)

/-- The tail of the general user-data path outside Immediate mode, for a finished loop. -/
theorem framed_userDataTail (s : CmdStream) (hWF : s.m_cmdUtil.WellFramed) (t : PM4ShaderType)
    (mem : CmdSpace) (p : Nat) (loop : CmdStream.UserDataLoop) (held : Bool)
    (hfr : ∀ a, a < p + s.m_cmdUtil.PM4_CMD_SET_DATA_DWORDS ∨
      p + s.m_cmdUtil.PM4_CMD_SET_DATA_DWORDS + loop.count ≤ a → loop.payload a = mem a)
    (hinv : LoopOk loop) :
    Framed mem p
      (if 1 ≤ loop.count then
        ({ stream := s
           mem := s.m_cmdUtil.writeHeader loop.payload p
            (s.m_cmdUtil.BuildSetSeqShRegs ((loop.endRegAddr + 2 ^ 32 - loop.count + 1) % 2 ^ 32)
              loop.endRegAddr t).2
           pCmdSpace := p +
            (s.m_cmdUtil.BuildSetSeqShRegs ((loop.endRegAddr + 2 ^ 32 - loop.count + 1) % 2 ^ 32)
              loop.endRegAddr t).1
           assertsHeld := held &&
            ((s.m_cmdUtil.BuildSetSeqShRegs
              ((loop.endRegAddr + 2 ^ 32 - loop.count + 1) % 2 ^ 32) loop.endRegAddr t).1 ==
              loop.count + s.m_cmdUtil.PM4_CMD_SET_DATA_DWORDS) } : WriteResult)
      else { stream := s, mem := loop.payload, pCmdSpace := p, assertsHeld := held }).mem
      (if 1 ≤ loop.count then
        ({ stream := s
           mem := s.m_cmdUtil.writeHeader loop.payload p
            (s.m_cmdUtil.BuildSetSeqShRegs ((loop.endRegAddr + 2 ^ 32 - loop.count + 1) % 2 ^ 32)
              loop.endRegAddr t).2
           pCmdSpace := p +
            (s.m_cmdUtil.BuildSetSeqShRegs ((loop.endRegAddr + 2 ^ 32 - loop.count + 1) % 2 ^ 32)
              loop.endRegAddr t).1
           assertsHeld := held &&
            ((s.m_cmdUtil.BuildSetSeqShRegs
              ((loop.endRegAddr + 2 ^ 32 - loop.count + 1) % 2 ^ 32) loop.endRegAddr t).1 ==
              loop.count + s.m_cmdUtil.PM4_CMD_SET_DATA_DWORDS) } : WriteResult)
      else { stream := s, mem := loop.payload, pCmdSpace := p, assertsHeld := held }).pCmdSpace := by
  by_cases hc : 1 ≤ loop.count
  · rw [if_pos hc]
    rcases hinv with ⟨h0, _⟩ | ⟨_, hle, hb⟩
    · omega
    · have hstart : (loop.endRegAddr + 2 ^ 32 - loop.count + 1) % 2 ^ 32 =
          loop.endRegAddr - loop.count + 1 := by omega
      have hF := hWF.seqSh (loop.endRegAddr - loop.count + 1) loop.endRegAddr t (by omega)
      have hn : loop.endRegAddr - (loop.endRegAddr - loop.count + 1) + 1 = loop.count := by
        omega
      rw [hn] at hF
      simp only [hstart, hF.1]
      refine ⟨Nat.le_add_right _ _, fun a ha => ?_⟩
      unfold CmdUtil.writeHeader
      rw [memcpy_outside _ _ _ _ _ (by omega)]
      exact hfr a (by omega)
  · rw [if_neg hc]
    refine ⟨Nat.le_refl _, fun a _ => ?_⟩
    exact hfr a (by omega)

/-- The general user-data path outside Immediate mode: the payload and the header lie between
the cursors. -/
theorem framed_userDataMany_raw (s : CmdStream) (hWF : s.m_cmdUtil.WellFramed)
    (entryMap : UserDataEntryMap) (args : UserDataArgs) (hok : UserDataOk s entryMap args)
    (t : PM4ShaderType) (mem : CmdSpace) (p : Nat) (hN : s.optModeImmediate = false) :
    Framed mem p (s.WriteUserDataRegistersMany entryMap args t mem p).mem
      (s.WriteUserDataRegistersMany entryMap args t mem p).pCmdSpace := by
  have hfr := userDataFold_frame s entryMap args (p + s.m_cmdUtil.PM4_CMD_SET_DATA_DWORDS)
    (List.range args.entryCount)
    { payload := mem, endRegAddr := 0, count := 0, assertsHeld := true }
  have hinv := userDataFold_ok s entryMap args hok.1 (p + s.m_cmdUtil.PM4_CMD_SET_DATA_DWORDS)
    (List.range args.entryCount)
    { payload := mem, endRegAddr := 0, count := 0, assertsHeld := true } (Or.inl ⟨rfl, rfl⟩)
    (hok.2 _ _)
  simp only [Nat.add_zero] at hfr
  simp only [CmdStream.WriteUserDataRegistersMany, hN, Bool.false_eq_true, if_false]
  exact framed_userDataTail s hWF t mem p _ _ hfr.2 hinv

theorem framed_userDataOne (s : CmdStream) (hWF : s.m_cmdUtil.WellFramed)
    (entryMap : UserDataEntryMap) (args : UserDataArgs) (t : PM4ShaderType) (mem : CmdSpace)
    (p : Nat) :
    Framed mem p (s.WriteUserDataRegistersOne entryMap args t mem p).mem
        (s.WriteUserDataRegistersOne entryMap args t mem p).pCmdSpace ∧
      SameStream s (s.WriteUserDataRegistersOne entryMap args t mem p).stream := by
  unfold CmdStream.WriteUserDataRegistersOne
  by_cases hm : entryMap.regAddr args.firstEntry ≠ s.m_device.UserDataNotMapped
  · by_cases hI : s.optModeImmediate = true
    · simp only [hm, hI, if_true, ne_eq, not_false_eq_true]
      exact ⟨framed_setReg _ _ _ _ _ _ _, sameStream_with _ _⟩
    · simp only [hm, hI, if_true, if_false, ne_eq, not_false_eq_true]
      have hF := hWF.seqSh (entryMap.regAddr args.firstEntry) (entryMap.regAddr args.firstEntry)
        t (Nat.le_refl _)
      rw [Nat.sub_self] at hF
      exact ⟨framed_one _ _ _ _ hF _ _ _, sameStream_refl _⟩
  · simp only [hm, if_false]
    exact ⟨framed_refl _ _, sameStream_refl _⟩

theorem framed_userDataMany (s : CmdStream) (hWF : s.m_cmdUtil.WellFramed)
    (entryMap : UserDataEntryMap) (args : UserDataArgs) (hok : UserDataOk s entryMap args)
    (t : PM4ShaderType) (mem : CmdSpace) (p : Nat) :
    Framed mem p (s.WriteUserDataRegistersMany entryMap args t mem p).mem
        (s.WriteUserDataRegistersMany entryMap args t mem p).pCmdSpace ∧
      SameStream s (s.WriteUserDataRegistersMany entryMap args t mem p).stream := by
  cases hI : s.optModeImmediate
  · refine ⟨framed_userDataMany_raw s hWF entryMap args hok t mem p hI, ?_⟩
    simp only [CmdStream.WriteUserDataRegistersMany, hI, Bool.false_eq_true, if_false]
    by_cases hc : 1 ≤ (s.userDataLoop entryMap args
        (p + s.m_cmdUtil.PM4_CMD_SET_DATA_DWORDS) mem).count
    · simp only [hc, if_true]
      exact sameStream_refl _
    · simp only [hc, if_false]
      exact sameStream_refl _
  · simp only [CmdStream.WriteUserDataRegistersMany, hI, if_true]
    by_cases hc : 1 ≤ (s.userDataLoop entryMap args 0 fun _ => 0).count
    · simp only [hc, if_true]
      exact ⟨framed_setReg _ _ _ _ _ _ _, sameStream_with _ _⟩
    · simp only [hc, if_false]
      exact ⟨framed_refl _ _, sameStream_refl _⟩

theorem framed_oneContext (s : CmdStream) (hWF : s.m_cmdUtil.WellFramed) (b : Bool)
    (a v : Nat) (mem : CmdSpace) (p : Nat) :
    Framed mem p (s.WriteSetOneContextReg b a v mem p).mem
        (s.WriteSetOneContextReg b a v mem p).pCmdSpace ∧
      SameStream s (s.WriteSetOneContextReg b a v mem p).stream := by
  unfold CmdStream.WriteSetOneContextReg
  cases b
  · simp only [if_true]
    exact ⟨framed_one _ _ _ _ (hWF.oneContext a none) _ _ _, sameStream_refl _⟩
  · simp only [Bool.true_eq_false, if_false]
    split
    · exact ⟨framed_one _ _ _ _ (hWF.oneContext a none) _ _ _, sameStream_with _ _⟩
    · exact ⟨framed_refl _ _, sameStream_with _ _⟩

theorem framed_oneSh (s : CmdStream) (hWF : s.m_cmdUtil.WellFramed) (t : PM4ShaderType)
    (b : Bool) (a v : Nat) (mem : CmdSpace) (p : Nat) :
    Framed mem p (s.WriteSetOneShReg t b a v mem p).mem
        (s.WriteSetOneShReg t b a v mem p).pCmdSpace ∧
      SameStream s (s.WriteSetOneShReg t b a v mem p).stream := by
  unfold CmdStream.WriteSetOneShReg
  cases b
  · simp only [if_true]
    exact ⟨framed_one _ _ _ _ (hWF.oneSh a t) _ _ _, sameStream_refl _⟩
  · simp only [Bool.true_eq_false, if_false]
    split
    · exact ⟨framed_one _ _ _ _ (hWF.oneSh a t) _ _ _, sameStream_with _ _⟩
    · exact ⟨framed_refl _ _, sameStream_with _ _⟩

theorem framed_oneConfig (s : CmdStream) (hWF : s.m_cmdUtil.WellFramed)
    (a v : Nat) (mem : CmdSpace) (p : Nat) :
    Framed mem p (s.WriteSetOneConfigReg a v mem p).mem
        (s.WriteSetOneConfigReg a v mem p).pCmdSpace ∧
      SameStream s (s.WriteSetOneConfigReg a v mem p).stream :=
  ⟨framed_one _ _ _ _ (hWF.oneConfig a none) _ _ _, sameStream_refl _⟩

theorem framed_privileged (s : CmdStream) (a v : Nat) (mem : CmdSpace) (p : Nat) :
    Framed mem p (s.WriteSetOnePrivilegedConfigReg a v mem p).mem
        (s.WriteSetOnePrivilegedConfigReg a v mem p).pCmdSpace ∧
      SameStream s (s.WriteSetOnePrivilegedConfigReg a v mem p).stream :=
  ⟨framed_words _ _ _, sameStream_refl _⟩

theorem framed_indexed (s : CmdStream) (hWF : s.m_cmdUtil.WellFramed) (b : Bool)
    (a idx v : Nat) (mem : CmdSpace) (p : Nat) :
    Framed mem p
        (if b = false then
          ({ stream := s
             mem := store (s.m_cmdUtil.writeHeader mem p
              (s.m_cmdUtil.BuildSetOneContextReg a (some idx)).2)
                (p + s.m_cmdUtil.PM4_CMD_SET_DATA_DWORDS) v
             pCmdSpace := p + (s.m_cmdUtil.BuildSetOneContextReg a (some idx)).1
             assertsHeld := s.optModeImmediate == b } : WriteResult)
        else if (s.m_pPm4Optimizer.MustKeepSetContextReg a v).1 = true then
          { stream := s.withOptimizer (s.m_pPm4Optimizer.MustKeepSetContextReg a v).2
            mem := store (s.m_cmdUtil.writeHeader mem p
              (s.m_cmdUtil.BuildSetOneContextReg a (some idx)).2)
                (p + s.m_cmdUtil.PM4_CMD_SET_DATA_DWORDS) v
            pCmdSpace := p + (s.m_cmdUtil.BuildSetOneContextReg a (some idx)).1
            assertsHeld := s.optModeImmediate == b }
        else
          { stream := s.withOptimizer (s.m_pPm4Optimizer.MustKeepSetContextReg a v).2
            mem := mem, pCmdSpace := p, assertsHeld := s.optModeImmediate == b }).mem
        (if b = false then
          ({ stream := s
             mem := store (s.m_cmdUtil.writeHeader mem p
              (s.m_cmdUtil.BuildSetOneContextReg a (some idx)).2)
                (p + s.m_cmdUtil.PM4_CMD_SET_DATA_DWORDS) v
             pCmdSpace := p + (s.m_cmdUtil.BuildSetOneContextReg a (some idx)).1
             assertsHeld := s.optModeImmediate == b } : WriteResult)
        else if (s.m_pPm4Optimizer.MustKeepSetContextReg a v).1 = true then
          { stream := s.withOptimizer (s.m_pPm4Optimizer.MustKeepSetContextReg a v).2
            mem := store (s.m_cmdUtil.writeHeader mem p
              (s.m_cmdUtil.BuildSetOneContextReg a (some idx)).2)
                (p + s.m_cmdUtil.PM4_CMD_SET_DATA_DWORDS) v
            pCmdSpace := p + (s.m_cmdUtil.BuildSetOneContextReg a (some idx)).1
            assertsHeld := s.optModeImmediate == b }
        else
          { stream := s.withOptimizer (s.m_pPm4Optimizer.MustKeepSetContextReg a v).2
            mem := mem, pCmdSpace := p, assertsHeld := s.optModeImmediate == b }).pCmdSpace ∧
      SameStream s
        (if b = false then
          ({ stream := s
             mem := store (s.m_cmdUtil.writeHeader mem p
              (s.m_cmdUtil.BuildSetOneContextReg a (some idx)).2)
                (p + s.m_cmdUtil.PM4_CMD_SET_DATA_DWORDS) v
             pCmdSpace := p + (s.m_cmdUtil.BuildSetOneContextReg a (some idx)).1
             assertsHeld := s.optModeImmediate == b } : WriteResult)
        else if (s.m_pPm4Optimizer.MustKeepSetContextReg a v).1 = true then
          { stream := s.withOptimizer (s.m_pPm4Optimizer.MustKeepSetContextReg a v).2
            mem := store (s.m_cmdUtil.writeHeader mem p
              (s.m_cmdUtil.BuildSetOneContextReg a (some idx)).2)
                (p + s.m_cmdUtil.PM4_CMD_SET_DATA_DWORDS) v
            pCmdSpace := p + (s.m_cmdUtil.BuildSetOneContextReg a (some idx)).1
            assertsHeld := s.optModeImmediate == b }
        else
          { stream := s.withOptimizer (s.m_pPm4Optimizer.MustKeepSetContextReg a v).2
            mem := mem, pCmdSpace := p, assertsHeld := s.optModeImmediate == b }).stream := by
  cases b
  · simp only [if_true]
    exact ⟨framed_one _ _ _ _ (hWF.oneContext a (some idx)) _ _ _, sameStream_refl _⟩
  · simp only [Bool.true_eq_false, if_false]
    split
    · exact ⟨framed_one _ _ _ _ (hWF.oneContext a (some idx)) _ _ _, sameStream_with _ _⟩
    · exact ⟨framed_refl _ _, sameStream_with _ _⟩

theorem framed_seqContext (s : CmdStream) (hWF : s.m_cmdUtil.WellFramed) (b : Bool)
    (a e : Nat) (hae : a ≤ e ∧ e < 2 ^ 32) (f : Nat → Nat) (mem : CmdSpace) (p : Nat) :
    Framed mem p (s.WriteSetSeqContextRegs b a e f mem p).mem
        (s.WriteSetSeqContextRegs b a e f mem p).pCmdSpace ∧
      SameStream s (s.WriteSetSeqContextRegs b a e f mem p).stream := by
  unfold CmdStream.WriteSetSeqContextRegs
  cases b
  · simp only [Bool.false_eq_true, if_false]
    exact ⟨framed_rawSeq _ hWF.hdrSmall _ _ _ _ (by omega) (hWF.seqContext a e hae.1) _ _ _,
      sameStream_refl _⟩
  · simp only [if_true]
    exact ⟨framed_setReg _ _ _ _ _ _ _, sameStream_with _ _⟩

theorem framed_seqSh (s : CmdStream) (hWF : s.m_cmdUtil.WellFramed)
    (a e : Nat) (hae : a ≤ e ∧ e < 2 ^ 32) (t : PM4ShaderType) (f : Nat → Nat) (mem : CmdSpace)
    (p : Nat) :
    Framed mem p (s.WriteSetSeqShRegs a e t f mem p).mem
        (s.WriteSetSeqShRegs a e t f mem p).pCmdSpace ∧
      SameStream s (s.WriteSetSeqShRegs a e t f mem p).stream := by
  unfold CmdStream.WriteSetSeqShRegs
  cases hI : s.optModeImmediate
  · simp only [Bool.false_eq_true, if_false]
    exact ⟨framed_rawSeq _ hWF.hdrSmall _ _ _ _ (by omega) (hWF.seqSh a e t hae.1) _ _ _,
      sameStream_refl _⟩
  · simp only [if_true]
    exact ⟨framed_setReg _ _ _ _ _ _ _, sameStream_with _ _⟩

theorem framed_seqConfig (s : CmdStream) (hWF : s.m_cmdUtil.WellFramed)
    (a e : Nat) (hae : a ≤ e ∧ e < 2 ^ 32) (f : Nat → Nat) (mem : CmdSpace) (p : Nat) :
    Framed mem p (s.WriteSetSeqConfigRegs a e f mem p).mem
        (s.WriteSetSeqConfigRegs a e f mem p).pCmdSpace ∧
      SameStream s (s.WriteSetSeqConfigRegs a e f mem p).stream :=
  ⟨framed_rawSeq _ hWF.hdrSmall _ _ _ _ (by omega) (hWF.seqConfig a e hae.1) _ _ _,
    sameStream_refl _⟩

theorem framed_rmw (s : CmdStream) (b : Bool) (a m v : Nat) (mem : CmdSpace) (p : Nat) :
    Framed mem p (s.WriteContextRegRmw b a m v mem p).mem
        (s.WriteContextRegRmw b a m v mem p).pCmdSpace ∧
      SameStream s (s.WriteContextRegRmw b a m v mem p).stream := by
  unfold CmdStream.WriteContextRegRmw
  cases b
  · simp only [if_true]
    exact ⟨framed_words _ _ _, sameStream_refl _⟩
  · simp only [Bool.true_eq_false, if_false]
    split
    · exact ⟨framed_words _ _ _, sameStream_with _ _⟩
    · exact ⟨framed_refl _ _, sameStream_with _ _⟩

theorem framed_dataOffset (s : CmdStream) (t : PM4ShaderType) (b : Bool) (a off : Nat)
    (mem : CmdSpace) (p : Nat) :
    Framed mem p (s.WriteSetShRegDataOffset t b a off mem p).mem
        (s.WriteSetShRegDataOffset t b a off mem p).pCmdSpace ∧
      SameStream s (s.WriteSetShRegDataOffset t b a off mem p).stream := by
  unfold CmdStream.WriteSetShRegDataOffset
  cases b
  · simp only [Bool.false_eq_true, if_false]
    exact ⟨framed_words _ _ _, sameStream_refl _⟩
  · simp only [if_true]
    exact ⟨framed_words _ _ _, sameStream_with _ _⟩

theorem framed_pm4Image (s : CmdStream) (n : Nat) (img : Nat → Nat) (mem : CmdSpace) (p : Nat) :
    Framed mem p (s.WritePm4Image n img mem p).mem (s.WritePm4Image n img mem p).pCmdSpace ∧
      SameStream s (s.WritePm4Image n img mem p).stream := by
  unfold CmdStream.WritePm4Image
  cases hI : s.optModeImmediate
  · simp only [Bool.false_eq_true, if_false]
    exact ⟨framed_image _ _ _ _, sameStream_refl _⟩
  · simp only [if_true]
    exact ⟨framed_words _ _ _, sameStream_with _ _⟩

/-- Every call of the write surface moves the cursor forward, changes only the words between
the cursor it received and the cursor it returned, and changes nothing of the stream but the
optimizer. -/
theorem perform_framed (s : CmdStream) (hWF : s.m_cmdUtil.WellFramed) (op : WriteOp)
    (hop : op.WellFormed s) (mem : CmdSpace) (p : Nat) :
    Framed mem p (s.perform op mem p).mem (s.perform op mem p).pCmdSpace ∧
      SameStream s (s.perform op mem p).stream := by
  cases op with
  | pm4Image n img => exact framed_pm4Image s n img mem p
  | contextRegRmw mode a m v =>
    cases mode with
    | some b => exact framed_rmw s b a m v mem p
    | none =>
      simp only [CmdStream.perform, CmdStream.WriteContextRegRmwDyn]
      split <;> exact framed_rmw s _ a m v mem p
  | setIaMultiVgtParam b v => exact framed_indexed s hWF b _ _ v mem p
  | setVgtLsHsConfig b v => exact framed_indexed s hWF b _ _ v mem p
  | setPaScRasterConfig v =>
    simp only [CmdStream.perform, CmdStream.WriteSetPaScRasterConfig]
    split
    · exact ⟨framed_one _ _ _ _ (hWF.oneContext _ _) _ _ _, sameStream_refl _⟩
    · simp only [CmdStream.WriteSetOneContextRegDyn]
      split <;> exact framed_oneContext s hWF _ _ v mem p
  | setOneConfigReg a v => exact framed_oneConfig s hWF a v mem p
  | setSeqConfigRegs a e f => exact framed_seqConfig s hWF a e hop f mem p
  | setOneContextReg mode a v =>
    cases mode with
    | some b => exact framed_oneContext s hWF b a v mem p
    | none =>
      simp only [CmdStream.perform, CmdStream.WriteSetOneContextRegDyn]
      split <;> exact framed_oneContext s hWF _ a v mem p
  | setOnePerfCtrReg a v =>
    simp only [CmdStream.perform, CmdStream.WriteSetOnePerfCtrReg]
    split
    · exact framed_privileged s a v mem p
    · exact framed_oneConfig s hWF a v mem p
  | setOnePrivilegedConfigReg a v => exact framed_privileged s a v mem p
  | setOneShReg t mode a v =>
    cases mode with
    | some b => exact framed_oneSh s hWF t b a v mem p
    | none =>
      simp only [CmdStream.perform, CmdStream.WriteSetOneShRegDyn]
      split <;> exact framed_oneSh s hWF t _ a v mem p
  | setSeqContextRegs mode a e f =>
    cases mode with
    | some b => exact framed_seqContext s hWF b a e hop f mem p
    | none =>
      simp only [CmdStream.perform, CmdStream.WriteSetSeqContextRegsDyn]
      split <;> exact framed_seqContext s hWF _ a e hop f mem p
  | setSeqShRegs a e t f => exact framed_seqSh s hWF a e hop t f mem p
  | setShRegDataOffset t mode a off =>
    cases mode with
    | some b => exact framed_dataOffset s t b a off mem p
    | none =>
      simp only [CmdStream.perform, CmdStream.WriteSetShRegDataOffsetDyn]
      split <;> exact framed_dataOffset s t _ a off mem p
  | userDataRegisters m args t =>
    simp only [CmdStream.perform, CmdStream.WriteUserDataRegisters]
    split
    · exact framed_userDataOne s hWF m args t mem p
    · rename_i h1
      exact framed_userDataMany s hWF m args (hop h1) t mem p
  | userDataRegistersOne m args t => exact framed_userDataOne s hWF m args t mem p
  | userDataRegistersMany m args t => exact framed_userDataMany s hWF m args hop t mem p
  | userDataRegisterOffset t m args =>
    simp only [CmdStream.perform, CmdStream.WriteUserDataRegisterOffset]
    split
    · split <;> exact framed_dataOffset s t _ _ _ mem p
    · exact ⟨framed_refl _ _, sameStream_refl _⟩
  | setVgtPrimitiveType v =>
    exact ⟨framed_one _ _ _ _ (hWF.oneConfig _ _) _ _ _, sameStream_refl _⟩

/-! ### Sequences of calls -/

theorem framed_trans (mem mem2 mem3 : CmdSpace) (p p2 p3 : Nat) (h1 : Framed mem p mem2 p2)
    (h2 : Framed mem2 p2 mem3 p3) : Framed mem p mem3 p3 := by
  refine ⟨Nat.le_trans h1.1 h2.1, fun a ha => ?_⟩
  have := h1.1
  have := h2.1
  rw [h2.2 a (by omega)]
  exact h1.2 a (by omega)

theorem framed_same (mem mem2 : CmdSpace) (p : Nat) (h : Framed mem p mem2 p) : mem2 = mem :=
  funext fun a => h.2 a (by omega)

theorem wellFormed_sameStream (s s2 : CmdStream) (h : SameStream s s2) (op : WriteOp)
    (hop : op.WellFormed s) : op.WellFormed s2 := by
  obtain ⟨o, rfl⟩ := h
  cases op <;> exact hop

theorem wellFramed_sameStream (s s2 : CmdStream) (h : SameStream s s2)
    (hWF : s.m_cmdUtil.WellFramed) : s2.m_cmdUtil.WellFramed := by
  obtain ⟨o, rfl⟩ := h
  exact hWF

theorem performAll_cons_mem (s : CmdStream) (op : WriteOp) (ops : List WriteOp)
    (mem : CmdSpace) (p : Nat) :
    (s.performAll (op :: ops) mem p).mem =
      ((s.perform op mem p).stream.performAll ops (s.perform op mem p).mem
        (s.perform op mem p).pCmdSpace).mem := rfl

theorem performAll_cons_cursor (s : CmdStream) (op : WriteOp) (ops : List WriteOp)
    (mem : CmdSpace) (p : Nat) :
    (s.performAll (op :: ops) mem p).pCmdSpace =
      ((s.perform op mem p).stream.performAll ops (s.perform op mem p).mem
        (s.perform op mem p).pCmdSpace).pCmdSpace := rfl

theorem performAll_cons_stream (s : CmdStream) (op : WriteOp) (ops : List WriteOp)
    (mem : CmdSpace) (p : Nat) :
    (s.performAll (op :: ops) mem p).stream =
      ((s.perform op mem p).stream.performAll ops (s.perform op mem p).mem
        (s.perform op mem p).pCmdSpace).stream := rfl

/-- Performing `pre ++ post` is performing `post` from where `pre` left the stream, the memory
and the cursor. -/
theorem performAll_append (s : CmdStream) (pre post : List WriteOp) (mem : CmdSpace) (p : Nat) :
    (s.performAll (pre ++ post) mem p).mem =
        ((s.performAll pre mem p).stream.performAll post (s.performAll pre mem p).mem
          (s.performAll pre mem p).pCmdSpace).mem ∧
      (s.performAll (pre ++ post) mem p).pCmdSpace =
        ((s.performAll pre mem p).stream.performAll post (s.performAll pre mem p).mem
          (s.performAll pre mem p).pCmdSpace).pCmdSpace ∧
      (s.performAll (pre ++ post) mem p).stream =
        ((s.performAll pre mem p).stream.performAll post (s.performAll pre mem p).mem
          (s.performAll pre mem p).pCmdSpace).stream := by
  induction pre generalizing s mem p with
  | nil => exact ⟨rfl, rfl, rfl⟩
  | cons op pre ih =>
    simp only [List.cons_append, performAll_cons_mem, performAll_cons_cursor,
      performAll_cons_stream]
    exact ih _ _ _

theorem performAll_framed (s : CmdStream) (hWF : s.m_cmdUtil.WellFramed) (ops : List WriteOp)
    (hops : ∀ op ∈ ops, op.WellFormed s) (mem : CmdSpace) (p : Nat) :
    Framed mem p (s.performAll ops mem p).mem (s.performAll ops mem p).pCmdSpace ∧
      SameStream s (s.performAll ops mem p).stream := by
  induction ops generalizing s mem p with
  | nil => exact ⟨framed_refl _ _, sameStream_refl _⟩
  | cons op ops ih =>
    obtain ⟨h1, h2⟩ := perform_framed s hWF op (hops op (List.mem_cons_self _ _)) mem p
    obtain ⟨h3, h4⟩ := ih (s.perform op mem p).stream (wellFramed_sameStream _ _ h2 hWF)
      (fun o ho => wellFormed_sameStream _ _ h2 o (hops o (List.mem_cons_of_mem _ ho)))
      (s.perform op mem p).mem (s.perform op mem p).pCmdSpace
    rw [performAll_cons_mem, performAll_cons_cursor, performAll_cons_stream]
    exact ⟨framed_trans _ _ _ _ _ _ h1 h3, sameStream_trans _ _ _ h2 h4⟩

theorem emissions_length (s : CmdStream) (ops : List WriteOp) (mem : CmdSpace) (p : Nat) :
    (s.emissions ops mem p).length = ops.length := by
  induction ops generalizing s mem p with
  | nil => rfl
  | cons op ops ih =>
    simp only [CmdStream.emissions, List.length_cons]
    rw [ih]

/-- The words between the first and the last cursor are the emissions of the calls, one after
the other. -/
theorem performAll_emissions (s : CmdStream) (hWF : s.m_cmdUtil.WellFramed)
    (ops : List WriteOp) (hops : ∀ op ∈ ops, op.WellFormed s) (mem : CmdSpace) (p : Nat) :
    readWords (s.performAll ops mem p).mem p ((s.performAll ops mem p).pCmdSpace - p) =
      (s.emissions ops mem p).flatten := by
  induction ops generalizing s mem p with
  | nil => simp [CmdStream.performAll, CmdStream.emissions, readWords]
  | cons op ops ih =>
    obtain ⟨h1, h2⟩ := perform_framed s hWF op (hops op (List.mem_cons_self _ _)) mem p
    have hWF2 := wellFramed_sameStream _ _ h2 hWF
    have hops2 : ∀ o ∈ ops, o.WellFormed (s.perform op mem p).stream :=
      fun o ho => wellFormed_sameStream _ _ h2 o (hops o (List.mem_cons_of_mem _ ho))
    obtain ⟨h3, _⟩ := performAll_framed (s.perform op mem p).stream hWF2 ops hops2
      (s.perform op mem p).mem (s.perform op mem p).pCmdSpace
    have ih2 := ih (s.perform op mem p).stream hWF2 hops2 (s.perform op mem p).mem
      (s.perform op mem p).pCmdSpace
    rw [performAll_cons_mem, performAll_cons_cursor]
    simp only [CmdStream.emissions, List.flatten_cons]
    rw [← ih2]
    have hle1 := h1.1
    have hle2 := h3.1
    have hsplit : ((s.perform op mem p).stream.performAll ops (s.perform op mem p).mem
        (s.perform op mem p).pCmdSpace).pCmdSpace - p =
        ((s.perform op mem p).pCmdSpace - p) +
          (((s.perform op mem p).stream.performAll ops (s.perform op mem p).mem
            (s.perform op mem p).pCmdSpace).pCmdSpace - (s.perform op mem p).pCmdSpace) := by
      omega
    rw [hsplit, readWords_append]
    congr 1
    · exact readWords_congr _ _ _ _ (fun a _ ha => h3.2 a (by omega))
    · rw [show p + ((s.perform op mem p).pCmdSpace - p) = (s.perform op mem p).pCmdSpace by
        omega]

/-! ### The instances -/

theorem exampleUserData_ok (b r : Bool) :
    UserDataOk (exampleStream b r) exampleEntryMap exampleUserData := by
  refine ⟨fun i hi => ?_, fun base payload => rfl⟩
  simp only [exampleEntryMap, exampleStream, exampleDevice] at hi ⊢
  split_ifs <;> simp_all

theorem exampleOps_ok (b r : Bool) : ∀ op ∈ exampleOps, op.WellFormed (exampleStream b r) := by
  intro op hop
  simp only [exampleOps, List.mem_cons, List.mem_singleton, List.not_mem_nil, or_false] at hop
  rcases hop with rfl | rfl | rfl | rfl | rfl | rfl
  · trivial
  · trivial
  · exact ⟨by decide, by decide⟩
  · exact exampleUserData_ok b r
  · trivial
  · trivial

/-- C8. For every sequence of well-formed calls of the write surface threaded through the
stream, the memory and the cursor, over an encoder that reports header size plus register count
as the packet size: every call returns a cursor not below the one it received and changes only
words between the two; no later call changes a word below the cursor an earlier call returned;
a call that returns the cursor it received changed no word. Hence the whole sequence changes
only the words between the first and the last cursor, and these are the words the calls left,
call by call in call order. -/
theorem write_calls_append_in_order (s : CmdStream) (hWF : s.m_cmdUtil.WellFramed)
    (ops : List WriteOp) (hops : ∀ op ∈ ops, op.WellFormed s) (mem : CmdSpace) (p : Nat) :
    (∀ pre op post, ops = pre ++ op :: post →
      Framed (s.performAll pre mem p).mem (s.performAll pre mem p).pCmdSpace
        ((s.performAll pre mem p).stream.perform op (s.performAll pre mem p).mem
          (s.performAll pre mem p).pCmdSpace).mem
        ((s.performAll pre mem p).stream.perform op (s.performAll pre mem p).mem
          (s.performAll pre mem p).pCmdSpace).pCmdSpace ∧
      (∀ a, a < ((s.performAll pre mem p).stream.perform op (s.performAll pre mem p).mem
            (s.performAll pre mem p).pCmdSpace).pCmdSpace →
        (s.performAll ops mem p).mem a =
          ((s.performAll pre mem p).stream.perform op (s.performAll pre mem p).mem
            (s.performAll pre mem p).pCmdSpace).mem a) ∧
      (((s.performAll pre mem p).stream.perform op (s.performAll pre mem p).mem
            (s.performAll pre mem p).pCmdSpace).pCmdSpace = (s.performAll pre mem p).pCmdSpace →
        ((s.performAll pre mem p).stream.perform op (s.performAll pre mem p).mem
            (s.performAll pre mem p).pCmdSpace).mem = (s.performAll pre mem p).mem)) ∧
    Framed mem p (s.performAll ops mem p).mem (s.performAll ops mem p).pCmdSpace ∧
    (s.emissions ops mem p).length = ops.length ∧
    readWords (s.performAll ops mem p).mem p ((s.performAll ops mem p).pCmdSpace - p) =
      (s.emissions ops mem p).flatten := by
  refine ⟨fun pre op post hsplit => ?_, (performAll_framed s hWF ops hops mem p).1,
    emissions_length s ops mem p, performAll_emissions s hWF ops hops mem p⟩
  subst hsplit
  have hpre : ∀ o ∈ pre, o.WellFormed s := fun o ho => hops o (List.mem_append_left _ ho)
  obtain ⟨_, h2⟩ := performAll_framed s hWF pre hpre mem p
  have hWF2 := wellFramed_sameStream _ _ h2 hWF
  have hop : op.WellFormed (s.performAll pre mem p).stream :=
    wellFormed_sameStream _ _ h2 op
      (hops op (List.mem_append_right _ (List.mem_cons_self _ _)))
  obtain ⟨h3, h4⟩ := perform_framed _ hWF2 op hop (s.performAll pre mem p).mem
    (s.performAll pre mem p).pCmdSpace
  have hpost : ∀ o ∈ post,
      o.WellFormed ((s.performAll pre mem p).stream.perform op (s.performAll pre mem p).mem
        (s.performAll pre mem p).pCmdSpace).stream :=
    fun o ho => wellFormed_sameStream _ _ (sameStream_trans _ _ _ h2 h4) o
      (hops o (List.mem_append_right _ (List.mem_cons_of_mem _ ho)))
  obtain ⟨h5, _⟩ := performAll_framed _ (wellFramed_sameStream _ _ h4 hWF2) post hpost
    ((s.performAll pre mem p).stream.perform op (s.performAll pre mem p).mem
      (s.performAll pre mem p).pCmdSpace).mem
    ((s.performAll pre mem p).stream.perform op (s.performAll pre mem p).mem
      (s.performAll pre mem p).pCmdSpace).pCmdSpace
  refine ⟨h3, fun a ha => ?_, fun heq => ?_⟩
  · rw [(performAll_append s pre (op :: post) mem p).1, performAll_cons_mem]
    exact h5.2 a (Or.inl ha)
  · rw [heq] at h3
    exact framed_same _ _ _ h3

/-- The calls of `exampleOps` in Immediate mode: the repeated write leaves no word, and the
memory between the cursors is the words of the calls in call order. -/
theorem write_calls_append_in_order_witness :
    exampleCmdUtil.WellFramed ∧
      (∀ op ∈ exampleOps, op.WellFormed (exampleStream true false)) ∧
      (exampleStream true false).emissions exampleOps zeroMem 0 =
        [[9, 5, 7], [], [26, 4, 1, 7, 3], [22, 20, 11, 13], [8, 8, 2], [100, 101]] ∧
      readWords ((exampleStream true false).performAll exampleOps zeroMem 0).mem 0
          (((exampleStream true false).performAll exampleOps zeroMem 0).pCmdSpace - 0) =
        ((exampleStream true false).emissions exampleOps zeroMem 0).flatten :=
  ⟨exampleCmdUtil_wellFramed, exampleOps_ok true false, by decide,
    (write_calls_append_in_order (exampleStream true false) exampleCmdUtil_wellFramed
      exampleOps (exampleOps_ok true false) zeroMem 0).2.2.2⟩

/-! ## Single-register writes outside Immediate mode -/

theorem perform_one_raw (s : CmdStream) (hN : s.optModeImmediate = false) (op : WriteOp)
    (built : Nat × PM4CMDSETDATA) (v : Nat) (hb : s.builtOne op = some (built, v))
    (hmode : op.instanceMode ≠ some true) (mem : CmdSpace) (p : Nat) :
    s.perform op mem p =
      { stream := s
        mem := store (s.m_cmdUtil.writeHeader mem p built.2)
          (p + s.m_cmdUtil.PM4_CMD_SET_DATA_DWORDS) v
        pCmdSpace := p + built.1
        assertsHeld := true } := by
  cases op with
  | setOneConfigReg a v2 =>
    simp only [CmdStream.builtOne, Option.some.injEq, Prod.mk.injEq] at hb
    obtain ⟨rfl, rfl⟩ := hb
    rfl
  | setOneContextReg mode a v2 =>
    simp only [CmdStream.builtOne, Option.some.injEq, Prod.mk.injEq] at hb
    obtain ⟨rfl, rfl⟩ := hb
    cases mode with
    | none => simp [CmdStream.perform, CmdStream.WriteSetOneContextRegDyn,
        CmdStream.WriteSetOneContextReg, hN]
    | some b =>
      cases b with
      | true => exact absurd rfl hmode
      | false => simp [CmdStream.perform, CmdStream.WriteSetOneContextReg, hN]
  | setOneShReg t mode a v2 =>
    simp only [CmdStream.builtOne, Option.some.injEq, Prod.mk.injEq] at hb
    obtain ⟨rfl, rfl⟩ := hb
    cases mode with
    | none => simp [CmdStream.perform, CmdStream.WriteSetOneShRegDyn,
        CmdStream.WriteSetOneShReg, hN]
    | some b =>
      cases b with
      | true => exact absurd rfl hmode
      | false => simp [CmdStream.perform, CmdStream.WriteSetOneShReg, hN]
  | _ => simp [CmdStream.builtOne] at hb

/-- C11. Outside Immediate mode the single-register write operations (`WriteSetOneConfigReg`,
`WriteSetOneContextReg` and `WriteSetOneShReg`, as the instance `<false>` or through the wrapper)
never deduplicate: for every register address, value, memory and optimizer state the call writes
the one-register packet, header and value, and advances the cursor by the size the encoder
reports; the optimizer is neither read (another optimizer gives the same memory and cursor) nor
changed; and the same call made twice leaves two identical packets, one after the other. -/
theorem raw_single_writes_not_deduplicated (s : CmdStream) (hN : s.optModeImmediate = false)
    (op : WriteOp) (built : Nat × PM4CMDSETDATA) (v : Nat)
    (hb : s.builtOne op = some (built, v)) (hmode : op.instanceMode ≠ some true)
    (hsize : built.1 = s.m_cmdUtil.PM4_CMD_SET_DATA_DWORDS + 1) (mem : CmdSpace) (p : Nat) :
    (s.perform op mem p).EmitsOne s.m_cmdUtil mem p built v ∧
    (s.perform op mem p).stream = s ∧
    (s.perform op mem p).assertsHeld = true ∧
    (∀ o, ((s.withOptimizer o).perform op mem p).mem = (s.perform op mem p).mem ∧
      ((s.withOptimizer o).perform op mem p).pCmdSpace = (s.perform op mem p).pCmdSpace ∧
      ((s.withOptimizer o).perform op mem p).stream = s.withOptimizer o) ∧
    (s.performAll [op, op] mem p).pCmdSpace =
      p + 2 * (s.m_cmdUtil.PM4_CMD_SET_DATA_DWORDS + 1) ∧
    readWords (s.performAll [op, op] mem p).mem p (s.m_cmdUtil.PM4_CMD_SET_DATA_DWORDS + 1) =
      s.m_cmdUtil.packetWords built.2 [v] ∧
    readWords (s.performAll [op, op] mem p).mem (p + (s.m_cmdUtil.PM4_CMD_SET_DATA_DWORDS + 1))
        (s.m_cmdUtil.PM4_CMD_SET_DATA_DWORDS + 1) =
      s.m_cmdUtil.packetWords built.2 [v] ∧
    (s.performAll [op, op] mem p).stream = s := by
  have h1 := perform_one_raw s hN op built v hb hmode
  have hone : ∀ m q, readWords (store (s.m_cmdUtil.writeHeader m q built.2)
      (q + s.m_cmdUtil.PM4_CMD_SET_DATA_DWORDS) v) q (s.m_cmdUtil.PM4_CMD_SET_DATA_DWORDS + 1) =
      s.m_cmdUtil.packetWords built.2 [v] := fun m q => readWords_onePacket _ _ _ _ _
  have hall : s.performAll [op, op] mem p =
      { stream := s
        mem := store (s.m_cmdUtil.writeHeader
            (store (s.m_cmdUtil.writeHeader mem p built.2)
              (p + s.m_cmdUtil.PM4_CMD_SET_DATA_DWORDS) v) (p + built.1) built.2)
          (p + built.1 + s.m_cmdUtil.PM4_CMD_SET_DATA_DWORDS) v
        pCmdSpace := p + built.1 + built.1
        assertsHeld := true } := by
    simp only [CmdStream.performAll, h1, Bool.and_self]
  refine ⟨?_, ?_, ?_, fun o => ?_, ?_, ?_, ?_, ?_⟩
  · rw [h1]
    exact ⟨hone mem p, fun a ha => onePacket_outside _ _ _ _ _ _ ha, rfl⟩
  · rw [h1]
  · rw [h1]
  · have h2 := perform_one_raw (s.withOptimizer o) hN op built v hb hmode mem p
    rw [h1, h2]
    exact ⟨rfl, rfl, rfl⟩
  · rw [hall, hsize]
    simp only
    omega
  · rw [hall, hsize]
    simp only
    rw [readWords_congr _ (store (s.m_cmdUtil.writeHeader mem p built.2)
      (p + s.m_cmdUtil.PM4_CMD_SET_DATA_DWORDS) v) p _
      (fun a _ ha => onePacket_outside _ _ _ _ _ _ (Or.inl (by omega)))]
    exact hone mem p
  · rw [hall, hsize]
    exact hone _ _
  · rw [hall]

/-- C11 at a concrete stream in mode None: the context register 5 written with 7 twice through
the wrapper. -/
theorem raw_single_writes_not_deduplicated_witness :
    (exampleStream false false).optModeImmediate = false ∧
    (exampleStream false false).emissions
        [.setOneContextReg none 5 7, .setOneContextReg none 5 7] zeroMem 0 =
      [[9, 5, 7], [9, 5, 7]] ∧
    ((exampleStream false false).performAll
        [.setOneContextReg none 5 7, .setOneContextReg none 5 7] zeroMem 0).pCmdSpace =
      0 + 2 * (exampleCmdUtil.PM4_CMD_SET_DATA_DWORDS + 1) :=
  ⟨rfl, by decide,
    (raw_single_writes_not_deduplicated (exampleStream false false) rfl
      (.setOneContextReg none 5 7) (exampleCmdUtil.BuildSetOneContextReg 5 none) 7 rfl
      (by decide) rfl zeroMem 0).2.2.2.2.1⟩

/-! ## The single config-register write in Immediate mode -/

theorem writeWords_nil (mem : CmdSpace) (p : Nat) : writeWords mem p [] = mem := by
  funext a
  simp [writeWords, memcpy]

theorem writeWords_cons (mem : CmdSpace) (p v : Nat) (vs : List Nat) :
    writeWords (store mem p v) (p + 1) vs = writeWords mem p (v :: vs) := by
  funext a
  simp only [writeWords, memcpy, store, arrayOf, List.length_cons]
  by_cases h1 : a = p
  · subst h1
    simp
  · by_cases h2 : p + 1 ≤ a ∧ a < p + 1 + vs.length
    · obtain ⟨m, rfl⟩ : ∃ m, a = p + 1 + m := ⟨a - (p + 1), by omega⟩
      have h3 : p ≤ p + 1 + m ∧ p + 1 + m < p + (vs.length + 1) := by omega
      rw [if_pos h2, if_pos h3]
      have h4 : p + 1 + m - (p + 1) = m := by omega
      have h5 : p + 1 + m - p = m + 1 := by omega
      rw [h4, h5]
      rfl
    · have h3 : ¬ (p ≤ a ∧ a < p + (vs.length + 1)) := by omega
      rw [if_neg h2, if_neg h3, if_neg h1]

/-- What the loop of `WriteUserDataRegistersMany` leaves after the entries `es`: the mapped
values stored behind the values counted before, their count, the last mapped address, and the
contiguity assertions of the mapped addresses. -/
theorem userDataFold_eq (s : CmdStream) (entryMap : UserDataEntryMap) (args : UserDataArgs)
    (base : Nat) (es : List Nat) (st : CmdStream.UserDataLoop) :
    es.foldl (s.userDataStep entryMap args base) st =
      { payload := writeWords st.payload (base + st.count)
          ((es.filter (entryMapped s entryMap args)).map args.pEntryValues)
        endRegAddr := ((es.filter (entryMapped s entryMap args)).map
          (entryAddr entryMap args)).getLastD st.endRegAddr
        count := st.count + (es.filter (entryMapped s entryMap args)).length
        assertsHeld := st.assertsHeld && chainOk st.endRegAddr
          ((es.filter (entryMapped s entryMap args)).map (entryAddr entryMap args)) } := by
  induction es generalizing st with
  | nil => simp [writeWords_nil, chainOk]
  | cons e es ih =>
    rw [List.foldl_cons, ih]
    by_cases hm : entryMap.regAddr ((e + args.firstEntry) % 2 ^ 32) ≠
        s.m_device.UserDataNotMapped
    · have hf : entryMapped s entryMap args e = true := by
        simpa [entryMapped, entryAddr] using hm
      rw [userDataStep_mapped _ _ _ _ _ _ hm, List.filter_cons_of_pos hf]
      simp only [List.map_cons, List.length_cons, List.getLastD_cons, chainOk, Bool.and_assoc]
      rw [← writeWords_cons]
      simp only [entryAddr, Nat.add_assoc, Nat.add_comm 1]
    · have hf : ¬ entryMapped s entryMap args e = true := by
        simpa [entryMapped, entryAddr] using hm
      rw [userDataStep_unmapped _ _ _ _ _ _ hm, List.filter_cons_of_neg hf]

/-- The loop of `WriteUserDataRegistersMany` over the whole request. -/
theorem userDataLoop_eq (s : CmdStream) (entryMap : UserDataEntryMap) (args : UserDataArgs)
    (base : Nat) (payload : CmdSpace) :
    s.userDataLoop entryMap args base payload =
      { payload := writeWords payload base (mappedValues s entryMap args)
        endRegAddr := (mappedAddrs s entryMap args).getLastD 0
        count := (mappedEntries s entryMap args).length
        assertsHeld := chainOk 0 (mappedAddrs s entryMap args) } := by
  unfold CmdStream.userDataLoop
  rw [userDataFold_eq]
  simp [mappedValues, mappedAddrs, mappedEntries]

/-! ## The contiguity assertion -/

theorem chainOk_gap (prev : Nat) (l1 l2 : List Nat) (a b : Nat) (ha : a ≠ 0) (hb0 : b ≠ 0)
    (hb : b < 2 ^ 32) (hne : b ≠ a + 1) : chainOk prev (l1 ++ a :: b :: l2) = false := by
  induction l1 generalizing prev with
  | nil =>
    have h1 : (a == 0) = false := by simpa using ha
    have h2 : (a == (b + 2 ^ 32 - 1) % 2 ^ 32) = false := by
      have : (b + 2 ^ 32 - 1) % 2 ^ 32 = b - 1 := by omega
      rw [this]
      simp only [beq_eq_false_iff_ne, ne_eq]
      omega
    simp only [List.nil_append, chainOk, h1, h2, Bool.or_self, Bool.false_and, Bool.and_false]
  | cons x l1 ih =>
    show ((prev == 0 || prev == (x + 2 ^ 32 - 1) % 2 ^ 32) &&
      chainOk x (l1 ++ a :: b :: l2)) = false
    rw [ih, Bool.and_false]

theorem userDataMany_asserts (s : CmdStream) (entryMap : UserDataEntryMap) (args : UserDataArgs)
    (t : PM4ShaderType) (mem : CmdSpace) (p : Nat)
    (h : chainOk 0 (mappedAddrs s entryMap args) = false) :
    (s.WriteUserDataRegistersMany entryMap args t mem p).assertsHeld = false := by
  unfold CmdStream.WriteUserDataRegistersMany
  simp only [userDataLoop_eq, h, Bool.false_and]
  split <;> split <;> rfl

/-- C13. For every entry map and request handled by `WriteUserDataRegistersMany`, in either
mode: if two requested slots that are successive among the mapped ones have the addresses `a`
then `b` with `b ≠ a + 1` (a mapped address being a non-zero 32-bit address), the contiguity
assertion of the loop fails, in the general path and through `WriteUserDataRegisters` for a
request of more than one slot. -/
theorem noncontiguous_user_data_rejected (s : CmdStream) (entryMap : UserDataEntryMap)
    (args : UserDataArgs) (t : PM4ShaderType) (mem : CmdSpace) (p : Nat)
    (l1 l2 : List Nat) (a b : Nat) (hsucc : mappedAddrs s entryMap args = l1 ++ a :: b :: l2)
    (ha : a ≠ 0) (hb0 : b ≠ 0) (hb : b < 2 ^ 32) (hne : b ≠ a + 1) :
    (s.WriteUserDataRegistersMany entryMap args t mem p).assertsHeld = false ∧
      (s.WriteUserDataRegisters entryMap args t mem p).assertsHeld = false := by
  have hbad : chainOk 0 (mappedAddrs s entryMap args) = false := by
    rw [hsucc]
    exact chainOk_gap 0 l1 l2 a b ha hb0 hb hne
  refine ⟨userDataMany_asserts s entryMap args t mem p hbad, ?_⟩
  have hcount : args.entryCount ≠ 1 := by
    intro h1
    have hlen : (mappedAddrs s entryMap args).length ≤ 1 := by
      simp only [mappedAddrs, mappedEntries, List.length_map, h1]
      exact Nat.le_trans (List.length_filter_le _ _) (by simp)
    rw [hsucc] at hlen
    simp only [List.length_append, List.length_cons] at hlen
    omega
  simp only [CmdStream.WriteUserDataRegisters, hcount, if_false]
  exact userDataMany_asserts s entryMap args t mem p hbad

/-- C13 at the map with slot 2 at 100 and slot 3 at 102, both requested together. -/
theorem noncontiguous_user_data_rejected_witness :
    mappedAddrs (exampleStream false false) gapEntryMap gapUserData = [] ++ 100 :: 102 :: [] ∧
    ((exampleStream false false).WriteUserDataRegistersMany gapEntryMap gapUserData
      .ShaderGraphics zeroMem 0).assertsHeld = false ∧
    ((exampleStream true false).WriteUserDataRegisters gapEntryMap gapUserData
      .ShaderGraphics zeroMem 0).assertsHeld = false :=
  ⟨by decide,
    (noncontiguous_user_data_rejected (exampleStream false false) gapEntryMap gapUserData
      .ShaderGraphics zeroMem 0 [] [] 100 102 (by decide) (by decide) (by decide) (by decide)
      (by decide)).1,
    by decide⟩

/-! ## Contiguous user-data requests -/

theorem chain_getLastD (a : Nat) (l : List Nat) (h : List.Chain (fun a b => b = a + 1) a l) :
    l.getLastD a = a + l.length := by
  induction l generalizing a with
  | nil => rfl
  | cons b l ih =>
    rw [List.chain_cons] at h
    rw [List.getLastD_cons, ih b h.2, h.1, List.length_cons]
    omega

theorem getLastD_mem (a : Nat) (l : List Nat) : l.getLastD a ∈ a :: l := by
  induction l generalizing a with
  | nil => exact List.mem_cons_self _ _
  | cons b l ih =>
    rw [List.getLastD_cons]
    exact List.mem_cons_of_mem _ (ih b)

theorem chainOk_chain (a : Nat) (l : List Nat) (h : List.Chain (fun a b => b = a + 1) a l)
    (hb : ∀ b ∈ l, b ≠ 0 ∧ b < 2 ^ 32) : chainOk a l = true := by
  induction l generalizing a with
  | nil => rfl
  | cons b l ih =>
    rw [List.chain_cons] at h
    have hb1 := hb b (List.mem_cons_self _ _)
    have h1 : (b + 2 ^ 32 - 1) % 2 ^ 32 = a := by
      have := h.1
      omega
    simp only [chainOk, h1, beq_self_eq_true, Bool.or_true, Bool.true_and]
    exact ih b h.2 (fun c hc => hb c (List.mem_cons_of_mem _ hc))

/-- What a contiguous request with at least one mapped slot leaves in the loop state: no
assertion failed, the last address is the first plus the number of further mapped slots, and the
32-bit `endRegAddr - count + 1` is the first address. -/
theorem contiguous_loop (s : CmdStream) (entryMap : UserDataEntryMap) (args : UserDataArgs)
    (hc : Contiguous s entryMap args) (first : Nat) (rest : List Nat)
    (hfirst : mappedAddrs s entryMap args = first :: rest) :
    chainOk 0 (mappedAddrs s entryMap args) = true ∧
      (mappedAddrs s entryMap args).getLastD 0 = rest.getLastD first ∧
      rest.getLastD first = first + rest.length ∧
      (mappedEntries s entryMap args).length = rest.length + 1 ∧
      (mappedValues s entryMap args).length = rest.length + 1 ∧
      first + rest.length < 2 ^ 32 ∧ 1 ≤ first ∧
      (rest.getLastD first + 2 ^ 32 - (mappedEntries s entryMap args).length + 1) % 2 ^ 32 =
        first := by
  obtain ⟨hchain, hbound⟩ := hc
  rw [hfirst] at hchain hbound
  have hch : List.Chain (fun a b => b = a + 1) first rest := hchain
  have hlast := chain_getLastD first rest hch
  have hlen : (mappedEntries s entryMap args).length = rest.length + 1 := by
    have := congrArg List.length hfirst
    simpa [mappedAddrs] using this
  have hmem : rest.getLastD first ∈ first :: rest := getLastD_mem first rest
  have hlb := hbound _ hmem
  have hfb := hbound first (List.mem_cons_self _ _)
  refine ⟨?_, ?_, hlast, hlen, ?_, by omega, by omega, ?_⟩
  · rw [hfirst]
    simp only [chainOk, beq_self_eq_true, Bool.true_or, Bool.true_and]
    exact chainOk_chain first rest hch (fun b hb => hbound b (List.mem_cons_of_mem _ hb))
  · rw [hfirst, List.getLastD_cons]
  · simp only [mappedValues, List.length_map, hlen]
  · rw [hlast, hlen]
    omega

theorem writeHeader_writeWords (cu : CmdUtil) (mem : CmdSpace) (p : Nat) (d : PM4CMDSETDATA)
    (vals : List Nat) :
    cu.writeHeader (writeWords mem (p + cu.PM4_CMD_SET_DATA_DWORDS) vals) p d =
      (cu.writePacket mem p d vals).1 := by
  funext a
  simp only [CmdUtil.writePacket, CmdUtil.writeHeader, writeWords, memcpy]
  by_cases h1 : p ≤ a ∧ a < p + cu.PM4_CMD_SET_DATA_DWORDS
  · have h2 : ¬ (p + cu.PM4_CMD_SET_DATA_DWORDS ≤ a ∧
        a < p + cu.PM4_CMD_SET_DATA_DWORDS + vals.length) := by omega
    rw [if_pos h1, if_neg h2, if_pos h1]
  · rw [if_neg h1]
    by_cases h2 : p + cu.PM4_CMD_SET_DATA_DWORDS ≤ a ∧
        a < p + cu.PM4_CMD_SET_DATA_DWORDS + vals.length
    · rw [if_pos h2, if_pos h2]
    · rw [if_neg h2, if_neg h2, if_neg h1]

theorem map_writeWords_scratch (vals : List Nat) (n : Nat) (h : n = vals.length) :
    (List.range n).map (writeWords (fun _ => 0) 0 vals) = (List.range n).map (arrayOf vals) := by
  apply List.map_congr_left
  intro i hi
  have hi2 : i < vals.length := by
    rw [← h]
    exact List.mem_range.mp hi
  simp only [writeWords]
  have := memcpy_inside (fun _ => 0) 0 (arrayOf vals) vals.length i hi2
  rwa [Nat.zero_add] at this

/-- Outside Immediate mode a contiguous request with a mapped slot leaves one set-range packet
for the range from the first to the last mapped address, holding the mapped values. -/
theorem userDataMany_raw_eq (s : CmdStream) (hN : s.optModeImmediate = false)
    (hWF : s.m_cmdUtil.WellFramed) (entryMap : UserDataEntryMap) (args : UserDataArgs)
    (hc : Contiguous s entryMap args) (first : Nat) (rest : List Nat)
    (hfirst : mappedAddrs s entryMap args = first :: rest) (t : PM4ShaderType)
    (mem : CmdSpace) (p : Nat) :
    s.WriteUserDataRegistersMany entryMap args t mem p =
      { stream := s
        mem := (s.m_cmdUtil.writePacket mem p
          (s.m_cmdUtil.BuildSetSeqShRegs first (rest.getLastD first) t).2
          (mappedValues s entryMap args)).1
        pCmdSpace := (s.m_cmdUtil.writePacket mem p
          (s.m_cmdUtil.BuildSetSeqShRegs first (rest.getLastD first) t).2
          (mappedValues s entryMap args)).2
        assertsHeld :=
          decide ((mappedEntries s entryMap args).length ≤ s.m_device.MaxUserDataEntries) } := by
  obtain ⟨hok, hlastD, hlast, hlen, hvals, hlt, h1, hstart⟩ :=
    contiguous_loop s entryMap args hc first rest hfirst
  have hF := hWF.seqSh first (rest.getLastD first) t (by omega)
  have hn : rest.getLastD first - first + 1 = (mappedEntries s entryMap args).length := by
    omega
  rw [hn] at hF
  have hpos : 1 ≤ (mappedEntries s entryMap args).length := by omega
  have hve : (mappedValues s entryMap args).length = (mappedEntries s entryMap args).length := by
    simp [mappedValues]
  simp only [CmdStream.WriteUserDataRegistersMany, hN, Bool.false_eq_true, if_false,
    userDataLoop_eq, hok, hlastD, hstart, Bool.true_and, hpos, if_true, writeHeader_writeWords,
    hF.1, CmdUtil.writePacket, hve, Nat.add_assoc]
  simp [Nat.add_comm]

/-- In Immediate mode a contiguous request with a mapped slot is handed to the optimizer as the
range from the first to the last mapped address, with the mapped values. -/
theorem userDataMany_imm_eq (s : CmdStream) (hI : s.optModeImmediate = true)
    (hWF : s.m_cmdUtil.WellFramed) (entryMap : UserDataEntryMap) (args : UserDataArgs)
    (hc : Contiguous s entryMap args) (first : Nat) (rest : List Nat)
    (hfirst : mappedAddrs s entryMap args = first :: rest) (t : PM4ShaderType)
    (mem : CmdSpace) (p : Nat) :
    s.WriteUserDataRegistersMany entryMap args t mem p =
      { stream := s.withOptimizer (s.m_pPm4Optimizer.WriteOptimizedSetSeqShRegs s.m_cmdUtil
          (s.m_cmdUtil.BuildSetSeqShRegs first (rest.getLastD first) t).2
          (arrayOf (mappedValues s entryMap args)) mem p).1
        mem := (s.m_pPm4Optimizer.WriteOptimizedSetSeqShRegs s.m_cmdUtil
          (s.m_cmdUtil.BuildSetSeqShRegs first (rest.getLastD first) t).2
          (arrayOf (mappedValues s entryMap args)) mem p).2.1
        pCmdSpace := (s.m_pPm4Optimizer.WriteOptimizedSetSeqShRegs s.m_cmdUtil
          (s.m_cmdUtil.BuildSetSeqShRegs first (rest.getLastD first) t).2
          (arrayOf (mappedValues s entryMap args)) mem p).2.2
        assertsHeld :=
          decide ((mappedEntries s entryMap args).length ≤ s.m_device.MaxUserDataEntries) } := by
  obtain ⟨hok, hlastD, hlast, hlen, hvals, hlt, h1, hstart⟩ :=
    contiguous_loop s entryMap args hc first rest hfirst
  have hF := hWF.seqSh first (rest.getLastD first) t (by omega)
  have hn : rest.getLastD first - first + 1 = (mappedValues s entryMap args).length := by
    omega
  rw [hn] at hF
  have hpos : 1 ≤ (mappedEntries s entryMap args).length := by omega
  have hscr := map_writeWords_scratch (mappedValues s entryMap args) _ hF.2.2.2
  simp only [CmdStream.WriteUserDataRegistersMany, hI, if_true, userDataLoop_eq, hok, hlastD,
    hstart, Bool.true_and, hpos, Pm4Optimizer.WriteOptimizedSetSeqShRegs,
    Pm4Optimizer.OptimizePm4SetReg, hscr]

/-- A request without a mapped slot writes nothing, in either mode. -/
theorem userDataMany_none_eq (s : CmdStream) (entryMap : UserDataEntryMap) (args : UserDataArgs)
    (hnone : mappedEntries s entryMap args = []) (t : PM4ShaderType) (mem : CmdSpace) (p : Nat) :
    s.WriteUserDataRegistersMany entryMap args t mem p =
      { stream := s, mem := mem, pCmdSpace := p, assertsHeld := true } := by
  have hv : mappedValues s entryMap args = [] := by simp [mappedValues, hnone]
  have ha : mappedAddrs s entryMap args = [] := by simp [mappedAddrs, hnone]
  unfold CmdStream.WriteUserDataRegistersMany
  simp only [userDataLoop_eq, hnone, hv, ha, List.length_nil, writeWords_nil, chainOk]
  split <;> simp

/-- C14. Outside Immediate mode, for every entry map that satisfies the contiguity invariant on
the request, over an encoder that reports header size plus register count:
`WriteUserDataRegistersMany` writes nothing and returns the cursor unchanged when no requested
slot is mapped; otherwise it writes exactly one set-range packet, built for the range from the
address of the first mapped requested slot to the address of the last one, whose register count
is the number of mapped requested slots and whose payload is the values of the mapped slots in
slot order, whatever unmapped slots lie between them. The optimizer is left alone, and with no
more mapped slots than `MaxUserDataEntries` no assertion fails. -/
theorem user_data_batched_in_one_packet (s : CmdStream) (hN : s.optModeImmediate = false)
    (hWF : s.m_cmdUtil.WellFramed) (entryMap : UserDataEntryMap) (args : UserDataArgs)
    (hc : Contiguous s entryMap args) (t : PM4ShaderType) (mem : CmdSpace) (p : Nat) :
    (mappedEntries s entryMap args = [] →
      (s.WriteUserDataRegistersMany entryMap args t mem p).EmitsNothing mem p) ∧
    (∀ first last, (mappedAddrs s entryMap args).head? = some first →
      (mappedAddrs s entryMap args).getLast? = some last →
      (s.WriteUserDataRegistersMany entryMap args t mem p).Emits s.m_cmdUtil mem p
        [{ header := (s.m_cmdUtil.BuildSetSeqShRegs first last t).2
           data := mappedValues s entryMap args }] ∧
      (s.m_cmdUtil.BuildSetSeqShRegs first last t).2.space = .sh ∧
      (s.m_cmdUtil.BuildSetSeqShRegs first last t).2.regOffset = first ∧
      (s.m_cmdUtil.BuildSetSeqShRegs first last t).2.numRegs =
        (mappedEntries s entryMap args).length ∧
      last + 1 = first + (mappedEntries s entryMap args).length) ∧
    (s.WriteUserDataRegistersMany entryMap args t mem p).stream = s ∧
    ((mappedEntries s entryMap args).length ≤ s.m_device.MaxUserDataEntries →
      (s.WriteUserDataRegistersMany entryMap args t mem p).assertsHeld = true) := by
  refine ⟨fun hnone => ?_, fun first last hhead hlastq => ?_, ?_, fun hmax => ?_⟩
  · rw [userDataMany_none_eq s entryMap args hnone]
    exact ⟨rfl, rfl⟩
  · cases hL : mappedAddrs s entryMap args with
    | nil => simp [hL] at hhead
    | cons a rest =>
      rw [hL] at hhead hlastq
      simp only [List.head?_cons, Option.some.injEq] at hhead
      subst hhead
      have hl : last = rest.getLastD a := by
        rw [List.getLast?_cons] at hlastq
        rw [List.getLastD_eq_getLast?]
        exact (Option.some.inj hlastq).symm
      subst hl
      obtain ⟨_, _, hlast, hlen, _, _, _, _⟩ := contiguous_loop s entryMap args hc a rest hL
      have hF := hWF.seqSh a (rest.getLastD a) t (by omega)
      refine ⟨?_, hF.2.1, hF.2.2.1, ?_, by omega⟩
      · rw [userDataMany_raw_eq s hN hWF entryMap args hc a rest hL]
        exact emits_writePackets _ _ _ _ _ rfl rfl
      · rw [hF.2.2.2]
        omega
  · cases hL : mappedAddrs s entryMap args with
    | nil =>
      have hnone : mappedEntries s entryMap args = [] := by
        simpa [mappedAddrs] using hL
      rw [userDataMany_none_eq s entryMap args hnone]
    | cons a rest => rw [userDataMany_raw_eq s hN hWF entryMap args hc a rest hL]
  · cases hL : mappedAddrs s entryMap args with
    | nil =>
      have hnone : mappedEntries s entryMap args = [] := by
        simpa [mappedAddrs] using hL
      rw [userDataMany_none_eq s entryMap args hnone]
    | cons a rest =>
      rw [userDataMany_raw_eq s hN hWF entryMap args hc a rest hL]
      exact decide_eq_true hmax

theorem exampleUserData_contiguous (b r : Bool) :
    Contiguous (exampleStream b r) exampleEntryMap exampleUserData := by
  have h : mappedAddrs (exampleStream b r) exampleEntryMap exampleUserData = [20, 21] := rfl
  unfold Contiguous
  rw [h]
  simp

/-- C14 at the map with slot 0 at 20, slot 1 unmapped and slot 2 at 21: the two mapped values
go into one packet for the range 20..21. -/
theorem user_data_batched_in_one_packet_witness :
    (exampleStream false false).optModeImmediate = false ∧
    Contiguous (exampleStream false false) exampleEntryMap exampleUserData ∧
    mappedAddrs (exampleStream false false) exampleEntryMap exampleUserData = [20, 21] ∧
    mappedValues (exampleStream false false) exampleEntryMap exampleUserData = [11, 13] ∧
    ((exampleStream false false).WriteUserDataRegistersMany exampleEntryMap exampleUserData
      .ShaderCompute zeroMem 0).Emits exampleCmdUtil zeroMem 0
        [{ header := (exampleCmdUtil.BuildSetSeqShRegs 20 21 .ShaderCompute).2
           data := mappedValues (exampleStream false false) exampleEntryMap exampleUserData }] :=
  ⟨rfl, exampleUserData_contiguous false false, by decide, by decide,
    ((user_data_batched_in_one_packet (exampleStream false false) rfl exampleCmdUtil_wellFramed
      exampleEntryMap exampleUserData (exampleUserData_contiguous false false) .ShaderCompute
      zeroMem 0).2.1 20 21 (by decide) (by decide)).1⟩

/-- C15. For every entry map that satisfies the contiguity invariant on the request and every
request with at least one mapped slot, in Immediate mode and outside it, over an encoder that
reports header size plus register count: `WriteUserDataRegistersMany` leaves the same memory,
the same cursor and the same stream, optimizer included, as `WriteSetSeqShRegs` called at the
same cursor for the range from the first to the last mapped address with the values of the
mapped slots in slot order; with no more mapped slots than `MaxUserDataEntries`, no assertion
of the general path fails. -/
theorem user_data_many_eq_seq_write (s : CmdStream) (hWF : s.m_cmdUtil.WellFramed)
    (entryMap : UserDataEntryMap) (args : UserDataArgs) (hc : Contiguous s entryMap args)
    (first last : Nat) (hhead : (mappedAddrs s entryMap args).head? = some first)
    (hlastq : (mappedAddrs s entryMap args).getLast? = some last)
    (hmax : (mappedEntries s entryMap args).length ≤ s.m_device.MaxUserDataEntries)
    (t : PM4ShaderType) (mem : CmdSpace) (p : Nat) :
    (s.WriteUserDataRegistersMany entryMap args t mem p).assertsHeld = true ∧
      (s.WriteUserDataRegistersMany entryMap args t mem p).mem =
        (s.WriteSetSeqShRegs first last t (arrayOf (mappedValues s entryMap args)) mem p).mem ∧
      (s.WriteUserDataRegistersMany entryMap args t mem p).pCmdSpace =
        (s.WriteSetSeqShRegs first last t (arrayOf (mappedValues s entryMap args))
          mem p).pCmdSpace ∧
      (s.WriteUserDataRegistersMany entryMap args t mem p).stream =
        (s.WriteSetSeqShRegs first last t (arrayOf (mappedValues s entryMap args))
          mem p).stream := by
  cases hL : mappedAddrs s entryMap args with
  | nil => simp [hL] at hhead
  | cons a rest =>
    rw [hL] at hhead hlastq
    simp only [List.head?_cons, Option.some.injEq] at hhead
    subst hhead
    have hl : last = rest.getLastD a := by
      rw [List.getLast?_cons] at hlastq
      rw [List.getLastD_eq_getLast?]
      exact (Option.some.inj hlastq).symm
    subst hl
    obtain ⟨_, _, hlast, hlen, hvals, hlt, _, _⟩ := contiguous_loop s entryMap args hc a rest hL
    cases hI : s.optModeImmediate with
    | true =>
      rw [userDataMany_imm_eq s hI hWF entryMap args hc a rest hL]
      simp only [CmdStream.WriteSetSeqShRegs, hI, if_true]
      exact ⟨decide_eq_true hmax, trivial, trivial, trivial⟩
    | false =>
      rw [userDataMany_raw_eq s hI hWF entryMap args hc a rest hL]
      have hF := hWF.seqSh a (rest.getLastD a) t (by omega)
      have hn : rest.getLastD a - a + 1 = (mappedValues s entryMap args).length := by omega
      rw [hn] at hF
      have hpay := payloadDwords_framed s.m_cmdUtil (mappedValues s entryMap args).length
        hWF.hdrSmall (by omega)
      simp only [CmdStream.WriteSetSeqShRegs, hI, Bool.false_eq_true, if_false,
        CmdUtil.writePacket, hF.1, hpay, Nat.add_assoc]
      exact ⟨decide_eq_true hmax, trivial, trivial, trivial⟩

/-- C15 at the map with slot 0 at 20, slot 1 unmapped and slot 2 at 21, in Immediate mode: the
general path leaves what the range write of 20..21 with the values 11, 13 leaves. -/
theorem user_data_many_eq_seq_write_witness :
    exampleCmdUtil.WellFramed ∧
    Contiguous (exampleStream true false) exampleEntryMap exampleUserData ∧
    (mappedAddrs (exampleStream true false) exampleEntryMap exampleUserData).head? = some 20 ∧
    (mappedAddrs (exampleStream true false) exampleEntryMap exampleUserData).getLast? =
      some 21 ∧
    (mappedEntries (exampleStream true false) exampleEntryMap exampleUserData).length ≤
      (exampleStream true false).m_device.MaxUserDataEntries ∧
    ((exampleStream true false).WriteUserDataRegistersMany exampleEntryMap exampleUserData
      .ShaderCompute zeroMem 0).pCmdSpace =
      ((exampleStream true false).WriteSetSeqShRegs 20 21 .ShaderCompute
        (arrayOf (mappedValues (exampleStream true false) exampleEntryMap exampleUserData))
        zeroMem 0).pCmdSpace ∧
    ((exampleStream true false).WriteSetSeqShRegs 20 21 .ShaderCompute (arrayOf [11, 13])
      zeroMem 0).pCmdSpace = 4 :=
  ⟨exampleCmdUtil_wellFramed, exampleUserData_contiguous true false, by decide, by decide,
    by decide,
    (user_data_many_eq_seq_write (exampleStream true false) exampleCmdUtil_wellFramed
      exampleEntryMap exampleUserData (exampleUserData_contiguous true false) 20 21 (by decide)
      (by decide) (by decide) .ShaderCompute zeroMem 0).2.2.1, by decide⟩

/-! ## Patching conditional indirect buffers -/

theorem lowHigh_recombine (address : Nat) (h : address < 2 ^ 64) :
    HighPart address * 2 ^ 32 + LowPart address = address := by
  unfold HighPart LowPart
  omega

/-- C16. For every conditional indirect buffer packet, at any location, every 64-bit address
and every size: `PatchCondIndirectBuffer` with a patch of kind `CondIndirectBufferPass`
sets the first pair so that `ibBase1Hi:ibBase1Lo` recombine to the address and `ibSize1` is the
size, and with kind `CondIndirectBufferFail` it sets the second pair likewise; in each case the
other pair, the header with its size discriminator and the compare fields are unchanged, no
other packet changes, and no assertion fails. -/
theorem PatchCondIndirectBuffer_sets_one_pair (pPacket address ibSizeDwords : Nat)
    (haddr : address < 2 ^ 64) (packets : CondIbSpace) :
    ((CmdStream.PatchCondIndirectBuffer ⟨.CondIndirectBufferPass, pPacket⟩ address ibSizeDwords
        packets).packets pPacket =
        { packets pPacket with
          ibBase1Lo := LowPart address, ibBase1Hi := HighPart address,
          ibSize1 := ibSizeDwords } ∧
      ((CmdStream.PatchCondIndirectBuffer ⟨.CondIndirectBufferPass, pPacket⟩ address ibSizeDwords
        packets).packets pPacket).ibBase1Hi * 2 ^ 32 +
        ((CmdStream.PatchCondIndirectBuffer ⟨.CondIndirectBufferPass, pPacket⟩ address
          ibSizeDwords packets).packets pPacket).ibBase1Lo = address ∧
      (∀ a, a ≠ pPacket →
        (CmdStream.PatchCondIndirectBuffer ⟨.CondIndirectBufferPass, pPacket⟩ address
          ibSizeDwords packets).packets a = packets a) ∧
      (CmdStream.PatchCondIndirectBuffer ⟨.CondIndirectBufferPass, pPacket⟩ address ibSizeDwords
        packets).assertsHeld = true) ∧
    ((CmdStream.PatchCondIndirectBuffer ⟨.CondIndirectBufferFail, pPacket⟩ address ibSizeDwords
        packets).packets pPacket =
        { packets pPacket with
          ibBase2Lo := LowPart address, ibBase2Hi := HighPart address,
          ibSize2 := ibSizeDwords } ∧
      ((CmdStream.PatchCondIndirectBuffer ⟨.CondIndirectBufferFail, pPacket⟩ address ibSizeDwords
        packets).packets pPacket).ibBase2Hi * 2 ^ 32 +
        ((CmdStream.PatchCondIndirectBuffer ⟨.CondIndirectBufferFail, pPacket⟩ address
          ibSizeDwords packets).packets pPacket).ibBase2Lo = address ∧
      (∀ a, a ≠ pPacket →
        (CmdStream.PatchCondIndirectBuffer ⟨.CondIndirectBufferFail, pPacket⟩ address
          ibSizeDwords packets).packets a = packets a) ∧
      (CmdStream.PatchCondIndirectBuffer ⟨.CondIndirectBufferFail, pPacket⟩ address ibSizeDwords
        packets).assertsHeld = true) := by
  have hre := lowHigh_recombine address haddr
  refine ⟨⟨?_, ?_, fun a ha => ?_, rfl⟩, ⟨?_, ?_, fun a ha => ?_, rfl⟩⟩
  · simp [CmdStream.PatchCondIndirectBuffer]
  · simpa [CmdStream.PatchCondIndirectBuffer] using hre
  · simp [CmdStream.PatchCondIndirectBuffer, ha]
  · simp [CmdStream.PatchCondIndirectBuffer]
  · simpa [CmdStream.PatchCondIndirectBuffer] using hre
  · simp [CmdStream.PatchCondIndirectBuffer, ha]

/-- C16 at a concrete packet: the pass pair patched with the address `2 ^ 32 + 4096` and the
size 64. -/
theorem PatchCondIndirectBuffer_sets_one_pair_witness :
    2 ^ 32 + 4096 < 2 ^ 64 ∧
    (CmdStream.PatchCondIndirectBuffer ⟨.CondIndirectBufferPass, 8⟩ (2 ^ 32 + 4096) 64
      (fun _ => examplePacket)).packets 8 =
      { examplePacket with ibBase1Lo := 4096, ibBase1Hi := 1, ibSize1 := 64 } :=
  ⟨by decide,
    (PatchCondIndirectBuffer_sets_one_pair 8 (2 ^ 32 + 4096) 64 (by decide)
      (fun _ => examplePacket)).1.1⟩

/-! ## Order of patch resolution -/

/-- Two patches that name different packet field pairs can be applied in either order. -/
theorem PatchCondIndirectBuffer_comm (r1 r2 : PatchTarget) (h : r1.patch ≠ r2.patch)
    (packets : CondIbSpace) :
    (CmdStream.PatchCondIndirectBuffer r2.patch r2.address r2.ibSizeDwords
      (CmdStream.PatchCondIndirectBuffer r1.patch r1.address r1.ibSizeDwords
        packets).packets).packets =
    (CmdStream.PatchCondIndirectBuffer r1.patch r1.address r1.ibSizeDwords
      (CmdStream.PatchCondIndirectBuffer r2.patch r2.address r2.ibSizeDwords
        packets).packets).packets := by
  obtain ⟨⟨t1, p1⟩, a1, n1⟩ := r1
  obtain ⟨⟨t2, p2⟩, a2, n2⟩ := r2
  funext a
  have hne : t1 = t2 → p1 ≠ p2 := by
    rintro rfl rfl
    exact h rfl
  cases t1 <;> cases t2 <;> simp only [CmdStream.PatchCondIndirectBuffer] <;>
    by_cases h1 : a = p1 <;> by_cases h2 : a = p2 <;>
    simp only [h1, h2, if_true, if_false] <;>
    first
      | rfl
      | (subst h1; subst h2; exact absurd rfl (hne rfl))
      | (subst h1; simp_all)
      | (subst h2; simp_all)

/-- C17. Resolution of conditional chain patches is order-independent: for every packet memory
and every list of patch records with their targets in which each record names its own packet
field pair (no two records share kind and packet location), applying `PatchCondIndirectBuffer`
to the records in reverse order, or in any other order, leaves the same packets as applying it
in creation order. -/
theorem patch_resolution_order_independent (targets : List PatchTarget)
    (hown : targets.Pairwise (fun r1 r2 => r1.patch ≠ r2.patch)) (packets : CondIbSpace) :
    patchAll targets.reverse packets = patchAll targets packets ∧
      ∀ order : List PatchTarget, order.Perm targets →
        patchAll order packets = patchAll targets packets := by
  have hsym : Symmetric (fun r1 r2 : PatchTarget => r1.patch ≠ r2.patch) :=
    fun _ _ h => Ne.symm h
  have hcomm : ∀ x ∈ targets, ∀ y ∈ targets, ∀ z : CondIbSpace,
      (CmdStream.PatchCondIndirectBuffer y.patch y.address y.ibSizeDwords
        (CmdStream.PatchCondIndirectBuffer x.patch x.address x.ibSizeDwords z).packets).packets =
      (CmdStream.PatchCondIndirectBuffer x.patch x.address x.ibSizeDwords
        (CmdStream.PatchCondIndirectBuffer y.patch y.address y.ibSizeDwords
          z).packets).packets := by
    intro x hx y hy z
    by_cases hxy : x = y
    · rw [hxy]
    · exact PatchCondIndirectBuffer_comm x y (hown.forall hsym hx hy hxy) z
  have hperm : ∀ order : List PatchTarget, order.Perm targets →
      patchAll order packets = patchAll targets packets := by
    intro order hp
    unfold patchAll
    exact (hp.symm.foldl_eq' hcomm packets).symm
  exact ⟨hperm _ (List.reverse_perm targets), hperm⟩

/-- C17 on one packet: the pass patch then the fail patch, and the fail patch then the pass
patch, leave the same packet. -/
theorem patch_resolution_order_independent_witness :
    [(⟨⟨.CondIndirectBufferPass, 8⟩, 2 ^ 32 + 4096, 64⟩ : PatchTarget),
      ⟨⟨.CondIndirectBufferFail, 8⟩, 8192, 32⟩].Pairwise (fun r1 r2 => r1.patch ≠ r2.patch) ∧
    patchAll [⟨⟨.CondIndirectBufferFail, 8⟩, 8192, 32⟩,
        ⟨⟨.CondIndirectBufferPass, 8⟩, 2 ^ 32 + 4096, 64⟩] (fun _ => examplePacket) =
      patchAll [⟨⟨.CondIndirectBufferPass, 8⟩, 2 ^ 32 + 4096, 64⟩,
        ⟨⟨.CondIndirectBufferFail, 8⟩, 8192, 32⟩] (fun _ => examplePacket) ∧
    patchAll [⟨⟨.CondIndirectBufferPass, 8⟩, 2 ^ 32 + 4096, 64⟩,
        ⟨⟨.CondIndirectBufferFail, 8⟩, 8192, 32⟩] (fun _ => examplePacket) 8 =
      { examplePacket with
        ibBase1Lo := 4096, ibBase1Hi := 1, ibSize1 := 64,
        ibBase2Lo := 8192, ibBase2Hi := 0, ibSize2 := 32 } :=
  ⟨by simp,
    (patch_resolution_order_independent
      [⟨⟨.CondIndirectBufferPass, 8⟩, 2 ^ 32 + 4096, 64⟩, ⟨⟨.CondIndirectBufferFail, 8⟩, 8192, 32⟩]
      (by simp) (fun _ => examplePacket)).1,
    by decide⟩

/-! ## Ending a chunk -/

theorem EndCurrentChunk_raw (s : CmdStream) (hF : s.optModeFinalized = false)
    (g : GfxCmdStream) (atEndOfStream : Bool) :
    s.EndCurrentChunk g atEndOfStream =
      { stream := s
        base :=
          if 0 < g.m_chainIbSpaceInDwords then
            if atEndOfStream = true then
              { g with
                usedDwords := g.usedDwords + g.m_chainIbSpaceInDwords
                tailChainLocation := some (g.chunkAddr + g.usedDwords) }
            else
              { g with
                usedDwords := g.usedDwords + g.m_chainIbSpaceInDwords
                mem := writeWords g.mem (g.chunkAddr + g.usedDwords)
                  (s.m_cmdUtil.BuildNop g.m_chainIbSpaceInDwords)
                patches := g.patches ++ [⟨.IndirectBuffer, g.chunkAddr + g.usedDwords⟩] }
          else { g with usedDwords := g.usedDwords + g.m_chainIbSpaceInDwords }
        assertsHeld := true } := by
  simp only [CmdStream.EndCurrentChunk, hF, Bool.false_eq_true, if_false,
    GfxCmdStream.EndCommandBlock, GfxCmdStream.UpdateTailChainLocation,
    GfxCmdStream.AddChainPatch]
  split <;> [split; skip] <;> rfl

theorem EndCurrentChunk_finalized (s : CmdStream) (hF : s.optModeFinalized = true)
    (g : GfxCmdStream) (atEndOfStream : Bool) :
    s.EndCurrentChunk g atEndOfStream =
      { stream := s.withOptimizer (s.m_pPm4Optimizer.OptimizePm4Commands s.m_cmdUtil
          (fun i => g.mem (g.chunkAddr + i)) g.usedDwords).2
        base := ({ s with optModeFinalized := false } : CmdStream).EndCurrentChunk
          { g with
            mem := writeWords g.mem g.chunkAddr (s.m_pPm4Optimizer.OptimizePm4Commands s.m_cmdUtil
              (fun i => g.mem (g.chunkAddr + i)) g.usedDwords).1
            usedDwords := (s.m_pPm4Optimizer.OptimizePm4Commands s.m_cmdUtil
              (fun i => g.mem (g.chunkAddr + i)) g.usedDwords).1.length } atEndOfStream |>.base
        assertsHeld := g.cmdBlockOffset == 0 } := by
  simp only [CmdStream.EndCurrentChunk, hF, if_true, Bool.false_eq_true, if_false,
    GfxCmdStream.EndCommandBlock, GfxCmdStream.UpdateTailChainLocation,
    GfxCmdStream.AddChainPatch]
  split <;> [split; skip] <;> rfl

theorem sealedDwords_raw (s : CmdStream) (hF : s.optModeFinalized = false) (g : GfxCmdStream) :
    s.sealedDwords g = g.usedDwords := by
  simp [CmdStream.sealedDwords, hF]

theorem sealedDwords_finalized (s : CmdStream) (hF : s.optModeFinalized = true)
    (g : GfxCmdStream) :
    s.sealedDwords g = (s.m_pPm4Optimizer.OptimizePm4Commands s.m_cmdUtil
      (fun i => g.mem (g.chunkAddr + i)) g.usedDwords).1.length := by
  simp [CmdStream.sealedDwords, hF]

/-- The trailer part of `EndCurrentChunk` outside Finalized mode. -/
theorem EndCurrentChunk_raw_trailer (s : CmdStream) (hF : s.optModeFinalized = false)
    (g : GfxCmdStream) (atEndOfStream : Bool)
    (hnop : (s.m_cmdUtil.BuildNop g.m_chainIbSpaceInDwords).length = g.m_chainIbSpaceInDwords) :
    (s.EndCurrentChunk g atEndOfStream).base.usedDwords =
        g.usedDwords + g.m_chainIbSpaceInDwords ∧
    (∀ a, a < g.chunkAddr + g.usedDwords ∨
        g.chunkAddr + g.usedDwords + g.m_chainIbSpaceInDwords ≤ a →
      (s.EndCurrentChunk g atEndOfStream).base.mem a = g.mem a) ∧
    (0 < g.m_chainIbSpaceInDwords → atEndOfStream = false →
      readWords (s.EndCurrentChunk g atEndOfStream).base.mem (g.chunkAddr + g.usedDwords)
          g.m_chainIbSpaceInDwords = s.m_cmdUtil.BuildNop g.m_chainIbSpaceInDwords ∧
      (s.EndCurrentChunk g atEndOfStream).base.patches =
        g.patches ++ [⟨.IndirectBuffer, g.chunkAddr + g.usedDwords⟩] ∧
      (s.EndCurrentChunk g atEndOfStream).base.tailChainLocation = g.tailChainLocation) ∧
    (0 < g.m_chainIbSpaceInDwords → atEndOfStream = true →
      (s.EndCurrentChunk g atEndOfStream).base.patches = g.patches ∧
      (s.EndCurrentChunk g atEndOfStream).base.tailChainLocation =
        some (g.chunkAddr + g.usedDwords) ∧
      (s.EndCurrentChunk g atEndOfStream).base.mem = g.mem) ∧
    (g.m_chainIbSpaceInDwords = 0 →
      (s.EndCurrentChunk g atEndOfStream).base.patches = g.patches ∧
      (s.EndCurrentChunk g atEndOfStream).base.tailChainLocation = g.tailChainLocation ∧
      (s.EndCurrentChunk g atEndOfStream).base.mem = g.mem) := by
  rw [EndCurrentChunk_raw s hF]
  refine ⟨?_, fun a ha => ?_, fun hpos hat => ?_, fun hpos hat => ?_, fun h0 => ?_⟩
  · simp only
    split <;> [split; skip] <;> rfl
  · simp only
    split <;> [split; skip]
    · rfl
    · simp only
      exact writeWords_outside _ _ _ _ (by rw [hnop]; exact ha)
    · rfl
  · simp only [hpos, hat, if_true, Bool.false_eq_true, if_false]
    refine ⟨?_, trivial, trivial⟩
    have := writeWords_read g.mem (g.chunkAddr + g.usedDwords)
      (s.m_cmdUtil.BuildNop g.m_chainIbSpaceInDwords)
    rwa [hnop] at this
  · simp only [hpos, hat, if_true]
    exact ⟨trivial, trivial, trivial⟩
  · have hn : ¬ 0 < g.m_chainIbSpaceInDwords := by omega
    simp only [hn, if_false]
    exact ⟨trivial, trivial, trivial⟩

/-- C18. `EndCurrentChunk` appends a trailer of `m_chainIbSpaceInDwords` words behind the block
body. When that size is greater than 0 and `atEndOfStream` is false, the trailer holds the NOP
the encoder builds for exactly that size and exactly one Chain Patch Record, of kind
`IndirectBuffer` and located at the trailer, is added to the pending records; when
`atEndOfStream` is true no record is added, the trailer becomes the tail chain location and no
word of it is written. When the size is 0 neither happens. -/
theorem EndCurrentChunk_appends_trailer (s : CmdStream) (g : GfxCmdStream)
    (atEndOfStream : Bool)
    (hnop : (s.m_cmdUtil.BuildNop g.m_chainIbSpaceInDwords).length = g.m_chainIbSpaceInDwords) :
    (s.EndCurrentChunk g atEndOfStream).base.usedDwords =
        s.sealedDwords g + g.m_chainIbSpaceInDwords ∧
    (0 < g.m_chainIbSpaceInDwords → atEndOfStream = false →
      readWords (s.EndCurrentChunk g atEndOfStream).base.mem (g.chunkAddr + s.sealedDwords g)
          g.m_chainIbSpaceInDwords = s.m_cmdUtil.BuildNop g.m_chainIbSpaceInDwords ∧
      (s.EndCurrentChunk g atEndOfStream).base.patches =
        g.patches ++ [⟨.IndirectBuffer, g.chunkAddr + s.sealedDwords g⟩] ∧
      (s.EndCurrentChunk g atEndOfStream).base.tailChainLocation = g.tailChainLocation) ∧
    (0 < g.m_chainIbSpaceInDwords → atEndOfStream = true →
      (s.EndCurrentChunk g atEndOfStream).base.patches = g.patches ∧
      (s.EndCurrentChunk g atEndOfStream).base.tailChainLocation =
        some (g.chunkAddr + s.sealedDwords g) ∧
      ∀ a, g.chunkAddr + s.sealedDwords g ≤ a →
        (s.EndCurrentChunk g atEndOfStream).base.mem a = g.mem a) ∧
    (g.m_chainIbSpaceInDwords = 0 →
      (s.EndCurrentChunk g atEndOfStream).base.patches = g.patches ∧
      (s.EndCurrentChunk g atEndOfStream).base.tailChainLocation = g.tailChainLocation ∧
      ∀ a, g.chunkAddr + s.sealedDwords g ≤ a →
        (s.EndCurrentChunk g atEndOfStream).base.mem a = g.mem a) := by
  cases hF : s.optModeFinalized with
  | false =>
    obtain ⟨h1, _, h3, h4, h5⟩ := EndCurrentChunk_raw_trailer s hF g atEndOfStream hnop
    rw [sealedDwords_raw s hF]
    refine ⟨h1, h3, fun hpos hat => ?_, fun h0 => ?_⟩
    · obtain ⟨h6, h7, h8⟩ := h4 hpos hat
      exact ⟨h6, h7, fun a _ => by rw [h8]⟩
    · obtain ⟨h6, h7, h8⟩ := h5 h0
      exact ⟨h6, h7, fun a _ => by rw [h8]⟩
  | true =>
    rw [sealedDwords_finalized s hF, EndCurrentChunk_finalized s hF]
    obtain ⟨h1, _, h3, h4, h5⟩ := EndCurrentChunk_raw_trailer
      ({ s with optModeFinalized := false } : CmdStream) rfl
      { g with
        mem := writeWords g.mem g.chunkAddr (s.m_pPm4Optimizer.OptimizePm4Commands s.m_cmdUtil
          (fun i => g.mem (g.chunkAddr + i)) g.usedDwords).1
        usedDwords := (s.m_pPm4Optimizer.OptimizePm4Commands s.m_cmdUtil
          (fun i => g.mem (g.chunkAddr + i)) g.usedDwords).1.length } atEndOfStream hnop
    refine ⟨h1, h3, fun hpos hat => ?_, fun h0 => ?_⟩
    · obtain ⟨h6, h7, h8⟩ := h4 hpos hat
      refine ⟨h6, h7, fun a ha => ?_⟩
      simp only at h8 ⊢
      rw [h8]
      exact writeWords_outside _ _ _ _ (Or.inr ha)
    · obtain ⟨h6, h7, h8⟩ := h5 h0
      refine ⟨h6, h7, fun a ha => ?_⟩
      simp only at h8 ⊢
      rw [h8]
      exact writeWords_outside _ _ _ _ (Or.inr ha)

/-- C19. In Finalized mode `EndCurrentChunk` runs the whole-block pass once, in place over the
used words of the current chunk, before the block is ended: the stream's optimizer is the one
the pass leaves, the chunk starts with the words the pass produced, which are no more than the
used words before, the trailer is appended behind them, and the assertion holds exactly when
the command-block offset is 0. In every other mode the optimizer is not run: the stream is
returned as it was, no word of the block body changes, the trailer is appended behind the used
words and no assertion fails. -/
theorem EndCurrentChunk_finalized_pass (s : CmdStream) (g : GfxCmdStream)
    (atEndOfStream : Bool) :
    (s.optModeFinalized = true →
      (s.EndCurrentChunk g atEndOfStream).stream =
        s.withOptimizer (s.m_pPm4Optimizer.OptimizePm4Commands s.m_cmdUtil
          (fun i => g.mem (g.chunkAddr + i)) g.usedDwords).2 ∧
      readWords (s.EndCurrentChunk g atEndOfStream).base.mem g.chunkAddr
          (s.m_pPm4Optimizer.OptimizePm4Commands s.m_cmdUtil
            (fun i => g.mem (g.chunkAddr + i)) g.usedDwords).1.length =
        (s.m_pPm4Optimizer.OptimizePm4Commands s.m_cmdUtil
          (fun i => g.mem (g.chunkAddr + i)) g.usedDwords).1 ∧
      (s.m_pPm4Optimizer.OptimizePm4Commands s.m_cmdUtil
        (fun i => g.mem (g.chunkAddr + i)) g.usedDwords).1.length ≤ g.usedDwords ∧
      (∀ a, a < g.chunkAddr → (s.EndCurrentChunk g atEndOfStream).base.mem a = g.mem a) ∧
      (s.EndCurrentChunk g atEndOfStream).base.usedDwords =
        (s.m_pPm4Optimizer.OptimizePm4Commands s.m_cmdUtil
          (fun i => g.mem (g.chunkAddr + i)) g.usedDwords).1.length +
          g.m_chainIbSpaceInDwords ∧
      ((s.EndCurrentChunk g atEndOfStream).assertsHeld = true ↔ g.cmdBlockOffset = 0)) ∧
    (s.optModeFinalized = false →
      (s.EndCurrentChunk g atEndOfStream).stream = s ∧
      (∀ a, a < g.chunkAddr + g.usedDwords →
        (s.EndCurrentChunk g atEndOfStream).base.mem a = g.mem a) ∧
      (s.EndCurrentChunk g atEndOfStream).base.usedDwords =
        g.usedDwords + g.m_chainIbSpaceInDwords ∧
      (s.EndCurrentChunk g atEndOfStream).assertsHeld = true) := by
  refine ⟨fun hF => ?_, fun hF => ?_⟩
  · rw [EndCurrentChunk_finalized s hF]
    rw [EndCurrentChunk_raw ({ s with optModeFinalized := false } : CmdStream) rfl]
    refine ⟨rfl, ?_, OptimizePm4Commands_length _ _ _ _, fun a ha => ?_, ?_, ?_⟩
    · simp only
      split <;> [split; skip]
      · exact writeWords_read _ _ _
      · simp only
        rw [readWords_congr _ (writeWords g.mem g.chunkAddr
          (s.m_pPm4Optimizer.OptimizePm4Commands s.m_cmdUtil
            (fun i => g.mem (g.chunkAddr + i)) g.usedDwords).1)]
        · exact writeWords_read _ _ _
        · intro a _ ha
          exact writeWords_outside _ _ _ _ (Or.inl ha)
      · exact writeWords_read _ _ _
    · simp only
      split <;> [split; skip]
      · exact writeWords_outside _ _ _ _ (Or.inl ha)
      · simp only
        rw [writeWords_outside _ _ _ _ (Or.inl (by omega))]
        exact writeWords_outside _ _ _ _ (Or.inl ha)
      · exact writeWords_outside _ _ _ _ (Or.inl ha)
    · simp only
      split <;> [split; skip] <;> rfl
    · simp
  · rw [EndCurrentChunk_raw s hF]
    refine ⟨rfl, fun a ha => ?_, ?_, rfl⟩
    · simp only
      split <;> [split; skip]
      · rfl
      · exact writeWords_outside _ _ _ _ (Or.inl ha)
      · rfl
    · simp only
      split <;> [split; skip] <;> rfl

/-- C18 at a block of nine used words with a four-word trailer, in Finalized mode and not at
the end of the stream: the pass leaves six words, the NOP and the patch record sit at word 6. -/
theorem EndCurrentChunk_appends_trailer_witness :
    (finalizedStream.m_cmdUtil.BuildNop exampleBlock.m_chainIbSpaceInDwords).length =
      exampleBlock.m_chainIbSpaceInDwords ∧
    (finalizedStream.EndCurrentChunk exampleBlock false).base.usedDwords =
      finalizedStream.sealedDwords exampleBlock + exampleBlock.m_chainIbSpaceInDwords ∧
    finalizedStream.sealedDwords exampleBlock = 6 ∧
    (finalizedStream.EndCurrentChunk exampleBlock false).base.patches =
      [⟨.IndirectBuffer, 6⟩] ∧
    readWords (finalizedStream.EndCurrentChunk exampleBlock false).base.mem 0 10 =
      [9, 5, 7, 10, 6, 1, 27, 0, 0, 0] ∧
    (finalizedStream.EndCurrentChunk exampleBlock true).base.tailChainLocation = some 6 :=
  ⟨by decide,
    (EndCurrentChunk_appends_trailer finalizedStream exampleBlock false (by decide)).1,
    by decide, by decide, by decide, by decide⟩

/-- C19 at the same block: the pass drops the repeated write of context register 5, the trailer
follows the six words left, and the stream has the optimizer the pass leaves. -/
theorem EndCurrentChunk_finalized_pass_witness :
    finalizedStream.optModeFinalized = true ∧
    (finalizedStream.EndCurrentChunk exampleBlock false).stream =
      finalizedStream.withOptimizer (finalizedStream.m_pPm4Optimizer.OptimizePm4Commands
        finalizedStream.m_cmdUtil (fun i => exampleBlock.mem (exampleBlock.chunkAddr + i))
        exampleBlock.usedDwords).2 ∧
    (finalizedStream.m_pPm4Optimizer.OptimizePm4Commands finalizedStream.m_cmdUtil
      (fun i => exampleBlock.mem (exampleBlock.chunkAddr + i)) exampleBlock.usedDwords).1 =
      [9, 5, 7, 10, 6, 1] ∧
    (finalizedStream.EndCurrentChunk exampleBlock false).base.usedDwords = 10 ∧
    (finalizedStream.EndCurrentChunk { exampleBlock with cmdBlockOffset := 3 } false).assertsHeld =
      false ∧
    (exampleStream true false).EndCurrentChunk exampleBlock false =
      { stream := exampleStream true false
        base := ((exampleStream true false).EndCurrentChunk exampleBlock false).base
        assertsHeld := true } ∧
    readWords ((exampleStream true false).EndCurrentChunk exampleBlock false).base.mem 0 13 =
      [9, 5, 7, 9, 5, 7, 10, 6, 1, 27, 0, 0, 0] :=
  ⟨rfl, ((EndCurrentChunk_finalized_pass finalizedStream exampleBlock false).1 rfl).1,
    by decide, by decide, by decide, rfl, by decide⟩

/-! ## End-to-end scenario -/

theorem scenario_writes (s : CmdStream) (regAddr regData : Nat)
    (hfresh : (s.m_pPm4Optimizer.regs .context regAddr).valid = false)
    (hc : s.m_pPm4Optimizer.nonCacheable .context regAddr = false) (mem : CmdSpace) (p : Nat) :
    (s.WriteSetOneContextReg true regAddr regData mem p).EmitsOne s.m_cmdUtil mem p
        (s.m_cmdUtil.BuildSetOneContextReg regAddr none) regData ∧
      ((s.WriteSetOneContextReg true regAddr regData mem p).stream.WriteSetOneContextReg true
        regAddr regData (s.WriteSetOneContextReg true regAddr regData mem p).mem
        (s.WriteSetOneContextReg true regAddr regData mem p).pCmdSpace).EmitsNothing
          (s.WriteSetOneContextReg true regAddr regData mem p).mem
          (s.WriteSetOneContextReg true regAddr regData mem p).pCmdSpace ∧
      ((s.WriteSetOneContextReg true regAddr regData mem p).stream.WriteSetOneContextReg true
        regAddr regData (s.WriteSetOneContextReg true regAddr regData mem p).mem
        (s.WriteSetOneContextReg true regAddr regData mem p).pCmdSpace).stream =
        s.withOptimizer (s.m_pPm4Optimizer.setEntry .context regAddr regData) := by
  obtain ⟨h1, h2⟩ := WriteSetOneContextReg_keep s regAddr regData mem p
    (mustKeep_of_invalid _ _ _ _ hfresh)
  have hk2 : (s.withOptimizer (s.m_pPm4Optimizer.setEntry .context regAddr
      regData)).m_pPm4Optimizer.mustKeep .context regAddr regData = false :=
    mustKeep_setEntry_same _ _ _ _ hc
  rw [h2]
  obtain ⟨h3, h4⟩ := WriteSetOneContextReg_elide _ regAddr regData
    (s.WriteSetOneContextReg true regAddr regData mem p).mem
    (s.WriteSetOneContextReg true regAddr regData mem p).pCmdSpace hk2
  exact ⟨h1, h3, h4⟩

/-- C20. The end-to-end scenario, for an Immediate-mode stream with an empty cache over an
encoder whose one-register packet has two words, and a fresh block with a two-word chain
trailer: writing the register with the value 1 emits the two-word packet; writing it again
emits no word; ending the block, not at the end of the stream, seals it at four words, the
packet followed by the NOP trailer, and records one chain patch, of kind `IndirectBuffer`, at
the trailer; resolving the pending patches with the address and size of the next block leaves
the chain packet to that address in the trailer, the packet before it untouched, and no record
pending. -/
theorem end_to_end_scenario (s : CmdStream) (hI : s.optModeImmediate = true)
    (hF : s.optModeFinalized = false)
    (hempty : ∀ sp a, (s.m_pPm4Optimizer.regs sp a).valid = false) (regAddr : Nat)
    (hc : s.m_pPm4Optimizer.nonCacheable .context regAddr = false)
    (hhdr : s.m_cmdUtil.PM4_CMD_SET_DATA_DWORDS = 1)
    (hsize : (s.m_cmdUtil.BuildSetOneContextReg regAddr none).1 = 2) (g : GfxCmdStream)
    (hused : g.usedDwords = 0) (hpatches : g.patches = [])
    (hchain : g.m_chainIbSpaceInDwords = 2) (hnop : (s.m_cmdUtil.BuildNop 2).length = 2)
    (address ibSizeDwords : Nat) (preemptionEnabled : Bool)
    (hib : (s.BuildIndirectBuffer g address ibSizeDwords preemptionEnabled true).length = 2) :
    (s.scenario g regAddr 1 address ibSizeDwords preemptionEnabled).first.pCmdSpace =
      g.chunkAddr + 2 ∧
    readWords (s.scenario g regAddr 1 address ibSizeDwords preemptionEnabled).first.mem
        g.chunkAddr 2 =
      s.m_cmdUtil.packetWords (s.m_cmdUtil.BuildSetOneContextReg regAddr none).2 [1] ∧
    (s.scenario g regAddr 1 address ibSizeDwords preemptionEnabled).first.assertsHeld = true ∧
    (s.scenario g regAddr 1 address ibSizeDwords preemptionEnabled).second.pCmdSpace =
      (s.scenario g regAddr 1 address ibSizeDwords preemptionEnabled).first.pCmdSpace ∧
    (s.scenario g regAddr 1 address ibSizeDwords preemptionEnabled).second.mem =
      (s.scenario g regAddr 1 address ibSizeDwords preemptionEnabled).first.mem ∧
    (s.scenario g regAddr 1 address ibSizeDwords preemptionEnabled).ended.base.usedDwords = 4 ∧
    (s.scenario g regAddr 1 address ibSizeDwords preemptionEnabled).ended.base.patches =
      [⟨.IndirectBuffer, g.chunkAddr + 2⟩] ∧
    readWords (s.scenario g regAddr 1 address ibSizeDwords preemptionEnabled).ended.base.mem
        g.chunkAddr 4 =
      s.m_cmdUtil.packetWords (s.m_cmdUtil.BuildSetOneContextReg regAddr none).2 [1] ++
        s.m_cmdUtil.BuildNop 2 ∧
    readWords (s.scenario g regAddr 1 address ibSizeDwords preemptionEnabled).resolved.mem
        g.chunkAddr 4 =
      s.m_cmdUtil.packetWords (s.m_cmdUtil.BuildSetOneContextReg regAddr none).2 [1] ++
        s.BuildIndirectBuffer g address ibSizeDwords preemptionEnabled true ∧
    (s.scenario g regAddr 1 address ibSizeDwords preemptionEnabled).resolved.patches = [] := by
  obtain ⟨h1, h2, h3⟩ := scenario_writes s regAddr 1 (hempty _ _) hc g.mem
    (g.chunkAddr + g.usedDwords)
  have hasr : (s.WriteSetOneContextReg true regAddr 1 g.mem
      (g.chunkAddr + g.usedDwords)).assertsHeld = true := by
    unfold CmdStream.WriteSetOneContextReg
    simp only [Bool.true_eq_false, if_false]
    split <;> simp [hI]
  have hfirst : (s.scenario g regAddr 1 address ibSizeDwords preemptionEnabled).first =
      s.WriteSetOneContextReg true regAddr 1 g.mem (g.chunkAddr + g.usedDwords) := rfl
  have hsecond : (s.scenario g regAddr 1 address ibSizeDwords preemptionEnabled).second =
      (s.scenario g regAddr 1 address ibSizeDwords
        preemptionEnabled).first.stream.WriteSetOneContextReg true regAddr 1
        (s.scenario g regAddr 1 address ibSizeDwords preemptionEnabled).first.mem
        (s.scenario g regAddr 1 address ibSizeDwords preemptionEnabled).first.pCmdSpace := rfl
  have hended : (s.scenario g regAddr 1 address ibSizeDwords preemptionEnabled).ended =
      (s.scenario g regAddr 1 address ibSizeDwords
        preemptionEnabled).second.stream.EndCurrentChunk
        (g.CommitCommands
          (s.scenario g regAddr 1 address ibSizeDwords preemptionEnabled).second.mem
          (s.scenario g regAddr 1 address ibSizeDwords preemptionEnabled).second.pCmdSpace)
        false := rfl
  have hres : (s.scenario g regAddr 1 address ibSizeDwords preemptionEnabled).resolved =
      (s.scenario g regAddr 1 address ibSizeDwords preemptionEnabled).ended.base.patches.foldl
        (fun acc patch =>
          (s.scenario g regAddr 1 address ibSizeDwords
            preemptionEnabled).ended.stream.resolveChainPatch acc patch address ibSizeDwords
            preemptionEnabled)
        (s.scenario g regAddr 1 address ibSizeDwords preemptionEnabled).ended.base := rfl
  rw [← hfirst] at h1 h2 h3 hasr
  rw [← hsecond] at h2 h3
  generalize s.scenario g regAddr 1 address ibSizeDwords preemptionEnabled = sc at *
  obtain ⟨hread, hout, hcur⟩ := h1
  obtain ⟨hmem2, hcur2⟩ := h2
  rw [hused, Nat.add_zero] at hread hout hcur
  rw [hhdr] at hread hout
  rw [hsize] at hcur
  have hF2 : sc.second.stream.optModeFinalized = false := by
    rw [h3]
    exact hF
  have hcu2 : sc.second.stream.m_cmdUtil = s.m_cmdUtil := by rw [h3]; rfl
  have hg : (g.CommitCommands sc.second.mem sc.second.pCmdSpace).usedDwords = 2 := by
    simp only [GfxCmdStream.CommitCommands, hcur2, hcur]
    omega
  obtain ⟨e1, e2, e3, _, _⟩ := EndCurrentChunk_raw_trailer sc.second.stream hF2
    (g.CommitCommands sc.second.mem sc.second.pCmdSpace) false
    (by rw [hcu2]; simpa [GfxCmdStream.CommitCommands, hchain] using hnop)
  rw [← hended] at e1 e2 e3
  have hch : (g.CommitCommands sc.second.mem sc.second.pCmdSpace).m_chainIbSpaceInDwords = 2 :=
    hchain
  have hca : (g.CommitCommands sc.second.mem sc.second.pCmdSpace).chunkAddr = g.chunkAddr := rfl
  have hpa : (g.CommitCommands sc.second.mem sc.second.pCmdSpace).patches = [] := hpatches
  have hme : (g.CommitCommands sc.second.mem sc.second.pCmdSpace).mem = sc.first.mem := hmem2
  simp only [hg, hch, hca, hme, hpa, hcu2] at e1 e2 e3
  obtain ⟨e4, e5, _⟩ := e3 (by decide) trivial
  have hbody : readWords sc.ended.base.mem g.chunkAddr 2 =
      s.m_cmdUtil.packetWords (s.m_cmdUtil.BuildSetOneContextReg regAddr none).2 [1] := by
    rw [readWords_congr _ sc.first.mem _ _ (fun a _ ha => e2 a (Or.inl ha))]
    exact hread
  have hpatch : sc.ended.base.patches = [⟨.IndirectBuffer, g.chunkAddr + 2⟩] := by
    rw [e5]
    rfl
  refine ⟨hcur, hread, hasr, hcur2, hmem2, e1, hpatch, ?_, ?_, ?_⟩
  · rw [show (4 : Nat) = 2 + 2 from rfl, readWords_append, hbody, e4]
  · rw [hres, hpatch]
    simp only [List.foldl_cons, List.foldl_nil, CmdStream.resolveChainPatch]
    rw [show (4 : Nat) = 2 + 2 from rfl, readWords_append]
    congr 1
    · rw [readWords_congr _ sc.ended.base.mem _ _
        (fun a _ ha => writeWords_outside _ _ _ _ (Or.inl ha))]
      exact hbody
    · have hb : sc.ended.stream.BuildIndirectBuffer sc.ended.base address ibSizeDwords
          preemptionEnabled true =
          s.BuildIndirectBuffer g address ibSizeDwords preemptionEnabled true := by
        rw [hended, EndCurrentChunk_raw _ hF2]
        simp only [CmdStream.BuildIndirectBuffer, hcu2]
        split <;> [split; skip] <;> rfl
      rw [hb]
      have := writeWords_read sc.ended.base.mem (g.chunkAddr + 2)
        (s.BuildIndirectBuffer g address ibSizeDwords preemptionEnabled true)
      rwa [hib] at this
  · rw [hres, hpatch]
    simp only [List.foldl_cons, List.foldl_nil, CmdStream.resolveChainPatch, hpatch]
    simp

/-- C20 at the one-word-header encoder: register 10 written with 1 twice on a fresh block at
word 0 with a two-word trailer, the next block being at address 4096 with four words. -/
theorem end_to_end_scenario_witness :
    compactStream.optModeImmediate = true ∧
    (∀ sp a, (compactStream.m_pPm4Optimizer.regs sp a).valid = false) ∧
    (compactStream.m_cmdUtil.BuildSetOneContextReg 10 none).1 = 2 ∧
    (exampleChunk 2).m_chainIbSpaceInDwords = 2 ∧
    readWords (compactStream.scenario (exampleChunk 2) 10 1 4096 4 false).first.mem 0 2 =
      [20489, 1] ∧
    (compactStream.scenario (exampleChunk 2) 10 1 4096 4 false).second.pCmdSpace = 2 ∧
    (compactStream.scenario (exampleChunk 2) 10 1 4096 4 false).ended.base.usedDwords = 4 ∧
    (compactStream.scenario (exampleChunk 2) 10 1 4096 4 false).ended.base.patches =
      [⟨.IndirectBuffer, (exampleChunk 2).chunkAddr + 2⟩] ∧
    readWords (compactStream.scenario (exampleChunk 2) 10 1 4096 4 false).ended.base.mem 0 4 =
      [20489, 1, 11, 0] ∧
    readWords (compactStream.scenario (exampleChunk 2) 10 1 4096 4 false).resolved.mem 0 4 =
      [20489, 1, 271, 4096] :=
  ⟨rfl, fun _ _ => rfl, rfl, rfl, by decide, by decide, by decide,
    (end_to_end_scenario compactStream rfl rfl (fun _ _ => rfl) 10 rfl rfl rfl (exampleChunk 2)
      rfl rfl rfl (by decide) 4096 4 false (by decide)).2.2.2.2.2.2.1,
    by decide, by decide⟩

/-! ## The mode assertion -/

theorem beq_true_iff_eq_flag (flag b : Bool) : (flag == b) = true ↔ b = flag := by
  cases flag <;> cases b <;> decide

/-- The assertion of a mode-specialised instance holds exactly when the instance is the one of
the stream's mode. -/
theorem instance_assertion (s : CmdStream) (op : WriteOp) (b : Bool)
    (hop : op.instanceMode = some b) (mem : CmdSpace) (p : Nat) :
    (s.perform op mem p).assertsHeld = (s.optModeImmediate == b) := by
  cases op with
  | contextRegRmw mode a m v =>
    obtain rfl : mode = some b := hop
    simp only [CmdStream.perform, CmdStream.WriteContextRegRmw]
    split <;> [skip; split] <;> rfl
  | setIaMultiVgtParam b2 v =>
    obtain rfl : b2 = b := Option.some.inj hop
    simp only [CmdStream.perform, CmdStream.WriteSetIaMultiVgtParam]
    split <;> [skip; split] <;> rfl
  | setVgtLsHsConfig b2 v =>
    obtain rfl : b2 = b := Option.some.inj hop
    simp only [CmdStream.perform, CmdStream.WriteSetVgtLsHsConfig]
    split <;> [skip; split] <;> rfl
  | setOneContextReg mode a v =>
    obtain rfl : mode = some b := hop
    simp only [CmdStream.perform, CmdStream.WriteSetOneContextReg]
    split <;> [skip; split] <;> rfl
  | setOneShReg t mode a v =>
    obtain rfl : mode = some b := hop
    simp only [CmdStream.perform, CmdStream.WriteSetOneShReg]
    split <;> [skip; split] <;> rfl
  | setSeqContextRegs mode a e f =>
    obtain rfl : mode = some b := hop
    simp only [CmdStream.perform, CmdStream.WriteSetSeqContextRegs]
    split <;> rfl
  | setShRegDataOffset t mode a off =>
    obtain rfl : mode = some b := hop
    simp only [CmdStream.perform, CmdStream.WriteSetShRegDataOffset]
    split <;> rfl
  | _ => simp [WriteOp.instanceMode] at hop

/-- A wrapper calls the instance of the stream's mode. -/
theorem wrapper_selects (s : CmdStream) (op : WriteOp) (hop : op.IsWrapperCall)
    (mem : CmdSpace) (p : Nat) :
    s.perform op mem p = s.perform (op.withMode (some s.optModeImmediate)) mem p := by
  cases op with
  | contextRegRmw mode a m v =>
    cases mode with
    | some b => exact absurd hop (by simp [WriteOp.IsWrapperCall])
    | none =>
      cases hI : s.optModeImmediate <;>
        simp [CmdStream.perform, WriteOp.withMode, CmdStream.WriteContextRegRmwDyn, hI]
  | setOneContextReg mode a v =>
    cases mode with
    | some b => exact absurd hop (by simp [WriteOp.IsWrapperCall])
    | none =>
      cases hI : s.optModeImmediate <;>
        simp [CmdStream.perform, WriteOp.withMode, CmdStream.WriteSetOneContextRegDyn, hI]
  | setOneShReg t mode a v =>
    cases mode with
    | some b => exact absurd hop (by simp [WriteOp.IsWrapperCall])
    | none =>
      cases hI : s.optModeImmediate <;>
        simp [CmdStream.perform, WriteOp.withMode, CmdStream.WriteSetOneShRegDyn, hI]
  | setSeqContextRegs mode a e f =>
    cases mode with
    | some b => exact absurd hop (by simp [WriteOp.IsWrapperCall])
    | none =>
      cases hI : s.optModeImmediate <;>
        simp [CmdStream.perform, WriteOp.withMode, CmdStream.WriteSetSeqContextRegsDyn, hI]
  | setShRegDataOffset t mode a off =>
    cases mode with
    | some b => exact absurd hop (by simp [WriteOp.IsWrapperCall])
    | none =>
      cases hI : s.optModeImmediate <;>
        simp [CmdStream.perform, WriteOp.withMode, CmdStream.WriteSetShRegDataOffsetDyn, hI]
  | _ => exact absurd hop (by simp [WriteOp.IsWrapperCall])

theorem withMode_instanceMode (op : WriteOp) (hop : op.IsWrapperCall) (b : Bool) :
    (op.withMode (some b)).instanceMode = some b := by
  cases op with
  | contextRegRmw mode a m v => rfl
  | setOneContextReg mode a v => rfl
  | setOneShReg t mode a v => rfl
  | setSeqContextRegs mode a e f => rfl
  | setShRegDataOffset t mode a off => rfl
  | _ => exact absurd hop (by simp [WriteOp.IsWrapperCall])

/-- C21. Every mode-specialised write operation (`WriteContextRegRmw<b>`,
`WriteSetIaMultiVgtParam<b>`, `WriteSetVgtLsHsConfig<b>`, `WriteSetOneContextReg<b>`,
`WriteSetOneShReg<_, b>`, `WriteSetSeqContextRegs<b>`, `WriteSetShRegDataOffset<_, b>`) fails
its assertion exactly when its compiled-in mode `b` differs from the stream's `optModeImmediate`
flag; a wrapper calls the instance of the stream's flag, so a call through a wrapper does not
fail that assertion. -/
theorem mode_assertion_fails_iff_mismatch (s : CmdStream) (mem : CmdSpace) (p : Nat) :
    (∀ op b, op.instanceMode = some b →
      ((s.perform op mem p).assertsHeld = false ↔ b ≠ s.optModeImmediate)) ∧
    (∀ op, op.IsWrapperCall →
      s.perform op mem p = s.perform (op.withMode (some s.optModeImmediate)) mem p ∧
      (s.perform op mem p).assertsHeld = true) := by
  refine ⟨fun op b hop => ?_, fun op hop => ?_⟩
  · rw [instance_assertion s op b hop]
    cases s.optModeImmediate <;> cases b <;> decide
  · refine ⟨wrapper_selects s op hop mem p, ?_⟩
    rw [wrapper_selects s op hop,
      instance_assertion s _ s.optModeImmediate (withMode_instanceMode op hop _)]
    exact beq_self_eq_true _

/-- C21 at a stream in mode None: the instance `<true>` of the context register write fails
the assertion, the instance `<false>` and the wrapper do not. -/
theorem mode_assertion_fails_iff_mismatch_witness :
    ((exampleStream false false).perform (.setOneContextReg (some true) 5 7) zeroMem
      0).assertsHeld = false ∧
    ((exampleStream false false).perform (.setOneContextReg (some false) 5 7) zeroMem
      0).assertsHeld = true ∧
    ((exampleStream false false).perform (.setOneContextReg none 5 7) zeroMem
      0).assertsHeld = true :=
  ⟨((mode_assertion_fails_iff_mismatch (exampleStream false false) zeroMem 0).1
      (.setOneContextReg (some true) 5 7) true rfl).2 (by decide),
    by decide,
    ((mode_assertion_fails_iff_mismatch (exampleStream false false) zeroMem 0).2
      (.setOneContextReg none 5 7) trivial).2⟩

/-! ## Patches of another kind -/

/-- C25. `PatchCondIndirectBuffer` handles only the two conditional kinds: for a patch record
of any other kind, the unconditional `IndirectBuffer` chain included, the assertion fails and
every packet, the one the record points at included, is left as it was. -/
theorem PatchCondIndirectBuffer_other_kind (pPatch : ChainPatch)
    (hpass : pPatch.type ≠ .CondIndirectBufferPass)
    (hfail : pPatch.type ≠ .CondIndirectBufferFail) (address ibSizeDwords : Nat)
    (packets : CondIbSpace) :
    (CmdStream.PatchCondIndirectBuffer pPatch address ibSizeDwords packets).assertsHeld =
        false ∧
      (CmdStream.PatchCondIndirectBuffer pPatch address ibSizeDwords packets).packets =
        packets := by
  obtain ⟨type, pPacket⟩ := pPatch
  cases type with
  | IndirectBuffer => exact ⟨rfl, rfl⟩
  | CondIndirectBufferPass => exact absurd rfl hpass
  | CondIndirectBufferFail => exact absurd rfl hfail

/-- C25 at a record of kind `IndirectBuffer` pointing at the packet at word 8. -/
theorem PatchCondIndirectBuffer_other_kind_witness :
    (CmdStream.PatchCondIndirectBuffer ⟨.IndirectBuffer, 8⟩ 4096 64
      (fun _ => examplePacket)).assertsHeld = false ∧
    (CmdStream.PatchCondIndirectBuffer ⟨.IndirectBuffer, 8⟩ 4096 64
      (fun _ => examplePacket)).packets 8 = examplePacket :=
  ⟨(PatchCondIndirectBuffer_other_kind ⟨.IndirectBuffer, 8⟩ (by decide) (by decide) 4096 64
      (fun _ => examplePacket)).1, rfl⟩

/-! ## Notifications outside Immediate mode -/

/-- C27. Outside Immediate mode, Finalized mode included, `NotifyIndirectShRegWrite` and
`NotifyNestedCmdBufferExecute` change nothing: the stream after the call, its optimizer and
cache included, is the stream before it. -/
theorem notifications_without_effect (s : CmdStream) (hN : s.optModeImmediate = false)
    (regAddr : Nat) :
    s.NotifyIndirectShRegWrite regAddr = s ∧ s.NotifyNestedCmdBufferExecute = s ∧
      (s.NotifyIndirectShRegWrite regAddr).m_pPm4Optimizer = s.m_pPm4Optimizer ∧
      s.NotifyNestedCmdBufferExecute.m_pPm4Optimizer = s.m_pPm4Optimizer := by
  have h1 : s.NotifyIndirectShRegWrite regAddr = s := by
    simp [CmdStream.NotifyIndirectShRegWrite, hN]
  have h2 : s.NotifyNestedCmdBufferExecute = s := by
    simp [CmdStream.NotifyNestedCmdBufferExecute, hN]
  exact ⟨h1, h2, by rw [h1], by rw [h2]⟩

/-- C27 at a Finalized-mode stream whose cache holds the config register 8. -/
theorem notifications_without_effect_witness :
    (finalizedStream.withOptimizer configCachedOptimizer).optModeImmediate = false ∧
    ((finalizedStream.withOptimizer configCachedOptimizer).NotifyIndirectShRegWrite
      8).m_pPm4Optimizer = configCachedOptimizer ∧
    (finalizedStream.withOptimizer
      configCachedOptimizer).NotifyNestedCmdBufferExecute.m_pPm4Optimizer =
      configCachedOptimizer :=
  ⟨rfl,
    (notifications_without_effect (finalizedStream.withOptimizer configCachedOptimizer) rfl
      8).2.2.1,
    (notifications_without_effect (finalizedStream.withOptimizer configCachedOptimizer) rfl
      8).2.2.2⟩

/-! ## One user-data slot -/

/-- C29. A user-data slot maps to zero or one register write. When the first slot of the
request is unmapped, `WriteUserDataRegistersOne` and `WriteUserDataRegisterOffset` write no
word, return the cursor unchanged and leave the stream, optimizer included, as it was, in every
mode. When it is mapped, `WriteUserDataRegisterOffset` leaves exactly what
`WriteSetShRegDataOffset`, called through its wrapper or as the instance of the stream's mode,
leaves for that register address and the first value of the request. -/
theorem user_data_slot_zero_or_one_write (s : CmdStream) (entryMap : UserDataEntryMap)
    (args : UserDataArgs) (t : PM4ShaderType) (mem : CmdSpace) (p : Nat) :
    (entryMap.regAddr args.firstEntry = s.m_device.UserDataNotMapped →
      (s.WriteUserDataRegistersOne entryMap args t mem p).EmitsNothing mem p ∧
      (s.WriteUserDataRegistersOne entryMap args t mem p).stream = s ∧
      (s.WriteUserDataRegisterOffset t entryMap args mem p).EmitsNothing mem p ∧
      (s.WriteUserDataRegisterOffset t entryMap args mem p).stream = s) ∧
    (entryMap.regAddr args.firstEntry ≠ s.m_device.UserDataNotMapped →
      s.WriteUserDataRegisterOffset t entryMap args mem p =
        s.WriteSetShRegDataOffsetDyn t (entryMap.regAddr args.firstEntry)
          (args.pEntryValues 0) mem p ∧
      s.WriteUserDataRegisterOffset t entryMap args mem p =
        s.WriteSetShRegDataOffset t s.optModeImmediate (entryMap.regAddr args.firstEntry)
          (args.pEntryValues 0) mem p) := by
  refine ⟨fun hun => ?_, fun hm => ?_⟩
  · simp only [CmdStream.WriteUserDataRegistersOne, CmdStream.WriteUserDataRegisterOffset, hun,
      ne_eq, not_true_eq_false, if_false]
    exact ⟨⟨rfl, rfl⟩, trivial, ⟨rfl, rfl⟩, trivial⟩
  · simp only [CmdStream.WriteUserDataRegisterOffset, hm, ne_eq, not_false_eq_true, if_true,
      CmdStream.WriteSetShRegDataOffsetDyn]
    cases hI : s.optModeImmediate <;> simp

/-- C29 at the map with slot 0 at register 20 and slot 1 unmapped, in Immediate mode. -/
theorem user_data_slot_zero_or_one_write_witness :
    exampleEntryMap.regAddr 1 = (exampleStream true false).m_device.UserDataNotMapped ∧
    ((exampleStream true false).WriteUserDataRegistersOne exampleEntryMap
      { exampleUserData with firstEntry := 1 } .ShaderGraphics zeroMem 0).EmitsNothing
        zeroMem 0 ∧
    exampleEntryMap.regAddr 0 ≠ (exampleStream true false).m_device.UserDataNotMapped ∧
    (exampleStream true false).WriteUserDataRegisterOffset .ShaderGraphics exampleEntryMap
        exampleUserData zeroMem 0 =
      (exampleStream true false).WriteSetShRegDataOffsetDyn .ShaderGraphics
        (exampleEntryMap.regAddr exampleUserData.firstEntry)
        (exampleUserData.pEntryValues 0) zeroMem 0 ∧
    readWords ((exampleStream true false).WriteUserDataRegisterOffset .ShaderGraphics
      exampleEntryMap exampleUserData zeroMem 0).mem 0 3 = [23, 20, 11] :=
  ⟨rfl,
    ((user_data_slot_zero_or_one_write (exampleStream true false) exampleEntryMap
      { exampleUserData with firstEntry := 1 } .ShaderGraphics zeroMem 0).1 rfl).1,
    by decide,
    ((user_data_slot_zero_or_one_write (exampleStream true false) exampleEntryMap
      exampleUserData .ShaderGraphics zeroMem 0).2 (by decide)).1,
    by decide⟩

/-! ## The single-slot fast path -/

theorem entryAddr_zero (entryMap : UserDataEntryMap) (args : UserDataArgs)
    (hfirst : args.firstEntry < 2 ^ 32) :
    entryAddr entryMap args 0 = entryMap.regAddr args.firstEntry := by
  unfold entryAddr
  rw [Nat.zero_add, Nat.mod_eq_of_lt hfirst]

theorem mappedEntries_one (s : CmdStream) (entryMap : UserDataEntryMap) (args : UserDataArgs)
    (hcount : args.entryCount = 1) (hfirst : args.firstEntry < 2 ^ 32) :
    mappedEntries s entryMap args =
      if entryMap.regAddr args.firstEntry ≠ s.m_device.UserDataNotMapped then [0] else [] := by
  have hr : List.range 1 = [0] := rfl
  simp only [mappedEntries, hcount, hr, List.filter_cons, List.filter_nil, entryMapped,
    entryAddr_zero entryMap args hfirst, bne_iff_ne]

/-- The general path on a request of one mapped slot, outside Immediate mode. -/
theorem userDataMany_one_raw (s : CmdStream) (hN : s.optModeImmediate = false)
    (entryMap : UserDataEntryMap) (args : UserDataArgs) (hcount : args.entryCount = 1)
    (hfirst : args.firstEntry < 2 ^ 32) (haddr : entryMap.regAddr args.firstEntry < 2 ^ 32)
    (hm : entryMap.regAddr args.firstEntry ≠ s.m_device.UserDataNotMapped)
    (t : PM4ShaderType) (mem : CmdSpace) (p : Nat) :
    (s.WriteUserDataRegistersMany entryMap args t mem p).mem =
        (s.WriteUserDataRegistersOne entryMap args t mem p).mem ∧
      (s.WriteUserDataRegistersMany entryMap args t mem p).pCmdSpace =
        (s.WriteUserDataRegistersOne entryMap args t mem p).pCmdSpace ∧
      (s.WriteUserDataRegistersMany entryMap args t mem p).stream =
        (s.WriteUserDataRegistersOne entryMap args t mem p).stream := by
  have hme := mappedEntries_one s entryMap args hcount hfirst
  rw [if_pos hm] at hme
  have hstart : (entryMap.regAddr args.firstEntry + 2 ^ 32 - 1 + 1) % 2 ^ 32 =
      entryMap.regAddr args.firstEntry := by omega
  simp only [CmdStream.WriteUserDataRegistersMany, CmdStream.WriteUserDataRegistersOne, hN,
    Bool.false_eq_true, if_false, userDataLoop_eq, mappedValues, mappedAddrs, hme,
    List.map_cons, List.map_nil, List.length_singleton, List.getLastD_cons, List.getLastD_nil,
    entryAddr_zero entryMap args hfirst, hstart, Nat.le_refl, if_true, hm, ne_eq,
    not_false_eq_true, writeHeader_writeWords, store_eq_writePacket]
  exact ⟨trivial, trivial, trivial⟩

/-- The general path on a request of one mapped slot, in Immediate mode. -/
theorem userDataMany_one_imm (s : CmdStream) (hI : s.optModeImmediate = true)
    (hWF : s.m_cmdUtil.WellFramed) (entryMap : UserDataEntryMap) (args : UserDataArgs)
    (hcount : args.entryCount = 1) (hfirst : args.firstEntry < 2 ^ 32)
    (haddr : entryMap.regAddr args.firstEntry < 2 ^ 32)
    (hm : entryMap.regAddr args.firstEntry ≠ s.m_device.UserDataNotMapped)
    (t : PM4ShaderType) (mem : CmdSpace) (p : Nat) :
    (s.WriteUserDataRegistersMany entryMap args t mem p).mem =
        (s.WriteUserDataRegistersOne entryMap args t mem p).mem ∧
      (s.WriteUserDataRegistersMany entryMap args t mem p).pCmdSpace =
        (s.WriteUserDataRegistersOne entryMap args t mem p).pCmdSpace ∧
      (s.WriteUserDataRegistersMany entryMap args t mem p).stream =
        (s.WriteUserDataRegistersOne entryMap args t mem p).stream := by
  have hme := mappedEntries_one s entryMap args hcount hfirst
  rw [if_pos hm] at hme
  have hstart : (entryMap.regAddr args.firstEntry + 2 ^ 32 - 1 + 1) % 2 ^ 32 =
      entryMap.regAddr args.firstEntry := by omega
  have hF := hWF.seqSh (entryMap.regAddr args.firstEntry) (entryMap.regAddr args.firstEntry) t
    (Nat.le_refl _)
  rw [Nat.sub_self] at hF
  have hr : List.range (0 + 1) = [0] := rfl
  have hscr : writeWords (fun _ => 0) 0 [args.pEntryValues 0] 0 = args.pEntryValues 0 := by
    simp [writeWords, memcpy, arrayOf]
  simp only [CmdStream.WriteUserDataRegistersMany, CmdStream.WriteUserDataRegistersOne, hI,
    if_true, userDataLoop_eq, mappedValues, mappedAddrs, hme, List.map_cons, List.map_nil,
    List.length_singleton, List.getLastD_cons, List.getLastD_nil,
    entryAddr_zero entryMap args hfirst, hstart, Nat.le_refl, hm, ne_eq, not_false_eq_true,
    Pm4Optimizer.WriteOptimizedSetSeqShRegs, Pm4Optimizer.OptimizePm4SetReg, hF.2.2.2, hr, hscr]
  exact ⟨trivial, trivial, trivial⟩

/-- C26. The single-slot fast path is equivalent to the general path: for every entry map,
every request with `entryCount = 1` (slot index and mapped address being 32-bit values) and
every mode, over an encoder that reports header size plus register count,
`WriteUserDataRegistersOne` leaves the same memory, the same cursor and the same stream,
optimizer included, as `WriteUserDataRegistersMany` for the same request; both write nothing
when the slot is unmapped; and `WriteUserDataRegisters` is the fast path for such a request. -/
theorem single_slot_fast_path_eq_general (s : CmdStream) (hWF : s.m_cmdUtil.WellFramed)
    (entryMap : UserDataEntryMap) (args : UserDataArgs) (hcount : args.entryCount = 1)
    (hfirst : args.firstEntry < 2 ^ 32) (haddr : entryMap.regAddr args.firstEntry < 2 ^ 32)
    (t : PM4ShaderType) (mem : CmdSpace) (p : Nat) :
    (s.WriteUserDataRegistersOne entryMap args t mem p).mem =
        (s.WriteUserDataRegistersMany entryMap args t mem p).mem ∧
      (s.WriteUserDataRegistersOne entryMap args t mem p).pCmdSpace =
        (s.WriteUserDataRegistersMany entryMap args t mem p).pCmdSpace ∧
      (s.WriteUserDataRegistersOne entryMap args t mem p).stream =
        (s.WriteUserDataRegistersMany entryMap args t mem p).stream ∧
      (entryMap.regAddr args.firstEntry = s.m_device.UserDataNotMapped →
        (s.WriteUserDataRegistersOne entryMap args t mem p).EmitsNothing mem p ∧
        (s.WriteUserDataRegistersMany entryMap args t mem p).EmitsNothing mem p) ∧
      s.WriteUserDataRegisters entryMap args t mem p =
        s.WriteUserDataRegistersOne entryMap args t mem p := by
  have hdisp : s.WriteUserDataRegisters entryMap args t mem p =
      s.WriteUserDataRegistersOne entryMap args t mem p := by
    simp [CmdStream.WriteUserDataRegisters, hcount]
  by_cases hm : entryMap.regAddr args.firstEntry ≠ s.m_device.UserDataNotMapped
  · have hnot : ¬ entryMap.regAddr args.firstEntry = s.m_device.UserDataNotMapped := hm
    cases hI : s.optModeImmediate with
    | false =>
      obtain ⟨h1, h2, h3⟩ := userDataMany_one_raw s hI entryMap args hcount hfirst haddr hm t
        mem p
      exact ⟨h1.symm, h2.symm, h3.symm, fun h => absurd h hnot, hdisp⟩
    | true =>
      obtain ⟨h1, h2, h3⟩ := userDataMany_one_imm s hI hWF entryMap args hcount hfirst haddr hm
        t mem p
      exact ⟨h1.symm, h2.symm, h3.symm, fun h => absurd h hnot, hdisp⟩
  · have hun : entryMap.regAddr args.firstEntry = s.m_device.UserDataNotMapped :=
      Classical.not_not.mp hm
    have hme := mappedEntries_one s entryMap args hcount hfirst
    rw [if_neg hm] at hme
    have hmany := userDataMany_none_eq s entryMap args hme t mem p
    have hone : s.WriteUserDataRegistersOne entryMap args t mem p =
        { stream := s, mem := mem, pCmdSpace := p, assertsHeld := true } := by
      simp [CmdStream.WriteUserDataRegistersOne, hun]
    rw [hmany, hone]
    exact ⟨rfl, rfl, rfl, fun _ => ⟨⟨rfl, rfl⟩, ⟨rfl, rfl⟩⟩, hdisp.trans hone⟩

/-- C26 at a request for the slot 0, mapped to register 20, in Immediate mode. -/
theorem single_slot_fast_path_eq_general_witness :
    exampleCmdUtil.WellFramed ∧
    ({ exampleUserData with entryCount := 1 } : UserDataArgs).entryCount = 1 ∧
    ((exampleStream true false).WriteUserDataRegistersOne exampleEntryMap
      { exampleUserData with entryCount := 1 } .ShaderCompute zeroMem 0).pCmdSpace =
      ((exampleStream true false).WriteUserDataRegistersMany exampleEntryMap
        { exampleUserData with entryCount := 1 } .ShaderCompute zeroMem 0).pCmdSpace ∧
    readWords ((exampleStream true false).WriteUserDataRegistersOne exampleEntryMap
      { exampleUserData with entryCount := 1 } .ShaderCompute zeroMem 0).mem 0 3 =
      [14, 20, 11] ∧
    readWords ((exampleStream true false).WriteUserDataRegistersMany exampleEntryMap
      { exampleUserData with entryCount := 1 } .ShaderCompute zeroMem 0).mem 0 3 =
      [14, 20, 11] :=
  ⟨exampleCmdUtil_wellFramed, rfl,
    (single_slot_fast_path_eq_general (exampleStream true false) exampleCmdUtil_wellFramed
      exampleEntryMap { exampleUserData with entryCount := 1 } rfl (by decide) (by decide)
      .ShaderCompute zeroMem 0).2.1,
    by decide, by decide⟩

/-! ## Assertions and arithmetic of the general user-data path -/

theorem mappedEntries_length_le (s : CmdStream) (entryMap : UserDataEntryMap)
    (args : UserDataArgs) : (mappedEntries s entryMap args).length ≤ args.entryCount := by
  unfold mappedEntries
  exact Nat.le_trans (List.length_filter_le _ _) (by simp)

/-- C28. For every entry map that satisfies the contiguity invariant on the request, with
non-zero mapped addresses, and every request with `entryCount ≤ MaxUserDataEntries`, over an
encoder that reports header size plus register count: no assertion of
`WriteUserDataRegistersMany` fails, in either mode, and its arithmetic does not wrap: the count
of mapped values the loop leaves is at most `entryCount`, hence at most `MaxUserDataEntries`,
and when it is at least 1 the range start `endRegAddr - count + 1` does not underflow, so that
its 32-bit value is the exact difference, and the packet size the encoder reports for the range
is `count + PM4_CMD_SET_DATA_DWORDS`. -/
theorem user_data_many_no_assertion_fails (s : CmdStream) (hWF : s.m_cmdUtil.WellFramed)
    (entryMap : UserDataEntryMap) (args : UserDataArgs) (hc : Contiguous s entryMap args)
    (hmax : args.entryCount ≤ s.m_device.MaxUserDataEntries) (t : PM4ShaderType)
    (mem : CmdSpace) (p : Nat) :
    (s.WriteUserDataRegistersMany entryMap args t mem p).assertsHeld = true ∧
    (∀ base payload,
      (s.userDataLoop entryMap args base payload).assertsHeld = true ∧
      (s.userDataLoop entryMap args base payload).count ≤ args.entryCount ∧
      (s.userDataLoop entryMap args base payload).count ≤ s.m_device.MaxUserDataEntries ∧
      (1 ≤ (s.userDataLoop entryMap args base payload).count →
        (s.userDataLoop entryMap args base payload).count ≤
          (s.userDataLoop entryMap args base payload).endRegAddr + 1 ∧
        (s.userDataLoop entryMap args base payload).endRegAddr < 2 ^ 32 ∧
        ((s.userDataLoop entryMap args base payload).endRegAddr + 2 ^ 32 -
            (s.userDataLoop entryMap args base payload).count + 1) % 2 ^ 32 =
          (s.userDataLoop entryMap args base payload).endRegAddr + 1 -
            (s.userDataLoop entryMap args base payload).count ∧
        (s.m_cmdUtil.BuildSetSeqShRegs
          (((s.userDataLoop entryMap args base payload).endRegAddr + 2 ^ 32 -
            (s.userDataLoop entryMap args base payload).count + 1) % 2 ^ 32)
          (s.userDataLoop entryMap args base payload).endRegAddr t).1 =
          (s.userDataLoop entryMap args base payload).count +
            s.m_cmdUtil.PM4_CMD_SET_DATA_DWORDS)) := by
  have hle := mappedEntries_length_le s entryMap args
  have hle2 : (mappedEntries s entryMap args).length ≤ s.m_device.MaxUserDataEntries :=
    Nat.le_trans hle hmax
  cases hL : mappedAddrs s entryMap args with
  | nil =>
    have hnone : mappedEntries s entryMap args = [] := by
      simpa [mappedAddrs] using hL
    refine ⟨by rw [userDataMany_none_eq s entryMap args hnone], fun base payload => ?_⟩
    rw [userDataLoop_eq]
    simp only [hL, hnone, chainOk, List.length_nil]
    exact ⟨trivial, Nat.zero_le _, Nat.zero_le _, fun h => absurd h (by decide)⟩
  | cons a rest =>
    obtain ⟨hok, hlastD, hlast, hlen, _, hlt, h1, hstart⟩ :=
      contiguous_loop s entryMap args hc a rest hL
    have hF := hWF.seqSh a (rest.getLastD a) t (by omega)
    refine ⟨?_, fun base payload => ?_⟩
    · cases hI : s.optModeImmediate with
      | false =>
        rw [userDataMany_raw_eq s hI hWF entryMap args hc a rest hL]
        exact decide_eq_true hle2
      | true =>
        rw [userDataMany_imm_eq s hI hWF entryMap args hc a rest hL]
        exact decide_eq_true hle2
    · rw [userDataLoop_eq]
      simp only [hok, hlastD, hstart]
      refine ⟨trivial, hle, hle2, fun _ => ⟨by omega, by omega, by omega, ?_⟩⟩
      rw [hF.1]
      omega

/-- C28 at the map with slot 0 at 20, slot 1 unmapped and slot 2 at 21, outside Immediate
mode: the loop counts 2 values up to register 21, and the range starts at 20. -/
theorem user_data_many_no_assertion_fails_witness :
    exampleCmdUtil.WellFramed ∧
    Contiguous (exampleStream false false) exampleEntryMap exampleUserData ∧
    exampleUserData.entryCount ≤ (exampleStream false false).m_device.MaxUserDataEntries ∧
    ((exampleStream false false).WriteUserDataRegistersMany exampleEntryMap exampleUserData
      .ShaderCompute zeroMem 0).assertsHeld = true ∧
    ((exampleStream false false).userDataLoop exampleEntryMap exampleUserData 2 zeroMem).count =
      2 ∧
    ((exampleStream false false).userDataLoop exampleEntryMap exampleUserData 2
      zeroMem).endRegAddr = 21 :=
  ⟨exampleCmdUtil_wellFramed, exampleUserData_contiguous false false, by decide,
    (user_data_many_no_assertion_fails (exampleStream false false) exampleCmdUtil_wellFramed
      exampleEntryMap exampleUserData (exampleUserData_contiguous false false) (by decide)
      .ShaderCompute zeroMem 0).1,
    by decide, by decide⟩

/-! ## `Begin` -/

theorem Begin_baseFlags (env : BeginEnv) (opt : Option Pm4Optimizer)
    (flags : CmdStreamBeginFlags) (pMemAllocator : Option Nat) :
    (CmdStream.Begin env opt flags pMemAllocator).baseFlags =
      { flags with
        optimizeCommands := flags.optimizeCommands &&
          (pMemAllocator.isSome && (env.IsConstantEngine == false)) } := by
  unfold CmdStream.Begin
  simp only
  split
  · split <;> rfl
  · rfl

/-- C23. `Begin` never enables command optimization without a memory allocator or on a
constant-engine stream: the `optimizeCommands` flag it hands to the base-class `Begin` is set
exactly when the caller set it, `pMemAllocator` is not null and the stream is not a
constant-engine stream; the other begin flags are handed on unchanged. -/
theorem Begin_optimizeCommands_gated (env : BeginEnv) (opt : Option Pm4Optimizer)
    (flags : CmdStreamBeginFlags) (pMemAllocator : Option Nat) :
    ((CmdStream.Begin env opt flags pMemAllocator).baseFlags.optimizeCommands = true ↔
      flags.optimizeCommands = true ∧ pMemAllocator ≠ none ∧ env.IsConstantEngine = false) ∧
    (CmdStream.Begin env opt flags pMemAllocator).baseFlags.otherFlags = flags.otherFlags ∧
    (pMemAllocator = none →
      (CmdStream.Begin env opt flags pMemAllocator).baseFlags.optimizeCommands = false) ∧
    (env.IsConstantEngine = true →
      (CmdStream.Begin env opt flags pMemAllocator).baseFlags.optimizeCommands = false) := by
  rw [Begin_baseFlags]
  refine ⟨?_, rfl, fun h => ?_, fun h => ?_⟩
  · cases pMemAllocator <;> cases env.IsConstantEngine <;> cases flags.optimizeCommands <;>
      simp
  · simp [h]
  · simp [h]

/-- C23 at a request for optimization without an allocator, and with one. -/
theorem Begin_optimizeCommands_gated_witness :
    (CmdStream.Begin (exampleBeginEnv true) none ⟨true, 6⟩ none).baseFlags = ⟨false, 6⟩ ∧
    (CmdStream.Begin (exampleBeginEnv true) none ⟨true, 6⟩ (some 1)).baseFlags = ⟨true, 6⟩ ∧
    (CmdStream.Begin (exampleBeginEnv true) none ⟨true, 6⟩ none).baseFlags.otherFlags = 6 :=
  ⟨by decide, by decide,
    (Begin_optimizeCommands_gated (exampleBeginEnv true) none ⟨true, 6⟩ none).2.1⟩

/-- C22. `Begin` surfaces allocation failure as a typed result. With `base` the outcome of the
base-class `Begin` on the flags handed to it, and no optimizer held before the call: a base
failure is returned unchanged and no optimizer is allocated; after a base success the result is
`ErrorOutOfMemory` exactly when command optimization is enabled and allocating the optimizer
failed; in every remaining case the result is `Success` and an optimizer exists afterwards
exactly when command optimization is enabled. -/
theorem Begin_surfaces_allocation_failure (env : BeginEnv) (opt : Option Pm4Optimizer)
    (flags : CmdStreamBeginFlags) (pMemAllocator : Option Nat) (hnull : opt = none) :
    (((env.baseBegin (CmdStream.Begin env opt flags pMemAllocator).baseFlags
          pMemAllocator).result ≠ .Success) →
      (CmdStream.Begin env opt flags pMemAllocator).result =
          (env.baseBegin (CmdStream.Begin env opt flags pMemAllocator).baseFlags
            pMemAllocator).result ∧
        (CmdStream.Begin env opt flags pMemAllocator).m_pPm4Optimizer = none) ∧
    (((env.baseBegin (CmdStream.Begin env opt flags pMemAllocator).baseFlags
          pMemAllocator).result = .Success) →
      ((CmdStream.Begin env opt flags pMemAllocator).result = .ErrorOutOfMemory ↔
        (env.baseBegin (CmdStream.Begin env opt flags pMemAllocator).baseFlags
            pMemAllocator).optimizeCommands = true ∧ env.newPm4Optimizer = none)) ∧
    ((CmdStream.Begin env opt flags pMemAllocator).result = .ErrorOutOfMemory ↔
      ((env.baseBegin (CmdStream.Begin env opt flags pMemAllocator).baseFlags
            pMemAllocator).result = .Success ∧
          (env.baseBegin (CmdStream.Begin env opt flags pMemAllocator).baseFlags
            pMemAllocator).optimizeCommands = true ∧ env.newPm4Optimizer = none) ∨
        (env.baseBegin (CmdStream.Begin env opt flags pMemAllocator).baseFlags
          pMemAllocator).result = .ErrorOutOfMemory) ∧
    (((env.baseBegin (CmdStream.Begin env opt flags pMemAllocator).baseFlags
          pMemAllocator).result = .Success) →
      ¬ ((env.baseBegin (CmdStream.Begin env opt flags pMemAllocator).baseFlags
            pMemAllocator).optimizeCommands = true ∧ env.newPm4Optimizer = none) →
      (CmdStream.Begin env opt flags pMemAllocator).result = .Success ∧
        ((CmdStream.Begin env opt flags pMemAllocator).m_pPm4Optimizer.isSome = true ↔
          (env.baseBegin (CmdStream.Begin env opt flags pMemAllocator).baseFlags
            pMemAllocator).optimizeCommands = true)) := by
  subst hnull
  rw [Begin_baseFlags]
  generalize hb : env.baseBegin
    { flags with
      optimizeCommands := flags.optimizeCommands &&
        (pMemAllocator.isSome && (env.IsConstantEngine == false)) } pMemAllocator = base
  have hr : (CmdStream.Begin env none flags pMemAllocator).result =
        (if base.result = .Success ∧ base.optimizeCommands = true then
          (match env.newPm4Optimizer with
            | none => Result.ErrorOutOfMemory
            | some _ => base.result)
        else base.result) ∧
      (CmdStream.Begin env none flags pMemAllocator).m_pPm4Optimizer =
        (if base.result = .Success ∧ base.optimizeCommands = true then env.newPm4Optimizer
        else none) := by
    unfold CmdStream.Begin
    simp only [hb]
    split
    · cases env.newPm4Optimizer <;> exact ⟨rfl, rfl⟩
    · exact ⟨rfl, rfl⟩
  rw [hr.1, hr.2]
  rcases base with ⟨res, en⟩
  cases hnew : env.newPm4Optimizer with
  | none =>
    cases en <;> cases res <;> simp
  | some o =>
    cases en <;> cases res <;> simp

/-- C22 at a stream whose base `Begin` succeeds with optimization enabled and whose optimizer
allocation fails, next to one whose allocation succeeds and one whose base `Begin` fails. -/
theorem Begin_surfaces_allocation_failure_witness :
    (none : Option Pm4Optimizer) = none ∧
    (CmdStream.Begin (exampleBeginEnv false) none ⟨true, 6⟩ (some 1)).result =
      .ErrorOutOfMemory ∧
    (CmdStream.Begin (exampleBeginEnv true) none ⟨true, 6⟩ (some 1)).result = .Success ∧
    (CmdStream.Begin (exampleBeginEnv true) none ⟨true, 6⟩
      (some 1)).m_pPm4Optimizer.isSome = true ∧
    (CmdStream.Begin (exampleBeginEnv true) none ⟨false, 6⟩
      (some 1)).m_pPm4Optimizer.isSome = false ∧
    (CmdStream.Begin (exampleBeginEnv false) none ⟨true, 7⟩ (some 1)).result = .Error 7 ∧
    (CmdStream.Begin (exampleBeginEnv false) none ⟨true, 7⟩ (some 1)).result =
        ((exampleBeginEnv false).baseBegin
          (CmdStream.Begin (exampleBeginEnv false) none ⟨true, 7⟩ (some 1)).baseFlags
          (some 1)).result ∧
      (CmdStream.Begin (exampleBeginEnv false) none ⟨true, 7⟩
        (some 1)).m_pPm4Optimizer = none :=
  ⟨rfl, by decide, by decide, rfl, rfl, by decide,
    (Begin_surfaces_allocation_failure (exampleBeginEnv false) none ⟨true, 7⟩ (some 1) rfl).1
      (by decide)⟩

/-- C24. The chain size a stream is constructed with is the one `GetChainSizeInDwords` computes:
given that the chain packet of the encoder has a positive size, it is 0 exactly when the stream
is nested and the device reports `WaCpIb2ChainingUnsupported`, and in every other case it is
`CmdUtil::GetChainSizeInDwords()`. -/
theorem ctor_chain_size (device : Device) (cu : CmdUtil) (isNested disablePreemption : Bool)
    (hpos : 0 < cu.GetChainSizeInDwords) :
    (CmdStream.ctor device cu isNested disablePreemption).chainIbSpaceInDwords =
        GetChainSizeInDwords device cu isNested ∧
      ((CmdStream.ctor device cu isNested disablePreemption).chainIbSpaceInDwords = 0 ↔
        isNested = true ∧ device.WaCpIb2ChainingUnsupported = true) ∧
      (¬ (isNested = true ∧ device.WaCpIb2ChainingUnsupported = true) →
        (CmdStream.ctor device cu isNested disablePreemption).chainIbSpaceInDwords =
          cu.GetChainSizeInDwords) := by
  have hne : cu.GetChainSizeInDwords ≠ 0 := Nat.pos_iff_ne_zero.mp hpos
  refine ⟨rfl, ?_, ?_⟩
  · show GetChainSizeInDwords device cu isNested = 0 ↔ _
    unfold GetChainSizeInDwords
    cases isNested <;> cases device.WaCpIb2ChainingUnsupported <;> simp [hne]
  · intro h
    show GetChainSizeInDwords device cu isNested = _
    unfold GetChainSizeInDwords
    cases hn : isNested <;> cases hw : device.WaCpIb2ChainingUnsupported <;> simp_all

/-- C24 at a nested stream on a device without IB2 chaining, next to a root stream on the same
device. -/
theorem ctor_chain_size_witness :
    0 < exampleCmdUtil.GetChainSizeInDwords ∧
    (CmdStream.ctor { exampleDevice false with WaCpIb2ChainingUnsupported := true }
      exampleCmdUtil true false).chainIbSpaceInDwords = 0 ∧
    (CmdStream.ctor { exampleDevice false with WaCpIb2ChainingUnsupported := true }
      exampleCmdUtil false false).chainIbSpaceInDwords = 4 ∧
    ((CmdStream.ctor { exampleDevice false with WaCpIb2ChainingUnsupported := true }
        exampleCmdUtil true false).chainIbSpaceInDwords = 0 ↔
      true = true ∧
        ({ exampleDevice false with
            WaCpIb2ChainingUnsupported := true } : Device).WaCpIb2ChainingUnsupported = true) :=
  ⟨by decide, by decide, by decide,
    (ctor_chain_size { exampleDevice false with WaCpIb2ChainingUnsupported := true }
      exampleCmdUtil true false (by decide)).2.1⟩

/-! ## Executing the words of packets of every kind -/

theorem run_nil (cp : CommandProcessor) (hdrDwords fuel : Nat) (r : RegFile) :
    cp.run hdrDwords fuel [] r = r := by
  cases fuel <;> simp [CommandProcessor.run]

/-- A command processor that knows set-data packets only executes words as the register-value
simulator does. -/
theorem run_eq_replay (decode : (Nat → Nat) → Option PM4CMDSETDATA) (hdrDwords fuel : Nat)
    (ws : List Nat) (r : RegFile) :
    CommandProcessor.run { decode := decode, decodeOther := fun _ => none } hdrDwords fuel ws r =
      replay hdrDwords decode fuel ws r := by
  induction fuel generalizing ws r with
  | zero => rfl
  | succ fuel ih =>
    unfold CommandProcessor.run replay
    by_cases h : ws = []
    · rw [if_pos h, if_pos h]
    · rw [if_neg h, if_neg h]
      show (match decode (arrayOf ws) with
        | some d => _
        | none => _) = _
      cases hd : decode (arrayOf ws) with
      | none => rfl
      | some d => exact ih _ _

theorem commandWords_cons (cu : CmdUtil) (c : Command) (cs : List Command) :
    commandWords cu (c :: cs) = c.words cu ++ commandWords cu cs := by
  simp [commandWords]

theorem commandWords_append (cu : CmdUtil) (cs ds : List Command) :
    commandWords cu (cs ++ ds) = commandWords cu cs ++ commandWords cu ds := by
  simp [commandWords]

theorem applyCommands_cons (r : RegFile) (c : Command) (cs : List Command) :
    applyCommands r (c :: cs) = applyCommands (c.apply r) cs := rfl

theorem applyCommands_append (r : RegFile) (cs ds : List Command) :
    applyCommands r (cs ++ ds) = applyCommands (applyCommands r cs) ds := by
  simp [applyCommands]

theorem commandWords_set (cu : CmdUtil) (ps : List Packet) :
    commandWords cu (ps.map .set) = cu.words ps := by
  induction ps with
  | nil => rfl
  | cons pk ps ih => rw [List.map_cons, commandWords_cons, ih, words_cons]; rfl

theorem applyCommands_set (r : RegFile) (ps : List Packet) :
    applyCommands r (ps.map .set) = applyPackets r ps := by
  induction ps generalizing r with
  | nil => rfl
  | cons pk ps ih => rw [List.map_cons, applyCommands_cons, ih, applyPackets_cons]; rfl

theorem readable_set (cp : CommandProcessor) (covers : PM4CMDSETDATA → Prop) (ps : List Packet)
    (h : ∀ pk ∈ ps, pk.Replayable covers) : ∀ c ∈ ps.map Command.set, c.Readable cp covers := by
  intro c hc
  obtain ⟨pk, hpk, rfl⟩ := List.mem_map.mp hc
  exact h pk hpk

theorem command_words_ne_nil (cu : CmdUtil) (cp : CommandProcessor)
    (covers : PM4CMDSETDATA → Prop) (c : Command) (h : c.Readable cp covers) :
    c.words cu ≠ [] := by
  cases c with
  | set pk =>
    obtain ⟨_, _, hpos⟩ := h
    cases hd : pk.data with
    | nil => simp [hd] at hpos
    | cons x xs => simp [Command.words, CmdUtil.packetWords, hd]
  | other ws effect => exact h.1

/-- Executing the words of a sequence of packets is executing the packets in order. -/
theorem run_commands (cu : CmdUtil) (cp : CommandProcessor) (covers : PM4CMDSETDATA → Prop)
    (hRB : cu.ReadsBack cp.decode covers) (cs : List Command)
    (hcs : ∀ c ∈ cs, c.Readable cp covers) (rest : List Nat) (fuel : Nat) (r : RegFile)
    (hfuel : cs.length ≤ fuel) :
    cp.run cu.PM4_CMD_SET_DATA_DWORDS fuel (commandWords cu cs ++ rest) r =
      cp.run cu.PM4_CMD_SET_DATA_DWORDS (fuel - cs.length) rest (applyCommands r cs) := by
  induction cs generalizing fuel r with
  | nil => simp [commandWords, applyCommands]
  | cons c cs ih =>
    have hc := hcs c (List.mem_cons_self _ _)
    obtain ⟨f, rfl⟩ : ∃ f, fuel = f + 1 := ⟨fuel - 1, by simp at hfuel; omega⟩
    have hne : commandWords cu (c :: cs) ++ rest ≠ [] := by
      have := command_words_ne_nil cu cp covers c hc
      rw [commandWords_cons]
      simp [this]
    have hih := ih (fun x hx => hcs x (List.mem_cons_of_mem _ hx)) f (c.apply r)
      (by simp at hfuel; omega)
    have hfu : f + 1 - (c :: cs).length = f - cs.length := by simp
    rw [hfu, applyCommands_cons, ← hih]
    cases c with
    | set pk =>
      obtain ⟨hcov, hlen, hpos⟩ := hc
      have hdec : cp.decode (arrayOf (commandWords cu (.set pk :: cs) ++ rest)) =
          some pk.header := by
        apply hRB.decodes _ hcov
        intro i hi
        rw [commandWords_cons, Command.words, CmdUtil.packetWords, List.append_assoc,
          List.append_assoc]
        exact arrayOf_packetWords cu _ _ i hi
      have hH : ((List.range cu.PM4_CMD_SET_DATA_DWORDS).map (cu.image pk.header)).length =
          cu.PM4_CMD_SET_DATA_DWORDS := by simp
      have hdrop : (commandWords cu (.set pk :: cs) ++ rest).drop
          (cu.PM4_CMD_SET_DATA_DWORDS + pk.header.numRegs) = commandWords cu cs ++ rest := by
        rw [commandWords_cons, List.append_assoc]
        have : (Command.words cu (.set pk)).length =
            cu.PM4_CMD_SET_DATA_DWORDS + pk.header.numRegs := by
          simp [Command.words, CmdUtil.packetWords, hlen]
        rw [← this, List.drop_left]
      have htake : ((commandWords cu (.set pk :: cs) ++ rest).drop
          cu.PM4_CMD_SET_DATA_DWORDS).take pk.header.numRegs = pk.data := by
        rw [commandWords_cons, Command.words, CmdUtil.packetWords, List.append_assoc,
          List.append_assoc]
        rw [List.drop_left' hH, List.take_left' hlen]
      rw [CommandProcessor.run, if_neg hne, hdec]
      simp only [hdrop, htake]
      rfl
    | other ws effect =>
      obtain ⟨_, hread⟩ := hc
      have hw : commandWords cu (.other ws effect :: cs) ++ rest =
          ws ++ (commandWords cu cs ++ rest) := by
        rw [commandWords_cons, List.append_assoc]
        rfl
      rw [CommandProcessor.run, if_neg hne, hw, (hread _).1, (hread _).2]
      simp only [List.drop_left]
      rfl

theorem commandWords_length_ge (cu : CmdUtil) (cp : CommandProcessor)
    (covers : PM4CMDSETDATA → Prop) (cs : List Command) (hcs : ∀ c ∈ cs, c.Readable cp covers) :
    cs.length ≤ (commandWords cu cs).length := by
  induction cs with
  | nil => simp
  | cons c cs ih =>
    have := ih (fun x hx => hcs x (List.mem_cons_of_mem _ hx))
    have hne := command_words_ne_nil cu cp covers c (hcs c (List.mem_cons_self _ _))
    have hpos : 0 < (c.words cu).length := List.length_pos.mpr hne
    rw [commandWords_cons, List.length_append, List.length_cons]
    omega

/-- Executing all the words of a sequence of packets is executing the packets in order. -/
theorem execute_commands (cu : CmdUtil) (cp : CommandProcessor) (covers : PM4CMDSETDATA → Prop)
    (hRB : cu.ReadsBack cp.decode covers) (cs : List Command)
    (hcs : ∀ c ∈ cs, c.Readable cp covers) (r : RegFile) :
    cp.execute cu (commandWords cu cs) r = applyCommands r cs := by
  unfold CommandProcessor.execute
  have h := run_commands cu cp covers hRB cs hcs [] (commandWords cu cs).length r
    (commandWords_length_ge cu cp covers cs hcs)
  rw [List.append_nil] at h
  rw [h, run_nil]

/-! ## What a call leaves, packet by packet -/

theorem writeWords_apply (mem : CmdSpace) (p : Nat) (ws : List Nat) (a : Nat) :
    writeWords mem p ws a = if p ≤ a ∧ a < p + ws.length then ws.getD (a - p) 0 else mem a :=
  rfl

theorem writeWords_append (mem : CmdSpace) (p : Nat) (w1 w2 : List Nat) :
    writeWords (writeWords mem p w1) (p + w1.length) w2 = writeWords mem p (w1 ++ w2) := by
  funext a
  simp only [writeWords_apply, List.length_append]
  by_cases h2 : p + w1.length ≤ a ∧ a < p + w1.length + w2.length
  · rw [if_pos h2, if_pos (by omega)]
    rw [List.getD_append_right _ _ _ _ (by omega)]
    congr 1
    omega
  · rw [if_neg h2]
    by_cases h1 : p ≤ a ∧ a < p + w1.length
    · rw [if_pos h1, if_pos (by omega), List.getD_append _ _ _ _ (by omega)]
    · rw [if_neg h1, if_neg (by omega)]

theorem writePackets_eq_writeWords (cu : CmdUtil) (ps : List Packet) (mem : CmdSpace) (p : Nat) :
    cu.writePackets ps mem p = (writeWords mem p (cu.words ps), p + (cu.words ps).length) := by
  apply Prod.ext
  · funext a
    show _ = writeWords mem p (cu.words ps) a
    rw [writeWords_apply]
    by_cases h : p ≤ a ∧ a < p + (cu.words ps).length
    · rw [if_pos h]
      obtain ⟨i, rfl⟩ : ∃ i, a = p + i := ⟨a - p, by omega⟩
      have hi : i < (cu.words ps).length := by omega
      have hr := congrArg (fun l => l.getD i 0) (writePackets_read cu ps mem p)
      simp only [readWords] at hr
      rw [getD_map_range _ _ _ hi] at hr
      rw [hr]
      congr 1
      omega
    · rw [if_neg h]
      apply writePackets_outside
      rw [writePackets_cursor]
      omega
  · exact writePackets_cursor cu ps mem p

/-- Writing set-data packets at the cursor leaves them, as packets of a stream. -/
theorem leaves_packets (s : CmdStream) (ps : List Packet) (o : Pm4Optimizer) (mem : CmdSpace)
    (p : Nat) (res : WriteResult) (hs : res.stream = s.withOptimizer o)
    (hm : (res.mem, res.pCmdSpace) = s.m_cmdUtil.writePackets ps mem p) :
    res.Leaves s mem p (ps.map .set) o := by
  rw [writePackets_eq_writeWords] at hm
  have h1 := congrArg Prod.fst hm
  have h2 := congrArg Prod.snd hm
  simp only at h1 h2
  refine ⟨hs, ?_, ?_⟩
  · rw [commandWords_set]; exact h1
  · rw [commandWords_set]; exact h2

theorem withOptimizer_self (s : CmdStream) : s.withOptimizer s.m_pPm4Optimizer = s := rfl

/-- The sub-run packets of a scanned range are packets the command processor reads, and the cache
the scan leaves agrees with the registers after they were executed. -/
theorem scan_tracks (cu : CmdUtil) (cp : CommandProcessor) (covers : PM4CMDSETDATA → Prop)
    (hRB : cu.ReadsBack cp.decode covers) (o : Pm4Optimizer) (r : RegFile)
    (hA : CacheAgrees o r) (d : PM4CMDSETDATA) (hsp : d.space ≠ .config) (vals : List Nat)
    (hn : d.numRegs = vals.length) (hcov : covers d) :
    (∀ pk ∈ runPackets d vals (subRuns (o.scanRange d.space d.regOffset vals).1 0 none),
        pk.Replayable covers) ∧
      CacheAgrees (o.scanRange d.space d.regOffset vals).2
        (applyPackets r
          (runPackets d vals (subRuns (o.scanRange d.space d.regOffset vals).1 0 none))) := by
  constructor
  · intro pk hpk
    simp only [runPackets, List.mem_map] at hpk
    obtain ⟨run, hrun, rfl⟩ := hpk
    have hb := subRuns_bounds _ 0 none (by simp) run hrun
    rw [scanRange_length] at hb
    refine ⟨hRB.subRun _ run hcov hb.1 (by rw [hn]; omega), ?_, ?_⟩
    · rw [runData_length _ _ (by omega)]
      rfl
    · rw [runData_length _ _ (by omega)]
      exact hb.1
  · rw [optimized_range_regs o r hA d vals]
    exact scanRange_agrees o r hA d.space hsp d.regOffset vals

/-- A raw packet of config registers is a packet the command processor reads, and the cache
agrees with the registers after it. -/
theorem config_tracks (covers : PM4CMDSETDATA → Prop) (o : Pm4Optimizer) (r : RegFile)
    (hA : CacheAgrees o r) (d : PM4CMDSETDATA) (hsp : d.space = .config) (vals : List Nat)
    (hn : d.numRegs = vals.length) (hpos : 0 < vals.length) (hcov : covers d) :
    (∀ pk ∈ [({ header := d, data := vals } : Packet)], pk.Replayable covers) ∧
      CacheAgrees o (applyPackets r [({ header := d, data := vals } : Packet)]) := by
  constructor
  · intro pk hpk
    rw [List.mem_singleton] at hpk
    subst hpk
    exact ⟨hcov, hn.symm, hpos⟩
  · show CacheAgrees o (setRegs r d.space d.regOffset vals)
    rw [hsp]
    exact config_agrees o r hA _ _

/-! ## The calls of the write surface keep the cache in step -/

theorem tracks_nothing (s : CmdStream) (cp : CommandProcessor) (covers : PM4CMDSETDATA → Prop)
    (r : RegFile) (hA : CacheAgrees s.m_pPm4Optimizer r) (mem : CmdSpace) (p : Nat)
    (res : WriteResult) (hs : res.stream = s) (hm : res.mem = mem) (hp : res.pCmdSpace = p) :
    res.Tracks s cp covers mem p r := by
  refine ⟨[], s.m_pPm4Optimizer, ⟨hs, ?_, ?_⟩, by simp, hA⟩
  · rw [hm, show commandWords s.m_cmdUtil [] = [] from rfl, writeWords_nil]
  · simp [commandWords, hp]

theorem tracks_packets (s : CmdStream) (cp : CommandProcessor) (covers : PM4CMDSETDATA → Prop)
    (r : RegFile) (mem : CmdSpace) (p : Nat) (res : WriteResult) (ps : List Packet)
    (o : Pm4Optimizer) (hs : res.stream = s.withOptimizer o)
    (hm : (res.mem, res.pCmdSpace) = s.m_cmdUtil.writePackets ps mem p)
    (h : (∀ pk ∈ ps, pk.Replayable covers) ∧ CacheAgrees o (applyPackets r ps)) :
    res.Tracks s cp covers mem p r := by
  refine ⟨ps.map .set, o, leaves_packets s ps o mem p res hs hm, readable_set cp covers ps h.1, ?_⟩
  rw [applyCommands_set]
  exact h.2

/-- A request of the request surface keeps the cache in step. -/
theorem write_tracks (s : CmdStream) (hI : s.optModeImmediate = true)
    (hWF : s.m_cmdUtil.WellFramed) (cp : CommandProcessor) (covers : PM4CMDSETDATA → Prop)
    (hRB : s.m_cmdUtil.ReadsBack cp.decode covers) (w : RegWrite) (hw : w.WellFormed)
    (hcov : covers (w.header s.m_cmdUtil)) (r : RegFile) (hA : CacheAgrees s.m_pPm4Optimizer r)
    (mem : CmdSpace) (p : Nat) : (s.write w mem p).Tracks s cp covers mem p r := by
  apply tracks_packets s cp covers r mem p _ (s.emitted w) (s.optimizerAfter w)
  · rw [write_eq s hWF w hw]
  · rw [write_eq s hWF w hw]
  · refine ⟨emitted_replayable s hWF cp.decode covers hRB w hw hcov, ?_⟩
    rw [emitted_regs s hWF w hw r (fun _ => hA)]
    exact optimizerAfter_agrees s hI w r hA

/-- A one-register write routed through the single-register decision keeps the cache in step. -/
theorem optOne_tracks (s : CmdStream) (cp : CommandProcessor) (covers : PM4CMDSETDATA → Prop)
    (hRB : s.m_cmdUtil.ReadsBack cp.decode covers) (r : RegFile)
    (hA : CacheAgrees s.m_pPm4Optimizer r) (built : Nat × PM4CMDSETDATA) (sp : RegSpace)
    (hsp : sp ≠ .config) (a v : Nat) (hF : s.m_cmdUtil.Frames built sp a 1)
    (hcov : covers built.2) (mem : CmdSpace) (p : Nat) (res : WriteResult)
    (hs : res.stream = s.withOptimizer (s.m_pPm4Optimizer.UpdateRegState sp a v).2)
    (hm : (res.mem, res.pCmdSpace) =
      if (s.m_pPm4Optimizer.UpdateRegState sp a v).1 = true then
        (store (s.m_cmdUtil.writeHeader mem p built.2)
          (p + s.m_cmdUtil.PM4_CMD_SET_DATA_DWORDS) v, p + built.1)
      else (mem, p)) :
    res.Tracks s cp covers mem p r := by
  rw [optOne_eq s.m_cmdUtil s.m_pPm4Optimizer built sp a v hF mem p] at hm
  have h := scan_tracks s.m_cmdUtil cp covers hRB s.m_pPm4Optimizer r hA built.2
    (by rw [hF.2.1]; exact hsp) [v] hF.2.2.2 hcov
  rw [hF.2.1, hF.2.2.1] at h
  exact tracks_packets s cp covers r mem p res _ _ hs hm h

/-- A range handed to the sequential-range decision keeps the cache in step. -/
theorem optSeq_tracks (s : CmdStream) (cp : CommandProcessor) (covers : PM4CMDSETDATA → Prop)
    (hRB : s.m_cmdUtil.ReadsBack cp.decode covers) (r : RegFile)
    (hA : CacheAgrees s.m_pPm4Optimizer r) (d : PM4CMDSETDATA) (sp : RegSpace)
    (hsp : sp ≠ .config) (hd : d.space = sp) (hcov : covers d) (pData : Nat → Nat)
    (mem : CmdSpace) (p : Nat) (res : WriteResult)
    (hs : res.stream =
      s.withOptimizer (s.m_pPm4Optimizer.OptimizePm4SetReg s.m_cmdUtil sp d pData mem p).1)
    (hm : (res.mem, res.pCmdSpace) =
      (s.m_pPm4Optimizer.OptimizePm4SetReg s.m_cmdUtil sp d pData mem p).2) :
    res.Tracks s cp covers mem p r := by
  subst hd
  simp only [Pm4Optimizer.OptimizePm4SetReg, writeRuns_eq] at hs hm
  exact tracks_packets s cp covers r mem p res _ _ hs hm
    (scan_tracks s.m_cmdUtil cp covers hRB s.m_pPm4Optimizer r hA d hsp _ (by simp) hcov)

/-- A raw one-register write of a config register keeps the cache in step. -/
theorem rawConfig_tracks (s : CmdStream) (cp : CommandProcessor) (covers : PM4CMDSETDATA → Prop)
    (r : RegFile) (hA : CacheAgrees s.m_pPm4Optimizer r) (built : Nat × PM4CMDSETDATA)
    (a v : Nat) (hF : s.m_cmdUtil.Frames built .config a 1) (hcov : covers built.2)
    (mem : CmdSpace) (p : Nat) (res : WriteResult) (hs : res.stream = s)
    (hm : (res.mem, res.pCmdSpace) =
      (store (s.m_cmdUtil.writeHeader mem p built.2)
        (p + s.m_cmdUtil.PM4_CMD_SET_DATA_DWORDS) v, p + built.1)) :
    res.Tracks s cp covers mem p r := by
  rw [rawOne_eq s.m_cmdUtil built .config a v hF mem p] at hm
  exact tracks_packets s cp covers r mem p res _ s.m_pPm4Optimizer hs hm
    (config_tracks covers s.m_pPm4Optimizer r hA built.2 hF.2.1 [v] hF.2.2.2 (by simp) hcov)

theorem keeps_agrees (o : Pm4Optimizer) (r : RegFile) (hA : CacheAgrees o r)
    (effect : RegFile → RegFile) (hk : KeepsCachedRegs effect) : CacheAgrees o (effect r) := by
  intro sp a hv
  obtain ⟨h1, h2⟩ := hA sp a hv
  exact ⟨h1, by rw [hk r sp a h1]; exact h2⟩

theorem commandWords_other (cu : CmdUtil) (ws : List Nat) (effect : RegFile → RegFile) :
    commandWords cu [.other ws effect] = ws := by
  simp [commandWords, Command.words]

/-- One packet that is not a set-data packet, written at the cursor. -/
theorem tracks_other (s : CmdStream) (cp : CommandProcessor) (covers : PM4CMDSETDATA → Prop)
    (r : RegFile) (mem : CmdSpace) (p : Nat) (res : WriteResult) (ws : List Nat)
    (effect : RegFile → RegFile) (o : Pm4Optimizer) (hs : res.stream = s.withOptimizer o)
    (hm : res.mem = writeWords mem p ws) (hp : res.pCmdSpace = p + ws.length)
    (hread : cp.Reads ws effect) (hA : CacheAgrees o (effect r)) :
    res.Tracks s cp covers mem p r := by
  refine ⟨[.other ws effect], o, ⟨hs, ?_, ?_⟩, ?_, hA⟩
  · rw [commandWords_other]; exact hm
  · rw [commandWords_other]; exact hp
  · intro c hc
    rw [List.mem_singleton] at hc
    subst hc
    exact hread

theorem copyData_tracks (s : CmdStream) (cp : CommandProcessor) (covers : PM4CMDSETDATA → Prop)
    (r : RegFile) (hA : CacheAgrees s.m_pPm4Optimizer r) (a v : Nat)
    (ht : s.CopyDataTracked cp a v) (mem : CmdSpace) (p : Nat) :
    (s.WriteSetOnePrivilegedConfigReg a v mem p).Tracks s cp covers mem p r := by
  obtain ⟨effect, hread, hk⟩ := ht
  exact tracks_other s cp covers r mem p _ _ effect s.m_pPm4Optimizer rfl rfl rfl hread
    (keeps_agrees _ r hA effect hk)

theorem rmw_tracks (s : CmdStream) (cp : CommandProcessor) (covers : PM4CMDSETDATA → Prop)
    (r : RegFile) (hA : CacheAgrees s.m_pPm4Optimizer r) (a m v : Nat)
    (ht : s.RmwTracked cp a m v) (mem : CmdSpace) (p : Nat) :
    (s.WriteContextRegRmw true a m v mem p).Tracks s cp covers mem p r := by
  obtain ⟨effect, hread, hsound⟩ := ht
  obtain ⟨h1, h2⟩ := hsound s.m_pPm4Optimizer r hA
  simp only [CmdStream.WriteContextRegRmw, Bool.true_eq_false, if_false]
  cases hk : (s.m_optimizerOther.MustKeepContextRegRmw s.m_pPm4Optimizer a m v).1
  · simp only [Bool.false_eq_true, if_false]
    refine ⟨[], _, ⟨rfl, ?_, ?_⟩, by simp, h2 hk⟩
    · rw [show commandWords s.m_cmdUtil [] = [] from rfl, writeWords_nil]
    · simp [commandWords]
  · simp only [if_true]
    exact tracks_other s cp covers r mem p _ _ effect _ rfl rfl rfl hread (h1 hk)

theorem shRegOffset_tracks (s : CmdStream) (cp : CommandProcessor)
    (covers : PM4CMDSETDATA → Prop) (r : RegFile) (hA : CacheAgrees s.m_pPm4Optimizer r)
    (t : PM4ShaderType) (a off : Nat) (ht : s.ShRegOffsetTracked cp covers t a off)
    (mem : CmdSpace) (p : Nat) :
    (s.WriteSetShRegDataOffset t true a off mem p).Tracks s cp covers mem p r := by
  obtain ⟨cs, hcs, hw, hagree⟩ := ht s.m_pPm4Optimizer r hA
  refine ⟨cs, _, ⟨rfl, ?_, ?_⟩, hcs, hagree⟩
  · simp only [CmdStream.WriteSetShRegDataOffset, if_true, hw]
  · simp only [CmdStream.WriteSetShRegDataOffset, if_true, hw]

theorem userDataOne_tracks (s : CmdStream) (hI : s.optModeImmediate = true)
    (hWF : s.m_cmdUtil.WellFramed) (cp : CommandProcessor) (covers : PM4CMDSETDATA → Prop)
    (hRB : s.m_cmdUtil.ReadsBack cp.decode covers) (r : RegFile)
    (hA : CacheAgrees s.m_pPm4Optimizer r) (m : UserDataEntryMap) (args : UserDataArgs)
    (t : PM4ShaderType)
    (hcov : m.regAddr args.firstEntry ≠ s.m_device.UserDataNotMapped →
      covers (s.m_cmdUtil.BuildSetSeqShRegs (m.regAddr args.firstEntry)
        (m.regAddr args.firstEntry) t).2)
    (mem : CmdSpace) (p : Nat) :
    (s.WriteUserDataRegistersOne m args t mem p).Tracks s cp covers mem p r := by
  by_cases hm : m.regAddr args.firstEntry ≠ s.m_device.UserDataNotMapped
  · have hF := hWF.seqSh (m.regAddr args.firstEntry) (m.regAddr args.firstEntry) t
      (Nat.le_refl _)
    apply optSeq_tracks s cp covers hRB r hA
      (s.m_cmdUtil.BuildSetSeqShRegs (m.regAddr args.firstEntry)
        (m.regAddr args.firstEntry) t).2 .sh (by simp) hF.2.1 (hcov hm) args.pEntryValues
    · simp only [CmdStream.WriteUserDataRegistersOne, hm, hI, if_true, not_false_eq_true,
        ne_eq, Pm4Optimizer.WriteOptimizedSetSeqShRegs]
    · simp only [CmdStream.WriteUserDataRegistersOne, hm, hI, if_true, not_false_eq_true,
        ne_eq, Pm4Optimizer.WriteOptimizedSetSeqShRegs]
  · apply tracks_nothing s cp covers r hA <;>
      simp only [CmdStream.WriteUserDataRegistersOne, hm, if_false]

theorem userDataMany_tracks (s : CmdStream) (hI : s.optModeImmediate = true)
    (hWF : s.m_cmdUtil.WellFramed) (cp : CommandProcessor) (covers : PM4CMDSETDATA → Prop)
    (hRB : s.m_cmdUtil.ReadsBack cp.decode covers) (r : RegFile)
    (hA : CacheAgrees s.m_pPm4Optimizer r) (m : UserDataEntryMap) (args : UserDataArgs)
    (t : PM4ShaderType) (hc : Contiguous s m args)
    (hcov : ∀ first rest, mappedAddrs s m args = first :: rest →
      covers (s.m_cmdUtil.BuildSetSeqShRegs first (rest.getLastD first) t).2)
    (mem : CmdSpace) (p : Nat) :
    (s.WriteUserDataRegistersMany m args t mem p).Tracks s cp covers mem p r := by
  cases hma : mappedAddrs s m args with
  | nil =>
    have hnone : mappedEntries s m args = [] := by
      simpa [mappedAddrs] using hma
    rw [userDataMany_none_eq s m args hnone t mem p]
    exact tracks_nothing s cp covers r hA mem p _ rfl rfl rfl
  | cons first rest =>
    obtain ⟨_, _, hlast, _, _, _, _, _⟩ := contiguous_loop s m args hc first rest hma
    have hF := hWF.seqSh first (rest.getLastD first) t (by omega)
    rw [userDataMany_imm_eq s hI hWF m args hc first rest hma t mem p]
    exact optSeq_tracks s cp covers hRB r hA _ .sh (by simp) hF.2.1 (hcov first rest hma)
      (arrayOf (mappedValues s m args)) mem p _ rfl rfl

theorem userDataOffset_tracks (s : CmdStream) (hI : s.optModeImmediate = true)
    (cp : CommandProcessor) (covers : PM4CMDSETDATA → Prop) (r : RegFile)
    (hA : CacheAgrees s.m_pPm4Optimizer r) (t : PM4ShaderType) (m : UserDataEntryMap)
    (args : UserDataArgs)
    (ht : m.regAddr args.firstEntry ≠ s.m_device.UserDataNotMapped →
      s.ShRegOffsetTracked cp covers t (m.regAddr args.firstEntry) (args.pEntryValues 0))
    (mem : CmdSpace) (p : Nat) :
    (s.WriteUserDataRegisterOffset t m args mem p).Tracks s cp covers mem p r := by
  by_cases hm : m.regAddr args.firstEntry ≠ s.m_device.UserDataNotMapped
  · have h := shRegOffset_tracks s cp covers r hA t _ _ (ht hm) mem p
    simpa only [CmdStream.WriteUserDataRegisterOffset, hm, hI, if_true, not_false_eq_true,
      ne_eq] using h
  · apply tracks_nothing s cp covers r hA <;>
      simp only [CmdStream.WriteUserDataRegisterOffset, hm, if_false]

/-! ## The span of an image packet -/

theorem pairwise_head_rel {α : Type} (R : α → α → Prop) (l : List α) (h : l.Pairwise R)
    (first : α) (hf : l.head? = some first) : ∀ x ∈ l, x = first ∨ R first x := by
  cases l with
  | nil => simp at hf
  | cons a l =>
    simp only [List.head?_cons, Option.some.injEq] at hf
    subst hf
    intro x hx
    rcases List.mem_cons.mp hx with rfl | hx
    · exact Or.inl rfl
    · exact Or.inr (List.rel_of_pairwise_cons h hx)

theorem pairwise_last_rel {α : Type} (R : α → α → Prop) (l : List α) (h : l.Pairwise R)
    (last : α) (hl : l.getLast? = some last) : ∀ x ∈ l, x = last ∨ R x last := by
  induction l with
  | nil => simp at hl
  | cons a l ih =>
    cases l with
    | nil =>
      simp only [List.getLast?_singleton, Option.some.injEq] at hl
      subst hl
      intro x hx
      exact Or.inl (List.mem_singleton.mp hx)
    | cons b l =>
      have hl2 : (b :: l).getLast? = some last := by
        rw [List.getLast?_cons_cons] at hl
        exact hl
      have hmem : last ∈ b :: l := List.mem_of_getLast?_eq_some hl2
      intro x hx
      rcases List.mem_cons.mp hx with rfl | hx
      · exact Or.inr (List.rel_of_pairwise_cons h hmem)
      · exact ih (List.Pairwise.of_cons h) hl2 x hx

/-- The span of a scanned range lies inside the range and is not empty. -/
theorem keepSpan_bounds (ks : List Bool) :
    ∀ run ∈ keepSpan ks, 0 < run.2 ∧ run.1 + run.2 ≤ ks.length := by
  intro run hrun
  unfold keepSpan at hrun
  split at hrun
  · rename_i first last hf hl
    rw [List.mem_singleton] at hrun
    subst hrun
    have hfm : first ∈ subRuns ks 0 none := List.mem_of_mem_head? hf
    have hlm : last ∈ subRuns ks 0 none := List.mem_of_getLast?_eq_some hl
    have hbf := subRuns_bounds ks 0 none (by simp) first hfm
    have hbl := subRuns_bounds ks 0 none (by simp) last hlm
    have hrel := pairwise_last_rel _ _ (subRuns_gaps ks 0 none (by simp)) last hl first hfm
    simp only at hrel ⊢
    rcases hrel with rfl | hrel <;> omega
  · simp at hrun

/-- The span of a scanned range holds every index some sub-run holds. -/
theorem keepSpan_covers (ks : List Bool) (j : Nat)
    (h : ∃ run ∈ subRuns ks 0 none, run.1 ≤ j ∧ j < run.1 + run.2) :
    ∃ run ∈ keepSpan ks, run.1 ≤ j ∧ j < run.1 + run.2 := by
  obtain ⟨run, hrun, h1, h2⟩ := h
  unfold keepSpan
  cases hf : (subRuns ks 0 none).head? with
  | none =>
    rw [List.head?_eq_none_iff] at hf
    rw [hf] at hrun
    simp at hrun
  | some first =>
    cases hl : (subRuns ks 0 none).getLast? with
    | none =>
      rw [List.getLast?_eq_none_iff] at hl
      rw [hl] at hrun
      simp at hrun
    | some last =>
      simp only [List.mem_singleton, exists_eq_left]
      have hgaps := subRuns_gaps ks 0 none (by simp)
      have r1 := pairwise_head_rel _ _ hgaps first hf run hrun
      have r2 := pairwise_last_rel _ _ hgaps last hl run hrun
      have hbf := subRuns_bounds ks 0 none (by simp) first (List.mem_of_mem_head? hf)
      simp only at r1 r2
      constructor
      · rcases r1 with rfl | r1 <;> omega
      · rcases r1 with rfl | r1 <;> rcases r2 with rfl | r2 <;> omega

/-- The span packet of a range writes what the whole range writes: on a register file the cache
agrees with, it leaves every register with the value the full range leaves. -/
theorem span_range_regs (o : Pm4Optimizer) (r : RegFile) (hA : CacheAgrees o r)
    (d : PM4CMDSETDATA) (vals : List Nat) :
    applyPackets r (runPackets d vals (keepSpan (o.scanRange d.space d.regOffset vals).1)) =
      setRegs r d.space d.regOffset vals := by
  have hbound : ∀ run ∈ keepSpan (o.scanRange d.space d.regOffset vals).1,
      run.1 + run.2 ≤ vals.length := by
    intro run hrun
    have := keepSpan_bounds _ run hrun
    rw [scanRange_length] at this
    exact this.2
  funext sp2 b
  rw [setRegs_apply]
  by_cases hr : sp2 = d.space ∧ d.regOffset ≤ b ∧ b < d.regOffset + vals.length
  · obtain ⟨rfl, h1, h2⟩ := hr
    rw [if_pos ⟨rfl, h1, h2⟩]
    obtain ⟨j, rfl⟩ : ∃ j, b = d.regOffset + j := ⟨b - d.regOffset, by omega⟩
    have hj : j < vals.length := by omega
    have e : d.regOffset + j - d.regOffset = j := by omega
    rw [e]
    by_cases hin : ∃ run ∈ keepSpan (o.scanRange d.space d.regOffset vals).1,
        d.regOffset + run.1 ≤ d.regOffset + j ∧ d.regOffset + j < d.regOffset + run.1 + run.2
    · rw [applyPackets_runPackets_in d vals _ hbound r _ hin, e]
    · rw [applyPackets_runPackets_out d vals _ hbound r d.space _ (fun h => hin h.2)]
      cases hk : o.mustKeep d.space (d.regOffset + j) (vals.getD j 0)
      · obtain ⟨hv, hval, _⟩ := mustKeep_false _ _ _ _ hk
        rw [← hval]
        exact ((hA _ _ hv).2).symm
      · exfalso
        apply hin
        have hc := (subRuns_covers _ 0 none (by simp) j).mpr
          ((kept_iff o d.space d.regOffset vals j).mpr ⟨hj, hk⟩)
        obtain ⟨run, hrun, h3, h4⟩ := keepSpan_covers _ j hc
        exact ⟨run, hrun, by omega, by omega⟩
  · rw [if_neg hr]
    apply applyPackets_runPackets_out d vals _ hbound
    rintro ⟨h0, run, hrun, h3, h4⟩
    have := hbound run hrun
    exact hr ⟨h0, by omega, by omega⟩

/-- The span packet of a scanned range is a packet the command processor reads, and the cache the
scan leaves agrees with the registers after it was executed. -/
theorem span_tracks (cu : CmdUtil) (cp : CommandProcessor) (covers : PM4CMDSETDATA → Prop)
    (hRB : cu.ReadsBack cp.decode covers) (o : Pm4Optimizer) (r : RegFile)
    (hA : CacheAgrees o r) (d : PM4CMDSETDATA) (hsp : d.space ≠ .config) (vals : List Nat)
    (hn : d.numRegs = vals.length) (hcov : covers d) :
    (∀ pk ∈ runPackets d vals (keepSpan (o.scanRange d.space d.regOffset vals).1),
        pk.Replayable covers) ∧
      CacheAgrees (o.scanRange d.space d.regOffset vals).2
        (applyPackets r
          (runPackets d vals (keepSpan (o.scanRange d.space d.regOffset vals).1))) := by
  constructor
  · intro pk hpk
    simp only [runPackets, List.mem_map] at hpk
    obtain ⟨run, hrun, rfl⟩ := hpk
    have hb := keepSpan_bounds _ run hrun
    rw [scanRange_length] at hb
    refine ⟨hRB.subRun _ run hcov hb.1 (by rw [hn]; omega), ?_, ?_⟩
    · rw [runData_length _ _ (by omega)]
      rfl
    · rw [runData_length _ _ (by omega)]
      exact hb.1
  · rw [span_range_regs o r hA d vals]
    exact scanRange_agrees o r hA d.space hsp d.regOffset vals

/-! ## An image routed through the optimizer -/

theorem runsWords_eq_words (cu : CmdUtil) (d : PM4CMDSETDATA) (vals : List Nat)
    (runs : List (Nat × Nat)) : cu.runsWords d vals runs = cu.words (runPackets d vals runs) := by
  simp [CmdUtil.runsWords, CmdUtil.words, runPackets, List.flatMap_map]

theorem packetWords_drop (cu : CmdUtil) (d : PM4CMDSETDATA) (data : List Nat) :
    (cu.packetWords d data).drop cu.PM4_CMD_SET_DATA_DWORDS = data := by
  unfold CmdUtil.packetWords
  exact List.drop_left' (by simp)

theorem numRegs_eta (d : PM4CMDSETDATA) (n : Nat) (h : n = d.numRegs) :
    { d with numRegs := n } = d := by
  subst h
  rfl

/-- What the whole-block pass does with a set-data packet the encoder reads back. -/
theorem optimizePacket_set (o : Pm4Optimizer) (cu : CmdUtil) (pk : Packet)
    (hread : cu.asSetData (arrayOf (cu.packetWords pk.header pk.data)) = some pk.header)
    (hlen : pk.data.length = pk.header.numRegs) :
    o.optimizePacket cu (cu.packetWords pk.header pk.data) =
      if pk.header.space = .config then (cu.packetWords pk.header pk.data, o)
      else
        (cu.words (runPackets pk.header pk.data
            (keepSpan (o.scanRange pk.header.space pk.header.regOffset pk.data).1)),
          (o.scanRange pk.header.space pk.header.regOffset pk.data).2) := by
  unfold Pm4Optimizer.optimizePacket
  rw [hread]
  simp only [packetWords_drop, numRegs_eta pk.header _ hlen, runsWords_eq_words]

theorem optimizePacket_other (o : Pm4Optimizer) (cu : CmdUtil) (ws : List Nat)
    (hread : cu.asSetData (arrayOf ws) = none) : o.optimizePacket cu ws = (ws, o) := by
  unfold Pm4Optimizer.optimizePacket
  rw [hread]

theorem walkPackets_nil (o : Pm4Optimizer) (cu : CmdUtil) (fuel : Nat) :
    o.walkPackets cu fuel [] = ([], o) := by
  cases fuel <;> rfl

/-- One step of the walk over an image that starts with a whole packet. -/
theorem walkPackets_packet (o : Pm4Optimizer) (cu : CmdUtil) (fuel : Nat) (ws rest : List Nat)
    (hne : ws ≠ []) (hsize : cu.packetDwords (ws.headD 0) = ws.length) :
    o.walkPackets cu (fuel + 1) (ws ++ rest) =
      ((o.optimizePacket cu ws).1 ++ ((o.optimizePacket cu ws).2.walkPackets cu fuel rest).1,
        ((o.optimizePacket cu ws).2.walkPackets cu fuel rest).2) := by
  cases ws with
  | nil => exact absurd rfl hne
  | cons h t =>
    simp only [List.headD_cons] at hsize
    have e : (h :: t) ++ rest = h :: (t ++ rest) := rfl
    rw [e, Pm4Optimizer.walkPackets, ← e, hsize, List.take_left, List.drop_left]

/-- The whole-block pass over an image of packets keeps the cache in step: what it writes are
packets the command processor reads, and the cache it leaves agrees with the registers after
these packets. -/
theorem walk_tracks (cu : CmdUtil) (cp : CommandProcessor) (covers : PM4CMDSETDATA → Prop)
    (hRB : cu.ReadsBack cp.decode covers) (cs : List Command)
    (hcs : ∀ c ∈ cs, c.InImage cu cp covers) (hin : ∀ c ∈ cs, c.Inert) (o : Pm4Optimizer)
    (r : RegFile) (hA : CacheAgrees o r) (fuel : Nat) (hfuel : cs.length ≤ fuel) :
    ∃ out : List Command, (o.walkPackets cu fuel (commandWords cu cs)).1 = commandWords cu out ∧
      (∀ c ∈ out, c.Readable cp covers) ∧
      CacheAgrees (o.walkPackets cu fuel (commandWords cu cs)).2 (applyCommands r out) := by
  induction cs generalizing o r fuel with
  | nil =>
    refine ⟨[], ?_, by simp, ?_⟩
    · rw [show commandWords cu [] = [] from rfl, walkPackets_nil]
    · rw [show commandWords cu [] = [] from rfl, walkPackets_nil]
      exact hA
  | cons c cs ih =>
    obtain ⟨f, rfl⟩ : ∃ f, fuel = f + 1 := ⟨fuel - 1, by simp at hfuel; omega⟩
    obtain ⟨hread, hsize, hset⟩ := hcs c (List.mem_cons_self _ _)
    have hne := command_words_ne_nil cu cp covers c hread
    have hcs2 : ∀ x ∈ cs, x.InImage cu cp covers :=
      fun x hx => hcs x (List.mem_cons_of_mem _ hx)
    have hin2 : ∀ x ∈ cs, x.Inert := fun x hx => hin x (List.mem_cons_of_mem _ hx)
    have hf2 : cs.length ≤ f := by simp at hfuel; omega
    rw [commandWords_cons, walkPackets_packet o cu f _ _ hne hsize]
    -- what the pass leaves for the first packet
    have hstep : ∃ outc : List Command, (o.optimizePacket cu (c.words cu)).1 =
        commandWords cu outc ∧ (∀ x ∈ outc, x.Readable cp covers) ∧
        CacheAgrees (o.optimizePacket cu (c.words cu)).2 (applyCommands r outc) := by
      cases c with
      | set pk =>
        obtain ⟨hcov, hlen, hpos⟩ := hread
        simp only [Command.words] at hset ⊢
        rw [optimizePacket_set o cu pk hset hlen]
        by_cases hc : pk.header.space = .config
        · rw [if_pos hc]
          refine ⟨[.set pk], by simp [commandWords, Command.words], ?_, ?_⟩
          · intro x hx
            rw [List.mem_singleton] at hx
            subst hx
            exact ⟨hcov, hlen, hpos⟩
          · show CacheAgrees o (setRegs r pk.header.space pk.header.regOffset pk.data)
            rw [hc]
            exact config_agrees o r hA _ _
        · rw [if_neg hc]
          have h := span_tracks cu cp covers hRB o r hA pk.header hc pk.data hlen.symm hcov
          refine ⟨(runPackets pk.header pk.data
            (keepSpan (o.scanRange pk.header.space pk.header.regOffset pk.data).1)).map .set,
            (commandWords_set cu _).symm, readable_set cp covers _ h.1, ?_⟩
          rw [applyCommands_set]
          exact h.2
      | other ws effect =>
        simp only [Command.words] at hset ⊢
        rw [optimizePacket_other o cu ws hset]
        refine ⟨[.other ws effect], (commandWords_other cu ws effect).symm, ?_, ?_⟩
        · intro x hx
          rw [List.mem_singleton] at hx
          subst hx
          exact hread
        · exact keeps_agrees o r hA effect (hin _ (List.mem_cons_self _ _))
    obtain ⟨outc, h1, h2, h3⟩ := hstep
    obtain ⟨outr, h4, h5, h6⟩ := ih hcs2 hin2 (o.optimizePacket cu (c.words cu)).2
      (applyCommands r outc) h3 f hf2
    refine ⟨outc ++ outr, ?_, ?_, ?_⟩
    · rw [commandWords_append, h1, h4]
    · intro x hx
      rcases List.mem_append.mp hx with hx | hx
      · exact h2 x hx
      · exact h5 x hx
    · rw [applyCommands_append]
      exact h6

theorem inImage_readable (cu : CmdUtil) (cp : CommandProcessor) (covers : PM4CMDSETDATA → Prop)
    (cs : List Command) (hcs : ∀ c ∈ cs, c.InImage cu cp covers) :
    ∀ c ∈ cs, c.Readable cp covers := fun c hc => (hcs c hc).1

theorem image_tracks (s : CmdStream) (hI : s.optModeImmediate = true) (cp : CommandProcessor)
    (covers : PM4CMDSETDATA → Prop) (hRB : s.m_cmdUtil.ReadsBack cp.decode covers)
    (r : RegFile) (hA : CacheAgrees s.m_pPm4Optimizer r) (n : Nat) (img : Nat → Nat)
    (cs : List Command) (himg : IsImageOf s.m_cmdUtil cp covers n img cs)
    (hin : ∀ c ∈ cs, c.Inert) (mem : CmdSpace) (p : Nat) :
    (s.WritePm4Image n img mem p).Tracks s cp covers mem p r := by
  obtain ⟨hn, hwords, hcs⟩ := himg
  have hlen : (commandWords s.m_cmdUtil cs).length = n := by
    rw [← hwords]
    simp
  have hfuel : cs.length ≤ n := by
    rw [← hlen]
    exact commandWords_length_ge s.m_cmdUtil cp covers cs (inImage_readable _ _ _ cs hcs)
  obtain ⟨out, h1, h2, h3⟩ := walk_tracks s.m_cmdUtil cp covers hRB cs hcs hin
    s.m_pPm4Optimizer r hA n hfuel
  have hmod : n % 2 ^ 32 = n := Nat.mod_eq_of_lt hn
  refine ⟨out, _, ⟨?_, ?_, ?_⟩, h2, h3⟩
  · simp only [CmdStream.WritePm4Image, hI, if_true, Pm4Optimizer.OptimizePm4Commands, hmod,
      hwords]
  · simp only [CmdStream.WritePm4Image, hI, if_true, Pm4Optimizer.OptimizePm4Commands, hmod,
      hwords, h1]
  · simp only [CmdStream.WritePm4Image, hI, if_true, Pm4Optimizer.OptimizePm4Commands, hmod,
      hwords, h1]

/-! ## Every call, and every sequence of calls -/

theorem tracked_withOptimizer (s : CmdStream) (o : Pm4Optimizer) (cp : CommandProcessor)
    (covers : PM4CMDSETDATA → Prop) (op : WriteOp) (h : op.Tracked s cp covers) :
    op.Tracked (s.withOptimizer o) cp covers := by
  cases op <;> exact h

/-- Every covered call of the write surface keeps the cache in step. -/
theorem perform_tracks (s : CmdStream) (hI : s.optModeImmediate = true)
    (hWF : s.m_cmdUtil.WellFramed) (cp : CommandProcessor) (covers : PM4CMDSETDATA → Prop)
    (hRB : s.m_cmdUtil.ReadsBack cp.decode covers) (op : WriteOp)
    (ht : op.Tracked s cp covers) (r : RegFile) (hA : CacheAgrees s.m_pPm4Optimizer r)
    (mem : CmdSpace) (p : Nat) : (s.perform op mem p).Tracks s cp covers mem p r := by
  cases op with
  | pm4Image n img =>
    obtain ⟨cs, himg, hin⟩ := ht
    exact image_tracks s hI cp covers hRB r hA n img cs himg hin mem p
  | contextRegRmw mode a m v =>
    obtain ⟨hmode, hrmw⟩ := ht
    have h := rmw_tracks s cp covers r hA a m v hrmw mem p
    cases mode with
    | none => simpa only [CmdStream.perform, CmdStream.WriteContextRegRmwDyn, hI,
        Bool.true_eq_false, if_false] using h
    | some b =>
      cases b with
      | false => exact absurd rfl hmode
      | true => exact h
  | setIaMultiVgtParam b v =>
    obtain ⟨rfl, hcov⟩ := ht
    apply optOne_tracks s cp covers hRB r hA _ .context (by simp) _ v
      (hWF.oneContext s.m_device.mmIA_MULTI_VGT_PARAM
        (some s.m_device.SET_CONTEXT_INDEX_MULTI_VGT_PARAM)) hcov
    · simp only [CmdStream.perform, CmdStream.WriteSetIaMultiVgtParam, Bool.true_eq_false,
        if_false, Pm4Optimizer.MustKeepSetContextReg]
      split <;> rfl
    · simp only [CmdStream.perform, CmdStream.WriteSetIaMultiVgtParam, Bool.true_eq_false,
        if_false, Pm4Optimizer.MustKeepSetContextReg]
      split <;> rfl
  | setVgtLsHsConfig b v =>
    obtain ⟨rfl, hcov⟩ := ht
    apply optOne_tracks s cp covers hRB r hA _ .context (by simp) _ v
      (hWF.oneContext s.m_device.mmVGT_LS_HS_CONFIG
        (some s.m_device.SET_CONTEXT_INDEX_VGT_LS_HS_CONFIG)) hcov
    · simp only [CmdStream.perform, CmdStream.WriteSetVgtLsHsConfig, Bool.true_eq_false,
        if_false, Pm4Optimizer.MustKeepSetContextReg]
      split <;> rfl
    · simp only [CmdStream.perform, CmdStream.WriteSetVgtLsHsConfig, Bool.true_eq_false,
        if_false, Pm4Optimizer.MustKeepSetContextReg]
      split <;> rfl
  | setPaScRasterConfig v =>
    obtain ⟨hrb, hcov⟩ := ht
    have h := write_tracks s hI hWF cp covers hRB (.oneContext s.m_device.mmPA_SC_RASTER_CONFIG v)
      trivial hcov r hA mem p
    simpa only [CmdStream.perform, CmdStream.WriteSetPaScRasterConfig, hrb, Bool.false_eq_true,
      if_false, CmdStream.write] using h
  | setOneConfigReg a v =>
    exact write_tracks s hI hWF cp covers hRB (.oneConfig a v) trivial ht r hA mem p
  | setSeqConfigRegs a b f =>
    exact write_tracks s hI hWF cp covers hRB (.seqConfig a b f) ⟨ht.1, ht.2.1⟩ ht.2.2 r hA
      mem p
  | setOneContextReg mode a v =>
    obtain ⟨hmode, hcov⟩ := ht
    have h := write_tracks s hI hWF cp covers hRB (.oneContext a v) trivial hcov r hA mem p
    cases mode with
    | none => exact h
    | some b =>
      cases b with
      | false => exact absurd rfl hmode
      | true => simpa only [CmdStream.perform, CmdStream.write,
          CmdStream.WriteSetOneContextRegDyn, hI, Bool.true_eq_false, if_false] using h
  | setOnePerfCtrReg a v =>
    by_cases hp : s.m_cmdUtil.IsPrivilegedConfigReg a = true
    · have ht2 : s.CopyDataTracked cp a v := by
        simpa only [WriteOp.Tracked, hp, if_true] using ht
      have h := copyData_tracks s cp covers r hA a v ht2 mem p
      simpa only [CmdStream.perform, CmdStream.WriteSetOnePerfCtrReg, hp, if_true] using h
    · have hcov : covers (s.m_cmdUtil.BuildSetOneConfigReg a none).2 := by
        simpa only [WriteOp.Tracked, hp, if_false] using ht
      have h := write_tracks s hI hWF cp covers hRB (.oneConfig a v) trivial hcov r hA mem p
      simpa only [CmdStream.perform, CmdStream.WriteSetOnePerfCtrReg, hp, if_false,
        CmdStream.write] using h
  | setOnePrivilegedConfigReg a v => exact copyData_tracks s cp covers r hA a v ht mem p
  | setOneShReg t mode a v =>
    obtain ⟨hmode, hcov⟩ := ht
    have h := write_tracks s hI hWF cp covers hRB (.oneSh t a v) trivial hcov r hA mem p
    cases mode with
    | none => exact h
    | some b =>
      cases b with
      | false => exact absurd rfl hmode
      | true => simpa only [CmdStream.perform, CmdStream.write, CmdStream.WriteSetOneShRegDyn,
          hI, if_true] using h
  | setSeqContextRegs mode a b f =>
    obtain ⟨hmode, hab, hb, hcov⟩ := ht
    have h := write_tracks s hI hWF cp covers hRB (.seqContext a b f) ⟨hab, hb⟩ hcov r hA mem p
    cases mode with
    | none => exact h
    | some m =>
      cases m with
      | false => exact absurd rfl hmode
      | true => simpa only [CmdStream.perform, CmdStream.write,
          CmdStream.WriteSetSeqContextRegsDyn, hI, if_true] using h
  | setSeqShRegs a b t f =>
    exact write_tracks s hI hWF cp covers hRB (.seqSh a b t f) ⟨ht.1, ht.2.1⟩ ht.2.2 r hA mem p
  | setShRegDataOffset t mode a off =>
    obtain ⟨hmode, hoff⟩ := ht
    have h := shRegOffset_tracks s cp covers r hA t a off hoff mem p
    cases mode with
    | none => simpa only [CmdStream.perform, CmdStream.WriteSetShRegDataOffsetDyn, hI,
        if_true] using h
    | some b =>
      cases b with
      | false => exact absurd rfl hmode
      | true => exact h
  | userDataRegisters m args t =>
    by_cases hone : args.entryCount = 1
    · have hcov : m.regAddr args.firstEntry ≠ s.m_device.UserDataNotMapped →
          covers (s.m_cmdUtil.BuildSetSeqShRegs (m.regAddr args.firstEntry)
            (m.regAddr args.firstEntry) t).2 := by
        simpa only [WriteOp.Tracked, hone, if_true] using ht
      have h := userDataOne_tracks s hI hWF cp covers hRB r hA m args t hcov mem p
      simpa only [CmdStream.perform, CmdStream.WriteUserDataRegisters, hone, if_true] using h
    · have ht2 : Contiguous s m args ∧ ∀ first rest, mappedAddrs s m args = first :: rest →
          covers (s.m_cmdUtil.BuildSetSeqShRegs first (rest.getLastD first) t).2 := by
        simpa only [WriteOp.Tracked, hone, if_false] using ht
      have h := userDataMany_tracks s hI hWF cp covers hRB r hA m args t ht2.1 ht2.2 mem p
      simpa only [CmdStream.perform, CmdStream.WriteUserDataRegisters, hone, if_false] using h
  | userDataRegistersOne m args t =>
    exact userDataOne_tracks s hI hWF cp covers hRB r hA m args t ht mem p
  | userDataRegistersMany m args t =>
    exact userDataMany_tracks s hI hWF cp covers hRB r hA m args t ht.1 ht.2 mem p
  | userDataRegisterOffset t m args =>
    exact userDataOffset_tracks s hI cp covers r hA t m args ht mem p
  | setVgtPrimitiveType v =>
    exact rawConfig_tracks s cp covers r hA _ _ v (hWF.oneConfig _ _) ht mem p _ rfl rfl

/-- Every sequence of covered calls keeps the cache in step. -/
theorem performAll_tracks (s : CmdStream) (hI : s.optModeImmediate = true)
    (hWF : s.m_cmdUtil.WellFramed) (cp : CommandProcessor) (covers : PM4CMDSETDATA → Prop)
    (hRB : s.m_cmdUtil.ReadsBack cp.decode covers) (ops : List WriteOp)
    (hops : ∀ op ∈ ops, op.Tracked s cp covers) (r : RegFile)
    (hA : CacheAgrees s.m_pPm4Optimizer r) (mem : CmdSpace) (p : Nat) :
    (s.performAll ops mem p).Tracks s cp covers mem p r := by
  induction ops generalizing s r mem p with
  | nil => exact tracks_nothing s cp covers r hA mem p _ rfl rfl rfl
  | cons op ops ih =>
    obtain ⟨cs1, o1, ⟨hs1, hm1, hp1⟩, hr1, ha1⟩ :=
      perform_tracks s hI hWF cp covers hRB op (hops op (List.mem_cons_self _ _)) r hA mem p
    have hops2 : ∀ x ∈ ops, x.Tracked (s.withOptimizer o1) cp covers :=
      fun x hx => tracked_withOptimizer s o1 cp covers x (hops x (List.mem_cons_of_mem _ hx))
    obtain ⟨cs2, o2, ⟨hs2, hm2, hp2⟩, hr2, ha2⟩ :=
      ih (s.withOptimizer o1) hI hWF hRB hops2 (applyCommands r cs1) ha1
        (s.perform op mem p).mem (s.perform op mem p).pCmdSpace
    refine ⟨cs1 ++ cs2, o2, ⟨?_, ?_, ?_⟩, ?_, ?_⟩
    · rw [performAll_cons_stream, hs1, hs2]
      rfl
    · rw [performAll_cons_mem, hs1, hm2, hm1, hp1, commandWords_append]
      exact writeWords_append _ _ _ _
    · rw [performAll_cons_cursor, hs1, hp2, hp1, commandWords_append, List.length_append]
      exact Nat.add_assoc _ _ _
    · intro c hc
      rcases List.mem_append.mp hc with hc | hc
      · exact hr1 c hc
      · exact hr2 c hc
    · rw [applyCommands_append]
      exact ha2

/-- What a call that keeps the cache in step gives: the cache it leaves agrees with the
registers after the words between the cursor it received and the cursor it returned were
executed. -/
theorem tracks_agrees (s : CmdStream) (cp : CommandProcessor) (covers : PM4CMDSETDATA → Prop)
    (hRB : s.m_cmdUtil.ReadsBack cp.decode covers) (mem : CmdSpace) (p : Nat) (r : RegFile)
    (res : WriteResult) (h : res.Tracks s cp covers mem p r) :
    CacheAgrees res.stream.m_pPm4Optimizer
      (cp.execute s.m_cmdUtil (readWords res.mem p (res.pCmdSpace - p)) r) := by
  obtain ⟨cs, o, ⟨hs, hm, hp⟩, hr, ha⟩ := h
  rw [hs, hm, hp, Nat.add_sub_cancel_left, writeWords_read,
    execute_commands s.m_cmdUtil cp covers hRB cs hr]
  exact ha

/-! ## C7: the register-cache invariant over the write surface -/

/-- C7, amended. In Immediate mode, over an encoder that reports header size plus register
count and a command processor that reads its set-data headers back, from any state in which
every valid cache entry holds the value of its register (the empty cache is one): after every
sequence of calls of the write surface, every valid cache entry holds the value its register has
after executing all the words the calls left. The calls are those of `WriteOp.Tracked`: every
write operation of the stream, called as its contract asks (the instance of the stream's mode,
ranges with start not above end, user-data maps that meet the contiguity invariant), leaving
packets the command processor reads, with the two optimizer methods the specification does not
describe keeping the cache in step with the packet they decide on, and with
`WriteSetPaScRasterConfig` called on a device without `rbReconfigureEnabled`. The two
notifications keep the agreement. `WriteSetPaScRasterConfig` on a device with
`rbReconfigureEnabled` writes its packet without consulting or changing the optimizer: the
agreement survives the call exactly when the entry of `mmPA_SC_RASTER_CONFIG` was invalid or
already held the written value. An image packet the encoder does not take for a set-data packet
goes through `WritePm4Image` unseen by the cache: for an image of one such packet the agreement
survives the call exactly when the cache agrees with the registers after that packet. A call of
the instance `<false>` of a mode-specialised operation, the one call of the surface the
sequences leave out besides, fails its mode assertion. -/
theorem cache_agrees_invariant (s : CmdStream) (hI : s.optModeImmediate = true)
    (hWF : s.m_cmdUtil.WellFramed) (cp : CommandProcessor) (covers : PM4CMDSETDATA → Prop)
    (hRB : s.m_cmdUtil.ReadsBack cp.decode covers) (r : RegFile)
    (hA : CacheAgrees s.m_pPm4Optimizer r) :
    (∀ (ops : List WriteOp) (mem : CmdSpace) (p : Nat),
      (∀ op ∈ ops, op.Tracked s cp covers) →
      CacheAgrees (s.performAll ops mem p).stream.m_pPm4Optimizer
        (cp.execute s.m_cmdUtil
          (readWords (s.performAll ops mem p).mem p ((s.performAll ops mem p).pCmdSpace - p))
          r)) ∧
    (∀ a, CacheAgrees (s.NotifyIndirectShRegWrite a).m_pPm4Optimizer r) ∧
    CacheAgrees (s.NotifyNestedCmdBufferExecute).m_pPm4Optimizer r ∧
    (s.m_device.rbReconfigureEnabled = true →
      covers (s.m_cmdUtil.BuildSetOneContextReg s.m_device.mmPA_SC_RASTER_CONFIG
        (some s.m_device.SET_CONTEXT_INDEX_PA_SC_RASTER_CONFIG)).2 →
      ∀ (v : Nat) (mem : CmdSpace) (p : Nat),
        (s.WriteSetPaScRasterConfig v mem p).stream = s ∧
        (CacheAgrees (s.WriteSetPaScRasterConfig v mem p).stream.m_pPm4Optimizer
            (cp.execute s.m_cmdUtil
              (readWords (s.WriteSetPaScRasterConfig v mem p).mem p
                ((s.WriteSetPaScRasterConfig v mem p).pCmdSpace - p)) r) ↔
          ((s.m_pPm4Optimizer.regs .context s.m_device.mmPA_SC_RASTER_CONFIG).valid = false ∨
            (s.m_pPm4Optimizer.regs .context s.m_device.mmPA_SC_RASTER_CONFIG).value = v))) ∧
    (∀ (ws : List Nat) (effect : RegFile → RegFile) (n : Nat) (img : Nat → Nat)
      (mem : CmdSpace) (p : Nat),
      n < 2 ^ 32 → (List.range n).map img = ws → cp.Reads ws effect →
      s.m_cmdUtil.asSetData (arrayOf ws) = none →
      s.m_cmdUtil.packetDwords (ws.headD 0) = ws.length →
        (s.WritePm4Image n img mem p).stream = s ∧
        (CacheAgrees (s.WritePm4Image n img mem p).stream.m_pPm4Optimizer
            (cp.execute s.m_cmdUtil
              (readWords (s.WritePm4Image n img mem p).mem p
                ((s.WritePm4Image n img mem p).pCmdSpace - p)) r) ↔
          CacheAgrees s.m_pPm4Optimizer (effect r))) ∧
    (∀ (op : WriteOp) (mem : CmdSpace) (p : Nat), op.instanceMode = some false →
      (s.perform op mem p).assertsHeld = false) := by
  refine ⟨fun ops mem p hops => tracks_agrees s cp covers hRB mem p r _
      (performAll_tracks s hI hWF cp covers hRB ops hops r hA mem p), ?_, ?_, ?_, ?_,
    fun op mem p hop => by rw [instance_assertion s op false hop mem p, hI]; rfl⟩
  · intro a
    simp only [CmdStream.NotifyIndirectShRegWrite, hI, if_true, CmdStream.withOptimizer]
    exact SetShRegInvalid_agrees _ _ _ hA
  · simp only [CmdStream.NotifyNestedCmdBufferExecute, hI, if_true, CmdStream.withOptimizer]
    exact Reset_agrees _ _
  · intro hRb hcov v mem p
    obtain ⟨h1, h2, h3⟩ := WriteSetPaScRasterConfig_bypass s hRb hWF v mem p
    refine ⟨h1, ?_⟩
    have hF := hWF.oneContext s.m_device.mmPA_SC_RASTER_CONFIG
      (some s.m_device.SET_CONTEXT_INDEX_PA_SC_RASTER_CONFIG)
    have hw : readWords (s.WriteSetPaScRasterConfig v mem p).mem p
        ((s.WriteSetPaScRasterConfig v mem p).pCmdSpace - p) =
        commandWords s.m_cmdUtil
          [.set { header := (s.m_cmdUtil.BuildSetOneContextReg s.m_device.mmPA_SC_RASTER_CONFIG
              (some s.m_device.SET_CONTEXT_INDEX_PA_SC_RASTER_CONFIG)).2, data := [v] }] := by
      rw [h2, h3, writePackets_cursor, Nat.add_sub_cancel_left]
      exact writePackets_read _ _ _ _
    rw [hw, execute_commands s.m_cmdUtil cp covers hRB _ (by
      intro c hc
      rw [List.mem_singleton] at hc
      subst hc
      exact ⟨hcov, by simp [hF.2.2.2], by simp⟩), h1]
    have : applyCommands r
        [.set { header := (s.m_cmdUtil.BuildSetOneContextReg s.m_device.mmPA_SC_RASTER_CONFIG
            (some s.m_device.SET_CONTEXT_INDEX_PA_SC_RASTER_CONFIG)).2, data := [v] }] =
        setRegs r .context s.m_device.mmPA_SC_RASTER_CONFIG [v] := by
      simp only [applyCommands, List.foldl_cons, List.foldl_nil, Command.apply, hF.2.1,
        hF.2.2.1]
    rw [this]
    exact agrees_after_bypass _ _ hA _ _
  · intro ws effect n img mem p hn himg hread hnone hsize
    have hlen : ws.length = n := by rw [← himg]; simp
    obtain ⟨f, hf⟩ : ∃ f, n = f + 1 := by
      have := List.length_pos.mpr hread.1
      exact ⟨n - 1, by omega⟩
    have hwalk : s.m_pPm4Optimizer.OptimizePm4Commands s.m_cmdUtil img (n % 2 ^ 32) =
        (ws, s.m_pPm4Optimizer) := by
      rw [Nat.mod_eq_of_lt hn]
      unfold Pm4Optimizer.OptimizePm4Commands
      rw [himg, hf]
      have := walkPackets_packet s.m_pPm4Optimizer s.m_cmdUtil f ws [] hread.1 hsize
      rw [List.append_nil] at this
      rw [this, optimizePacket_other _ _ _ hnone, walkPackets_nil, List.append_nil]
    have hs : (s.WritePm4Image n img mem p).stream = s := by
      simp only [CmdStream.WritePm4Image, hI, if_true, hwalk]
      rfl
    have hm : (s.WritePm4Image n img mem p).mem = writeWords mem p ws := by
      simp only [CmdStream.WritePm4Image, hI, if_true, hwalk]
    have hp : (s.WritePm4Image n img mem p).pCmdSpace = p + ws.length := by
      simp only [CmdStream.WritePm4Image, hI, if_true, hwalk]
    refine ⟨hs, ?_⟩
    have hex : cp.execute s.m_cmdUtil ws r = effect r := by
      have := execute_commands s.m_cmdUtil cp covers hRB [.other ws effect] (by
        intro c hc
        rw [List.mem_singleton] at hc
        subst hc
        exact hread) r
      rw [commandWords_other] at this
      exact this
    rw [hs, hm, hp, Nat.add_sub_cancel_left, writeWords_read, hex]

/-! ### The instance -/

theorem exampleProcessor_readsBack :
    exampleCmdUtil.ReadsBack exampleProcessor.decode exampleCovers where
  decodes := by
    intro d hd f hf
    have h0 := hf 0 (by decide)
    have hold := exampleCmdUtil_readsBack.decodes d hd f hf
    have hk : ¬ (f 0 % 8 = 3 ∨ f 0 % 8 = 7) := by
      obtain ⟨sp, st, idx, off, n⟩ := d
      cases sp <;> cases st <;>
        simp only [exampleCmdUtil, exampleOpcode, if_true] at h0 <;> omega
    show (if f 0 % 8 = 3 ∨ f 0 % 8 = 7 then none else exampleDecode f) = some d
    rw [if_neg hk]
    exact hold
  subRun := exampleCmdUtil_readsBack.subRun

theorem exampleProcessor_reads_rmw (a m v : Nat) :
    exampleProcessor.Reads [27, a, m, v]
      (fun r => setRegs r .context a [rmwValue (r .context a) m v]) :=
  ⟨by simp, fun _ => ⟨by simp [exampleProcessor, exampleCmdUtil, arrayOf],
    by simp [exampleProcessor, arrayOf]⟩⟩

theorem trackingOther_rmw (o : Pm4Optimizer) (r : RegFile) (hA : CacheAgrees o r)
    (a m v : Nat) :
    ((trackingOther.MustKeepContextRegRmw o a m v).1 = true →
        CacheAgrees (trackingOther.MustKeepContextRegRmw o a m v).2
          (setRegs r .context a [rmwValue (r .context a) m v])) ∧
      ((trackingOther.MustKeepContextRegRmw o a m v).1 = false →
        CacheAgrees (trackingOther.MustKeepContextRegRmw o a m v).2 r) := by
  simp only [trackingOther]
  by_cases hv : (o.regs .context a).valid = true
  · rw [if_pos hv]
    have hval := (hA .context a hv).2
    constructor
    · intro _
      have h := scanRange_agrees o r hA .context (by simp) a
        [rmwValue (o.regs .context a).value m v]
      rw [hval] at h ⊢
      exact h
    · intro hk
      rw [UpdateRegState_fst] at hk
      have : o.UpdateRegState .context a (rmwValue (o.regs .context a).value m v) =
          (false, o) := by
        unfold Pm4Optimizer.UpdateRegState
        rw [hk]
        rfl
      rw [this]
      exact hA
  · rw [if_neg hv]
    constructor
    · intro _
      exact (agrees_after_bypass o r hA a _).mpr (Or.inl (by simpa using hv))
    · intro hk
      exact absurd hk (by simp)

theorem trackedStream_rmw (a m v : Nat) : trackedStream.RmwTracked exampleProcessor a m v :=
  ⟨_, exampleProcessor_reads_rmw a m v, fun o r hA => trackingOther_rmw o r hA a m v⟩

theorem invalid_then_set_agrees (o : Pm4Optimizer) (r : RegFile) (hA : CacheAgrees o r)
    (a v : Nat) : CacheAgrees (o.SetShRegInvalid a) (setRegs r .sh a [v]) := by
  intro sp b hv
  by_cases h : sp = .sh ∧ b = a
  · simp [Pm4Optimizer.SetShRegInvalid, h] at hv
  · rw [SetShRegInvalid_other _ _ _ _ h] at hv ⊢
    obtain ⟨h1, h2⟩ := hA sp b hv
    refine ⟨h1, ?_⟩
    rw [setRegs_apply, if_neg]
    · exact h2
    · rintro ⟨h3, h4, h5⟩
      simp only [List.length_singleton] at h5
      exact h ⟨h3, by omega⟩

theorem exampleProcessor_reads_shRegOffset (x off : Nat) :
    exampleProcessor.Reads [23, x, off] (fun r => setRegs r .sh (x % 65536) [off]) :=
  ⟨by simp, fun _ => ⟨by simp [exampleProcessor, exampleCmdUtil, arrayOf],
    by simp [exampleProcessor, arrayOf]⟩⟩

theorem trackedStream_shRegOffset (t : PM4ShaderType) (a off : Nat) :
    trackedStream.ShRegOffsetTracked exampleProcessor exampleCovers t a off := by
  intro o r hA
  refine ⟨[.other (exampleCmdUtil.BuildSetShRegDataOffset a t off)
    (fun r => setRegs r .sh
      ((exampleCmdUtil.BuildSetShRegDataOffset a t off).getD 1 0 % 65536) [off])], ?_, ?_, ?_⟩
  · intro c hc
    rw [List.mem_singleton] at hc
    subst hc
    exact exampleProcessor_reads_shRegOffset _ off
  · rw [commandWords_other]
    exact List.take_length _
  · exact invalid_then_set_agrees o r hA _ _

theorem exampleProcessor_reads_copyData (x v y a z : Nat) :
    exampleProcessor.Reads [43, x, v, y, a, z] (fun r => setRegs r .config a [v]) :=
  ⟨by simp, fun _ => ⟨by simp [exampleProcessor, exampleCmdUtil, arrayOf],
    by simp [exampleProcessor, arrayOf]⟩⟩

theorem trackedStream_copyData (a v : Nat) :
    trackedStream.CopyDataTracked exampleProcessor a v := by
  refine ⟨fun r => setRegs r .config a [v], exampleProcessor_reads_copyData _ v 0 a 0,
    fun r sp b hsp => ?_⟩
  show setRegs r .config a [v] sp b = r sp b
  rw [setRegs_apply, if_neg (fun h => hsp h.1)]

theorem exampleProcessor_reads_nop :
    exampleProcessor.Reads [3] (fun r => r) :=
  ⟨by simp, fun _ => ⟨by simp [exampleProcessor, exampleCmdUtil, arrayOf],
    by simp [exampleProcessor, arrayOf]⟩⟩

theorem exampleImage_isImage :
    IsImageOf exampleCmdUtil exampleProcessor exampleCovers 4 (arrayOf [9, 5, 1, 3])
      exampleImage := by
  refine ⟨by decide, by decide, fun c hc => ?_⟩
  simp only [exampleImage, List.mem_cons, List.mem_singleton, List.not_mem_nil, or_false] at hc
  rcases hc with rfl | rfl
  · exact ⟨⟨⟨by decide, by decide⟩, rfl, by decide⟩, by decide, rfl⟩
  · exact ⟨exampleProcessor_reads_nop, by decide, rfl⟩

theorem trackedOps_tracked :
    ∀ op ∈ trackedOps, op.Tracked trackedStream exampleProcessor exampleCovers := by
  intro op hop
  simp only [trackedOps, List.mem_cons, List.mem_singleton, List.not_mem_nil, or_false] at hop
  rcases hop with rfl | rfl | rfl | rfl | rfl | rfl | rfl | rfl | rfl | rfl
  · exact ⟨by simp, by decide, by decide⟩
  · exact ⟨by simp, by decide, by decide⟩
  · exact ⟨by simp, trackedStream_rmw 5 255 3⟩
  · exact ⟨rfl, by decide, by decide⟩
  · exact ⟨rfl, by decide, by decide⟩
  · refine ⟨exampleUserData_contiguous true false, fun first rest h => ?_⟩
    have h2 : mappedAddrs trackedStream exampleEntryMap exampleUserData = [20, 21] := rfl
    rw [h2] at h
    injection h with h3 h4
    subst h3 h4
    exact ⟨by decide, by decide⟩
  · exact ⟨by simp, trackedStream_shRegOffset _ _ _⟩
  · exact trackedStream_copyData 8200 1
  · exact ⟨by decide, by decide⟩
  · exact ⟨exampleImage, exampleImage_isImage, fun c hc => by
      simp only [exampleImage, List.mem_cons, List.mem_singleton, List.not_mem_nil,
        or_false] at hc
      rcases hc with rfl | rfl
      · trivial
      · exact fun _ _ _ _ => rfl⟩

/-- C7, amended, at a sequence of calls over the whole write surface, from the empty cache: the
calls leave 33 words, after which the context register 5 holds 1 and the SH register 21 holds
13, as the cache says. -/
theorem cache_agrees_invariant_witness :
    trackedStream.optModeImmediate = true ∧
    exampleCmdUtil.WellFramed ∧
    exampleCmdUtil.ReadsBack exampleProcessor.decode exampleCovers ∧
    CacheAgrees trackedStream.m_pPm4Optimizer (fun _ _ => 0) ∧
    (∀ op ∈ trackedOps, op.Tracked trackedStream exampleProcessor exampleCovers) ∧
    (trackedStream.performAll trackedOps zeroMem 0).pCmdSpace = 33 ∧
    (trackedStream.performAll trackedOps zeroMem 0).stream.m_pPm4Optimizer.regs .context 5 =
      { valid := true, value := 1 } ∧
    CacheAgrees (trackedStream.performAll trackedOps zeroMem 0).stream.m_pPm4Optimizer
      (exampleProcessor.execute exampleCmdUtil
        (readWords (trackedStream.performAll trackedOps zeroMem 0).mem 0
          ((trackedStream.performAll trackedOps zeroMem 0).pCmdSpace - 0))
        (fun _ _ => 0)) :=
  ⟨rfl, exampleCmdUtil_wellFramed, exampleProcessor_readsBack,
   fun _ _ h => absurd h (by simp [trackedStream, exampleStream, emptyOptimizer]),
   trackedOps_tracked, by decide, by decide,
   (cache_agrees_invariant trackedStream rfl exampleCmdUtil_wellFramed exampleProcessor
      exampleCovers exampleProcessor_readsBack (fun _ _ => 0)
      (fun _ _ h => absurd h (by simp [trackedStream, exampleStream, emptyOptimizer]))).1
      trackedOps zeroMem 0 trackedOps_tracked⟩

end Pal.Gfx6
